import Mathlib

/-!
# Matching engine: embedding of `Order.h`, `OrderBook.h`, `MatchingEngine.h`,
`Validator.h` and `CSVParser.h`

Conventions of the embedding.

* `uint64_t` values are natural numbers; every addition or subtraction that can
  wrap in the source is reduced modulo `U64 = 2 ^ 64`.
* `double` prices are only compared and copied by the engine, never computed
  with, so a price is modelled by an integer number of ticks (`Int`); NaN, which
  has no place in the order of a `std::map`, is outside the model.
* `std::string` fields stay strings, compared with string literals as in the source.
* `std::map<double, OrderQueue>` is a list of `(price, queue)` pairs kept in key
  order (ascending for the SELL side, descending for the BUY side): `begin()` is
  the head of the list.
* `std::unordered_map<uint64_t, T>` is a function `Nat → Option T`; `operator[]`
  on an absent key inserts a value-initialised entry, as in C++.
* The statics of the process (`OrderBook::global_timestamp_counter` and the
  function-local `last_execution_timestamp`) are threaded explicitly.
* The four matching loops of `OrderBook.h` have the same body up to the side they
  consume and the price test that ends them; the model has that body once
  (`execute_trade`, inside the loop `sweep`) and instantiates it four times. The
  loop runs under an iteration bound computed from the book (`sweep_fuel`), which
  `sweep_exit` shows to be enough for the loop to end on its own exit condition.
* The validator and the parser read a `std::string` as the list of its characters.
  An exception that leaves a function is the result `none`. The conversion of a
  price field (`std::stod`, then the reading of the price in ticks) is a parameter
  of the parser, so that what is proved of the parser holds for every conversion.
  A file is given by its content; diagnostics written to `std::cerr` are left out.
-/

namespace Matching

/-- Modulus of `uint64_t` arithmetic. -/
def U64 : Nat := 2 ^ 64

/-- Record of `Order.h`: the carrier of both instructions and events. -/
structure Order where
  timestamp : Nat
  order_id : Nat
  instrument : String
  side : String
  type : String
  quantity : Nat
  price : Int
  action : String
  status : String
  executed_quantity : Nat
  execution_price : Int
  counterparty_id : Nat
deriving DecidableEq, Repr

/-- Default constructor `Order()`: numeric fields zero, strings empty. -/
def Order.default : Order :=
  { timestamp := 0, order_id := 0, instrument := "", side := "", type := "",
    quantity := 0, price := 0, action := "", status := "",
    executed_quantity := 0, execution_price := 0, counterparty_id := 0 }

/-- Queue of the orders resting at one price (`struct OrderQueue`). -/
structure OrderQueue where
  orders : List Order
  total_quantity : Nat
deriving DecidableEq, Repr

/-- Constructor `OrderQueue()`. -/
def OrderQueue.new : OrderQueue := { orders := [], total_quantity := 0 }

/-- Method `OrderQueue::add_order`: push at the tail, add to the cached total. -/
def OrderQueue.add_order (q : OrderQueue) (order : Order) : OrderQueue :=
  { orders := q.orders ++ [order],
    total_quantity := (q.total_quantity + order.quantity) % U64 }

/-- Method `OrderQueue::empty`. -/
def OrderQueue.empty (q : OrderQueue) : Bool := q.orders.isEmpty

/-- Method `OrderQueue::pop`: drop the head and subtract its quantity from the total. -/
def OrderQueue.pop (q : OrderQueue) : OrderQueue :=
  match q.orders with
  | [] => q
  | front :: rest =>
    { orders := rest,
      total_quantity := (q.total_quantity + U64 - front.quantity) % U64 }

/-- Method `OrderQueue::update_quantity`. -/
def OrderQueue.update_quantity (q : OrderQueue) (executed_qty : Nat) : OrderQueue :=
  { q with total_quantity := (q.total_quantity + U64 - executed_qty) % U64 }

/-- One side of a book: price levels in the iteration order of the `std::map`. -/
abbrev Levels := List (Int × OrderQueue)

/-- The two sides of a book. -/
inductive BookSide where
  | buy
  | sell
deriving DecidableEq, Repr

/-- Key order of a side: `std::greater` for BUY, `std::less` for SELL. -/
def BookSide.before : BookSide → Int → Int → Bool
  | .buy, a, b => decide (b < a)
  | .sell, a, b => decide (a < b)

/-- Expression `side_map[price].add_order(order)`: the level is found, or created
at its place in the key order, and the order is pushed at its tail. -/
def Levels.add (s : BookSide) : Levels → Int → Order → Levels
  | [], price, order => [(price, OrderQueue.new.add_order order)]
  | (p, q) :: rest, price, order =>
    if p = price then (p, q.add_order order) :: rest
    else if s.before price p then (price, OrderQueue.new.add_order order) :: (p, q) :: rest
    else (p, q) :: Levels.add s rest price order

/-- Loop of `cancel_order_from_book` (lines 570-577): the orders whose id differs
are pushed to `new_queue` and counted in `new_total_quantity`. -/
def rebuild_queue (order_id : Nat) : List Order → List Order → Nat → List Order × Nat
  | [], new_queue, new_total_quantity => (new_queue, new_total_quantity)
  | o :: rest, new_queue, new_total_quantity =>
    if o.order_id ≠ order_id then
      rebuild_queue order_id rest (new_queue ++ [o]) ((new_total_quantity + o.quantity) % U64)
    else
      rebuild_queue order_id rest new_queue new_total_quantity

/-- Body of one branch of `cancel_order_from_book`: `find(price)`, rebuild of the
queue without the order, erase of the level when it is left empty. -/
def Levels.remove : Levels → Int → Nat → Levels
  | [], _, _ => []
  | (p, q) :: rest, price, order_id =>
    if p = price then
      let r := rebuild_queue order_id q.orders [] 0
      if r.1.isEmpty then rest
      else (p, { orders := r.1, total_quantity := r.2 }) :: rest
    else (p, q) :: Levels.remove rest price order_id

/-- Class `OrderBook` without its statics. -/
structure OrderBook where
  buy_orders : Levels
  sell_orders : Levels
  order_lookup : Nat → Option Order
  existing_order_ids : Nat → Option Bool
  order_total_executed : Nat → Option Nat
  results : List Order

/-- Constructor `OrderBook()`. -/
def OrderBook.new : OrderBook :=
  { buy_orders := [], sell_orders := [], order_lookup := fun _ => none,
    existing_order_ids := fun _ => none, order_total_executed := fun _ => none,
    results := [] }

/-- Levels of one side. -/
def OrderBook.levels (b : OrderBook) : BookSide → Levels
  | .buy => b.buy_orders
  | .sell => b.sell_orders

/-- Replace the levels of one side. -/
def OrderBook.setLevels (b : OrderBook) (s : BookSide) (l : Levels) : OrderBook :=
  match s with
  | .buy => { b with buy_orders := l }
  | .sell => { b with sell_orders := l }

/-- A book together with the function-local static `last_execution_timestamp`
of `get_next_execution_timestamp`, which every book of the process shares. -/
structure BookCtx where
  book : OrderBook
  last_execution_timestamp : Nat

/-- Value returned by `get_next_execution_timestamp` (line 87); the static is set
to the same value. -/
def get_next_execution_timestamp (base_timestamp last_execution_timestamp : Nat) : Nat :=
  max base_timestamp ((last_execution_timestamp + 100) % U64)

/-- Statement `results.push_back(e)`. -/
def BookCtx.push (c : BookCtx) (e : Order) : BookCtx :=
  { c with book := { c.book with results := c.book.results ++ [e] } }

/-- Read access `order_lookup[id]`: the entry, value-initialised when absent. -/
def lookup_value (m : Nat → Option Order) (id : Nat) : Order :=
  match m id with
  | some o => o
  | none => Order.default

/-- Map after the access `order_lookup[id]`: an absent key is inserted. -/
def lookup_touch (m : Nat → Option Order) (id : Nat) : Nat → Option Order :=
  match m id with
  | some _ => m
  | none => Function.update m id (some Order.default)

/-- Function `record_execution`: `order_total_executed[id] += executed_qty`. -/
def record_execution (m : Nat → Option Nat) (order_id executed_qty : Nat) : Nat → Option Nat :=
  Function.update m order_id (some (((m order_id).getD 0 + executed_qty) % U64))

/-- Event of the incoming order in a trade against the resting order `front` of
the level `price` (lines 253-260, 322-329, 425-432, 518-525); `remaining_qty` is
the value before the trade. -/
def taker_execution (order : Order) (price : Int) (front : Order) (c : BookCtx)
    (remaining_qty : Nat) : Order :=
  let trade_qty := min remaining_qty front.quantity
  { lookup_value c.book.order_lookup order.order_id with
    timestamp := get_next_execution_timestamp order.timestamp c.last_execution_timestamp
    action := order.action
    executed_quantity := trade_qty
    execution_price := price
    counterparty_id := front.order_id
    status := if remaining_qty - trade_qty = 0 then "EXECUTED" else "PARTIALLY_EXECUTED"
    quantity := remaining_qty - trade_qty }

/-- Event of the resting order `front` in the same trade (lines 265-271, 334-340,
437-443, 530-536). -/
def maker_execution (order : Order) (price : Int) (front : Order) (c : BookCtx)
    (remaining_qty : Nat) : Order :=
  let trade_qty := min remaining_qty front.quantity
  { front with
    timestamp := get_next_execution_timestamp order.timestamp c.last_execution_timestamp
    executed_quantity := trade_qty
    execution_price := price
    counterparty_id := order.order_id
    status := if front.quantity - trade_qty = 0 then "EXECUTED" else "PARTIALLY_EXECUTED"
    quantity := front.quantity - trade_qty }

/-- Levels of the consumed side after a trade against the head `front` of the
first level `(price, order_queue)`: the head loses `trade_qty`, the cached total
too, an exhausted head is popped and an emptied level erased. -/
def levels_after_trade (price : Int) (order_queue : OrderQueue) (front : Order)
    (tail : List Order) (rest : Levels) (remaining_qty : Nat) : Levels :=
  let trade_qty := min remaining_qty front.quantity
  let front_quantity := front.quantity - trade_qty
  let order_queue : OrderQueue :=
    ({ orders := { front with quantity := front_quantity } :: tail,
       total_quantity := order_queue.total_quantity } : OrderQueue).update_quantity trade_qty
  let order_queue := if front_quantity = 0 then order_queue.pop else order_queue
  if order_queue.empty then rest else (price, order_queue) :: rest

/-- One trade against the head `front` of the first level `(price, order_queue)`
of side `opp`, `tail` being the rest of its queue and `rest` the other levels: the
common body of the four matching loops (lines 241-283, 311-351, 414-457, 507-549).
Returns the new context and the new `remaining_qty`. -/
def execute_trade (opp : BookSide) (order : Order) (price : Int) (order_queue : OrderQueue)
    (front : Order) (tail : List Order) (rest : Levels) (c : BookCtx) (remaining_qty : Nat) :
    BookCtx × Nat :=
  let trade_qty := min remaining_qty front.quantity
  let order_lookup := lookup_touch c.book.order_lookup order.order_id
  let order_total_executed := record_execution c.book.order_total_executed order.order_id trade_qty
  let order_total_executed := record_execution order_total_executed front.order_id trade_qty
  let order_lookup :=
    if front.quantity - trade_qty = 0 then Function.update order_lookup front.order_id none
    else order_lookup
  ({ book :=
      { (c.book.setLevels opp (levels_after_trade price order_queue front tail rest remaining_qty)) with
        order_lookup := order_lookup
        order_total_executed := order_total_executed
        results := c.book.results ++
          [taker_execution order price front c remaining_qty,
           maker_execution order price front c remaining_qty] }
     last_execution_timestamp :=
      get_next_execution_timestamp order.timestamp c.last_execution_timestamp },
   remaining_qty - trade_qty)

/-- The matching loop shared by `execute_buy_market_order`, `execute_sell_market_order`,
`execute_buy_limit_order` and `execute_sell_limit_order`: `opp` is the side that is
consumed and `stop` the price test that breaks out of the loop (never for a MARKET
order). The first argument bounds the number of iterations. -/
def sweep (opp : BookSide) (stop : Int → Bool) (order : Order) :
    Nat → BookCtx → Nat → BookCtx × Nat
  | 0, c, remaining_qty => (c, remaining_qty)
  | fuel + 1, c, remaining_qty =>
    if remaining_qty = 0 then (c, remaining_qty)
    else
      match c.book.levels opp with
      | [] => (c, remaining_qty)
      | (price, order_queue) :: rest =>
        if stop price then (c, remaining_qty)
        else
          match order_queue.orders with
          | [] => sweep opp stop order fuel { c with book := c.book.setLevels opp rest } remaining_qty
          | front :: tail =>
            let r := execute_trade opp order price order_queue front tail rest c remaining_qty
            sweep opp stop order fuel r.1 r.2

/-- Number of iterations that always suffices for a sweep of the levels `l`:
one per level, one per resting order, and one more. -/
def sweep_fuel (l : Levels) : Nat :=
  l.length + (l.map (fun pq => pq.2.orders.length)).sum + 1

/-- Tail of the two MARKET routines (lines 286-296, 354-364): a REJECTED event
when nothing was executed. -/
def market_finish (order : Order) (r : BookCtx × Nat) : BookCtx :=
  if order.quantity = r.2 then
    let ts := get_next_execution_timestamp order.timestamp r.1.last_execution_timestamp
    let rejected_order : Order :=
      { lookup_value r.1.book.order_lookup order.order_id with
        timestamp := ts
        action := order.action
        status := "REJECTED"
        executed_quantity := 0
        execution_price := 0
        counterparty_id := 0 }
    { book :=
        { r.1.book with
          order_lookup := lookup_touch r.1.book.order_lookup order.order_id
          results := r.1.book.results ++ [rejected_order] }
      last_execution_timestamp := ts }
  else r.1

/-- Function `OrderBook::execute_buy_market_order`. -/
def execute_buy_market_order (c : BookCtx) (order : Order) : BookCtx :=
  market_finish order
    (sweep .sell (fun _ => false) order (sweep_fuel c.book.sell_orders) c order.quantity)

/-- Function `OrderBook::execute_sell_market_order`. -/
def execute_sell_market_order (c : BookCtx) (order : Order) : BookCtx :=
  market_finish order
    (sweep .buy (fun _ => false) order (sweep_fuel c.book.buy_orders) c order.quantity)

/-- Function `OrderBook::execute_market_order`. -/
def execute_market_order (c : BookCtx) (order : Order) : BookCtx :=
  if order.side = "BUY" then execute_buy_market_order c order
  else execute_sell_market_order c order

/-- Head of the two LIMIT routines (lines 382-399, 475-492): a PENDING event when
the order is NEW or MODIFY and does not match at once; `opp` is the opposing side
and `crosses` the price test of line 385 or 478. -/
def limit_pending (opp : BookSide) (crosses : Int → Bool) (c : BookCtx) (order : Order) : BookCtx :=
  if order.action = "NEW" ∨ order.action = "MODIFY" then
    let will_execute_immediately : Bool :=
      match c.book.levels opp with
      | [] => false
      | (p, q) :: _ => crosses p && !q.empty
    if !will_execute_immediately then
      let ts := get_next_execution_timestamp order.timestamp c.last_execution_timestamp
      let pending_order : Order :=
        { lookup_value c.book.order_lookup order.order_id with
          timestamp := ts
          action := order.action
          status := "PENDING"
          executed_quantity := 0
          execution_price := 0
          counterparty_id := 0 }
      { book :=
          { c.book with
            order_lookup := lookup_touch c.book.order_lookup order.order_id
            results := c.book.results ++ [pending_order] }
        last_execution_timestamp := ts }
    else c
  else c

/-- Tail of the two LIMIT routines (lines 460-467, 552-559): what is left of the
order rests on side `own` at the incoming price and the lookup is updated. -/
def limit_rest (own : BookSide) (order : Order) (r : BookCtx × Nat) : BookCtx :=
  if r.2 > 0 then
    let remaining_order : Order :=
      { lookup_value r.1.book.order_lookup order.order_id with
        quantity := r.2
        price := order.price }
    { r.1 with
      book :=
        { (r.1.book.setLevels own (Levels.add own (r.1.book.levels own) order.price remaining_order)) with
          order_lookup := Function.update r.1.book.order_lookup order.order_id (some remaining_order) } }
  else r.1

/-- Function `OrderBook::execute_buy_limit_order`. -/
def execute_buy_limit_order (c : BookCtx) (order : Order) : BookCtx :=
  let c1 := limit_pending .sell (fun p => decide (p ≤ order.price)) c order
  limit_rest .buy order
    (sweep .sell (fun sell_price => decide (sell_price > order.price)) order
      (sweep_fuel c1.book.sell_orders) c1 order.quantity)

/-- Function `OrderBook::execute_sell_limit_order`. -/
def execute_sell_limit_order (c : BookCtx) (order : Order) : BookCtx :=
  let c1 := limit_pending .buy (fun p => decide (p ≥ order.price)) c order
  limit_rest .sell order
    (sweep .buy (fun buy_price => decide (buy_price < order.price)) order
      (sweep_fuel c1.book.buy_orders) c1 order.quantity)

/-- Function `OrderBook::execute_limit_order`. -/
def execute_limit_order (c : BookCtx) (order : Order) : BookCtx :=
  if order.side = "BUY" then execute_buy_limit_order c order
  else execute_sell_limit_order c order

/-- Function `OrderBook::cancel_order_from_book`. -/
def cancel_order_from_book (b : OrderBook) (order : Order) : OrderBook :=
  if order.side = "BUY" then
    { b with buy_orders := Levels.remove b.buy_orders order.price order.order_id }
  else
    { b with sell_orders := Levels.remove b.sell_orders order.price order.order_id }

/-- Function `OrderBook::add_order`. -/
def add_order (c : BookCtx) (order : Order) : BookCtx :=
  if order.action = "NEW" ∧ (c.book.existing_order_ids order.order_id).isSome then
    c.push { order with
      status := "REJECTED", executed_quantity := 0, execution_price := 0, counterparty_id := 0 }
  else
    let b := c.book
    let b : OrderBook :=
      if order.action = "NEW" then
        { b with
          existing_order_ids := Function.update b.existing_order_ids order.order_id (some true)
          order_total_executed := Function.update b.order_total_executed order.order_id (some 0) }
      else b
    let order : Order :=
      { order with
        status := "PENDING", executed_quantity := 0, execution_price := 0, counterparty_id := 0 }
    let b : OrderBook :=
      { b with order_lookup := Function.update b.order_lookup order.order_id (some order) }
    let c1 : BookCtx := { c with book := b }
    if order.type = "MARKET" then execute_market_order c1 order
    else if order.type = "LIMIT" then execute_limit_order c1 order
    else c1

/-- Quantity left to process by a MODIFY (lines 146-148): the requested total
less what was already executed, or 0. -/
def modify_remaining (new_total_quantity total_executed : Nat) : Nat :=
  if new_total_quantity > total_executed then new_total_quantity - total_executed else 0

/-- Function `OrderBook::modify_order`. -/
def modify_order (c : BookCtx) (modify_request : Order) : BookCtx :=
  match c.book.order_lookup modify_request.order_id with
  | none => c.push { modify_request with status := "REJECTED" }
  | some stored =>
    let b := cancel_order_from_book c.book stored
    let total_executed := (b.order_total_executed modify_request.order_id).getD 0
    let b : OrderBook :=
      { b with
        order_total_executed :=
          Function.update b.order_total_executed modify_request.order_id (some total_executed) }
    let remaining_quantity := modify_remaining modify_request.quantity total_executed
    let processing_order : Order :=
      { stored with
        quantity := remaining_quantity
        price := modify_request.price
        timestamp := modify_request.timestamp
        action := "MODIFY" }
    let updated : Order :=
      { stored with quantity := modify_request.quantity, price := modify_request.price }
    let b : OrderBook :=
      { b with
        order_lookup := Function.update b.order_lookup modify_request.order_id (some updated) }
    let c1 : BookCtx := { c with book := b }
    if remaining_quantity > 0 then
      if processing_order.type = "MARKET" then execute_market_order c1 processing_order
      else if processing_order.type = "LIMIT" then execute_limit_order c1 processing_order
      else c1
    else
      let ts := get_next_execution_timestamp modify_request.timestamp c.last_execution_timestamp
      let result_order : Order :=
        { updated with
          timestamp := ts
          action := "MODIFY"
          status := "EXECUTED"
          executed_quantity := 0
          execution_price := 0
          counterparty_id := 0 }
      { book := { b with results := b.results ++ [result_order] }
        last_execution_timestamp := ts }

/-- Function `OrderBook::cancel_order`. -/
def cancel_order (c : BookCtx) (cancel_request : Order) : BookCtx :=
  match c.book.order_lookup cancel_request.order_id with
  | none => c.push { cancel_request with status := "REJECTED" }
  | some stored =>
    let b := cancel_order_from_book c.book stored
    let ts := get_next_execution_timestamp cancel_request.timestamp c.last_execution_timestamp
    let cancelled : Order :=
      { stored with
        timestamp := ts
        action := "CANCEL"
        status := "CANCELED"
        quantity := 0
        price := cancel_request.price
        executed_quantity := 0
        execution_price := 0
        counterparty_id := 0 }
    { book :=
        { b with
          results := b.results ++ [cancelled]
          order_lookup := Function.update b.order_lookup cancel_request.order_id none }
      last_execution_timestamp := ts }

/-- Class `MatchingEngine`: the books by instrument, in the iteration order of the
`std::unordered_map` (which the C++ standard leaves unspecified; the model lists a
new instrument last). -/
structure MatchingEngine where
  order_books : List (String × OrderBook)

/-- The statics of the process. -/
structure Statics where
  global_timestamp_counter : Nat
  last_execution_timestamp : Nat

/-- An engine together with the statics of the process it runs in. -/
structure World where
  engine : MatchingEngine
  statics : Statics

/-- Function `OrderBook::reset_global_counter`. -/
def reset_global_counter (s : Statics) : Statics :=
  { s with global_timestamp_counter := 0 }

/-- Constructor `MatchingEngine()`, run in a process whose statics are `s`. -/
def MatchingEngine.new (s : Statics) : World :=
  { engine := { order_books := [] }, statics := reset_global_counter s }

/-- Statics of a process at start-up (both initialised to 0). -/
def Statics.initial : Statics :=
  { global_timestamp_counter := 0, last_execution_timestamp := 0 }

/-- Value of `order_books[instrument]`: the book, default-constructed when absent. -/
def books_get : List (String × OrderBook) → String → OrderBook
  | [], _ => OrderBook.new
  | (k, b) :: rest, instrument => if k = instrument then b else books_get rest instrument

/-- Assignment through the reference `order_books[instrument]`. -/
def books_set : List (String × OrderBook) → String → OrderBook → List (String × OrderBook)
  | [], instrument, b => [(instrument, b)]
  | (k, b0) :: rest, instrument, b =>
    if k = instrument then (k, b) :: rest else (k, b0) :: books_set rest instrument b

/-- Function `MatchingEngine::process_order`. -/
def process_order (w : World) (order : Order) : World :=
  let book := books_get w.engine.order_books order.instrument
  if order.status = "REJECTED" then
    { w with
      engine :=
        { order_books :=
            books_set w.engine.order_books order.instrument
              { book with results := book.results ++ [order] } } }
  else
    let c : BookCtx :=
      { book := book, last_execution_timestamp := w.statics.last_execution_timestamp }
    let c1 : BookCtx :=
      if order.action = "NEW" then add_order c order
      else if order.action = "MODIFY" then modify_order c order
      else if order.action = "CANCEL" then cancel_order c order
      else c
    { engine := { order_books := books_set w.engine.order_books order.instrument c1.book }
      statics := { w.statics with last_execution_timestamp := c1.last_execution_timestamp } }

/-- Comparator passed to `std::stable_sort` in `get_all_results` (lines 67-73). -/
def timestamp_comp (a b : Order) : Bool :=
  if a.timestamp = b.timestamp then false else decide (a.timestamp < b.timestamp)

/-- Library function `std::stable_sort` with the strict comparator `comp`, by
insertion: an element is placed before the first one that does not come
strictly before it, so equal elements keep their order. -/
def stable_sort {α : Type} (comp : α → α → Bool) (l : List α) : List α :=
  l.insertionSort (fun a b => comp b a = false)

/-- Concatenation of the result logs, first loop of `get_all_results`. -/
def all_results (e : MatchingEngine) : List Order :=
  (e.order_books.map (fun kb => kb.2.results)).flatten

/-- Function `MatchingEngine::get_all_results`. -/
def get_all_results (e : MatchingEngine) : List Order :=
  stable_sort timestamp_comp (all_results e)

/-- Function `MatchingEngine::clear_results`. -/
def clear_results (e : MatchingEngine) : MatchingEngine :=
  { order_books := e.order_books.map (fun kb => (kb.1, { kb.2 with results := [] })) }

/-- State reached from `w` by processing the inputs in order. -/
def run (w : World) (inputs : List Order) : World :=
  inputs.foldl process_order w

/-! ## Views of a book used to state its properties -/

/-- Prices of the levels of a side, in map order. -/
def Levels.keys (l : Levels) : List Int := l.map Prod.fst

/-- Resting orders of a side, each with the key of its level, in priority order:
level after level, and inside a level from the head of the queue to its tail. -/
def Levels.entries (l : Levels) : List (Int × Order) :=
  l.flatMap (fun pq => pq.2.orders.map (fun o => (pq.1, o)))

/-- Ids of the orders resting in a book, BUY side first. -/
def OrderBook.resting_ids (b : OrderBook) : List Nat :=
  (b.buy_orders.entries ++ b.sell_orders.entries).map (fun po => po.2.order_id)

/-- Keys of a side listed in its key order, without repetition. -/
def Levels.sorted (s : BookSide) (l : Levels) : Prop :=
  l.keys.Pairwise (fun a b => s.before a b = true)

/-- Consistency of a book: sides in key order, not crossed, no empty level, every
resting order filed under its own price and known to the lookup with the side and
the price of its level, lookup entries filed under their own id and accepted
before, and no id resting twice. -/
structure WF (b : OrderBook) : Prop where
  sorted : ∀ s, Levels.sorted s (b.levels s)
  uncrossed : ∀ pb ∈ b.buy_orders.keys, ∀ pa ∈ b.sell_orders.keys, pb < pa
  nonempty : ∀ s, ∀ pq ∈ b.levels s, pq.2.orders ≠ []
  resting : ∀ s, ∀ po ∈ (b.levels s).entries,
    po.2.price = po.1 ∧
    ∃ e, b.order_lookup po.2.order_id = some e ∧ (e.side = "BUY" ↔ s = BookSide.buy) ∧ e.price = po.1
  lookup_id : ∀ k e, b.order_lookup k = some e → e.order_id = k
  lookup_existing : ∀ k e, b.order_lookup k = some e → b.existing_order_ids k ≠ none
  nodup : b.resting_ids.Nodup

/-- Every book of the engine is consistent. -/
def EngineWF (e : MatchingEngine) : Prop :=
  ∀ kb ∈ e.order_books, WF kb.2

/-- What identifies the resting orders of a side whatever their quantity: level
key, order id and price field, in priority order. -/
def Levels.tags (l : Levels) : List (Int × Nat × Int) :=
  l.entries.map (fun x => (x.1, x.2.order_id, x.2.price))

/-- State in which the matching routines are entered for `order`: the book is
consistent, the order is in the lookup (its own record was just stored there)
and no copy of it is resting. -/
structure Seeded (b : OrderBook) (order : Order) : Prop where
  wf : WF b
  present : ∃ e, b.order_lookup order.order_id = some e
  absent : order.order_id ∉ b.resting_ids

/-! ## Trades as they appear in the result log -/

/-- Events of a list of trades in emission order: for each trade the event of the
incoming order (taker), then the event of the resting order (maker). -/
def pairs_flat (ps : List (Order × Order)) : List Order :=
  ps.flatMap (fun tm => [tm.1, tm.2])

/-- The two events of a trade agree on quantity, price and timestamp and name
each other as counterparty. -/
def Agree (t m : Order) : Prop :=
  t.executed_quantity = m.executed_quantity
  ∧ t.execution_price = m.execution_price
  ∧ t.timestamp = m.timestamp
  ∧ t.counterparty_id = m.order_id
  ∧ m.counterparty_id = t.order_id

/-- The pair `(t, m)` is the pair of events that one trade of the incoming `order`
emits: `taker_execution` and `maker_execution` for some resting order `front` of a
level `price`, in some state of the book. -/
def IsTrade (order : Order) (tm : Order × Order) : Prop :=
  ∃ price front c remaining_qty,
    tm.1 = taker_execution order price front c remaining_qty
    ∧ tm.2 = maker_execution order price front c remaining_qty

/-- Level price and order id of a resting order: what a maker event shows of it. -/
def maker_key (x : Int × Order) : Int × Nat := (x.1, x.2.order_id)

/-- Execution price and order id of the maker event of a trade. -/
def trade_key (tm : Order × Order) : Int × Nat := (tm.2.execution_price, tm.2.order_id)

/-- An event that records no trade: PENDING or REJECTED, execution fields zero. -/
def NoTrade (e : Order) : Prop :=
  (e.status = "PENDING" ∨ e.status = "REJECTED")
  ∧ e.executed_quantity = 0 ∧ e.execution_price = 0 ∧ e.counterparty_id = 0

/-- Decomposition of what a matching routine run for `order` added to the result
log (`before` to `after`): at most one event without trade first, the pairs `ps`
of trade events in emission order, at most one event without trade last. -/
def TradeLog (before after : List Order) (pre : List Order) (ps : List (Order × Order))
    (post : List Order) : Prop :=
  after = before ++ pre ++ pairs_flat ps ++ post
  ∧ pre.length ≤ 1 ∧ post.length ≤ 1
  ∧ ∀ e ∈ pre ++ post, NoTrade e

/-! ## A small book used to instantiate the statements -/

/-- Input record with the output fields left as `Order()` leaves them. -/
def mk_order (timestamp order_id : Nat) (instrument side type : String) (quantity : Nat)
    (price : Int) (action : String) : Order :=
  { Order.default with
    timestamp := timestamp, order_id := order_id, instrument := instrument, side := side,
    type := type, quantity := quantity, price := price, action := action }

/-- Two SELL orders that come to rest: 30 at 100.00 (id 1) and 40 at 100.05 (id 2). -/
def two_asks : List Order :=
  [mk_order 1000 1 "AAPL" "SELL" "LIMIT" 30 10000 "NEW",
   mk_order 1100 2 "AAPL" "SELL" "LIMIT" 40 10005 "NEW"]

/-- The AAPL book after `two_asks`. -/
def two_asks_book : OrderBook :=
  books_get (run (MatchingEngine.new Statics.initial) two_asks).engine.order_books "AAPL"

/-- A BUY MARKET order of 50 (id 3), as `add_order` stores it in the lookup. -/
def market_taker : Order :=
  { mk_order 1200 3 "AAPL" "BUY" "MARKET" 50 0 "NEW" with status := "PENDING" }

/-- A BUY LIMIT order of 50 at 100.00 (id 3), as `add_order` stores it in the lookup. -/
def limit_taker : Order :=
  { mk_order 1200 3 "AAPL" "BUY" "LIMIT" 50 10000 "NEW" with status := "PENDING" }

/-- State in which `add_order` enters the matching routines for the order `o` of
id 3 on `two_asks_book`: id accepted, counter initialised, record stored. -/
def two_asks_ctx (o : Order) : BookCtx :=
  { book :=
      { two_asks_book with
        existing_order_ids := Function.update two_asks_book.existing_order_ids 3 (some true)
        order_total_executed := Function.update two_asks_book.order_total_executed 3 (some 0)
        order_lookup := Function.update two_asks_book.order_lookup 3 (some o) }
    last_execution_timestamp := 1100 }

/-- A book that is not crossed: every BUY level is priced below every SELL level,
every order resting on the BUY side carries a price below that of every order
resting on the SELL side, and the best bid (first BUY key) is below the best ask
(first SELL key) when both exist. -/
def Uncrossed (b : OrderBook) : Prop :=
  (∀ pb ∈ b.buy_orders.keys, ∀ pa ∈ b.sell_orders.keys, pb < pa)
  ∧ (∀ xb ∈ b.buy_orders.entries, ∀ xa ∈ b.sell_orders.entries, xb.2.price < xa.2.price)
  ∧ (∀ best_bid rb best_ask ra, b.buy_orders = best_bid :: rb → b.sell_orders = best_ask :: ra →
      best_bid.1 < best_ask.1)

/-- The inputs `two_asks` followed by a BUY of 10 at 99.90 (id 3), which rests. -/
def two_asks_one_bid : List Order :=
  two_asks ++ [mk_order 1200 3 "AAPL" "BUY" "LIMIT" 10 9990 "NEW"]

/-! ## Quantities: executed according to the log, resting in the book -/

/-- Sum of `executed_quantity` over the events whose `order_id` is `k`. -/
def exec_by_id (k : Nat) (evs : List Order) : Nat :=
  ((evs.filter (fun e => decide (e.order_id = k))).map (fun e => e.executed_quantity)).sum

/-- Sum of `executed_quantity` over the events whose `counterparty_id` is `k`. -/
def exec_by_cp (k : Nat) (evs : List Order) : Nat :=
  ((evs.filter (fun e => decide (e.counterparty_id = k))).map (fun e => e.executed_quantity)).sum

/-- Quantity that the order of id `k` has resting in one side. -/
def Levels.qty_of (l : Levels) (k : Nat) : Nat :=
  ((l.entries.filter (fun x => decide (x.2.order_id = k))).map (fun x => x.2.quantity)).sum

/-- Quantity that the order of id `k` has resting in the book (0 if it is not resting). -/
def resting_qty (b : OrderBook) (k : Nat) : Nat :=
  (b.levels .buy).qty_of k + (b.levels .sell).qty_of k

/-- Quantities are conserved from book `b` to book `b'` by an operation on the
order of id `target`: for every id the log gained as much under `order_id` as
under `counterparty_id`, and for every id but `target` what the log gained under
`order_id` is what the order lost in the book. -/
structure Conserves (b b' : OrderBook) (target : Nat) : Prop where
  balance : ∀ k, exec_by_id k b'.results + exec_by_cp k b.results
    = exec_by_cp k b'.results + exec_by_id k b.results
  others : ∀ k, k ≠ target →
    exec_by_id k b'.results + resting_qty b' k = exec_by_id k b.results + resting_qty b k

/-! ## Successive execution timestamps -/

/-- Values returned by successive calls of `get_next_execution_timestamp` with the
base timestamps `bases`, the static holding `last` before the first call: each
call leaves its result in the static (line 88), where the next call reads it. -/
def emitted (last : Nat) : List Nat → List Nat
  | [] => []
  | base :: bases =>
    get_next_execution_timestamp base last
      :: emitted (get_next_execution_timestamp base last) bases

/-! ## Crossing test of a LIMIT order -/

/-- The best opposing price exists and is within the limit of `order`: best ask at
or below the price of a BUY, best bid at or above the price of a SELL. -/
def best_crosses (b : OrderBook) (order : Order) : Bool :=
  if order.side = "BUY" then
    match b.sell_orders with
    | [] => false
    | (ask, _) :: _ => decide (ask ≤ order.price)
  else
    match b.buy_orders with
    | [] => false
    | (bid, _) :: _ => decide (bid ≥ order.price)

/-- Side consumed by `order`: SELL for a BUY, BUY otherwise. -/
def opposing (order : Order) : BookSide :=
  if order.side = "BUY" then .sell else .buy

/-- Side on which the remainder of `order` rests: BUY for a BUY, SELL otherwise. -/
def incoming (order : Order) : BookSide :=
  if order.side = "BUY" then .buy else .sell

/-! ## The two halves of `modify_order` -/

/-- Local `processing_order` of `modify_order` (lines 151-155): the stored record
with the quantity left to process, the price and timestamp of the request and the
action MODIFY. -/
def processing_order (stored modify_request : Order) (total_executed : Nat) : Order :=
  { stored with
    quantity := modify_remaining modify_request.quantity total_executed
    price := modify_request.price
    timestamp := modify_request.timestamp
    action := "MODIFY" }

/-- State of `modify_order` at line 162, for a request whose id the lookup maps to
`stored`: the order is taken out of the book (line 140), its executed total is
read (line 143) and the lookup entry gets the quantity and price of the request
(lines 158-160). -/
def modify_prepare (c : BookCtx) (modify_request stored : Order) : BookCtx :=
  let b := cancel_order_from_book c.book stored
  let total_executed := (b.order_total_executed modify_request.order_id).getD 0
  { c with
    book :=
      { b with
        order_total_executed :=
          Function.update b.order_total_executed modify_request.order_id (some total_executed)
        order_lookup :=
          Function.update b.order_lookup modify_request.order_id
            (some { stored with quantity := modify_request.quantity, price := modify_request.price }) } }

/-! ## A partially executed order, used to instantiate the statements on MODIFY -/

/-- A BUY of 100 at 150.25 (id 1) comes to rest, then a SELL of 50 at 150.25 (id 2)
trades with it: order 1 keeps 50 resting with 50 executed, order 2 is fully
executed as the incoming order. -/
def partial_fill : List Order :=
  [mk_order 1000 1 "AAPL" "BUY" "LIMIT" 100 15025 "NEW",
   mk_order 1100 2 "AAPL" "SELL" "LIMIT" 50 15025 "NEW"]

/-- The AAPL book and the static after `partial_fill`, run from a new engine. -/
def partial_fill_ctx : BookCtx :=
  { book := books_get (run (MatchingEngine.new Statics.initial) partial_fill).engine.order_books "AAPL"
    last_execution_timestamp :=
      (run (MatchingEngine.new Statics.initial) partial_fill).statics.last_execution_timestamp }

/-! ## Positive resting quantities -/

/-- Every resting order of the book has a positive quantity. -/
def Positive (b : OrderBook) : Prop :=
  ∀ s, ∀ x ∈ (b.levels s).entries, 0 < x.2.quantity

/-- Every book of the engine has positive resting quantities. -/
def EnginePositive (e : MatchingEngine) : Prop :=
  ∀ kb ∈ e.order_books, Positive kb.2

/-! ## Scenario 1 of the test suite -/

/-- The six input records of `create_test_input_csv` (prices in hundredths). -/
def scenario_one : List Order :=
  [mk_order 1617278400000000000 1 "AAPL" "BUY" "LIMIT" 100 15025 "NEW",
   mk_order 1617278400000000100 2 "AAPL" "SELL" "LIMIT" 50 15025 "NEW",
   mk_order 1617278400000000200 3 "AAPL" "SELL" "LIMIT" 60 15030 "NEW",
   mk_order 1617278400000000300 4 "AAPL" "BUY" "LIMIT" 40 15020 "NEW",
   mk_order 1617278400000000400 1 "AAPL" "BUY" "LIMIT" 100 15030 "MODIFY",
   mk_order 1617278400000000500 3 "AAPL" "SELL" "LIMIT" 60 0 "CANCEL"]

/-- Output record with all its twelve fields, in the column order of the output file. -/
def mk_event (timestamp order_id : Nat) (instrument side type : String) (quantity : Nat)
    (price : Int) (action status : String) (executed_quantity : Nat) (execution_price : Int)
    (counterparty_id : Nat) : Order :=
  { timestamp := timestamp, order_id := order_id, instrument := instrument, side := side,
    type := type, quantity := quantity, price := price, action := action, status := status,
    executed_quantity := executed_quantity, execution_price := execution_price,
    counterparty_id := counterparty_id }

/-- The eight records of `parse_expected_output`, in their order. -/
def scenario_one_expected : List Order :=
  [mk_event 1617278400000000000 1 "AAPL" "BUY" "LIMIT" 100 15025 "NEW" "PENDING" 0 0 0,
   mk_event 1617278400000000100 2 "AAPL" "SELL" "LIMIT" 0 15025 "NEW" "EXECUTED" 50 15025 1,
   mk_event 1617278400000000100 1 "AAPL" "BUY" "LIMIT" 50 15025 "NEW" "PARTIALLY_EXECUTED" 50 15025 2,
   mk_event 1617278400000000200 3 "AAPL" "SELL" "LIMIT" 60 15030 "NEW" "PENDING" 0 0 0,
   mk_event 1617278400000000300 4 "AAPL" "BUY" "LIMIT" 40 15020 "NEW" "PENDING" 0 0 0,
   mk_event 1617278400000000400 1 "AAPL" "BUY" "LIMIT" 0 15030 "MODIFY" "EXECUTED" 50 15030 3,
   mk_event 1617278400000000400 3 "AAPL" "SELL" "LIMIT" 10 15030 "NEW" "PARTIALLY_EXECUTED" 50 15030 1,
   mk_event 1617278400000000500 3 "AAPL" "SELL" "LIMIT" 0 0 "CANCEL" "CANCELED" 0 0 0]

/-! ## `Validator.h` -/

/-- Enumeration `Validator::ValidationResult`. -/
inductive Validator.ValidationResult where
  | VALID
  | INVALID_SIDE
  | INVALID_TYPE
  | INVALID_ACTION
  | NEGATIVE_QUANTITY
  | NEGATIVE_PRICE
  | EMPTY_FIELD
  | INVALID_FORMAT
  | DUPLICATE_ORDER
  deriving DecidableEq, Repr

/-- Library function `isspace` in the "C" locale: space, `\t`, `\n`, `\v`, `\f`, `\r`. -/
def isspace (c : Char) : Bool :=
  c.toNat = 32 || (9 ≤ c.toNat && c.toNat ≤ 13)

/-- Library function `toupper` in the "C" locale: `a`..`z` to `A`..`Z`, any other
character unchanged. -/
def toupper (c : Char) : Char :=
  if 97 ≤ c.toNat ∧ c.toNat ≤ 122 then Char.ofNat (c.toNat - 32) else c

/-- Function `Validator::to_upper`. -/
def Validator.to_upper (str : String) : String :=
  String.mk (str.data.map toupper)

/-- Function `Validator::is_empty_or_whitespace`. -/
def Validator.is_empty_or_whitespace (str : String) : Bool :=
  str.data.isEmpty || str.data.all isspace

/-- Function `Validator::is_valid_side`. -/
def Validator.is_valid_side (side : String) : Bool :=
  decide (Validator.to_upper side = "BUY") || decide (Validator.to_upper side = "SELL")

/-- Function `Validator::is_valid_type`. -/
def Validator.is_valid_type (type : String) : Bool :=
  decide (Validator.to_upper type = "LIMIT") || decide (Validator.to_upper type = "MARKET")

/-- Function `Validator::is_valid_action`. -/
def Validator.is_valid_action (action : String) : Bool :=
  decide (Validator.to_upper action = "NEW") || decide (Validator.to_upper action = "MODIFY")
    || decide (Validator.to_upper action = "CANCEL")

/-- Function `Validator::validate_order` (lines 46-81). -/
def Validator.validate_order (order : Order) : Validator.ValidationResult :=
  if Validator.is_empty_or_whitespace order.instrument
      || Validator.is_empty_or_whitespace order.side
      || Validator.is_empty_or_whitespace order.type
      || Validator.is_empty_or_whitespace order.action then .EMPTY_FIELD
  else if !Validator.is_valid_side order.side then .INVALID_SIDE
  else if !Validator.is_valid_type order.type then .INVALID_TYPE
  else if !Validator.is_valid_action order.action then .INVALID_ACTION
  else if order.quantity = 0 ∨ order.quantity > 1000000000000 then .NEGATIVE_QUANTITY
  else if order.type = "LIMIT" ∧ order.price < 0 then .NEGATIVE_PRICE
  else .VALID

/-- The strings `s` and `t` are the same ignoring case. -/
def same_ignoring_case (s t : String) : Bool :=
  decide (Validator.to_upper s = Validator.to_upper t)

/-- Reference that the specification gives for `validate_order`: the code of the
first failing check, in the order EMPTY_FIELD, INVALID_SIDE, INVALID_TYPE,
INVALID_ACTION, NEGATIVE_QUANTITY, NEGATIVE_PRICE, the last one for a type that is
LIMIT as the type check accepts it (ignoring case); VALID when no check fails. -/
def validate_order_reference (order : Order) : Validator.ValidationResult :=
  if Validator.is_empty_or_whitespace order.instrument
      || Validator.is_empty_or_whitespace order.side
      || Validator.is_empty_or_whitespace order.type
      || Validator.is_empty_or_whitespace order.action then .EMPTY_FIELD
  else if !(same_ignoring_case order.side "BUY" || same_ignoring_case order.side "SELL") then
    .INVALID_SIDE
  else if !(same_ignoring_case order.type "LIMIT" || same_ignoring_case order.type "MARKET") then
    .INVALID_TYPE
  else if !(same_ignoring_case order.action "NEW" || same_ignoring_case order.action "MODIFY"
      || same_ignoring_case order.action "CANCEL") then .INVALID_ACTION
  else if order.quantity = 0 ∨ order.quantity > 10 ^ 12 then .NEGATIVE_QUANTITY
  else if same_ignoring_case order.type "LIMIT" ∧ order.price < 0 then .NEGATIVE_PRICE
  else .VALID

/-! ## Properties of the price levels kept by every operation -/

/-- A property `L` of the levels of a side is kept by the four ways in which the
code changes a side: a trade against the head of the first level, the erasure of
the first level, the insertion of an order whose quantity satisfies `A`, and the
removal of an order by `cancel_order_from_book`. -/
structure LevelClosed (L : Levels → Prop) (A : Nat → Prop) : Prop where
  nil : L []
  trade : ∀ (price : Int) (oq : OrderQueue) (front : Order) (tail : List Order) (rest : Levels)
    (r : Nat), L ((price, oq) :: rest) → oq.orders = front :: tail → r ≠ 0 →
    L (levels_after_trade price oq front tail rest r)
  erase : ∀ (pq : Int × OrderQueue) (rest : Levels), L (pq :: rest) → L rest
  add : ∀ (s : BookSide) (l : Levels) (price : Int) (o : Order), L l → A o.quantity →
    L (Levels.add s l price o)
  remove : ∀ (l : Levels) (price : Int) (id : Nat), L l → L (Levels.remove l price id)
  mono : ∀ n m : Nat, A n → m ≤ n → A m

/-- Both sides of the book satisfy `L`. -/
def LevelInv (L : Levels → Prop) (b : OrderBook) : Prop :=
  ∀ s, L (b.levels s)

/-- No price level of the side is empty. -/
def NoEmptyLevel (l : Levels) : Prop :=
  ∀ pq ∈ l, pq.2.orders ≠ []

/-- The first key of each side is its best price and an order rests there: no
level is empty, every resting order carries the price of its level, no BUY order
rests above the first BUY key and no SELL order below the first SELL key. -/
def BestFirst (b : OrderBook) : Prop :=
  (∀ s, NoEmptyLevel (b.levels s))
  ∧ (∀ s, ∀ x ∈ (b.levels s).entries, x.2.price = x.1)
  ∧ (∀ p q rest, b.buy_orders = (p, q) :: rest →
      (∃ o ∈ q.orders, o.price = p) ∧ ∀ x ∈ b.buy_orders.entries, x.2.price ≤ p)
  ∧ (∀ p q rest, b.sell_orders = (p, q) :: rest →
      (∃ o ∈ q.orders, o.price = p) ∧ ∀ x ∈ b.sell_orders.entries, p ≤ x.2.price)

/-! ## Cached totals of the price levels -/

/-- Every level of the side caches the sum of the quantities of its queue, taken
in 64 bits, and every queued quantity fits in 64 bits. -/
def CachedTotals (l : Levels) : Prop :=
  ∀ pq ∈ l, (∀ o ∈ pq.2.orders, o.quantity < U64)
    ∧ pq.2.total_quantity = (pq.2.orders.map (fun o => o.quantity)).sum % U64

/-- Two BUY orders of 2^63 each at 150.25 (ids 1 and 2). -/
def two_huge_bids : List Order :=
  [mk_order 1000 1 "AAPL" "BUY" "LIMIT" 9223372036854775808 15025 "NEW",
   mk_order 1100 2 "AAPL" "BUY" "LIMIT" 9223372036854775808 15025 "NEW"]

/-! ## Labels of the records of a book -/

/-- The property `Q` of a record depends on its instrument and type only. -/
def Stable (Q : Order → Prop) : Prop :=
  ∀ a b : Order, a.instrument = b.instrument → a.type = b.type → Q a → Q b

/-- A record that has the instrument and the type of a record with `Q` has `R`. -/
def Derived (Q R : Order → Prop) : Prop :=
  ∀ a b : Order, a.instrument = b.instrument → a.type = b.type → Q a → R b

/-- Every record of the lookup and every resting order has `Q`, every event of the
result log has `R`. -/
structure LabelInv (Q R : Order → Prop) (b : OrderBook) : Prop where
  lookup : ∀ k e, b.order_lookup k = some e → Q e
  resting : ∀ s, ∀ x ∈ (b.levels s).entries, Q x.2
  logged : ∀ e ∈ b.results, R e

/-! ## Inputs of the ingest contract and their events -/

/-- Input accepted by the ingest contract (action NEW, MODIFY or CANCEL, type LIMIT
or MARKET, side BUY or SELL, positive quantity), or already marked REJECTED. -/
@[reducible] def Accepted (o : Order) : Prop :=
  o.status = "REJECTED"
  ∨ ((o.action = "NEW" ∨ o.action = "MODIFY" ∨ o.action = "CANCEL")
      ∧ (o.type = "LIMIT" ∨ o.type = "MARKET")
      ∧ (o.side = "BUY" ∨ o.side = "SELL")
      ∧ 0 < o.quantity)

/-- The status of the event is one of the five statuses of the output. -/
def KnownStatus (e : Order) : Prop :=
  e.status = "PENDING" ∨ e.status = "PARTIALLY_EXECUTED" ∨ e.status = "EXECUTED"
  ∨ e.status = "CANCELED" ∨ e.status = "REJECTED"

/-- The log `after` is the log `before` followed by at least one event, each with
one of the five statuses. -/
def Appends (before after : List Order) : Prop :=
  ∃ e add, after = before ++ e :: add ∧ ∀ x ∈ e :: add, KnownStatus x

/-! ## Order of the timestamps of a result log -/

/-- The events `a` and `b` carry the same timestamp, executed quantity and
execution price and `a` names `b` as its counterparty: what the two events of one
trade, incoming order first, have in common. -/
def SameTrade (a b : Order) : Prop :=
  a.timestamp = b.timestamp ∧ a.executed_quantity = b.executed_quantity
  ∧ a.execution_price = b.execution_price ∧ a.counterparty_id = b.order_id

/-- The events of a log other than the REJECTED ones, in emission order. -/
def stamped_events (evs : List Order) : List Order :=
  evs.filter (fun e => decide (e.status ≠ "REJECTED"))

/-- Of two events of `evs` that are not REJECTED, the later is at least 100 after
the earlier or the two are the events of one trade; and none is later than `last`. -/
def InOrder (evs : List Order) (last : Nat) : Prop :=
  (stamped_events evs).Pairwise (fun a b => a.timestamp + 100 ≤ b.timestamp ∨ SameTrade a b)
  ∧ ∀ e ∈ stamped_events evs, e.timestamp ≤ last

/-- No timestamp of the log is within 100 of 2^64. -/
def Bounded (evs : List Order) : Prop :=
  ∀ e ∈ evs, e.timestamp + 100 < U64

/-- From `c` to `c'` the log only grows, and if no timestamp of the log of `c'`
is within 100 of 2^64 and the static of `c` is not either, the order of the
timestamps of `c` extends to `c'`, the static does not decrease and stays away
from 2^64. -/
def Step (c c' : BookCtx) : Prop :=
  (∃ add, c'.book.results = c.book.results ++ add)
  ∧ (Bounded c'.book.results → c.last_execution_timestamp + 100 < U64 →
      InOrder c.book.results c.last_execution_timestamp →
      InOrder c'.book.results c'.last_execution_timestamp
      ∧ c.last_execution_timestamp ≤ c'.last_execution_timestamp
      ∧ c'.last_execution_timestamp + 100 < U64)

/-! ## `Validator.h`: numeric strings -/

/-- Library function `isdigit` in the "C" locale: `0`..`9`. -/
def isdigit (c : Char) : Bool :=
  48 ≤ c.toNat && c.toNat ≤ 57

/-- Loop of `is_valid_number` (lines 104-112) over the characters from `start` on,
with the current values of `has_dot` and `has_digit`; the value is what the
function returns. -/
def is_valid_number_loop : List Char → Bool → Bool → Bool
  | [], _, has_digit => has_digit
  | ch :: rest, has_dot, has_digit =>
    if isdigit ch then is_valid_number_loop rest has_dot true
    else if ch = '.' ∧ has_dot = false then is_valid_number_loop rest true has_digit
    else false

/-- Function `Validator::is_valid_number`. -/
def Validator.is_valid_number (str : String) : Bool :=
  match str.data with
  | [] => false
  | c0 :: rest =>
    if c0 = '-' ∨ c0 = '+' then
      if rest.isEmpty then false else is_valid_number_loop rest false false
    else is_valid_number_loop (c0 :: rest) false false

/-- Function `Validator::is_valid_integer`. -/
def Validator.is_valid_integer (str : String) : Bool :=
  match str.data with
  | [] => false
  | c0 :: rest =>
    if c0 = '-' ∨ c0 = '+' then
      if rest.isEmpty then false else rest.all isdigit
    else (c0 :: rest).all isdigit

/-- Reference that the specification gives for `is_valid_number`: an optional
single leading `+` or `-`, then a non-empty run of characters that are decimal
digits or `.`, with at most one `.` and at least one digit. -/
def valid_number_reference (str : String) : Bool :=
  let body : List Char :=
    match str.data with
    | [] => []
    | c0 :: rest => if c0 = '+' ∨ c0 = '-' then rest else c0 :: rest
  !body.isEmpty && body.all (fun ch => isdigit ch || decide (ch = '.'))
    && decide (body.count '.' ≤ 1) && body.any isdigit

/-! ## `CSVParser.h` -/

/-- Value of a run of decimal digits. -/
def decimal_value (digits : List Char) : Nat :=
  digits.foldl (fun n ch => 10 * n + (ch.toNat - 48)) 0

/-- Library function `std::stoull` in base 10: leading white space is skipped, a
sign is optional, the longest run of digits is converted; `none` stands for the
exception thrown when there is no digit (`std::invalid_argument`) or when the
value does not fit in 64 bits (`std::out_of_range`). After a `-` the value is
negated in `unsigned long long`, as `strtoull` does. -/
def stoull (str : String) : Option Nat :=
  let s := str.data.dropWhile isspace
  let negative : Bool :=
    match s with
    | c0 :: _ => decide (c0 = '-')
    | [] => false
  let s : List Char :=
    match s with
    | c0 :: rest => if c0 = '-' ∨ c0 = '+' then rest else c0 :: rest
    | [] => []
  let digits := s.takeWhile isdigit
  if digits.isEmpty then none
  else if decimal_value digits ≥ U64 then none
  else some (if negative then (U64 - decimal_value digits) % U64 else decimal_value digits)

/-- Successive fields read by `std::getline(stream, field, delim)` until it fails,
`field` holding the characters read since the last delimiter: a read that meets
the end of the stream without having extracted a character fails, so a stream
that ends with the delimiter has no last empty field. -/
def getline_fields (delim : Char) : List Char → List Char → List String
  | [], field => if field.isEmpty then [] else [String.mk field]
  | ch :: rest, field =>
    if ch = delim then String.mk field :: getline_fields delim rest []
    else getline_fields delim rest (field ++ [ch])

/-- Function `CSVParser::split_csv_line`. -/
def CSVParser.split_csv_line (line : String) : List String :=
  getline_fields ',' line.data []

/-- Character of the set `" \t\r\n"` that `trim` strips. -/
def is_trimmed (c : Char) : Bool :=
  c.toNat = 32 || c.toNat = 9 || c.toNat = 13 || c.toNat = 10

/-- Function `CSVParser::trim`. -/
def CSVParser.trim (str : String) : String :=
  let from_start := str.data.dropWhile is_trimmed
  if from_start.isEmpty then ""
  else String.mk (from_start.reverse.dropWhile is_trimmed).reverse

/-- Branch of `parse_order_line` for a line that has not 8 fields (lines 108-134):
the fields that are there are recovered and the order is REJECTED. The conversions
of this branch are outside the `try` block, so an exception of `std::stoull` or
`std::stod` leaves the function (`none`). -/
def parse_order_line_recover (stod : String → Option Int) (fields : List String) :
    Option Order :=
  let order := Order.default
  let field (i : Nat) : String := fields.getD i ""
  let timestamp : Option Nat :=
    if fields.length ≥ 2 ∧ Validator.is_valid_integer (field 0) then stoull (field 0)
    else some order.timestamp
  let order_id : Option Nat :=
    if fields.length ≥ 2 ∧ Validator.is_valid_integer (field 1) then stoull (field 1)
    else some order.order_id
  let quantity : Option Nat :=
    if fields.length ≥ 6 ∧ Validator.is_valid_integer (field 5) then stoull (field 5)
    else some order.quantity
  let price : Option Int :=
    if fields.length ≥ 7 ∧ Validator.is_valid_number (field 6) then stod (field 6)
    else some order.price
  match timestamp, order_id, quantity, price with
  | some timestamp, some order_id, some quantity, some price =>
    some
      { order with
        timestamp := timestamp
        order_id := order_id
        instrument := if fields.length ≥ 3 then CSVParser.trim (field 2) else order.instrument
        side := if fields.length ≥ 4 then CSVParser.trim (field 3) else order.side
        type := if fields.length ≥ 5 then CSVParser.trim (field 4) else order.type
        quantity := quantity
        price := price
        action := if fields.length ≥ 8 then CSVParser.trim (field 7) else order.action
        status := "REJECTED" }
  | _, _, _, _ => none

/-- Function `CSVParser::parse_order_line`, without the diagnostics written to
`std::cerr` (their only use of `line_number`). The conversion of the price field,
`std::stod` followed by the reading of the price in ticks, is the parameter `stod`
(`none` when it throws). In the branch of 8 fields every exception is caught and
the order, as filled so far, is returned REJECTED. -/
def CSVParser.parse_order_line (stod : String → Option Int) (line : String) : Option Order :=
  let order := Order.default
  let fields := CSVParser.split_csv_line line
  let field (i : Nat) : String := fields.getD i ""
  if fields.length ≠ 8 then parse_order_line_recover stod fields
  else if !Validator.is_valid_integer (CSVParser.trim (field 0)) then
    some { order with status := "REJECTED" }
  else
    match stoull (CSVParser.trim (field 0)) with
    | none => some { order with status := "REJECTED" }
    | some timestamp =>
      let order := { order with timestamp := timestamp }
      if !Validator.is_valid_integer (CSVParser.trim (field 1)) then
        some { order with status := "REJECTED" }
      else
        match stoull (CSVParser.trim (field 1)) with
        | none => some { order with status := "REJECTED" }
        | some order_id =>
          let order :=
            { order with
              order_id := order_id
              instrument := CSVParser.trim (field 2)
              side := Validator.to_upper (CSVParser.trim (field 3))
              type := Validator.to_upper (CSVParser.trim (field 4)) }
          let qty_str := CSVParser.trim (field 5)
          if !Validator.is_valid_integer qty_str ∨ qty_str.data.head? = some '-' then
            some
              { order with
                status := "REJECTED"
                quantity := 0
                action := Validator.to_upper (CSVParser.trim (field 7)) }
          else
            match stoull qty_str with
            | none => some { order with status := "REJECTED" }
            | some quantity =>
              let order := { order with quantity := quantity }
              let price_str := CSVParser.trim (field 6)
              if !Validator.is_valid_number price_str then
                some { order with status := "REJECTED" }
              else
                match stod price_str with
                | none => some { order with status := "REJECTED" }
                | some price =>
                  let order :=
                    { order with
                      price := price
                      action := Validator.to_upper (CSVParser.trim (field 7)) }
                  if Validator.validate_order order ≠ Validator.ValidationResult.VALID then
                    some { order with status := "REJECTED" }
                  else some order

/-- Loop of `parse_input_file` (lines 44-65) over the lines that remain, with the
set `seen_order_ids` and the vector `orders` built so far; `none` when an
exception leaves `parse_order_line`. -/
def parse_input_loop (stod : String → Option Int) :
    List String → (Nat → Bool) → List Order → Option (List Order)
  | [], _, orders => some orders
  | line :: rest, seen_order_ids, orders =>
    if line.data.isEmpty || line.data.all isspace then
      parse_input_loop stod rest seen_order_ids orders
    else
      match CSVParser.parse_order_line stod line with
      | none => none
      | some order =>
        let checked : Order × (Nat → Bool) :=
          if order.status ≠ "REJECTED" ∧ order.action = "NEW" then
            if seen_order_ids order.order_id then
              ({ order with status := "REJECTED" }, seen_order_ids)
            else (order, fun id => decide (id = order.order_id) || seen_order_ids id)
          else (order, seen_order_ids)
        let orders : List Order :=
          if checked.1.order_id ≠ 0 ∨ checked.1.status = "REJECTED" then orders ++ [checked.1]
          else orders
        parse_input_loop stod rest checked.2 orders

/-- Function `CSVParser::parse_input_file` on a file given by its content (`none`
when it cannot be opened): the first line is the header, the result is `none` when
an exception leaves the function. -/
def CSVParser.parse_input_file (stod : String → Option Int) (file : Option String) :
    Option (List Order) :=
  match file with
  | none => some []
  | some content =>
    parse_input_loop stod ((getline_fields (Char.ofNat 10) content.data []).drop 1)
      (fun _ => false) []

/-- A conversion of price fields for the evaluations: the decimal number read in
hundredths, the digits after the second decimal dropped. It stands for `std::stod`
on the prices of the test files, which have at most two decimals. -/
def stod_hundredths (str : String) : Option Int :=
  let s := str.data.dropWhile isspace
  let negative : Bool :=
    match s with
    | c0 :: _ => decide (c0 = '-')
    | [] => false
  let s : List Char :=
    match s with
    | c0 :: rest => if c0 = '-' ∨ c0 = '+' then rest else c0 :: rest
    | [] => []
  let whole := s.takeWhile isdigit
  let decimals : List Char :=
    match s.dropWhile isdigit with
    | c0 :: rest => if c0 = '.' then rest.takeWhile isdigit else []
    | [] => []
  if whole.isEmpty ∧ decimals.isEmpty then none
  else
    let hundredths : Nat :=
      100 * decimal_value whole + decimal_value ((decimals ++ ['0', '0']).take 2)
    some (if negative then -(hundredths : Int) else (hundredths : Int))

/-- The field is an unsigned decimal integer: a non-empty run of digits. -/
def unsigned_decimal (str : String) : Bool :=
  !str.data.isEmpty && str.data.all isdigit

/-- The field without its first character when that is a sign. -/
def drop_sign (str : String) : String :=
  match str.data with
  | [] => str
  | c0 :: rest => if c0 = '-' ∨ c0 = '+' then String.mk rest else str

/-- Content of `error_test.csv`, the file that `test_csv_parsing_errors` writes. -/
def error_test_csv : String :=
  "timestamp,order_id,instrument,side,type,quantity,price,action\n"
  ++ "1617278400000000000,1,AAPL,BUY,LIMIT,100,150.25,NEW\n"
  ++ "1617278400000000100,2,AAPL,SELL,LIMIT,-50,150.25,NEW\n"
  ++ "1617278400000000200,3,AAPL,SELL,LIMIT,50,-150,NEW\n"
  ++ "1617278400000000300,4,AAPL,INVALID,LIMIT,40,150.20,NEW\n"
  ++ "1617278400000000400,5,AAPL,BUY,INVALID,100,150.30,NEW\n"
  ++ "1617278400000000500,6,AAPL,BUY,LIMIT,60,0,INVALID\n"
  ++ "1617278400000000600,7,AAPL, ,LIMIT,100,150.25,NEW\n"
  ++ "1617278400000000700,1,AAPL,BUY,LIMIT,200,150.25,NEW\n"

/-- Lines of a file that `parse_input_file` hands to `parse_order_line`: those after
the header that are neither empty nor made of white space only. -/
def data_lines (content : String) : List String :=
  ((getline_fields (Char.ofNat 10) content.data []).drop 1).filter
    (fun line => !(line.data.isEmpty || line.data.all isspace))

/-- The record is a NEW that is not REJECTED. -/
def is_live_new (o : Order) : Bool :=
  decide (o.action = "NEW") && decide (o.status ≠ "REJECTED")

/-- The records that `parse_input_file` returns for `error_test_csv`. -/
def error_test_orders : List Order :=
  [mk_event 1617278400000000000 1 "AAPL" "BUY" "LIMIT" 100 15025 "NEW" "" 0 0 0,
   mk_event 1617278400000000100 2 "AAPL" "SELL" "LIMIT" 0 0 "NEW" "REJECTED" 0 0 0,
   mk_event 1617278400000000200 3 "AAPL" "SELL" "LIMIT" 50 (-15000) "NEW" "REJECTED" 0 0 0,
   mk_event 1617278400000000300 4 "AAPL" "INVALID" "LIMIT" 40 15020 "NEW" "REJECTED" 0 0 0,
   mk_event 1617278400000000400 5 "AAPL" "BUY" "INVALID" 100 15030 "NEW" "REJECTED" 0 0 0,
   mk_event 1617278400000000500 6 "AAPL" "BUY" "LIMIT" 60 0 "INVALID" "REJECTED" 0 0 0,
   mk_event 1617278400000000600 7 "AAPL" "" "LIMIT" 100 15025 "NEW" "REJECTED" 0 0 0,
   mk_event 1617278400000000700 1 "AAPL" "BUY" "LIMIT" 200 15025 "NEW" "REJECTED" 0 0 0]

/-! ## Iterations of the matching loop -/

/-- Number of times the body of the loop `sweep` is entered, iteration bound
`fuel`: an iteration leaves by the `break` of the price test, erases an empty
level (`continue`), or runs a trade; the loop condition (something left to fill
and a level left on the consumed side) is tested before each entry. -/
def sweep_iterations (opp : BookSide) (stop : Int → Bool) (order : Order) :
    Nat → BookCtx → Nat → Nat
  | 0, _, _ => 0
  | fuel + 1, c, remaining_qty =>
    if remaining_qty = 0 then 0
    else
      match c.book.levels opp with
      | [] => 0
      | (price, order_queue) :: rest =>
        if stop price then 1
        else
          match order_queue.orders with
          | [] =>
            1 + sweep_iterations opp stop order fuel
              { c with book := c.book.setLevels opp rest } remaining_qty
          | front :: tail =>
            let r := execute_trade opp order price order_queue front tail rest c remaining_qty
            1 + sweep_iterations opp stop order fuel r.1 r.2

/-! ## Action and status of the stored records -/

/-- The record has action NEW and status PENDING. -/
def NewPending (o : Order) : Prop :=
  o.action = "NEW" ∧ o.status = "PENDING"

/-- Every record of the lookup and every order copy resting in a queue has action
NEW and status PENDING. -/
structure Stored (b : OrderBook) : Prop where
  lookup : ∀ k e, b.order_lookup k = some e → NewPending e
  resting : ∀ s, ∀ x ∈ (b.levels s).entries, NewPending x.2

/-- What the log gained from `before` to `after` while an input of order id `id`
and action `action` was processed: at most one event, then the pairs of events of
trades, then at most one event. The events outside the pairs and the first event
of each pair, the taker's, carry the id `id` and the action `action`; the second
event of each pair, the maker's, carries another id and the action NEW. -/
def MakersNew (id : Nat) (action : String) (before after : List Order) : Prop :=
  ∃ pre ps post, after = before ++ pre ++ pairs_flat ps ++ post
    ∧ pre.length ≤ 1 ∧ post.length ≤ 1
    ∧ (∀ e ∈ pre ++ post, e.order_id = id ∧ e.action = action)
    ∧ ∀ tm ∈ ps, (∃ taker, IsTrade taker tm) ∧ tm.1.order_id = id ∧ tm.1.action = action
        ∧ tm.2.order_id ≠ id ∧ tm.2.action = "NEW"

/-! ## Two bids at one price, used to instantiate the statements on time priority -/

/-- Two BUY orders that come to rest at 150.25: 100 (id 1), then 40 (id 2). -/
def two_bids : List Order :=
  [mk_order 1000 1 "AAPL" "BUY" "LIMIT" 100 15025 "NEW",
   mk_order 1100 2 "AAPL" "BUY" "LIMIT" 40 15025 "NEW"]

/-- The AAPL book and the static after `two_bids`, run from a new engine. -/
def two_bids_ctx : BookCtx :=
  { book := books_get (run (MatchingEngine.new Statics.initial) two_bids).engine.order_books "AAPL"
    last_execution_timestamp :=
      (run (MatchingEngine.new Statics.initial) two_bids).statics.last_execution_timestamp }

/-! ## Quantity resting on a side -/

/-- Sum of the quantities of the orders resting on a side at the levels whose
price satisfies `ok`. -/
def Levels.resting_within (l : Levels) (ok : Int → Bool) : Nat :=
  ((l.entries.filter (fun x => ok x.1)).map (fun x => x.2.quantity)).sum

/-- Sum of the quantities of all the orders resting on a side. -/
def Levels.resting_total (l : Levels) : Nat :=
  l.resting_within (fun _ => true)

/-- Price test of a LIMIT order on an opposing level: at or below its limit for a
BUY, at or above for a SELL. -/
def within_limit (order : Order) (p : Int) : Bool :=
  if order.side = "BUY" then decide (p ≤ order.price) else decide (p ≥ order.price)

/-! ## Totals requested for an order and quantity executed -/

/-- Value of `order_total_executed[id]`, 0 when the key is absent. -/
def executed_total (b : OrderBook) (id : Nat) : Nat :=
  (b.order_total_executed id).getD 0

/-- The executed totals of a book against a total `total k` for each order id `k`:
no order has executed more than its total, every resting order has executed its
total less what rests, and the totals fit in 64 bits. -/
structure Ledger (b : OrderBook) (total : Nat → Nat) : Prop where
  bound : ∀ k, executed_total b k ≤ total k
  resting : ∀ s, ∀ x ∈ (b.levels s).entries,
    executed_total b x.2.order_id + x.2.quantity = total x.2.order_id
  fits : ∀ k, total k < U64

/-- History of the totals requested, by instrument and order id. It is kept beside
the engine to state what the executed totals are compared with; the code has no
such record. `all` lists the quantities of the accepted NEW and MODIFY requests,
latest first; `current` is the total most recently requested: the quantity of the
NEW, or of the latest MODIFY whose quantity exceeded the executed total at that
time. -/
structure Requests where
  all : String → Nat → List Nat
  current : String → Nat → Nat

/-- No request yet. -/
def Requests.empty : Requests :=
  { all := fun _ _ => [], current := fun _ _ => 0 }

/-- Largest total ever requested for the order `id` of `instrument`. -/
def Requests.largest (g : Requests) (instrument : String) (id : Nat) : Nat :=
  (g.all instrument id).foldr max 0

/-- The history after an accepted request of `quantity` for the order `id` of
`instrument`; `effective` tells whether the request sets the current total. -/
def Requests.record (g : Requests) (instrument : String) (id quantity : Nat)
    (effective : Bool) : Requests :=
  { all := fun i k => if i = instrument ∧ k = id then quantity :: g.all i k else g.all i k
    current := fun i k =>
      if i = instrument ∧ k = id ∧ effective = true then quantity else g.current i k }

/-- The history after the input `o` is processed in the state `w`: a NEW is
recorded when `add_order` accepts it (input not marked REJECTED, id not accepted
before by the book of its instrument), a MODIFY when `modify_order` accepts it
(input not marked REJECTED, id known to the lookup), and it sets the current total
when its quantity exceeds the executed total of the order. -/
def track_request (w : World) (g : Requests) (o : Order) : Requests :=
  if o.status = "REJECTED" then g
  else if o.action = "NEW" then
    if ((books_get w.engine.order_books o.instrument).existing_order_ids o.order_id).isSome then g
    else g.record o.instrument o.order_id o.quantity true
  else if o.action = "MODIFY" then
    if ((books_get w.engine.order_books o.instrument).order_lookup o.order_id).isSome then
      g.record o.instrument o.order_id o.quantity
        (decide (o.quantity
          > executed_total (books_get w.engine.order_books o.instrument) o.order_id))
    else g
  else g

/-- The history after the inputs are processed in order from the state `w`. -/
def requests_of (w : World) (g : Requests) : List Order → Requests
  | [] => g
  | o :: rest => requests_of (process_order w o) (track_request w g o) rest

/-- The inputs `partial_fill` followed by a MODIFY of order 1 to a total of 120. -/
def partial_fill_raised : List Order :=
  partial_fill ++ [mk_order 1200 1 "AAPL" "BUY" "LIMIT" 120 15025 "MODIFY"]

end Matching

namespace Matching

/-! ## Sorting of the results -/

theorem filter_orderedInsert_timestamp (t : Nat) (a : Order) (l : List Order) :
    (l.orderedInsert (fun x y => timestamp_comp y x = false) a).filter
        (fun e => decide (e.timestamp = t))
      = (a :: l).filter (fun e => decide (e.timestamp = t)) := by
  induction l with
  | nil => simp
  | cons b l ih =>
    by_cases hr : timestamp_comp b a = false
    · simp [List.orderedInsert, hr]
    · have hlt : b.timestamp < a.timestamp := by
        unfold timestamp_comp at hr
        split at hr
        · simp at hr
        · simpa using hr
      simp only [List.orderedInsert, hr, if_false]
      by_cases hb : b.timestamp = t
      · have ha : ¬ a.timestamp = t := by omega
        simp [List.filter_cons, hb, ha] at ih ⊢
        exact ih
      · by_cases ha : a.timestamp = t
        · simp [List.filter_cons, hb, ha] at ih ⊢
          exact ih
        · simp [List.filter_cons, hb, ha] at ih ⊢
          exact ih

theorem filter_stable_sort_timestamp (t : Nat) (l : List Order) :
    (stable_sort timestamp_comp l).filter (fun e => decide (e.timestamp = t))
      = l.filter (fun e => decide (e.timestamp = t)) := by
  induction l with
  | nil => simp [stable_sort]
  | cons a l ih =>
    unfold stable_sort at ih ⊢
    rw [List.insertionSort, filter_orderedInsert_timestamp]
    by_cases ha : a.timestamp = t
    · simp [List.filter_cons, ha, ih]
    · simp [List.filter_cons, ha, ih]

theorem timestamp_comp_false_iff (a b : Order) :
    timestamp_comp b a = false ↔ a.timestamp ≤ b.timestamp := by
  unfold timestamp_comp
  split
  · simp; omega
  · simp

theorem stable_sort_timestamp_sorted (l : List Order) :
    (stable_sort timestamp_comp l).Pairwise (fun a b => a.timestamp ≤ b.timestamp) := by
  haveI : IsTotal Order (fun a b => timestamp_comp b a = false) :=
    ⟨fun a b => by simp only [timestamp_comp_false_iff]; omega⟩
  haveI : IsTrans Order (fun a b => timestamp_comp b a = false) :=
    ⟨fun a b c => by simp only [timestamp_comp_false_iff]; omega⟩
  have h := List.sorted_insertionSort (fun a b : Order => timestamp_comp b a = false) l
  unfold stable_sort
  exact List.Pairwise.imp (fun {a b} hab => (timestamp_comp_false_iff a b).1 hab) h

/-- C6: `get_all_results` returns the stable sort by timestamp of the concatenation
of the result logs: a permutation of it, with non-decreasing timestamps, in which
the records of any one timestamp appear exactly as they do in the concatenation. -/
theorem get_all_results_stable_sort (e : MatchingEngine) :
    (get_all_results e).Perm (all_results e)
    ∧ (get_all_results e).Pairwise (fun a b => a.timestamp ≤ b.timestamp)
    ∧ ∀ t : Nat, (get_all_results e).filter (fun r => decide (r.timestamp = t))
        = (all_results e).filter (fun r => decide (r.timestamp = t)) :=
  ⟨List.perm_insertionSort _ _, stable_sort_timestamp_sorted _,
    fun t => filter_stable_sort_timestamp t _⟩

/-! ## Rejections -/

/-- Branch of `add_order` taken by a NEW whose id is in the accepted-id set. -/
theorem add_order_duplicate_branch (c : BookCtx) (order : Order)
    (hnew : order.action = "NEW")
    (hdup : c.book.existing_order_ids order.order_id ≠ none) :
    (add_order c order).book.results
        = c.book.results ++ [{ order with
            status := "REJECTED", executed_quantity := 0, execution_price := 0,
            counterparty_id := 0 }]
    ∧ (add_order c order).book.buy_orders = c.book.buy_orders
    ∧ (add_order c order).book.sell_orders = c.book.sell_orders
    ∧ (add_order c order).book.order_lookup = c.book.order_lookup
    ∧ (add_order c order).book.existing_order_ids = c.book.existing_order_ids
    ∧ (add_order c order).book.order_total_executed = c.book.order_total_executed
    ∧ (add_order c order).last_execution_timestamp = c.last_execution_timestamp := by
  have h : (c.book.existing_order_ids order.order_id).isSome = true := by
    cases hx : c.book.existing_order_ids order.order_id with
    | none => exact absurd hx hdup
    | some v => rfl
  simp [add_order, hnew, h, BookCtx.push]

/-- C7: a NEW whose id is already in the accepted-id set appends one event, the
input with status REJECTED and the execution fields zeroed (timestamp and id are
those of the input), and changes nothing else in the book or the counter. -/
theorem add_order_duplicate_rejected (c : BookCtx) (order : Order)
    (hnew : order.action = "NEW")
    (hdup : c.book.existing_order_ids order.order_id ≠ none) :
    (add_order c order).book.results
        = c.book.results ++ [{ order with
            status := "REJECTED", executed_quantity := 0, execution_price := 0,
            counterparty_id := 0 }]
    ∧ (add_order c order).book.buy_orders = c.book.buy_orders
    ∧ (add_order c order).book.sell_orders = c.book.sell_orders
    ∧ (add_order c order).book.order_lookup = c.book.order_lookup
    ∧ (add_order c order).book.existing_order_ids = c.book.existing_order_ids
    ∧ (add_order c order).book.order_total_executed = c.book.order_total_executed
    ∧ (add_order c order).last_execution_timestamp = c.last_execution_timestamp := by
  have h : (c.book.existing_order_ids order.order_id).isSome = true := by
    cases hx : c.book.existing_order_ids order.order_id with
    | none => exact absurd hx hdup
    | some v => rfl
  unfold add_order
  rw [if_pos ⟨hnew, h⟩]
  exact ⟨rfl, rfl, rfl, rfl, rfl, rfl, rfl⟩

/-- C10: a MODIFY or a CANCEL whose id is not in the lookup appends one event, the
request with status REJECTED, and changes nothing else in the book or the counter. -/
theorem unknown_id_rejected (c : BookCtx) (request : Order)
    (hunknown : c.book.order_lookup request.order_id = none) :
    ((modify_order c request).book.results
        = c.book.results ++ [{ request with status := "REJECTED" }]
      ∧ (modify_order c request).book.buy_orders = c.book.buy_orders
      ∧ (modify_order c request).book.sell_orders = c.book.sell_orders
      ∧ (modify_order c request).book.order_lookup = c.book.order_lookup
      ∧ (modify_order c request).book.existing_order_ids = c.book.existing_order_ids
      ∧ (modify_order c request).book.order_total_executed = c.book.order_total_executed
      ∧ (modify_order c request).last_execution_timestamp = c.last_execution_timestamp)
    ∧ ((cancel_order c request).book.results
        = c.book.results ++ [{ request with status := "REJECTED" }]
      ∧ (cancel_order c request).book.buy_orders = c.book.buy_orders
      ∧ (cancel_order c request).book.sell_orders = c.book.sell_orders
      ∧ (cancel_order c request).book.order_lookup = c.book.order_lookup
      ∧ (cancel_order c request).book.existing_order_ids = c.book.existing_order_ids
      ∧ (cancel_order c request).book.order_total_executed = c.book.order_total_executed
      ∧ (cancel_order c request).last_execution_timestamp = c.last_execution_timestamp) := by
  simp [modify_order, cancel_order, hunknown, BookCtx.push]


/-! ## Price levels -/

@[simp] theorem Levels.entries_nil : Levels.entries [] = [] := rfl

@[simp] theorem Levels.entries_cons (pq : Int × OrderQueue) (l : Levels) :
    Levels.entries (pq :: l) = pq.2.orders.map (fun o => (pq.1, o)) ++ Levels.entries l := by
  simp [Levels.entries]

@[simp] theorem Levels.keys_nil : Levels.keys [] = [] := rfl

@[simp] theorem Levels.keys_cons (pq : Int × OrderQueue) (l : Levels) :
    Levels.keys (pq :: l) = pq.1 :: Levels.keys l := rfl

theorem Levels.entries_key_mem {l : Levels} {x : Int × Order} (h : x ∈ Levels.entries l) :
    x.1 ∈ Levels.keys l := by
  induction l with
  | nil => simp at h
  | cons pq l ih =>
    simp only [Levels.entries_cons, List.mem_append, List.mem_map] at h
    rcases h with ⟨o, _, rfl⟩ | h
    · simp
    · simp [ih h]

theorem BookSide.before_irrefl (s : BookSide) (a : Int) : s.before a a = false := by
  cases s <;> simp [BookSide.before]

theorem BookSide.before_trans (s : BookSide) {a b c : Int}
    (h1 : s.before a b = true) (h2 : s.before b c = true) : s.before a c = true := by
  cases s <;> simp [BookSide.before] at * <;> omega

theorem BookSide.before_of_not (s : BookSide) {a b : Int}
    (hne : b ≠ a) (h : s.before a b = false) : s.before b a = true := by
  cases s <;> simp [BookSide.before] at * <;> omega

theorem Levels.sorted_keys_nodup {s : BookSide} {l : Levels} (h : Levels.sorted s l) :
    l.keys.Nodup := by
  unfold Levels.sorted at h
  refine List.Pairwise.imp ?_ h
  intro a b hab heq
  subst heq
  simp [BookSide.before_irrefl] at hab

theorem Levels.mem_keys_add (s : BookSide) (l : Levels) (price : Int) (o : Order) (k : Int) :
    k ∈ (Levels.add s l price o).keys ↔ k = price ∨ k ∈ l.keys := by
  induction l with
  | nil => simp [Levels.add, Levels.keys]
  | cons pq l ih =>
    obtain ⟨p, q⟩ := pq
    unfold Levels.add
    split
    · rename_i h; subst h; simp
    · split
      · simp
      · simp only [Levels.keys_cons, List.mem_cons, ih]
        tauto

theorem Levels.sorted_add (s : BookSide) (l : Levels) (price : Int) (o : Order)
    (h : Levels.sorted s l) : Levels.sorted s (Levels.add s l price o) := by
  induction l with
  | nil => simp [Levels.add, Levels.sorted, Levels.keys]
  | cons pq l ih =>
    obtain ⟨p, q⟩ := pq
    unfold Levels.sorted at h ih ⊢
    simp only [Levels.keys_cons, List.pairwise_cons] at h
    unfold Levels.add
    split
    · simpa [Levels.keys_cons, List.pairwise_cons] using h
    · rename_i hne
      split
      · rename_i hb
        simp only [Levels.keys_cons, List.pairwise_cons, List.mem_cons]
        refine ⟨?_, h⟩
        intro a ha
        rcases ha with rfl | ha
        · exact hb
        · exact s.before_trans hb (h.1 a ha)
      · rename_i hb
        simp only [Levels.keys_cons, List.pairwise_cons]
        refine ⟨?_, ih h.2⟩
        intro a ha
        rcases (Levels.mem_keys_add s l price o a).1 ha with rfl | ha
        · exact s.before_of_not hne (by simpa using hb)
        · exact h.1 a ha

theorem Levels.entries_add_perm (s : BookSide) (l : Levels) (price : Int) (o : Order) :
    (Levels.add s l price o).entries.Perm ((price, o) :: l.entries) := by
  induction l with
  | nil => simp [Levels.add, OrderQueue.new, OrderQueue.add_order]
  | cons pq l ih =>
    obtain ⟨p, q⟩ := pq
    unfold Levels.add
    split
    · rename_i h
      subst h
      simp only [Levels.entries_cons, OrderQueue.add_order, List.map_append, List.map_cons,
        List.map_nil, List.append_assoc, List.singleton_append]
      exact (List.perm_middle).trans (List.Perm.refl _)
    · split
      · simp [OrderQueue.new, OrderQueue.add_order]
      · simp only [Levels.entries_cons]
        refine (List.Perm.append_left _ ih).trans ?_
        exact List.perm_middle

theorem Levels.nonempty_add (s : BookSide) (l : Levels) (price : Int) (o : Order)
    (h : ∀ pq ∈ l, pq.2.orders ≠ []) :
    ∀ pq ∈ Levels.add s l price o, pq.2.orders ≠ [] := by
  induction l with
  | nil => simp [Levels.add, OrderQueue.new, OrderQueue.add_order]
  | cons pq l ih =>
    obtain ⟨p, q⟩ := pq
    unfold Levels.add
    split
    · intro x hx
      simp only [List.mem_cons] at hx
      rcases hx with rfl | hx
      · simp [OrderQueue.add_order]
      · exact h x (by simp [hx])
    · split
      · intro x hx
        simp only [List.mem_cons] at hx
        rcases hx with rfl | rfl | hx
        · simp [OrderQueue.new, OrderQueue.add_order]
        · exact h _ (by simp)
        · exact h x (by simp [hx])
      · intro x hx
        simp only [List.mem_cons] at hx
        rcases hx with rfl | hx
        · exact h _ (by simp)
        · exact ih (fun y hy => h y (by simp [hy])) x hx

theorem rebuild_queue_fst (id : Nat) (l nq : List Order) (nt : Nat) :
    (rebuild_queue id l nq nt).1 = nq ++ l.filter (fun o => decide (o.order_id ≠ id)) := by
  induction l generalizing nq nt with
  | nil => simp [rebuild_queue]
  | cons o l ih =>
    unfold rebuild_queue
    by_cases h : o.order_id = id
    · simp [h, ih]
    · simp [h, ih]

theorem Levels.keys_remove_sublist (l : Levels) (price : Int) (id : Nat) :
    (Levels.remove l price id).keys.Sublist l.keys := by
  induction l with
  | nil => simp [Levels.remove]
  | cons pq l ih =>
    obtain ⟨p, q⟩ := pq
    unfold Levels.remove
    split
    · dsimp only
      split
      · simp
      · simp
    · simpa using ih

theorem Levels.nonempty_remove (l : Levels) (price : Int) (id : Nat)
    (h : ∀ pq ∈ l, pq.2.orders ≠ []) :
    ∀ pq ∈ Levels.remove l price id, pq.2.orders ≠ [] := by
  induction l with
  | nil => simp [Levels.remove]
  | cons pq l ih =>
    obtain ⟨p, q⟩ := pq
    unfold Levels.remove
    split
    · dsimp only
      split
      · intro x hx
        exact h x (by simp [hx])
      · rename_i hne
        intro x hx
        simp only [List.mem_cons] at hx
        rcases hx with rfl | hx
        · simpa using hne
        · exact h x (by simp [hx])
    · intro x hx
      simp only [List.mem_cons] at hx
      rcases hx with rfl | hx
      · exact h _ (by simp)
      · exact ih (fun y hy => h y (by simp [hy])) x hx

theorem Levels.entries_remove (l : Levels) (price : Int) (id : Nat)
    (hk : l.keys.Nodup)
    (hat : ∀ x ∈ l.entries, x.2.order_id = id → x.1 = price) :
    (Levels.remove l price id).entries
      = l.entries.filter (fun x => decide (x.2.order_id ≠ id)) := by
  induction l with
  | nil => simp [Levels.remove]
  | cons pq l ih =>
    obtain ⟨p, q⟩ := pq
    simp only [Levels.keys_cons, List.nodup_cons] at hk
    have hrest : ∀ x ∈ Levels.entries l, x.2.order_id = id → x.1 = price :=
      fun x hx => hat x (by simp [hx])
    unfold Levels.remove
    split
    · rename_i hp
      subst hp
      have hnone : (Levels.entries l).filter (fun x => decide (x.2.order_id ≠ id))
          = Levels.entries l := by
        rw [List.filter_eq_self]
        intro x hx
        have hxk := Levels.entries_key_mem hx
        have : x.2.order_id ≠ id := fun hid => hk.1 (hrest x hx hid ▸ hxk)
        simpa using this
      simp only [rebuild_queue_fst, List.nil_append, Levels.entries_cons, List.filter_append,
        hnone, List.filter_map]
      split
      · rename_i hemp
        have : q.orders.filter (fun o => decide (o.order_id ≠ id)) = [] := by
          simpa using hemp
        have h2 : List.filter ((fun x : Int × Order => decide (x.2.order_id ≠ id)) ∘ fun o => (p, o)) q.orders = [] := this
        rw [h2]
        simp
      · simp only [Levels.entries_cons]
        rfl
    · rename_i hp
      have hself : (q.orders.map (fun o => (p, o))).filter (fun x => decide (x.2.order_id ≠ id))
          = q.orders.map (fun o => (p, o)) := by
        rw [List.filter_eq_self]
        intro x hx
        simp only [List.mem_map] at hx
        obtain ⟨o, ho, rfl⟩ := hx
        have : o.order_id ≠ id := fun hid => hp (hat (p, o) (by simp [ho]) hid)
        simpa using this
      simp only [Levels.entries_cons, List.filter_append, hself, ih hk.2 hrest]


/-! ## One trade -/

@[simp] theorem levels_setLevels_same (b : OrderBook) (s : BookSide) (l : Levels) :
    (b.setLevels s l).levels s = l := by
  cases s <;> rfl

theorem levels_setLevels_other (b : OrderBook) {s t : BookSide} (l : Levels) (h : t ≠ s) :
    (b.setLevels s l).levels t = b.levels t := by
  cases s <;> cases t <;> first | rfl | exact absurd rfl h

@[simp] theorem setLevels_order_lookup (b : OrderBook) (s : BookSide) (l : Levels) :
    (b.setLevels s l).order_lookup = b.order_lookup := by
  cases s <;> rfl

@[simp] theorem setLevels_existing (b : OrderBook) (s : BookSide) (l : Levels) :
    (b.setLevels s l).existing_order_ids = b.existing_order_ids := by
  cases s <;> rfl

@[simp] theorem setLevels_total_executed (b : OrderBook) (s : BookSide) (l : Levels) :
    (b.setLevels s l).order_total_executed = b.order_total_executed := by
  cases s <;> rfl

@[simp] theorem setLevels_results (b : OrderBook) (s : BookSide) (l : Levels) :
    (b.setLevels s l).results = b.results := by
  cases s <;> rfl

theorem resting_ids_eq (b : OrderBook) :
    b.resting_ids = (b.levels .buy).tags.map (fun t => t.2.1) ++ (b.levels .sell).tags.map (fun t => t.2.1) := by
  simp [OrderBook.resting_ids, Levels.tags, OrderBook.levels, Function.comp_def]

theorem mem_resting_ids {b : OrderBook} {k : Nat} :
    k ∈ b.resting_ids ↔ ∃ s, ∃ x ∈ (b.levels s).entries, x.2.order_id = k := by
  simp only [OrderBook.resting_ids, List.mem_map, List.mem_append]
  constructor
  · rintro ⟨x, hx | hx, rfl⟩
    · exact ⟨.buy, x, hx, rfl⟩
    · exact ⟨.sell, x, hx, rfl⟩
  · rintro ⟨s, x, hx, rfl⟩
    cases s
    · exact ⟨x, Or.inl hx, rfl⟩
    · exact ⟨x, Or.inr hx, rfl⟩

section trade
variable (opp : BookSide) (order : Order) (price : Int) (oq : OrderQueue)
  (front : Order) (tail : List Order) (rest : Levels) (c : BookCtx) (r : Nat)

theorem execute_trade_remaining :
    (execute_trade opp order price oq front tail rest c r).2 = r - min r front.quantity := rfl

@[simp] theorem execute_trade_existing :
    (execute_trade opp order price oq front tail rest c r).1.book.existing_order_ids
      = c.book.existing_order_ids := by
  simp [execute_trade]

@[simp] theorem execute_trade_results :
    (execute_trade opp order price oq front tail rest c r).1.book.results
      = c.book.results ++ [taker_execution order price front c r, maker_execution order price front c r] := by
  simp [execute_trade]

@[simp] theorem execute_trade_levels_same :
    (execute_trade opp order price oq front tail rest c r).1.book.levels opp
      = levels_after_trade price oq front tail rest r := by
  cases opp <;> rfl

theorem execute_trade_levels_other {s : BookSide} (h : s ≠ opp) :
    (execute_trade opp order price oq front tail rest c r).1.book.levels s = c.book.levels s := by
  cases opp <;> cases s <;> first | rfl | exact absurd rfl h

theorem execute_trade_lookup :
    (execute_trade opp order price oq front tail rest c r).1.book.order_lookup
      = if front.quantity ≤ r then
          Function.update (lookup_touch c.book.order_lookup order.order_id) front.order_id none
        else lookup_touch c.book.order_lookup order.order_id := by
  have h : (front.quantity - min r front.quantity = 0) ↔ front.quantity ≤ r := by omega
  simp [execute_trade, h]

theorem entries_levels_after_trade :
    (levels_after_trade price oq front tail rest r).entries
      = if front.quantity ≤ r then tail.map (fun o => (price, o)) ++ rest.entries
        else (price, { front with quantity := front.quantity - r })
              :: (tail.map (fun o => (price, o)) ++ rest.entries) := by
  unfold levels_after_trade
  by_cases h : front.quantity ≤ r
  · have h0 : front.quantity - min r front.quantity = 0 := by omega
    simp only [h0, if_true, h]
    cases tail with
    | nil => simp [OrderQueue.pop, OrderQueue.update_quantity, OrderQueue.empty]
    | cons t ts => simp [OrderQueue.pop, OrderQueue.update_quantity, OrderQueue.empty]
  · have h0 : ¬ front.quantity - min r front.quantity = 0 := by omega
    have h1 : min r front.quantity = r := by omega
    have h2 : ¬ front.quantity - r = 0 := by omega
    simp [h, h1, h2, OrderQueue.update_quantity, OrderQueue.empty]

theorem levels_after_trade_shape :
    ∃ q : OrderQueue, levels_after_trade price oq front tail rest r
      = if q.empty then rest else (price, q) :: rest :=
  ⟨_, rfl⟩

theorem keys_levels_after_trade :
    (levels_after_trade price oq front tail rest r).keys = rest.keys
    ∨ (levels_after_trade price oq front tail rest r).keys = price :: rest.keys := by
  obtain ⟨q, hq⟩ := levels_after_trade_shape price oq front tail rest r
  rw [hq]
  split
  · exact Or.inl rfl
  · exact Or.inr rfl

theorem nonempty_levels_after_trade (pq : Int × OrderQueue)
    (h : pq ∈ levels_after_trade price oq front tail rest r) :
    pq ∈ rest ∨ pq.2.orders ≠ [] := by
  obtain ⟨q, hq⟩ := levels_after_trade_shape price oq front tail rest r
  rw [hq] at h
  split at h
  · exact Or.inl h
  · rename_i hne
    simp only [List.mem_cons] at h
    rcases h with rfl | h
    · right
      simpa [OrderQueue.empty] using hne
    · exact Or.inl h

end trade

/-! ## Consistency is kept when a book shrinks -/

theorem WF.shrink {b b' : OrderBook} (h : WF b)
    (hk : ∀ s, (b'.levels s).keys.Sublist (b.levels s).keys)
    (ht : ∀ s, (b'.levels s).tags.Sublist (b.levels s).tags)
    (hn : ∀ s, ∀ pq ∈ b'.levels s, pq.2.orders ≠ [])
    (hl : ∀ k, b'.order_lookup k = b.order_lookup k
      ∨ (b'.order_lookup k = none ∧ k ∉ b'.resting_ids))
    (hx : b'.existing_order_ids = b.existing_order_ids) : WF b' := by
  have hlk : ∀ k e, b'.order_lookup k = some e → b.order_lookup k = some e := by
    intro k e hke
    rcases hl k with h1 | ⟨h1, _⟩
    · rw [← h1]; exact hke
    · rw [h1] at hke; cases hke
  refine ⟨?_, ?_, hn, ?_, ?_, ?_, ?_⟩
  · intro s
    exact List.Pairwise.sublist (hk s) (h.sorted s)
  · intro pb hpb pa hpa
    exact h.uncrossed pb ((hk .buy).subset hpb) pa ((hk .sell).subset hpa)
  · intro s po hpo
    have hmem : (po.1, po.2.order_id, po.2.price) ∈ (b.levels s).tags :=
      (ht s).subset (List.mem_map_of_mem _ hpo)
    obtain ⟨po0, hpo0, heq⟩ := List.mem_map.1 hmem
    simp only [Prod.mk.injEq] at heq
    obtain ⟨h1, h2, h3⟩ := heq
    obtain ⟨hp, e, he, hside, hprice⟩ := h.resting s po0 hpo0
    refine ⟨by rw [← h3, ← h1]; exact hp, e, ?_, hside, by rw [← h1]; exact hprice⟩
    rcases hl po.2.order_id with h4 | ⟨_, h4⟩
    · rw [h4, ← h2]; exact he
    · exact absurd (mem_resting_ids.2 ⟨s, po, hpo, rfl⟩) h4
  · intro k e hke
    exact h.lookup_id k e (hlk k e hke)
  · intro k e hke
    rw [hx]
    exact h.lookup_existing k e (hlk k e hke)
  · rw [resting_ids_eq]
    have := h.nodup
    rw [resting_ids_eq] at this
    exact List.Nodup.sublist (List.Sublist.append ((ht .buy).map _) ((ht .sell).map _)) this

theorem resting_ids_subset_of_tags {b b' : OrderBook}
    (ht : ∀ s, (b'.levels s).tags.Sublist (b.levels s).tags) :
    b'.resting_ids ⊆ b.resting_ids := by
  rw [resting_ids_eq, resting_ids_eq]
  exact (List.Sublist.append ((ht .buy).map _) ((ht .sell).map _)).subset

/-! ## The matching loop -/

/-- A property kept by the erasure of an empty first level and by a trade is kept
by the whole loop. -/
theorem sweep_invariant (opp : BookSide) (stop : Int → Bool) (order : Order)
    (I : BookCtx → Nat → Prop)
    (herase : ∀ c r price oq rest, I c r → r ≠ 0 → c.book.levels opp = (price, oq) :: rest →
      stop price = false → oq.orders = [] →
      I { c with book := c.book.setLevels opp rest } r)
    (htrade : ∀ c r price oq rest front tail, I c r → r ≠ 0 →
      c.book.levels opp = (price, oq) :: rest → stop price = false → oq.orders = front :: tail →
      I (execute_trade opp order price oq front tail rest c r).1
        (execute_trade opp order price oq front tail rest c r).2) :
    ∀ fuel c r, I c r →
      I (sweep opp stop order fuel c r).1 (sweep opp stop order fuel c r).2 := by
  intro fuel
  induction fuel with
  | zero => intro c r h; simpa [sweep] using h
  | succ n ih =>
    intro c r h
    unfold sweep
    by_cases hr : r = 0
    · simpa [hr] using (hr ▸ h)
    · simp only [hr, if_false]
      cases hl : c.book.levels opp with
      | nil => simpa using h
      | cons pq rest =>
        obtain ⟨price, oq⟩ := pq
        dsimp only
        by_cases hs : stop price = true
        · simpa [hs] using h
        · have hs' : stop price = false := by simpa using hs
          simp only [hs', Bool.false_eq_true, if_false]
          cases ho : oq.orders with
          | nil =>
            dsimp only
            exact ih _ _ (herase c r price oq rest h hr hl hs' ho)
          | cons front tail =>
            dsimp only
            exact ih _ _ (htrade c r price oq rest front tail h hr hl hs' ho)


theorem lookup_touch_present {m : Nat → Option Order} {id : Nat} {e : Order}
    (h : m id = some e) : lookup_touch m id = m := by
  simp [lookup_touch, h]

theorem lookup_value_present {m : Nat → Option Order} {id : Nat} {e : Order}
    (h : m id = some e) : lookup_value m id = e := by
  simp [lookup_value, h]

theorem tags_cons_front (price : Int) (oq : OrderQueue) (front : Order) (tail : List Order)
    (rest : Levels) (ho : oq.orders = front :: tail) :
    Levels.tags ((price, oq) :: rest)
      = (price, front.order_id, front.price)
        :: ((tail.map (fun o => (price, o)) ++ rest.entries).map
            (fun x => (x.1, x.2.order_id, x.2.price))) := by
  simp [Levels.tags, ho]

theorem tags_after_trade_sublist (price : Int) (oq : OrderQueue) (front : Order)
    (tail : List Order) (rest : Levels) (r : Nat) (ho : oq.orders = front :: tail) :
    (levels_after_trade price oq front tail rest r).tags.Sublist
      (Levels.tags ((price, oq) :: rest)) := by
  rw [tags_cons_front price oq front tail rest ho]
  unfold Levels.tags
  rw [entries_levels_after_trade]
  split
  · exact List.sublist_cons_self _ _
  · simp

theorem front_mem_resting_ids {b : OrderBook} {opp : BookSide} {price : Int} {oq : OrderQueue}
    {rest : Levels} {front : Order} {tail : List Order}
    (hl : b.levels opp = (price, oq) :: rest) (ho : oq.orders = front :: tail) :
    front.order_id ∈ b.resting_ids :=
  mem_resting_ids.2 ⟨opp, (price, front), by simp [hl, ho], rfl⟩

theorem front_not_resting_after {b b' : OrderBook} {opp : BookSide} {price : Int}
    {oq : OrderQueue} {rest : Levels} {front : Order} {tail : List Order}
    (hnd : b.resting_ids.Nodup)
    (hl : b.levels opp = (price, oq) :: rest) (ho : oq.orders = front :: tail)
    (hsame : (b'.levels opp).entries = tail.map (fun o => (price, o)) ++ rest.entries)
    (hother : ∀ s, s ≠ opp → b'.levels s = b.levels s) :
    front.order_id ∉ b'.resting_ids := by
  cases opp with
  | buy =>
    have h2 := hother .sell (by decide)
    simp only [OrderBook.levels] at hl hsame h2
    simp only [OrderBook.resting_ids, hl, hsame, h2, Levels.entries_cons, ho, List.map_cons,
      List.map_append, List.cons_append, List.nodup_cons] at hnd ⊢
    simpa using hnd.1
  | sell =>
    have h2 := hother .buy (by decide)
    simp only [OrderBook.levels] at hl hsame h2
    simp only [OrderBook.resting_ids, hl, hsame, h2, Levels.entries_cons, ho, List.map_cons,
      List.map_append, List.cons_append] at hnd ⊢
    rw [List.nodup_append] at hnd
    obtain ⟨_, h3, h4⟩ := hnd
    simp only [List.nodup_cons] at h3
    intro hmem
    simp only [List.mem_append] at hmem
    rcases hmem with hmem | hmem
    · exact h4 hmem (by simp)
    · exact h3.1 (by simpa using hmem)

theorem Seeded.erase_level {b : OrderBook} {order : Order} {opp : BookSide} {price : Int}
    {oq : OrderQueue} {rest : Levels} (h : Seeded b order)
    (hl : b.levels opp = (price, oq) :: rest) (ho : oq.orders = []) :
    Seeded (b.setLevels opp rest) order := by
  have ht : ∀ s, ((b.setLevels opp rest).levels s).tags.Sublist (b.levels s).tags := by
    intro s
    by_cases hs : s = opp
    · subst hs
      simp [hl, Levels.tags, ho]
    · rw [levels_setLevels_other _ _ hs]
  refine ⟨h.wf.shrink ?_ ht ?_ ?_ ?_, ?_, ?_⟩
  · intro s
    by_cases hs : s = opp
    · subst hs
      simp [hl]
    · rw [levels_setLevels_other _ _ hs]
  · intro s pq hpq
    by_cases hs : s = opp
    · subst hs
      rw [levels_setLevels_same] at hpq
      exact h.wf.nonempty s pq (by rw [hl]; simp [hpq])
    · rw [levels_setLevels_other _ _ hs] at hpq
      exact h.wf.nonempty s pq hpq
  · intro k; left; simp
  · simp
  · simpa using h.present
  · exact fun hm => h.absent (resting_ids_subset_of_tags ht hm)

theorem Seeded.trade {c : BookCtx} {order : Order} {opp : BookSide} {price : Int}
    {oq : OrderQueue} {rest : Levels} {front : Order} {tail : List Order} (r : Nat)
    (h : Seeded c.book order)
    (hl : c.book.levels opp = (price, oq) :: rest) (ho : oq.orders = front :: tail) :
    Seeded (execute_trade opp order price oq front tail rest c r).1.book order := by
  obtain ⟨e, he⟩ := h.present
  have hne : order.order_id ≠ front.order_id :=
    fun heq => h.absent (heq ▸ front_mem_resting_ids hl ho)
  have ht : ∀ s, ((execute_trade opp order price oq front tail rest c r).1.book.levels s).tags.Sublist
      (c.book.levels s).tags := by
    intro s
    by_cases hs : s = opp
    · subst hs
      rw [execute_trade_levels_same, hl]
      exact tags_after_trade_sublist price oq front tail rest r ho
    · rw [execute_trade_levels_other _ _ _ _ _ _ _ _ _ hs]
  have hlook : (execute_trade opp order price oq front tail rest c r).1.book.order_lookup
      = if front.quantity ≤ r then Function.update c.book.order_lookup front.order_id none
        else c.book.order_lookup := by
    rw [execute_trade_lookup, lookup_touch_present he]
  refine ⟨h.wf.shrink ?_ ht ?_ ?_ ?_, ?_, ?_⟩
  · intro s
    by_cases hs : s = opp
    · subst hs
      rw [execute_trade_levels_same, hl]
      rcases keys_levels_after_trade price oq front tail rest r with h1 | h1
      · rw [h1]; simp
      · rw [h1]; simp
    · rw [execute_trade_levels_other _ _ _ _ _ _ _ _ _ hs]
  · intro s pq hpq
    by_cases hs : s = opp
    · subst hs
      rw [execute_trade_levels_same] at hpq
      rcases nonempty_levels_after_trade price oq front tail rest r pq hpq with h1 | h1
      · exact h.wf.nonempty s pq (by rw [hl]; simp [h1])
      · exact h1
    · rw [execute_trade_levels_other _ _ _ _ _ _ _ _ _ hs] at hpq
      exact h.wf.nonempty s pq hpq
  · intro k
    rw [hlook]
    by_cases hq : front.quantity ≤ r
    · simp only [hq, if_true]
      by_cases hk : k = front.order_id
      · right
        subst hk
        refine ⟨by simp, ?_⟩
        refine front_not_resting_after h.wf.nodup hl ho ?_ ?_
        · rw [execute_trade_levels_same, entries_levels_after_trade]
          simp [hq]
        · intro s hs
          exact execute_trade_levels_other _ _ _ _ _ _ _ _ _ hs
      · left
        simp [Function.update_noteq hk]
    · left
      simp [hq]
  · simp
  · refine ⟨e, ?_⟩
    rw [hlook]
    split
    · rw [Function.update_noteq hne]; exact he
    · exact he
  · exact fun hm => h.absent (resting_ids_subset_of_tags ht hm)

theorem Seeded.sweep (opp : BookSide) (stop : Int → Bool) (order : Order) (fuel : Nat)
    (c : BookCtx) (r : Nat) (h : Seeded c.book order) :
    Seeded (sweep opp stop order fuel c r).1.book order := by
  refine sweep_invariant opp stop order (fun c _ => Seeded c.book order) ?_ ?_ fuel c r h
  · intro c r price oq rest hc _ hl _ ho
    exact hc.erase_level hl ho
  · intro c r price oq rest front tail hc _ hl _ ho
    exact hc.trade r hl ho


theorem sweep_zero (opp : BookSide) (stop : Int → Bool) (order : Order) (fuel : Nat)
    (c : BookCtx) : sweep opp stop order fuel c 0 = (c, 0) := by
  cases fuel <;> simp [sweep]

theorem sweep_fuel_cons (pq : Int × OrderQueue) (l : Levels) :
    sweep_fuel (pq :: l) = sweep_fuel l + pq.2.orders.length + 1 := by
  simp [sweep_fuel]; omega

theorem sweep_fuel_after_trade (price : Int) (oq : OrderQueue) (front : Order)
    (tail : List Order) (rest : Levels) (r : Nat) (ho : oq.orders = front :: tail)
    (hq : front.quantity ≤ r) :
    sweep_fuel (levels_after_trade price oq front tail rest r)
      < sweep_fuel ((price, oq) :: rest) := by
  have h0 : front.quantity - min r front.quantity = 0 := by omega
  rw [sweep_fuel_cons]
  unfold levels_after_trade
  simp only [h0, if_true, ho, List.length_cons]
  cases tail with
  | nil =>
    simp only [OrderQueue.pop, OrderQueue.update_quantity, OrderQueue.empty, List.isEmpty_nil,
      if_true, List.length_nil]
    omega
  | cons t ts =>
    simp only [OrderQueue.pop, OrderQueue.update_quantity, OrderQueue.empty, List.isEmpty_cons,
      Bool.false_eq_true, if_false, sweep_fuel_cons, List.length_cons]
    omega

/-- With the iteration bound `sweep_fuel`, or any larger one, the loop ends on its
own exit condition: nothing left to fill, no opposing level left, or a first
opposing level whose price stops the sweep. -/
theorem sweep_exit (opp : BookSide) (stop : Int → Bool) (order : Order) :
    ∀ fuel c r, sweep_fuel (c.book.levels opp) ≤ fuel →
      (sweep opp stop order fuel c r).2 = 0
      ∨ (sweep opp stop order fuel c r).1.book.levels opp = []
      ∨ ∃ p q rest, (sweep opp stop order fuel c r).1.book.levels opp = (p, q) :: rest
          ∧ stop p = true := by
  intro fuel
  induction fuel with
  | zero =>
    intro c r h
    simp [sweep_fuel] at h
  | succ n ih =>
    intro c r h
    unfold sweep
    by_cases hr : r = 0
    · simp [hr]
    · simp only [hr, if_false]
      cases hl : c.book.levels opp with
      | nil => simp [hl]
      | cons pq rest =>
        obtain ⟨price, oq⟩ := pq
        dsimp only
        by_cases hs : stop price = true
        · simp only [hs, if_true]
          exact Or.inr (Or.inr ⟨price, oq, rest, hl, hs⟩)
        · have hs' : stop price = false := by simpa using hs
          simp only [hs', Bool.false_eq_true, if_false]
          rw [hl, sweep_fuel_cons] at h
          cases ho : oq.orders with
          | nil =>
            dsimp only
            apply ih
            rw [levels_setLevels_same]
            omega
          | cons front tail =>
            dsimp only
            by_cases hq : front.quantity ≤ r
            · apply ih
              rw [execute_trade_levels_same]
              have := sweep_fuel_after_trade price oq front tail rest r ho hq
              rw [sweep_fuel_cons] at this
              omega
            · have h0 : (execute_trade opp order price oq front tail rest c r).2 = 0 := by
                rw [execute_trade_remaining]; omega
              rw [h0, sweep_zero]
              exact Or.inl rfl

theorem sweep_levels_other (opp : BookSide) (stop : Int → Bool) (order : Order) (fuel : Nat)
    (c : BookCtx) (r : Nat) {s : BookSide} (hs : s ≠ opp) :
    (sweep opp stop order fuel c r).1.book.levels s = c.book.levels s := by
  refine sweep_invariant opp stop order (fun c' _ => c'.book.levels s = c.book.levels s)
    ?_ ?_ fuel c r rfl
  · intro c' r' price oq rest h _ _ _ _
    dsimp only
    rw [levels_setLevels_other _ _ hs]
    exact h
  · intro c' r' price oq rest front tail h _ _ _ _
    rw [execute_trade_levels_other _ _ _ _ _ _ _ _ _ hs]
    exact h

theorem sweep_existing (opp : BookSide) (stop : Int → Bool) (order : Order) (fuel : Nat)
    (c : BookCtx) (r : Nat) :
    (sweep opp stop order fuel c r).1.book.existing_order_ids = c.book.existing_order_ids := by
  refine sweep_invariant opp stop order
    (fun c' _ => c'.book.existing_order_ids = c.book.existing_order_ids) ?_ ?_ fuel c r rfl
  · intro c' r' price oq rest h _ _ _ _
    simpa using h
  · intro c' r' price oq rest front tail h _ _ _ _
    simpa using h


/-! ## Consistency through the routines of a book -/

theorem WF.congr {b b' : OrderBook} (h : WF b)
    (h1 : b'.buy_orders = b.buy_orders) (h2 : b'.sell_orders = b.sell_orders)
    (h3 : b'.order_lookup = b.order_lookup)
    (h4 : b'.existing_order_ids = b.existing_order_ids) : WF b' := by
  have hl : ∀ s, b'.levels s = b.levels s := by
    intro s; cases s <;> simp [OrderBook.levels, h1, h2]
  have hr : b'.resting_ids = b.resting_ids := by simp [OrderBook.resting_ids, h1, h2]
  refine ⟨?_, ?_, ?_, ?_, ?_, ?_, ?_⟩
  · intro s; rw [hl]; exact h.sorted s
  · rw [h1, h2]; exact h.uncrossed
  · intro s; rw [hl]; exact h.nonempty s
  · intro s; rw [hl, h3]; exact h.resting s
  · rw [h3]; exact h.lookup_id
  · rw [h3, h4]; exact h.lookup_existing
  · rw [hr]; exact h.nodup

theorem Seeded.transfer {b b' : OrderBook} {order : Order} (h : Seeded b order)
    (h1 : b'.buy_orders = b.buy_orders) (h2 : b'.sell_orders = b.sell_orders)
    (h3 : b'.order_lookup = b.order_lookup)
    (h4 : b'.existing_order_ids = b.existing_order_ids) : Seeded b' order := by
  refine ⟨h.wf.congr h1 h2 h3 h4, ?_, ?_⟩
  · rw [h3]; exact h.present
  · have hr : b'.resting_ids = b.resting_ids := by simp [OrderBook.resting_ids, h1, h2]
    rw [hr]; exact h.absent

theorem limit_pending_levels (opp : BookSide) (crosses : Int → Bool) (c : BookCtx)
    (order : Order) (s : BookSide) :
    (limit_pending opp crosses c order).book.levels s = c.book.levels s := by
  unfold limit_pending
  split
  · dsimp only
    split <;> cases s <;> rfl
  · rfl

theorem limit_pending_existing (opp : BookSide) (crosses : Int → Bool) (c : BookCtx)
    (order : Order) :
    (limit_pending opp crosses c order).book.existing_order_ids = c.book.existing_order_ids := by
  unfold limit_pending
  split
  · dsimp only
    split <;> rfl
  · rfl

theorem limit_pending_lookup (opp : BookSide) (crosses : Int → Bool) (c : BookCtx)
    (order : Order) {e : Order} (he : c.book.order_lookup order.order_id = some e) :
    (limit_pending opp crosses c order).book.order_lookup = c.book.order_lookup := by
  unfold limit_pending
  split
  · dsimp only
    split
    · simp [lookup_touch_present he]
    · rfl
  · rfl

theorem Seeded.pending (opp : BookSide) (crosses : Int → Bool) {c : BookCtx} {order : Order}
    (h : Seeded c.book order) : Seeded (limit_pending opp crosses c order).book order := by
  obtain ⟨e, he⟩ := h.present
  exact h.transfer (limit_pending_levels opp crosses c order .buy)
    (limit_pending_levels opp crosses c order .sell)
    (limit_pending_lookup opp crosses c order he)
    (limit_pending_existing opp crosses c order)

theorem market_finish_levels (order : Order) (r : BookCtx × Nat) (s : BookSide) :
    (market_finish order r).book.levels s = r.1.book.levels s := by
  unfold market_finish
  split
  · cases s <;> rfl
  · rfl

theorem market_finish_existing (order : Order) (r : BookCtx × Nat) :
    (market_finish order r).book.existing_order_ids = r.1.book.existing_order_ids := by
  unfold market_finish
  split <;> rfl

theorem market_finish_lookup (order : Order) (r : BookCtx × Nat) {e : Order}
    (he : r.1.book.order_lookup order.order_id = some e) :
    (market_finish order r).book.order_lookup = r.1.book.order_lookup := by
  unfold market_finish
  split
  · simp [lookup_touch_present he]
  · rfl

theorem Seeded.after_market_finish {order : Order} {r : BookCtx × Nat} (h : Seeded r.1.book order) :
    Seeded (market_finish order r).book order := by
  obtain ⟨e, he⟩ := h.present
  exact h.transfer (market_finish_levels order r .buy) (market_finish_levels order r .sell)
    (market_finish_lookup order r he) (market_finish_existing order r)

theorem execute_market_order_wf {c : BookCtx} {order : Order} (h : Seeded c.book order) :
    WF (execute_market_order c order).book := by
  unfold execute_market_order execute_buy_market_order execute_sell_market_order
  split
  · exact (Seeded.after_market_finish (Seeded.sweep _ _ _ _ _ _ h)).wf
  · exact (Seeded.after_market_finish (Seeded.sweep _ _ _ _ _ _ h)).wf


theorem resting_ids_perm_add (b : OrderBook) (own : BookSide) (price : Int) (ro : Order)
    (lk : Nat → Option Order) :
    ({ (b.setLevels own (Levels.add own (b.levels own) price ro)) with
        order_lookup := lk } : OrderBook).resting_ids.Perm (ro.order_id :: b.resting_ids) := by
  cases own with
  | buy =>
    simp only [OrderBook.resting_ids, OrderBook.setLevels, OrderBook.levels]
    have h := Levels.entries_add_perm .buy b.buy_orders price ro
    have h2 := (h.append_right b.sell_orders.entries).map (fun po => po.2.order_id)
    simpa using h2
  | sell =>
    simp only [OrderBook.resting_ids, OrderBook.setLevels, OrderBook.levels]
    have h := Levels.entries_add_perm .sell b.sell_orders price ro
    have h2 := ((h.append_left b.buy_orders.entries).trans List.perm_middle).map
      (fun po => po.2.order_id)
    simpa using h2

theorem limit_rest_wf (own : BookSide) (order : Order) (r : BookCtx × Nat)
    (h : Seeded r.1.book order) {e : Order}
    (he : r.1.book.order_lookup order.order_id = some e)
    (hside : e.side = "BUY" ↔ own = BookSide.buy)
    (hbuy : own = BookSide.buy → r.2 > 0 → ∀ pa ∈ r.1.book.sell_orders.keys, order.price < pa)
    (hsell : own = BookSide.sell → r.2 > 0 → ∀ pb ∈ r.1.book.buy_orders.keys, pb < order.price) :
    WF (limit_rest own order r).book := by
  unfold limit_rest
  split
  case isFalse => exact h.wf
  case isTrue hr =>
    have hid : e.order_id = order.order_id := h.wf.lookup_id _ _ he
    rw [lookup_value_present he]
    dsimp only
    generalize hro : ({ e with quantity := r.2, price := order.price } : Order) = ro
    have hro_id : ro.order_id = order.order_id := by rw [← hro]; exact hid
    have hro_price : ro.price = order.price := by rw [← hro]
    have hro_side : ro.side = e.side := by rw [← hro]
    generalize hb' : ({ (r.1.book.setLevels own (Levels.add own (r.1.book.levels own) order.price ro)) with
        order_lookup := Function.update r.1.book.order_lookup order.order_id (some ro) } : OrderBook) = b'
    have hown : b'.levels own = Levels.add own (r.1.book.levels own) order.price ro := by
      rw [← hb']; cases own <;> rfl
    have hoth : ∀ s, s ≠ own → b'.levels s = r.1.book.levels s := by
      intro s hs; rw [← hb']; cases own <;> cases s <;> first | rfl | exact absurd rfl hs
    have hlk : b'.order_lookup = Function.update r.1.book.order_lookup order.order_id (some ro) := by
      rw [← hb']
    have hex : b'.existing_order_ids = r.1.book.existing_order_ids := by
      rw [← hb']; cases own <;> rfl
    have hperm : b'.resting_ids.Perm (order.order_id :: r.1.book.resting_ids) := by
      rw [← hb', ← hro_id]
      exact resting_ids_perm_add _ _ _ _ _
    refine ⟨?_, ?_, ?_, ?_, ?_, ?_, ?_⟩
    · intro s
      by_cases hs : s = own
      · subst hs; rw [hown]; exact Levels.sorted_add _ _ _ _ (h.wf.sorted _)
      · rw [hoth s hs]; exact h.wf.sorted s
    · intro pb hpb pa hpa
      cases own with
      | buy =>
        have h1 : b'.buy_orders = Levels.add .buy r.1.book.buy_orders order.price ro := hown
        have h2 : b'.sell_orders = r.1.book.sell_orders := hoth .sell (by decide)
        rw [h1] at hpb
        rw [h2] at hpa
        rcases (Levels.mem_keys_add _ _ _ _ _).1 hpb with rfl | hpb
        · exact hbuy rfl hr pa hpa
        · exact h.wf.uncrossed pb hpb pa hpa
      | sell =>
        have h1 : b'.sell_orders = Levels.add .sell r.1.book.sell_orders order.price ro := hown
        have h2 : b'.buy_orders = r.1.book.buy_orders := hoth .buy (by decide)
        rw [h1] at hpa
        rw [h2] at hpb
        rcases (Levels.mem_keys_add _ _ _ _ _).1 hpa with rfl | hpa
        · exact hsell rfl hr pb hpb
        · exact h.wf.uncrossed pb hpb pa hpa
    · intro s
      by_cases hs : s = own
      · subst hs; rw [hown]; exact Levels.nonempty_add _ _ _ _ (h.wf.nonempty _)
      · rw [hoth s hs]; exact h.wf.nonempty s
    · intro s po hpo
      have hold : po ∈ (r.1.book.levels s).entries →
          po.2.price = po.1 ∧ ∃ e', b'.order_lookup po.2.order_id = some e'
            ∧ (e'.side = "BUY" ↔ s = BookSide.buy) ∧ e'.price = po.1 := by
        intro hmem
        obtain ⟨h1, e', h2, h3, h4⟩ := h.wf.resting s po hmem
        have hne : po.2.order_id ≠ order.order_id := by
          intro heq
          exact h.absent (mem_resting_ids.2 ⟨s, po, hmem, heq⟩)
        exact ⟨h1, e', by rw [hlk, Function.update_noteq hne]; exact h2, h3, h4⟩
      by_cases hs : s = own
      · subst hs
        rw [hown] at hpo
        rcases List.mem_cons.1 ((Levels.entries_add_perm _ _ _ _).subset hpo) with rfl | hmem
        · refine ⟨hro_price, ro, ?_, ?_, hro_price⟩
          · rw [hlk, hro_id]; simp
          · rw [hro_side]; exact hside
        · exact hold hmem
      · rw [hoth s hs] at hpo
        exact hold hpo
    · intro k e' hk
      rw [hlk] at hk
      by_cases hkid : k = order.order_id
      · subst hkid
        simp only [Function.update_same, Option.some.injEq] at hk
        rw [← hk]; exact hro_id
      · rw [Function.update_noteq hkid] at hk
        exact h.wf.lookup_id k e' hk
    · intro k e' hk
      rw [hlk] at hk
      rw [hex]
      by_cases hkid : k = order.order_id
      · subst hkid
        exact h.wf.lookup_existing _ e he
      · rw [Function.update_noteq hkid] at hk
        exact h.wf.lookup_existing k e' hk
    · rw [hperm.nodup_iff, List.nodup_cons]
      exact ⟨h.absent, h.wf.nodup⟩


theorem sweep_taker_lookup (opp : BookSide) (stop : Int → Bool) (order : Order) (fuel : Nat)
    (c : BookCtx) (r : Nat) (h : Seeded c.book order) :
    (sweep opp stop order fuel c r).1.book.order_lookup order.order_id
      = c.book.order_lookup order.order_id := by
  have := sweep_invariant opp stop order
    (fun c' _ => Seeded c'.book order
      ∧ c'.book.order_lookup order.order_id = c.book.order_lookup order.order_id)
    ?_ ?_ fuel c r ⟨h, rfl⟩
  · exact this.2
  · intro c' r' price oq rest hc _ hl _ ho
    exact ⟨hc.1.erase_level hl ho, by simpa using hc.2⟩
  · intro c' r' price oq rest front tail hc _ hl _ ho
    refine ⟨hc.1.trade r' hl ho, ?_⟩
    obtain ⟨e, he⟩ := hc.1.present
    have hne : order.order_id ≠ front.order_id :=
      fun heq => hc.1.absent (heq ▸ front_mem_resting_ids hl ho)
    rw [execute_trade_lookup, lookup_touch_present he, ← hc.2]
    split
    · rw [Function.update_noteq hne]
    · rfl

theorem sweep_clear_buy (order : Order) (c : BookCtx) (r : Nat) (h : Seeded c.book order) :
    (sweep .sell (fun sell_price => decide (sell_price > order.price)) order
        (sweep_fuel c.book.sell_orders) c r).2 > 0 →
    ∀ pa ∈ (sweep .sell (fun sell_price => decide (sell_price > order.price)) order
        (sweep_fuel c.book.sell_orders) c r).1.book.sell_orders.keys, order.price < pa := by
  intro hr pa hpa
  have hwf := (Seeded.sweep .sell (fun sell_price => decide (sell_price > order.price)) order
    (sweep_fuel c.book.sell_orders) c r h).wf
  rcases sweep_exit .sell (fun sell_price => decide (sell_price > order.price)) order
    (sweep_fuel c.book.sell_orders) c r (le_refl _) with h0 | h0 | ⟨p, q, rest, h0, hstop⟩
  · omega
  · have : (sweep .sell (fun sell_price => decide (sell_price > order.price)) order
        (sweep_fuel c.book.sell_orders) c r).1.book.sell_orders = [] := h0
    rw [this] at hpa
    simp at hpa
  · have hs := hwf.sorted .sell
    rw [h0] at hs
    have h1 : (sweep .sell (fun sell_price => decide (sell_price > order.price)) order
        (sweep_fuel c.book.sell_orders) c r).1.book.sell_orders = (p, q) :: rest := h0
    rw [h1] at hpa
    simp only [Levels.sorted, Levels.keys_cons, List.pairwise_cons] at hs
    simp only [gt_iff_lt, decide_eq_true_eq] at hstop
    simp only [Levels.keys_cons, List.mem_cons] at hpa
    rcases hpa with rfl | hpa
    · exact hstop
    · have := hs.1 pa hpa
      simp only [BookSide.before, decide_eq_true_eq] at this
      omega

theorem sweep_clear_sell (order : Order) (c : BookCtx) (r : Nat) (h : Seeded c.book order) :
    (sweep .buy (fun buy_price => decide (buy_price < order.price)) order
        (sweep_fuel c.book.buy_orders) c r).2 > 0 →
    ∀ pb ∈ (sweep .buy (fun buy_price => decide (buy_price < order.price)) order
        (sweep_fuel c.book.buy_orders) c r).1.book.buy_orders.keys, pb < order.price := by
  intro hr pb hpb
  have hwf := (Seeded.sweep .buy (fun buy_price => decide (buy_price < order.price)) order
    (sweep_fuel c.book.buy_orders) c r h).wf
  rcases sweep_exit .buy (fun buy_price => decide (buy_price < order.price)) order
    (sweep_fuel c.book.buy_orders) c r (le_refl _) with h0 | h0 | ⟨p, q, rest, h0, hstop⟩
  · omega
  · have : (sweep .buy (fun buy_price => decide (buy_price < order.price)) order
        (sweep_fuel c.book.buy_orders) c r).1.book.buy_orders = [] := h0
    rw [this] at hpb
    simp at hpb
  · have hs := hwf.sorted .buy
    rw [h0] at hs
    have h1 : (sweep .buy (fun buy_price => decide (buy_price < order.price)) order
        (sweep_fuel c.book.buy_orders) c r).1.book.buy_orders = (p, q) :: rest := h0
    rw [h1] at hpb
    simp only [Levels.sorted, Levels.keys_cons, List.pairwise_cons] at hs
    simp only [decide_eq_true_eq] at hstop
    simp only [Levels.keys_cons, List.mem_cons] at hpb
    rcases hpb with rfl | hpb
    · exact hstop
    · have := hs.1 pb hpb
      simp only [BookSide.before, decide_eq_true_eq] at this
      omega

theorem execute_limit_order_wf {c : BookCtx} {order : Order} (h : Seeded c.book order)
    {e : Order} (he : c.book.order_lookup order.order_id = some e)
    (hside : e.side = order.side) : WF (execute_limit_order c order).book := by
  unfold execute_limit_order
  split
  case isTrue hb =>
    unfold execute_buy_limit_order
    dsimp only
    have h1 := Seeded.pending .sell (fun p => decide (p ≤ order.price)) h
    have hl1 := limit_pending_lookup .sell (fun p => decide (p ≤ order.price)) c order he
    refine limit_rest_wf .buy order _ (Seeded.sweep _ _ _ _ _ _ h1) (e := e) ?_ ?_ ?_ ?_
    · rw [sweep_taker_lookup _ _ _ _ _ _ h1, hl1]; exact he
    · simp [hside, hb]
    · intro _
      exact sweep_clear_buy order _ _ h1
    · intro hc; cases hc
  case isFalse hb =>
    unfold execute_sell_limit_order
    dsimp only
    have h1 := Seeded.pending .buy (fun p => decide (p ≥ order.price)) h
    have hl1 := limit_pending_lookup .buy (fun p => decide (p ≥ order.price)) c order he
    refine limit_rest_wf .sell order _ (Seeded.sweep _ _ _ _ _ _ h1) (e := e) ?_ ?_ ?_ ?_
    · rw [sweep_taker_lookup _ _ _ _ _ _ h1, hl1]; exact he
    · simp [hside, hb]
    · intro hc; cases hc
    · intro _
      exact sweep_clear_sell order _ _ h1


/-! ## Removal of an order from the book -/

theorem cancel_order_from_book_lookup (b : OrderBook) (o : Order) :
    (cancel_order_from_book b o).order_lookup = b.order_lookup := by
  unfold cancel_order_from_book; split <;> rfl

theorem cancel_order_from_book_existing (b : OrderBook) (o : Order) :
    (cancel_order_from_book b o).existing_order_ids = b.existing_order_ids := by
  unfold cancel_order_from_book; split <;> rfl

theorem cancel_order_from_book_total_executed (b : OrderBook) (o : Order) :
    (cancel_order_from_book b o).order_total_executed = b.order_total_executed := by
  unfold cancel_order_from_book; split <;> rfl

theorem cancel_order_from_book_results (b : OrderBook) (o : Order) :
    (cancel_order_from_book b o).results = b.results := by
  unfold cancel_order_from_book; split <;> rfl

theorem cancel_order_from_book_keys (b : OrderBook) (o : Order) (s : BookSide) :
    ((cancel_order_from_book b o).levels s).keys.Sublist (b.levels s).keys := by
  unfold cancel_order_from_book
  split <;> cases s <;>
    first
    | exact List.Sublist.refl _
    | exact Levels.keys_remove_sublist _ _ _

theorem cancel_order_from_book_nonempty (b : OrderBook) (o : Order) (s : BookSide)
    (h : ∀ pq ∈ b.levels s, pq.2.orders ≠ []) :
    ∀ pq ∈ (cancel_order_from_book b o).levels s, pq.2.orders ≠ [] := by
  unfold cancel_order_from_book
  split <;> cases s <;>
    first
    | exact h
    | exact Levels.nonempty_remove _ _ _ h

/-- In a consistent book, `cancel_order_from_book` applied to the lookup entry of
an order removes exactly the resting copies of that order: on each side the other
resting orders stay, with their levels and in their order. -/
theorem cancel_order_from_book_entries {b : OrderBook} (h : WF b) {id : Nat} {stored : Order}
    (he : b.order_lookup id = some stored) (s : BookSide) :
    ((cancel_order_from_book b stored).levels s).entries
      = (b.levels s).entries.filter (fun x => decide (x.2.order_id ≠ id)) := by
  have hid : stored.order_id = id := h.lookup_id _ _ he
  have hat : ∀ t, ∀ x ∈ (b.levels t).entries, x.2.order_id = id →
      x.1 = stored.price ∧ (stored.side = "BUY" ↔ t = BookSide.buy) := by
    intro t x hx hxid
    obtain ⟨_, e', h2, h3, h4⟩ := h.resting t x hx
    rw [hxid, he] at h2
    cases h2
    exact ⟨h4.symm, h3⟩
  have hunch : ∀ t, ¬ (stored.side = "BUY" ↔ t = BookSide.buy) →
      (b.levels t).entries.filter (fun x => decide (x.2.order_id ≠ id)) = (b.levels t).entries := by
    intro t ht
    rw [List.filter_eq_self]
    intro x hx
    have : x.2.order_id ≠ id := fun hxid => ht (hat t x hx hxid).2
    simpa using this
  unfold cancel_order_from_book
  split
  case isTrue hb =>
    cases s with
    | buy =>
      show (Levels.remove b.buy_orders stored.price stored.order_id).entries = _
      rw [hid]
      exact Levels.entries_remove _ _ _ (Levels.sorted_keys_nodup (h.sorted .buy))
        (fun x hx hxid => (hat .buy x hx hxid).1)
    | sell =>
      show b.sell_orders.entries = _
      exact (hunch .sell (by simp [hb])).symm
  case isFalse hb =>
    cases s with
    | buy =>
      show b.buy_orders.entries = _
      exact (hunch .buy (by simp [hb])).symm
    | sell =>
      show (Levels.remove b.sell_orders stored.price stored.order_id).entries = _
      rw [hid]
      exact Levels.entries_remove _ _ _ (Levels.sorted_keys_nodup (h.sorted .sell))
        (fun x hx hxid => (hat .sell x hx hxid).1)

theorem cancel_order_from_book_tags {b : OrderBook} (h : WF b) {id : Nat} {stored : Order}
    (he : b.order_lookup id = some stored) (s : BookSide) :
    ((cancel_order_from_book b stored).levels s).tags.Sublist (b.levels s).tags := by
  unfold Levels.tags
  rw [cancel_order_from_book_entries h he s]
  exact (List.filter_sublist _).map _

theorem cancel_order_from_book_absent {b : OrderBook} (h : WF b) {id : Nat} {stored : Order}
    (he : b.order_lookup id = some stored) :
    id ∉ (cancel_order_from_book b stored).resting_ids := by
  intro hm
  obtain ⟨s, x, hx, hxid⟩ := mem_resting_ids.1 hm
  rw [cancel_order_from_book_entries h he s, List.mem_filter] at hx
  simp at hx
  exact hx.2 hxid

theorem cancel_order_from_book_wf {b : OrderBook} (h : WF b) {id : Nat} {stored : Order}
    (he : b.order_lookup id = some stored) : WF (cancel_order_from_book b stored) :=
  h.shrink (cancel_order_from_book_keys b stored) (cancel_order_from_book_tags h he)
    (fun s => cancel_order_from_book_nonempty b stored s (h.nonempty s))
    (fun k => Or.inl (by rw [cancel_order_from_book_lookup]))
    (cancel_order_from_book_existing b stored)

/-! ## Consistency through the three operations -/

/-- Storing a record under the id of an order that is not resting keeps the book
consistent and leaves it ready for the matching routines. -/
theorem Seeded.seed {b : OrderBook} (h : WF b) {id : Nat} (habs : id ∉ b.resting_ids)
    (o : Order) (ho : o.order_id = id)
    (ex : Nat → Option Bool) (ote : Nat → Option Nat)
    (hex1 : ex id ≠ none) (hex2 : ∀ k, k ≠ id → ex k = b.existing_order_ids k)
    (order : Order) (hoid : order.order_id = id) :
    Seeded { b with
      existing_order_ids := ex, order_total_executed := ote,
      order_lookup := Function.update b.order_lookup id (some o) } order := by
  refine ⟨⟨h.sorted, h.uncrossed, h.nonempty, ?_, ?_, ?_, h.nodup⟩, ?_, ?_⟩
  · intro s po hpo
    obtain ⟨h1, e', h2, h3, h4⟩ := h.resting s po hpo
    have hne : po.2.order_id ≠ id := fun heq => habs (mem_resting_ids.2 ⟨s, po, hpo, heq⟩)
    exact ⟨h1, e', by simpa [Function.update_noteq hne] using h2, h3, h4⟩
  · intro k e' hk
    by_cases hkid : k = id
    · subst hkid
      simp only [Function.update_same, Option.some.injEq] at hk
      rw [← hk]; exact ho
    · simp only [Function.update_noteq hkid] at hk
      exact h.lookup_id k e' hk
  · intro k e' hk
    by_cases hkid : k = id
    · subst hkid; exact hex1
    · simp only [Function.update_noteq hkid] at hk
      simp only [hex2 k hkid]
      exact h.lookup_existing k e' hk
  · refine ⟨o, ?_⟩
    show Function.update b.order_lookup id (some o) order.order_id = some o
    rw [hoid, Function.update_same]
  · rw [hoid]; exact habs

theorem not_resting_of_not_existing {b : OrderBook} (h : WF b) {id : Nat}
    (hx : b.existing_order_ids id = none) : id ∉ b.resting_ids := by
  intro hm
  obtain ⟨s, x, hx1, hxid⟩ := mem_resting_ids.1 hm
  obtain ⟨_, e', h2, _, _⟩ := h.resting s x hx1
  rw [hxid] at h2
  exact h.lookup_existing id e' h2 hx

theorem add_order_wf {c : BookCtx} {order : Order} (h : WF c.book)
    (hnew : order.action = "NEW") : WF (add_order c order).book := by
  unfold add_order
  split
  case isTrue hd => exact h.congr rfl rfl rfl rfl
  case isFalse hd =>
    have hx : c.book.existing_order_ids order.order_id = none := by
      cases hv : c.book.existing_order_ids order.order_id with
      | none => rfl
      | some v => exact absurd ⟨hnew, by simp [hv]⟩ hd
    dsimp only
    have hseed := Seeded.seed h (not_resting_of_not_existing h hx)
      { order with status := "PENDING", executed_quantity := 0, execution_price := 0,
                   counterparty_id := 0 } rfl
      (Function.update c.book.existing_order_ids order.order_id (some true))
      (Function.update c.book.order_total_executed order.order_id (some 0))
      (by simp) (fun k hk => by simp [Function.update_noteq hk])
      { order with status := "PENDING", executed_quantity := 0, execution_price := 0,
                   counterparty_id := 0 } rfl
    split
    · exact execute_market_order_wf hseed
    · split
      · exact execute_limit_order_wf hseed (Function.update_same _ _ _) rfl
      · exact hseed.wf


theorem modify_order_wf {c : BookCtx} {request : Order} (h : WF c.book) :
    WF (modify_order c request).book := by
  unfold modify_order
  split
  case h_1 hnone => exact h.congr rfl rfl rfl rfl
  case h_2 stored he =>
    dsimp only
    have hid : stored.order_id = request.order_id := h.lookup_id _ _ he
    have hwf0 := cancel_order_from_book_wf h he
    have habs := cancel_order_from_book_absent h he
    have hex : (cancel_order_from_book c.book stored).existing_order_ids request.order_id ≠ none := by
      rw [cancel_order_from_book_existing]
      exact h.lookup_existing _ _ he
    have hseed := fun (order : Order) (hoid : order.order_id = request.order_id) =>
      Seeded.seed hwf0 habs
        { stored with quantity := request.quantity, price := request.price } hid
        (cancel_order_from_book c.book stored).existing_order_ids
        (Function.update (cancel_order_from_book c.book stored).order_total_executed
          request.order_id
          (some (((cancel_order_from_book c.book stored).order_total_executed
            request.order_id).getD 0)))
        hex (fun _ _ => rfl) order hoid
    split
    · split
      · exact execute_market_order_wf (hseed _ hid)
      · split
        · refine execute_limit_order_wf (hseed _ hid)
            (e := { stored with quantity := request.quantity, price := request.price }) ?_ rfl
          show Function.update _ request.order_id _ stored.order_id = _
          rw [hid, Function.update_same]
        · exact (hseed stored hid).wf
    · exact (hseed stored hid).wf.congr rfl rfl rfl rfl

theorem cancel_order_wf {c : BookCtx} {request : Order} (h : WF c.book) :
    WF (cancel_order c request).book := by
  unfold cancel_order
  split
  case h_1 hnone => exact h.congr rfl rfl rfl rfl
  case h_2 stored he =>
    dsimp only
    have hwf0 := cancel_order_from_book_wf h he
    have habs := cancel_order_from_book_absent h he
    refine hwf0.shrink (fun s => by cases s <;> exact List.Sublist.refl _)
      (fun s => by cases s <;> exact List.Sublist.refl _)
      (fun s => by
        cases s
        · exact hwf0.nonempty .buy
        · exact hwf0.nonempty .sell) ?_ rfl
    intro k
    by_cases hk : k = request.order_id
    · right
      subst hk
      exact ⟨by simp, habs⟩
    · left
      simp [Function.update_noteq hk]

theorem OrderBook.new_wf : WF OrderBook.new := by
  refine ⟨?_, ?_, ?_, ?_, ?_, ?_, ?_⟩
  · intro s; cases s <;> simp [OrderBook.new, OrderBook.levels, Levels.sorted]
  · simp [OrderBook.new]
  · intro s; cases s <;> simp [OrderBook.new, OrderBook.levels]
  · intro s; cases s <;> simp [OrderBook.new, OrderBook.levels]
  · simp [OrderBook.new]
  · simp [OrderBook.new]
  · simp [OrderBook.new, OrderBook.resting_ids]

/-! ## The engine -/

theorem books_get_wf {bs : List (String × OrderBook)} (h : ∀ kb ∈ bs, WF kb.2) (k : String) :
    WF (books_get bs k) := by
  induction bs with
  | nil => exact OrderBook.new_wf
  | cons kb bs ih =>
    obtain ⟨k0, b0⟩ := kb
    unfold books_get
    split
    · exact h (k0, b0) (by simp)
    · exact ih (fun x hx => h x (by simp [hx]))

theorem books_set_wf {bs : List (String × OrderBook)} (h : ∀ kb ∈ bs, WF kb.2) (k : String)
    {b : OrderBook} (hb : WF b) : ∀ kb ∈ books_set bs k b, WF kb.2 := by
  induction bs with
  | nil => simpa [books_set] using hb
  | cons kb bs ih =>
    obtain ⟨k0, b0⟩ := kb
    unfold books_set
    split
    · intro x hx
      simp only [List.mem_cons] at hx
      rcases hx with rfl | hx
      · exact hb
      · exact h x (by simp [hx])
    · intro x hx
      simp only [List.mem_cons] at hx
      rcases hx with rfl | hx
      · exact h (k0, b0) (by simp)
      · exact ih (fun y hy => h y (by simp [hy])) x hx

@[simp] theorem books_get_set_same (bs : List (String × OrderBook)) (k : String) (b : OrderBook) :
    books_get (books_set bs k b) k = b := by
  induction bs with
  | nil => simp [books_set, books_get]
  | cons kb bs ih =>
    obtain ⟨k0, b0⟩ := kb
    unfold books_set
    split
    · rename_i h; simp [books_get, h]
    · rename_i h; simp [books_get, h, ih]

theorem books_get_set_other (bs : List (String × OrderBook)) {k k' : String} (b : OrderBook)
    (hk : k' ≠ k) : books_get (books_set bs k b) k' = books_get bs k' := by
  induction bs with
  | nil => simp [books_set, books_get, Ne.symm hk]
  | cons kb bs ih =>
    obtain ⟨k0, b0⟩ := kb
    unfold books_set
    split
    · rename_i h
      subst h
      simp [books_get, Ne.symm hk]
    · rename_i h
      simp only [books_get, ih]

theorem process_order_wf {w : World} (h : EngineWF w.engine) (order : Order) :
    EngineWF (process_order w order).engine := by
  have hb := books_get_wf h order.instrument
  unfold process_order
  dsimp only
  split
  · exact books_set_wf h _ (hb.congr rfl rfl rfl rfl)
  · refine books_set_wf h _ ?_
    split
    · rename_i hnew; exact add_order_wf hb hnew
    · split
      · exact modify_order_wf hb
      · split
        · exact cancel_order_wf hb
        · exact hb

theorem run_wf {w : World} (h : EngineWF w.engine) (inputs : List Order) :
    EngineWF (run w inputs).engine := by
  induction inputs generalizing w with
  | nil => exact h
  | cons o rest ih => exact ih (process_order_wf h o)

theorem new_engine_wf (s : Statics) : EngineWF (MatchingEngine.new s).engine := by
  intro kb hkb
  simp [MatchingEngine.new] at hkb

/-- Every book of an engine run from its construction is consistent. -/
theorem reachable_wf (s : Statics) (inputs : List Order) (instrument : String) :
    WF (books_get (run (MatchingEngine.new s) inputs).engine.order_books instrument) :=
  books_get_wf (run_wf (new_engine_wf s) inputs) instrument


/-! ## The events of a sweep -/

@[simp] theorem pairs_flat_nil : pairs_flat [] = [] := rfl

theorem pairs_flat_append (ps qs : List (Order × Order)) :
    pairs_flat (ps ++ qs) = pairs_flat ps ++ pairs_flat qs := by
  simp [pairs_flat]

theorem pairs_flat_singleton (tm : Order × Order) : pairs_flat [tm] = [tm.1, tm.2] := by
  simp [pairs_flat]

theorem trade_agree {c : BookCtx} {order : Order} (h : Seeded c.book order) (price : Int)
    (front : Order) (r : Nat) :
    Agree (taker_execution order price front c r) (maker_execution order price front c r)
    ∧ (taker_execution order price front c r).order_id = order.order_id := by
  obtain ⟨e, he⟩ := h.present
  have hid : e.order_id = order.order_id := h.wf.lookup_id _ _ he
  simp [Agree, taker_execution, maker_execution, lookup_value_present he, hid]

/-- What one sweep appends to the result log, for an order whose record is in the
lookup and which is not resting: the events of its trades, taker then maker, which
agree pairwise; the makers are, in order, the first resting orders of the consumed
side in priority order, each trade being priced at the level of its maker; no
trade is made at a price that stops the sweep. -/
theorem sweep_trace (opp : BookSide) (stop : Int → Bool) (order : Order) (fuel : Nat)
    (c : BookCtx) (r : Nat) (h : Seeded c.book order) :
    ∃ ps : List (Order × Order),
      (sweep opp stop order fuel c r).1.book.results = c.book.results ++ pairs_flat ps
      ∧ (ps.map trade_key) <+: (c.book.levels opp).entries.map maker_key
      ∧ ∀ tm ∈ ps, IsTrade order tm ∧ Agree tm.1 tm.2 ∧ tm.1.order_id = order.order_id
          ∧ stop tm.2.execution_price = false := by
  have key := sweep_invariant opp stop order
    (fun c' r' => Seeded c'.book order ∧ ∃ ps : List (Order × Order),
      c'.book.results = c.book.results ++ pairs_flat ps
      ∧ (ps.map trade_key) <+: (c.book.levels opp).entries.map maker_key
      ∧ (r' ≠ 0 → ps.map trade_key ++ (c'.book.levels opp).entries.map maker_key
          = (c.book.levels opp).entries.map maker_key)
      ∧ ∀ tm ∈ ps, IsTrade order tm ∧ Agree tm.1 tm.2 ∧ tm.1.order_id = order.order_id
          ∧ stop tm.2.execution_price = false)
    ?_ ?_ fuel c r ⟨h, [], by simp, by simp, by simp, by simp⟩
  · obtain ⟨_, ps, h1, h2, _, h4⟩ := key
    exact ⟨ps, h1, h2, h4⟩
  · intro c' r' price oq rest hc hr hl _ ho
    obtain ⟨hs, ps, h1, h2, h3, h4⟩ := hc
    refine ⟨hs.erase_level hl ho, ps, by simpa using h1, h2, ?_, h4⟩
    intro hr'
    have := h3 hr'
    rw [hl] at this
    simpa [ho] using this
  · intro c' r' price oq rest front tail hc hr hl hstop ho
    obtain ⟨hs, ps, h1, h2, h3, h4⟩ := hc
    have h3' := h3 hr
    rw [hl] at h3'
    simp only [Levels.entries_cons, ho, List.map_cons, List.map_append, List.map_map] at h3'
    have hkey : trade_key (taker_execution order price front c' r',
        maker_execution order price front c' r') = (price, front.order_id) := by
      simp [trade_key, maker_execution]
    refine ⟨hs.trade r' hl ho,
      ps ++ [(taker_execution order price front c' r', maker_execution order price front c' r')],
      ?_, ?_, ?_, ?_⟩
    · rw [execute_trade_results, h1, pairs_flat_append, pairs_flat_singleton, List.append_assoc]
    · rw [← h3', List.map_append, List.map_singleton, hkey]
      exact (List.prefix_append_right_inj _).2 ⟨_, rfl⟩
    · intro hr''
      rw [execute_trade_remaining] at hr''
      have hq : front.quantity ≤ r' := by omega
      rw [execute_trade_levels_same, entries_levels_after_trade, if_pos hq, ← h3',
        List.map_append, List.map_singleton, hkey]
      simp [maker_key, Function.comp_def]
    · intro tm htm
      rcases List.mem_append.1 htm with htm | htm
      · exact h4 tm htm
      · simp only [List.mem_singleton] at htm
        subst htm
        refine ⟨⟨price, front, c', r', rfl, rfl⟩, (trade_agree hs price front r').1,
          (trade_agree hs price front r').2, ?_⟩
        simpa [maker_execution] using hstop


theorem limit_pending_results (opp : BookSide) (crosses : Int → Bool) (c : BookCtx)
    (order : Order) :
    ∃ pre, (limit_pending opp crosses c order).book.results = c.book.results ++ pre
      ∧ pre.length ≤ 1 ∧ ∀ e ∈ pre, NoTrade e := by
  unfold limit_pending
  split
  · dsimp only
    split
    · exact ⟨[_], rfl, by simp, by simp [NoTrade]⟩
    · exact ⟨[], by simp, by simp, by simp⟩
  · exact ⟨[], by simp, by simp, by simp⟩

theorem market_finish_results (order : Order) (r : BookCtx × Nat) :
    ∃ post, (market_finish order r).book.results = r.1.book.results ++ post
      ∧ post.length ≤ 1 ∧ ∀ e ∈ post, NoTrade e := by
  unfold market_finish
  split
  · exact ⟨[_], rfl, by simp, by simp [NoTrade]⟩
  · exact ⟨[], by simp, by simp, by simp⟩

theorem limit_rest_results (own : BookSide) (order : Order) (r : BookCtx × Nat) :
    (limit_rest own order r).book.results = r.1.book.results := by
  unfold limit_rest
  split
  · cases own <;> rfl
  · rfl

theorem limit_rest_levels_other (own : BookSide) (order : Order) (r : BookCtx × Nat)
    {s : BookSide} (hs : s ≠ own) :
    (limit_rest own order r).book.levels s = r.1.book.levels s := by
  unfold limit_rest
  split
  · cases own <;> cases s <;> first | rfl | exact absurd rfl hs
  · rfl

theorem limit_rest_existing (own : BookSide) (order : Order) (r : BookCtx × Nat) :
    (limit_rest own order r).book.existing_order_ids = r.1.book.existing_order_ids := by
  unfold limit_rest
  split
  · cases own <;> rfl
  · rfl

/-- Events of a MARKET routine consuming side `opp`. -/
theorem market_trace (opp : BookSide) (order : Order) (fuel : Nat) (c : BookCtx)
    (h : Seeded c.book order) :
    ∃ ps post,
      TradeLog c.book.results
        (market_finish order (sweep opp (fun _ => false) order fuel c order.quantity)).book.results
        [] ps post
      ∧ (ps.map trade_key) <+: (c.book.levels opp).entries.map maker_key
      ∧ ∀ tm ∈ ps, IsTrade order tm ∧ Agree tm.1 tm.2 ∧ tm.1.order_id = order.order_id := by
  obtain ⟨ps, h1, h2, h3⟩ := sweep_trace opp (fun _ => false) order fuel c order.quantity h
  obtain ⟨post, h4, h5, h6⟩ :=
    market_finish_results order (sweep opp (fun _ => false) order fuel c order.quantity)
  refine ⟨ps, post, ⟨?_, by simp, h5, by simpa using h6⟩, h2,
    fun tm htm => ⟨(h3 tm htm).1, (h3 tm htm).2.1, (h3 tm htm).2.2.1⟩⟩
  rw [h4, h1]
  simp

/-- Events of a LIMIT routine of side `own` consuming side `opp`. -/
theorem limit_trace (own opp : BookSide) (crosses stop : Int → Bool) (order : Order)
    (fuel : Nat) (c : BookCtx) (h : Seeded c.book order) :
    ∃ pre ps,
      TradeLog c.book.results
        (limit_rest own order
          (sweep opp stop order fuel (limit_pending opp crosses c order) order.quantity)).book.results
        pre ps []
      ∧ (ps.map trade_key) <+: (c.book.levels opp).entries.map maker_key
      ∧ ∀ tm ∈ ps, IsTrade order tm ∧ Agree tm.1 tm.2 ∧ tm.1.order_id = order.order_id
          ∧ stop tm.2.execution_price = false := by
  obtain ⟨pre, h4, h5, h6⟩ := limit_pending_results opp crosses c order
  obtain ⟨ps, h1, h2, h3⟩ := sweep_trace opp stop order fuel
    (limit_pending opp crosses c order) order.quantity (Seeded.pending opp crosses h)
  rw [limit_pending_levels] at h2
  refine ⟨pre, ps, ⟨?_, h5, by simp, by simpa using h6⟩, h2, h3⟩
  rw [limit_rest_results, h1, h4]
  simp

theorem Levels.entries_keys_sorted {s : BookSide} {l : Levels} (h : Levels.sorted s l) :
    (l.entries.map Prod.fst).Pairwise (fun a b => s.before b a = false) := by
  induction l with
  | nil => simp
  | cons pq l ih =>
    unfold Levels.sorted at h ih
    simp only [Levels.keys_cons, List.pairwise_cons] at h
    simp only [Levels.entries_cons, List.map_append, List.map_map, List.pairwise_append]
    refine ⟨?_, ih h.2, ?_⟩
    · rw [List.pairwise_map]
      exact List.pairwise_of_forall (fun _ _ => s.before_irrefl _)
    · intro a ha b hb
      simp only [List.mem_map, Function.comp] at ha
      obtain ⟨o, _, rfl⟩ := ha
      obtain ⟨x, hx, rfl⟩ := List.mem_map.1 hb
      have := h.1 x.1 (Levels.entries_key_mem hx)
      cases s <;> simp [BookSide.before] at this ⊢ <;> omega

theorem trade_prices_monotone {s : BookSide} {l : Levels} (h : Levels.sorted s l)
    {ps : List (Order × Order)} (hp : (ps.map trade_key) <+: l.entries.map maker_key) :
    (ps.map (fun tm => tm.2.execution_price)).Pairwise (fun a b => s.before b a = false) := by
  have h1 : (ps.map trade_key).map Prod.fst <+: (l.entries.map maker_key).map Prod.fst :=
    hp.map _
  simp only [List.map_map] at h1
  have h2 : (Prod.fst ∘ maker_key) = (Prod.fst : Int × Order → Int) := rfl
  have h3 : (Prod.fst ∘ trade_key) = (fun tm : Order × Order => tm.2.execution_price) := rfl
  rw [h2, h3] at h1
  exact List.Pairwise.sublist h1.sublist (Levels.entries_keys_sorted h)


theorem sweep_stop_levels (opp : BookSide) (stop : Int → Bool) (order : Order) (fuel : Nat)
    (c : BookCtx) (r : Nat) :
    ((sweep opp stop order fuel c r).1.book.levels opp).filter (fun pq => stop pq.1)
      = (c.book.levels opp).filter (fun pq => stop pq.1) := by
  refine sweep_invariant opp stop order
    (fun c' _ => (c'.book.levels opp).filter (fun pq => stop pq.1)
      = (c.book.levels opp).filter (fun pq => stop pq.1)) ?_ ?_ fuel c r rfl
  · intro c' r' price oq rest h _ hl hs _
    dsimp only
    rw [levels_setLevels_same, ← h, hl]
    simp [hs]
  · intro c' r' price oq rest front tail h _ hl hs _
    rw [execute_trade_levels_same, ← h, hl]
    obtain ⟨q, hq⟩ := levels_after_trade_shape price oq front tail rest r'
    rw [hq]
    split <;> simp [hs]

theorem limit_rest_absent (own : BookSide) (order : Order) (r : BookCtx × Nat)
    (habs : order.order_id ∉ r.1.book.resting_ids)
    (hin : order.order_id ∈ (limit_rest own order r).book.resting_ids) : r.2 > 0 := by
  by_contra hr
  unfold limit_rest at hin
  rw [if_neg hr] at hin
  exact habs hin

theorem two_asks_seeded (o : Order) (ho : o.order_id = 3) :
    Seeded (two_asks_ctx o).book o :=
  Seeded.seed (reachable_wf Statics.initial two_asks "AAPL") (by decide) o ho
    (Function.update two_asks_book.existing_order_ids 3 (some true))
    (Function.update two_asks_book.order_total_executed 3 (some 0))
    (by simp) (fun k hk => Function.update_noteq hk _ _) o ho

/-- C1: every trade of the four matching routines appends exactly two events, the
taker's then the maker's, which agree on executed quantity, execution price and
timestamp and name each other as counterparty; what a routine appends is made of
such pairs and of at most one event without trade (PENDING first for a LIMIT
order, REJECTED last for a MARKET order). -/
theorem trade_events_agree (c : BookCtx) (order : Order) (h : Seeded c.book order) :
    (∀ opp price oq front tail rest r,
      (execute_trade opp order price oq front tail rest c r).1.book.results
        = c.book.results
          ++ [taker_execution order price front c r, maker_execution order price front c r]
      ∧ Agree (taker_execution order price front c r) (maker_execution order price front c r))
    ∧ (∃ ps post,
        TradeLog c.book.results (execute_buy_market_order c order).book.results [] ps post
        ∧ ∀ tm ∈ ps, IsTrade order tm ∧ Agree tm.1 tm.2)
    ∧ (∃ ps post,
        TradeLog c.book.results (execute_sell_market_order c order).book.results [] ps post
        ∧ ∀ tm ∈ ps, IsTrade order tm ∧ Agree tm.1 tm.2)
    ∧ (∃ pre ps,
        TradeLog c.book.results (execute_buy_limit_order c order).book.results pre ps []
        ∧ ∀ tm ∈ ps, IsTrade order tm ∧ Agree tm.1 tm.2)
    ∧ (∃ pre ps,
        TradeLog c.book.results (execute_sell_limit_order c order).book.results pre ps []
        ∧ ∀ tm ∈ ps, IsTrade order tm ∧ Agree tm.1 tm.2) := by
  refine ⟨fun opp price oq front tail rest r =>
    ⟨execute_trade_results _ _ _ _ _ _ _ _ _, (trade_agree h price front r).1⟩, ?_, ?_, ?_, ?_⟩
  · obtain ⟨ps, post, h1, _, h3⟩ := market_trace .sell order (sweep_fuel c.book.sell_orders) c h
    exact ⟨ps, post, h1, fun tm htm => ⟨(h3 tm htm).1, (h3 tm htm).2.1⟩⟩
  · obtain ⟨ps, post, h1, _, h3⟩ := market_trace .buy order (sweep_fuel c.book.buy_orders) c h
    exact ⟨ps, post, h1, fun tm htm => ⟨(h3 tm htm).1, (h3 tm htm).2.1⟩⟩
  · obtain ⟨pre, ps, h1, _, h3⟩ := limit_trace .buy .sell (fun p => decide (p ≤ order.price))
      (fun sell_price => decide (sell_price > order.price)) order
      (sweep_fuel (limit_pending .sell (fun p => decide (p ≤ order.price)) c order).book.sell_orders)
      c h
    exact ⟨pre, ps, h1, fun tm htm => ⟨(h3 tm htm).1, (h3 tm htm).2.1⟩⟩
  · obtain ⟨pre, ps, h1, _, h3⟩ := limit_trace .sell .buy (fun p => decide (p ≥ order.price))
      (fun buy_price => decide (buy_price < order.price)) order
      (sweep_fuel (limit_pending .buy (fun p => decide (p ≥ order.price)) c order).book.buy_orders)
      c h
    exact ⟨pre, ps, h1, fun tm htm => ⟨(h3 tm htm).1, (h3 tm htm).2.1⟩⟩

/-- Instance of C1: a BUY MARKET order of 50 entering a book with asks 30 at
100.00 and 40 at 100.05. -/
theorem trade_events_agree_witness :
    Seeded (two_asks_ctx market_taker).book market_taker
    ∧ ∃ ps post,
        TradeLog (two_asks_ctx market_taker).book.results
          (execute_buy_market_order (two_asks_ctx market_taker) market_taker).book.results
          [] ps post
        ∧ ∀ tm ∈ ps, IsTrade market_taker tm ∧ Agree tm.1 tm.2 :=
  ⟨two_asks_seeded market_taker rfl,
    (trade_events_agree (two_asks_ctx market_taker) market_taker
      (two_asks_seeded market_taker rfl)).2.1⟩


/-- Instance of C7: a second NEW with id 1 on a book where id 1 is resting. -/
theorem add_order_duplicate_rejected_witness :
    (mk_order 1300 1 "AAPL" "BUY" "LIMIT" 200 15020 "NEW").action = "NEW"
    ∧ two_asks_book.existing_order_ids 1 ≠ none
    ∧ (add_order ⟨two_asks_book, 1100⟩
        (mk_order 1300 1 "AAPL" "BUY" "LIMIT" 200 15020 "NEW")).book.results
      = two_asks_book.results
        ++ [{ mk_order 1300 1 "AAPL" "BUY" "LIMIT" 200 15020 "NEW" with status := "REJECTED" }] :=
  ⟨rfl, by decide,
    (add_order_duplicate_rejected ⟨two_asks_book, 1100⟩
      (mk_order 1300 1 "AAPL" "BUY" "LIMIT" 200 15020 "NEW") rfl (by decide)).1⟩

/-- Instance of C10: a CANCEL and a MODIFY for id 99, which was never sent. -/
theorem unknown_id_rejected_witness :
    two_asks_book.order_lookup 99 = none
    ∧ (cancel_order ⟨two_asks_book, 1100⟩
        (mk_order 1300 99 "AAPL" "BUY" "LIMIT" 10 0 "CANCEL")).book.results
      = two_asks_book.results
        ++ [{ mk_order 1300 99 "AAPL" "BUY" "LIMIT" 10 0 "CANCEL" with status := "REJECTED" }] :=
  ⟨by decide,
    (unknown_id_rejected ⟨two_asks_book, 1100⟩
      (mk_order 1300 99 "AAPL" "BUY" "LIMIT" 10 0 "CANCEL") (by decide)).2.1⟩


theorem Levels.entries_add_tail (s : BookSide) (l : Levels) (price : Int) (o : Order)
    (h : Levels.sorted s l) :
    (Levels.add s l price o).entries.filter (fun x => decide (x.1 = price))
        = l.entries.filter (fun x => decide (x.1 = price)) ++ [(price, o)]
    ∧ ∀ p, p ≠ price →
        (Levels.add s l price o).entries.filter (fun x => decide (x.1 = p))
          = l.entries.filter (fun x => decide (x.1 = p)) := by
  have hnone : ∀ (l' : Levels) (p : Int), p ∉ l'.keys →
      l'.entries.filter (fun x => decide (x.1 = p)) = [] := by
    intro l' p hp
    rw [List.filter_eq_nil_iff]
    intro x hx
    have := Levels.entries_key_mem hx
    have hne : x.1 ≠ p := fun heq => hp (heq ▸ this)
    simpa using hne
  have hall : ∀ (p : Int) (os : List Order),
      (os.map (fun o => (p, o))).filter (fun x => decide (x.1 = p)) = os.map (fun o => (p, o)) := by
    intro p os
    rw [List.filter_eq_self]
    intro x hx
    obtain ⟨o', _, rfl⟩ := List.mem_map.1 hx
    simp
  have hnot : ∀ (p p' : Int) (os : List Order), p ≠ p' →
      (os.map (fun o => (p, o))).filter (fun x => decide (x.1 = p')) = [] := by
    intro p p' os hne
    rw [List.filter_eq_nil_iff]
    intro x hx
    obtain ⟨o', _, rfl⟩ := List.mem_map.1 hx
    simpa using hne
  induction l with
  | nil =>
    constructor
    · simp [Levels.add, OrderQueue.new, OrderQueue.add_order]
    · intro p hp
      simp [Levels.add, OrderQueue.new, OrderQueue.add_order, Ne.symm hp]
  | cons pq l ih =>
    obtain ⟨p0, q⟩ := pq
    have hnd := Levels.sorted_keys_nodup h
    unfold Levels.sorted at h ih
    simp only [Levels.keys_cons, List.pairwise_cons, List.nodup_cons] at h hnd
    unfold Levels.add
    split
    · rename_i heq
      subst heq
      constructor
      · simp only [Levels.entries_cons, OrderQueue.add_order, List.map_append, List.map_cons,
          List.map_nil, List.filter_append, hall, hnone l p0 hnd.1]
        simp
      · intro p hp
        simp only [Levels.entries_cons, OrderQueue.add_order, List.map_append, List.map_cons,
          List.map_nil, List.filter_append, hnot p0 p _ (Ne.symm hp)]
        simp [Ne.symm hp]
    · rename_i hne
      split
      · rename_i hb
        have hfresh : price ∉ Levels.keys ((p0, q) :: l) := by
          intro hm
          simp only [Levels.keys_cons, List.mem_cons] at hm
          rcases hm with hm | hm
          · exact hne hm.symm
          · have := s.before_trans hb (h.1 price hm)
            simp [BookSide.before_irrefl] at this
        have hl : price ∉ Levels.keys l := fun hm => hfresh (by simp [hm])
        constructor
        · simp only [Levels.entries_cons, OrderQueue.new, OrderQueue.add_order, List.nil_append,
            List.map_cons, List.map_nil, List.filter_append, hnot p0 price _ hne,
            hnone l price hl]
          simp
        · intro p hp
          simp only [Levels.entries_cons, OrderQueue.new, OrderQueue.add_order, List.nil_append,
            List.map_cons, List.map_nil, List.filter_append]
          simp [Ne.symm hp]
      · obtain ⟨ih1, ih2⟩ := ih h.2
        constructor
        · simp only [Levels.entries_cons, List.filter_append, hnot p0 price _ hne, ih1]
          simp
        · intro p hp
          simp only [Levels.entries_cons, List.filter_append, ih2 p hp]

/-- C3: price-time priority. In the sweep of one taker the makers are, in order,
the first resting orders of the opposing side in priority order (level after
level, and inside a level from the head of the queue, where orders are appended
at the tail), each trade priced at its maker's level; hence the execution prices
are non-decreasing for a BUY taker and non-increasing for a SELL taker. The last
part states the appending: an order put to rest comes last in its price level. -/
theorem price_time_priority (c : BookCtx) (order : Order) (h : Seeded c.book order) :
    (∃ ps post,
        TradeLog c.book.results (execute_buy_market_order c order).book.results [] ps post
        ∧ (ps.map trade_key) <+: c.book.sell_orders.entries.map maker_key
        ∧ (ps.map (fun tm => tm.2.execution_price)).Pairwise (fun a b => a ≤ b))
    ∧ (∃ pre ps,
        TradeLog c.book.results (execute_buy_limit_order c order).book.results pre ps []
        ∧ (ps.map trade_key) <+: c.book.sell_orders.entries.map maker_key
        ∧ (ps.map (fun tm => tm.2.execution_price)).Pairwise (fun a b => a ≤ b))
    ∧ (∃ ps post,
        TradeLog c.book.results (execute_sell_market_order c order).book.results [] ps post
        ∧ (ps.map trade_key) <+: c.book.buy_orders.entries.map maker_key
        ∧ (ps.map (fun tm => tm.2.execution_price)).Pairwise (fun a b => a ≥ b))
    ∧ (∃ pre ps,
        TradeLog c.book.results (execute_sell_limit_order c order).book.results pre ps []
        ∧ (ps.map trade_key) <+: c.book.buy_orders.entries.map maker_key
        ∧ (ps.map (fun tm => tm.2.execution_price)).Pairwise (fun a b => a ≥ b))
    ∧ (∀ (s : BookSide) (l : Levels) (price : Int) (o : Order), Levels.sorted s l →
        (Levels.add s l price o).entries.filter (fun x => decide (x.1 = price))
          = l.entries.filter (fun x => decide (x.1 = price)) ++ [(price, o)]) := by
  have hsell : ∀ ps : List (Order × Order),
      (ps.map trade_key) <+: c.book.sell_orders.entries.map maker_key →
      (ps.map (fun tm => tm.2.execution_price)).Pairwise (fun a b => a ≤ b) := by
    intro ps hp
    refine (trade_prices_monotone (h.wf.sorted .sell) hp).imp ?_
    intro a b hab
    simp only [BookSide.before, decide_eq_false_iff_not] at hab
    omega
  have hbuy : ∀ ps : List (Order × Order),
      (ps.map trade_key) <+: c.book.buy_orders.entries.map maker_key →
      (ps.map (fun tm => tm.2.execution_price)).Pairwise (fun a b => a ≥ b) := by
    intro ps hp
    refine (trade_prices_monotone (h.wf.sorted .buy) hp).imp ?_
    intro a b hab
    simp only [BookSide.before, decide_eq_false_iff_not] at hab
    omega
  refine ⟨?_, ?_, ?_, ?_, fun s l price o hs => (Levels.entries_add_tail s l price o hs).1⟩
  · obtain ⟨ps, post, h1, h2, _⟩ := market_trace .sell order (sweep_fuel c.book.sell_orders) c h
    exact ⟨ps, post, h1, h2, hsell ps h2⟩
  · obtain ⟨pre, ps, h1, h2, _⟩ := limit_trace .buy .sell (fun p => decide (p ≤ order.price))
      (fun sell_price => decide (sell_price > order.price)) order
      (sweep_fuel (limit_pending .sell (fun p => decide (p ≤ order.price)) c order).book.sell_orders)
      c h
    exact ⟨pre, ps, h1, h2, hsell ps h2⟩
  · obtain ⟨ps, post, h1, h2, _⟩ := market_trace .buy order (sweep_fuel c.book.buy_orders) c h
    exact ⟨ps, post, h1, h2, hbuy ps h2⟩
  · obtain ⟨pre, ps, h1, h2, _⟩ := limit_trace .sell .buy (fun p => decide (p ≥ order.price))
      (fun buy_price => decide (buy_price < order.price)) order
      (sweep_fuel (limit_pending .buy (fun p => decide (p ≥ order.price)) c order).book.buy_orders)
      c h
    exact ⟨pre, ps, h1, h2, hbuy ps h2⟩

/-- Instance of C3: a BUY MARKET order of 50 sweeping asks 30 at 100.00 and 40 at
100.05. -/
theorem price_time_priority_witness :
    Seeded (two_asks_ctx market_taker).book market_taker
    ∧ ∃ ps post,
        TradeLog (two_asks_ctx market_taker).book.results
          (execute_buy_market_order (two_asks_ctx market_taker) market_taker).book.results
          [] ps post
        ∧ (ps.map trade_key) <+: (two_asks_ctx market_taker).book.sell_orders.entries.map maker_key
        ∧ (ps.map (fun tm => tm.2.execution_price)).Pairwise (fun a b => a ≤ b) :=
  ⟨two_asks_seeded market_taker rfl,
    (price_time_priority (two_asks_ctx market_taker) market_taker
      (two_asks_seeded market_taker rfl)).1⟩

/-- C4: every trade of a LIMIT taker is priced at the level of its maker and
within the limit (at most `p` for a BUY, at least `p` for a SELL); the levels
whose price is worse than the limit are left as they were; and when a remainder of
the order comes to rest, no opposing level at or within the limit is left, so the
sweep went on up to the first level worse than the limit. -/
theorem limit_trades_within_limit (c : BookCtx) (order : Order) (h : Seeded c.book order) :
    (∃ pre ps,
        TradeLog c.book.results (execute_buy_limit_order c order).book.results pre ps []
        ∧ (ps.map trade_key) <+: c.book.sell_orders.entries.map maker_key
        ∧ (∀ tm ∈ ps, tm.1.execution_price = tm.2.execution_price
            ∧ tm.2.execution_price ≤ order.price)
        ∧ (execute_buy_limit_order c order).book.sell_orders.filter
              (fun pq => decide (pq.1 > order.price))
            = c.book.sell_orders.filter (fun pq => decide (pq.1 > order.price))
        ∧ (order.order_id ∈ (execute_buy_limit_order c order).book.resting_ids →
            ∀ pa ∈ (execute_buy_limit_order c order).book.sell_orders.keys, order.price < pa))
    ∧ (∃ pre ps,
        TradeLog c.book.results (execute_sell_limit_order c order).book.results pre ps []
        ∧ (ps.map trade_key) <+: c.book.buy_orders.entries.map maker_key
        ∧ (∀ tm ∈ ps, tm.1.execution_price = tm.2.execution_price
            ∧ tm.2.execution_price ≥ order.price)
        ∧ (execute_sell_limit_order c order).book.buy_orders.filter
              (fun pq => decide (pq.1 < order.price))
            = c.book.buy_orders.filter (fun pq => decide (pq.1 < order.price))
        ∧ (order.order_id ∈ (execute_sell_limit_order c order).book.resting_ids →
            ∀ pb ∈ (execute_sell_limit_order c order).book.buy_orders.keys, pb < order.price)) := by
  constructor
  · obtain ⟨pre, ps, h1, h2, h3⟩ := limit_trace .buy .sell (fun p => decide (p ≤ order.price))
      (fun sell_price => decide (sell_price > order.price)) order
      (sweep_fuel (limit_pending .sell (fun p => decide (p ≤ order.price)) c order).book.sell_orders)
      c h
    have hp := Seeded.pending .sell (fun p => decide (p ≤ order.price)) h
    refine ⟨pre, ps, h1, h2, ?_, ?_, ?_⟩
    · intro tm htm
      obtain ⟨_, hag, _, hst⟩ := h3 tm htm
      refine ⟨hag.2.1, ?_⟩
      simp only [gt_iff_lt, decide_eq_false_iff_not, not_lt] at hst
      exact hst
    · have e1 : (execute_buy_limit_order c order).book.sell_orders
          = (sweep .sell (fun sell_price => decide (sell_price > order.price)) order
              (sweep_fuel (limit_pending .sell (fun p => decide (p ≤ order.price)) c order).book.sell_orders)
              (limit_pending .sell (fun p => decide (p ≤ order.price)) c order)
              order.quantity).1.book.levels .sell :=
        limit_rest_levels_other .buy order _ (s := .sell) (by decide)
      rw [e1]
      have := sweep_stop_levels .sell (fun sell_price => decide (sell_price > order.price)) order
        (sweep_fuel (limit_pending .sell (fun p => decide (p ≤ order.price)) c order).book.sell_orders)
        (limit_pending .sell (fun p => decide (p ≤ order.price)) c order) order.quantity
      rw [this, limit_pending_levels]
      rfl
    · intro hin pa hpa
      have hr := limit_rest_absent .buy order _
        (Seeded.sweep _ _ _ _ _ _ hp).absent hin
      have e1 : (execute_buy_limit_order c order).book.sell_orders
          = (sweep .sell (fun sell_price => decide (sell_price > order.price)) order
              (sweep_fuel (limit_pending .sell (fun p => decide (p ≤ order.price)) c order).book.sell_orders)
              (limit_pending .sell (fun p => decide (p ≤ order.price)) c order)
              order.quantity).1.book.sell_orders :=
        limit_rest_levels_other .buy order _ (s := .sell) (by decide)
      rw [e1] at hpa
      exact sweep_clear_buy order _ _ hp hr pa hpa
  · obtain ⟨pre, ps, h1, h2, h3⟩ := limit_trace .sell .buy (fun p => decide (p ≥ order.price))
      (fun buy_price => decide (buy_price < order.price)) order
      (sweep_fuel (limit_pending .buy (fun p => decide (p ≥ order.price)) c order).book.buy_orders)
      c h
    have hp := Seeded.pending .buy (fun p => decide (p ≥ order.price)) h
    refine ⟨pre, ps, h1, h2, ?_, ?_, ?_⟩
    · intro tm htm
      obtain ⟨_, hag, _, hst⟩ := h3 tm htm
      refine ⟨hag.2.1, ?_⟩
      simp only [decide_eq_false_iff_not, not_lt] at hst
      exact hst
    · have e1 : (execute_sell_limit_order c order).book.buy_orders
          = (sweep .buy (fun buy_price => decide (buy_price < order.price)) order
              (sweep_fuel (limit_pending .buy (fun p => decide (p ≥ order.price)) c order).book.buy_orders)
              (limit_pending .buy (fun p => decide (p ≥ order.price)) c order)
              order.quantity).1.book.levels .buy :=
        limit_rest_levels_other .sell order _ (s := .buy) (by decide)
      rw [e1]
      have := sweep_stop_levels .buy (fun buy_price => decide (buy_price < order.price)) order
        (sweep_fuel (limit_pending .buy (fun p => decide (p ≥ order.price)) c order).book.buy_orders)
        (limit_pending .buy (fun p => decide (p ≥ order.price)) c order) order.quantity
      rw [this, limit_pending_levels]
      rfl
    · intro hin pb hpb
      have hr := limit_rest_absent .sell order _
        (Seeded.sweep _ _ _ _ _ _ hp).absent hin
      have e1 : (execute_sell_limit_order c order).book.buy_orders
          = (sweep .buy (fun buy_price => decide (buy_price < order.price)) order
              (sweep_fuel (limit_pending .buy (fun p => decide (p ≥ order.price)) c order).book.buy_orders)
              (limit_pending .buy (fun p => decide (p ≥ order.price)) c order)
              order.quantity).1.book.buy_orders :=
        limit_rest_levels_other .sell order _ (s := .buy) (by decide)
      rw [e1] at hpb
      exact sweep_clear_sell order _ _ hp hr pb hpb

/-- Instance of C4: a BUY LIMIT order of 50 at 100.00 meeting asks 30 at 100.00
and 40 at 100.05. -/
theorem limit_trades_within_limit_witness :
    Seeded (two_asks_ctx limit_taker).book limit_taker
    ∧ ∃ pre ps,
        TradeLog (two_asks_ctx limit_taker).book.results
          (execute_buy_limit_order (two_asks_ctx limit_taker) limit_taker).book.results pre ps []
        ∧ (ps.map trade_key) <+: (two_asks_ctx limit_taker).book.sell_orders.entries.map maker_key
        ∧ (∀ tm ∈ ps, tm.1.execution_price = tm.2.execution_price
            ∧ tm.2.execution_price ≤ limit_taker.price)
        ∧ (execute_buy_limit_order (two_asks_ctx limit_taker) limit_taker).book.sell_orders.filter
              (fun pq => decide (pq.1 > limit_taker.price))
            = (two_asks_ctx limit_taker).book.sell_orders.filter
              (fun pq => decide (pq.1 > limit_taker.price))
        ∧ (limit_taker.order_id
              ∈ (execute_buy_limit_order (two_asks_ctx limit_taker) limit_taker).book.resting_ids →
            ∀ pa ∈ (execute_buy_limit_order (two_asks_ctx limit_taker) limit_taker).book.sell_orders.keys,
              limit_taker.price < pa) :=
  ⟨two_asks_seeded limit_taker rfl,
    (limit_trades_within_limit (two_asks_ctx limit_taker) limit_taker
      (two_asks_seeded limit_taker rfl)).1⟩


theorem WF.uncrossed_book {b : OrderBook} (h : WF b) : Uncrossed b := by
  refine ⟨h.uncrossed, ?_, ?_⟩
  · intro xb hxb xa hxa
    have h1 := (h.resting .buy xb hxb).1
    have h2 := (h.resting .sell xa hxa).1
    rw [h1, h2]
    exact h.uncrossed _ (Levels.entries_key_mem hxb) _ (Levels.entries_key_mem hxa)
  · intro bb rb ba ra hb ha
    exact h.uncrossed bb.1 (by rw [hb]; simp) ba.1 (by rw [ha]; simp)

/-- C2: in every state reached from a new engine by a sequence of `process_order`
calls, the book of every instrument is not crossed: each resting BUY price is
below each resting SELL price, and the best bid is below the best ask. -/
theorem book_never_crossed (s : Statics) (inputs : List Order) :
    (∀ instrument : String,
      Uncrossed (books_get (run (MatchingEngine.new s) inputs).engine.order_books instrument))
    ∧ ∀ kb ∈ (run (MatchingEngine.new s) inputs).engine.order_books, Uncrossed kb.2 :=
  ⟨fun instrument => (reachable_wf s inputs instrument).uncrossed_book,
    fun kb hkb => (run_wf (new_engine_wf s) inputs kb hkb).uncrossed_book⟩

/-- Instance of C2: asks at 100.00 and 100.05 and a bid at 99.90. -/
theorem book_never_crossed_witness :
    (9990 : Int) ∈ (books_get (run (MatchingEngine.new Statics.initial)
        two_asks_one_bid).engine.order_books "AAPL").buy_orders.keys
    ∧ (10000 : Int) ∈ (books_get (run (MatchingEngine.new Statics.initial)
        two_asks_one_bid).engine.order_books "AAPL").sell_orders.keys
    ∧ (9990 : Int) < 10000 :=
  ⟨by decide, by decide,
    ((book_never_crossed Statics.initial two_asks_one_bid).1 "AAPL").1
      9990 (by decide) 10000 (by decide)⟩


/-! ## Cancellation and rejection of repeated ids -/

/-- C9: CANCEL of an order that is in the lookup of a consistent book appends one
event (action CANCEL, status CANCELED, quantity 0, the price of the request,
execution fields zero, a timestamp drawn from the execution counter); afterwards
the id rests in no queue and is not in the lookup, and every other resting order
and lookup entry is as before. -/
theorem cancel_live_order (c : BookCtx) (request stored : Order) (hwf : WF c.book)
    (hlive : c.book.order_lookup request.order_id = some stored) :
    (cancel_order c request).book.results
      = c.book.results ++
        [{ stored with
            timestamp :=
              get_next_execution_timestamp request.timestamp c.last_execution_timestamp
            action := "CANCEL", status := "CANCELED", quantity := 0, price := request.price
            executed_quantity := 0, execution_price := 0, counterparty_id := 0 }]
    ∧ stored.order_id = request.order_id
    ∧ (cancel_order c request).last_execution_timestamp
        = get_next_execution_timestamp request.timestamp c.last_execution_timestamp
    ∧ request.order_id ∉ (cancel_order c request).book.resting_ids
    ∧ (cancel_order c request).book.order_lookup request.order_id = none
    ∧ (∀ k, k ≠ request.order_id →
        (cancel_order c request).book.order_lookup k = c.book.order_lookup k)
    ∧ ∀ s, ((cancel_order c request).book.levels s).entries
        = (c.book.levels s).entries.filter (fun x => decide (x.2.order_id ≠ request.order_id)) := by
  have hent := cancel_order_from_book_entries hwf hlive
  have habs := cancel_order_from_book_absent hwf hlive
  have hlev : ∀ s, (cancel_order c request).book.levels s
      = (cancel_order_from_book c.book stored).levels s := by
    intro s
    unfold cancel_order
    rw [hlive]
    cases s <;> rfl
  refine ⟨?_, hwf.lookup_id _ _ hlive, ?_, ?_, ?_, ?_, ?_⟩
  · unfold cancel_order
    rw [hlive]
    simp [cancel_order_from_book_results]
  · unfold cancel_order
    rw [hlive]
  · intro hm
    obtain ⟨s, x, hx, hxid⟩ := mem_resting_ids.1 hm
    rw [hlev] at hx
    exact habs (mem_resting_ids.2 ⟨s, x, hx, hxid⟩)
  · unfold cancel_order
    rw [hlive]
    simp
  · intro k hk
    unfold cancel_order
    rw [hlive]
    simp [Function.update_noteq hk, cancel_order_from_book_lookup]
  · intro s
    rw [hlev, hent]

/-- Instance of C9: CANCEL of the resting ask of id 2, with price 0 in the request. -/
theorem cancel_live_order_witness :
    WF two_asks_book
    ∧ two_asks_book.order_lookup 2
        = some { mk_order 1100 2 "AAPL" "SELL" "LIMIT" 40 10005 "NEW" with status := "PENDING" }
    ∧ (cancel_order ⟨two_asks_book, 1100⟩
          (mk_order 1300 2 "AAPL" "SELL" "LIMIT" 40 0 "CANCEL")).book.order_lookup 2 = none
    ∧ 2 ∉ (cancel_order ⟨two_asks_book, 1100⟩
          (mk_order 1300 2 "AAPL" "SELL" "LIMIT" 40 0 "CANCEL")).book.resting_ids :=
  ⟨reachable_wf Statics.initial two_asks "AAPL", by decide,
    (cancel_live_order ⟨two_asks_book, 1100⟩ (mk_order 1300 2 "AAPL" "SELL" "LIMIT" 40 0 "CANCEL")
      { mk_order 1100 2 "AAPL" "SELL" "LIMIT" 40 10005 "NEW" with status := "PENDING" }
      (reachable_wf Statics.initial two_asks "AAPL") (by decide)).2.2.2.2.1,
    (cancel_live_order ⟨two_asks_book, 1100⟩ (mk_order 1300 2 "AAPL" "SELL" "LIMIT" 40 0 "CANCEL")
      { mk_order 1100 2 "AAPL" "SELL" "LIMIT" 40 10005 "NEW" with status := "PENDING" }
      (reachable_wf Statics.initial two_asks "AAPL") (by decide)).2.2.2.1⟩


theorem execute_market_order_existing (c : BookCtx) (order : Order) :
    (execute_market_order c order).book.existing_order_ids = c.book.existing_order_ids := by
  unfold execute_market_order execute_buy_market_order execute_sell_market_order
  split <;> rw [market_finish_existing, sweep_existing]

theorem execute_limit_order_existing (c : BookCtx) (order : Order) :
    (execute_limit_order c order).book.existing_order_ids = c.book.existing_order_ids := by
  unfold execute_limit_order execute_buy_limit_order execute_sell_limit_order
  split <;> dsimp only <;> rw [limit_rest_existing, sweep_existing, limit_pending_existing]

theorem add_order_existing_new (c : BookCtx) (order : Order) (hnew : order.action = "NEW") :
    (add_order c order).book.existing_order_ids order.order_id ≠ none := by
  unfold add_order
  split
  case isTrue hd =>
    intro hx
    have h2 := hd.2
    simp only [BookCtx.push] at hx
    rw [hx] at h2
    simp at h2
  case isFalse hd =>
    dsimp only
    split
    · rw [execute_market_order_existing]; simp
    · split
      · rw [execute_limit_order_existing]; simp
      · simp

theorem add_order_existing_mono (c : BookCtx) (order : Order) (k : Nat)
    (hk : c.book.existing_order_ids k ≠ none) :
    (add_order c order).book.existing_order_ids k ≠ none := by
  unfold add_order
  split
  case isTrue hd => simpa [BookCtx.push] using hk
  case isFalse hd =>
    have key : (if order.action = "NEW" then
        ({ c.book with
          existing_order_ids := Function.update c.book.existing_order_ids order.order_id (some true)
          order_total_executed := Function.update c.book.order_total_executed order.order_id (some 0) }
          : OrderBook)
        else c.book).existing_order_ids k ≠ none := by
      split
      · by_cases hko : k = order.order_id
        · subst hko; simp
        · simpa [Function.update_noteq hko] using hk
      · exact hk
    dsimp only
    split
    · rw [execute_market_order_existing]; exact key
    · split
      · rw [execute_limit_order_existing]; exact key
      · exact key

theorem modify_order_existing (c : BookCtx) (request : Order) :
    (modify_order c request).book.existing_order_ids = c.book.existing_order_ids := by
  unfold modify_order
  split
  · rfl
  · dsimp only
    split
    · split
      · rw [execute_market_order_existing]; exact cancel_order_from_book_existing _ _
      · split
        · rw [execute_limit_order_existing]; exact cancel_order_from_book_existing _ _
        · exact cancel_order_from_book_existing _ _
    · exact cancel_order_from_book_existing _ _

theorem cancel_order_existing (c : BookCtx) (request : Order) :
    (cancel_order c request).book.existing_order_ids = c.book.existing_order_ids := by
  unfold cancel_order
  split
  · rfl
  · exact cancel_order_from_book_existing _ _

theorem process_order_existing_mono (w : World) (order : Order) (instrument : String) (k : Nat)
    (hk : (books_get w.engine.order_books instrument).existing_order_ids k ≠ none) :
    (books_get (process_order w order).engine.order_books instrument).existing_order_ids k
      ≠ none := by
  by_cases hi : instrument = order.instrument
  · subst hi
    unfold process_order
    dsimp only
    split
    · rw [books_get_set_same]; exact hk
    · rw [books_get_set_same]
      split
      · exact add_order_existing_mono _ _ _ hk
      · split
        · rw [modify_order_existing]; exact hk
        · split
          · rw [cancel_order_existing]; exact hk
          · exact hk
  · unfold process_order
    dsimp only
    split
    · rw [books_get_set_other _ _ hi]; exact hk
    · rw [books_get_set_other _ _ hi]; exact hk

theorem run_existing_mono (w : World) (inputs : List Order) (instrument : String) (k : Nat)
    (hk : (books_get w.engine.order_books instrument).existing_order_ids k ≠ none) :
    (books_get (run w inputs).engine.order_books instrument).existing_order_ids k ≠ none := by
  induction inputs generalizing w with
  | nil => exact hk
  | cons o rest ih => exact ih _ (process_order_existing_mono w o instrument k hk)

theorem run_append (w : World) (xs ys : List Order) :
    run w (xs ++ ys) = run (run w xs) ys := by
  simp [run, List.foldl_append]

theorem run_cons (w : World) (x : Order) (xs : List Order) :
    run w (x :: xs) = run (process_order w x) xs := rfl

theorem process_new_existing (w : World) (o : Order) (hnew : o.action = "NEW")
    (hst : o.status ≠ "REJECTED") :
    (books_get (process_order w o).engine.order_books o.instrument).existing_order_ids o.order_id
      ≠ none := by
  unfold process_order
  dsimp only
  rw [if_neg hst, books_get_set_same, if_pos hnew]
  exact add_order_existing_new _ _ hnew

/-- C8: once a NEW with id `x` has gone through `add_order` of an instrument's book
(so that `x` is accepted, then or before), every later NEW with id `x` for that
instrument, whatever has happened to `x` in between, appends one REJECTED event
carrying its own timestamp and id, and changes nothing else in the book or the
counter. -/
theorem order_id_accepted_once (s : Statics) (pre post : List Order) (o o2 : Order)
    (hnew : o.action = "NEW") (hst : o.status ≠ "REJECTED")
    (hnew2 : o2.action = "NEW") (hinst : o2.instrument = o.instrument)
    (hid : o2.order_id = o.order_id) :
    ∃ ev,
      (books_get (process_order (run (MatchingEngine.new s) (pre ++ o :: post)) o2).engine.order_books
          o.instrument).results
        = (books_get (run (MatchingEngine.new s) (pre ++ o :: post)).engine.order_books
            o.instrument).results ++ [ev]
      ∧ ev.status = "REJECTED" ∧ ev.order_id = o.order_id ∧ ev.timestamp = o2.timestamp
      ∧ (books_get (process_order (run (MatchingEngine.new s) (pre ++ o :: post)) o2).engine.order_books
          o.instrument).buy_orders
        = (books_get (run (MatchingEngine.new s) (pre ++ o :: post)).engine.order_books
            o.instrument).buy_orders
      ∧ (books_get (process_order (run (MatchingEngine.new s) (pre ++ o :: post)) o2).engine.order_books
          o.instrument).sell_orders
        = (books_get (run (MatchingEngine.new s) (pre ++ o :: post)).engine.order_books
            o.instrument).sell_orders
      ∧ (books_get (process_order (run (MatchingEngine.new s) (pre ++ o :: post)) o2).engine.order_books
          o.instrument).order_lookup
        = (books_get (run (MatchingEngine.new s) (pre ++ o :: post)).engine.order_books
            o.instrument).order_lookup
      ∧ (books_get (process_order (run (MatchingEngine.new s) (pre ++ o :: post)) o2).engine.order_books
          o.instrument).existing_order_ids
        = (books_get (run (MatchingEngine.new s) (pre ++ o :: post)).engine.order_books
            o.instrument).existing_order_ids
      ∧ (books_get (process_order (run (MatchingEngine.new s) (pre ++ o :: post)) o2).engine.order_books
          o.instrument).order_total_executed
        = (books_get (run (MatchingEngine.new s) (pre ++ o :: post)).engine.order_books
            o.instrument).order_total_executed
      ∧ (process_order (run (MatchingEngine.new s) (pre ++ o :: post)) o2).statics.last_execution_timestamp
        = (run (MatchingEngine.new s) (pre ++ o :: post)).statics.last_execution_timestamp := by
  have hex : (books_get (run (MatchingEngine.new s) (pre ++ o :: post)).engine.order_books
      o.instrument).existing_order_ids o.order_id ≠ none := by
    rw [run_append, run_cons]
    exact run_existing_mono _ post _ _ (process_new_existing _ o hnew hst)
  generalize run (MatchingEngine.new s) (pre ++ o :: post) = w at hex ⊢
  by_cases hst2 : o2.status = "REJECTED"
  · refine ⟨o2, ?_, hst2, hid, rfl, ?_⟩
    · unfold process_order
      dsimp only
      rw [if_pos hst2, hinst, books_get_set_same]
    · unfold process_order
      dsimp only
      rw [if_pos hst2, hinst, books_get_set_same]
      exact ⟨rfl, rfl, rfl, rfl, rfl, rfl⟩
  · have hdup := add_order_duplicate_branch
      ⟨books_get w.engine.order_books o.instrument, w.statics.last_execution_timestamp⟩ o2 hnew2
      (by rw [hid]; exact hex)
    have hproc : (books_get (process_order w o2).engine.order_books o.instrument)
        = (add_order ⟨books_get w.engine.order_books o.instrument,
            w.statics.last_execution_timestamp⟩ o2).book := by
      unfold process_order
      dsimp only
      rw [if_neg hst2, hinst, books_get_set_same, if_pos hnew2]
    have hlast : (process_order w o2).statics.last_execution_timestamp
        = (add_order ⟨books_get w.engine.order_books o.instrument,
            w.statics.last_execution_timestamp⟩ o2).last_execution_timestamp := by
      unfold process_order
      dsimp only
      rw [if_neg hst2, hinst, if_pos hnew2]
    rw [hproc, hlast]
    obtain ⟨h1, h2, h3, h4, h5, h6, h7⟩ := hdup
    exact ⟨_, h1, rfl, hid, rfl, h2, h3, h4, h5, h6, h7⟩

/-- Instance of C8: id 1 is accepted, another order follows, then id 1 is sent again. -/
theorem order_id_accepted_once_witness :
    ∃ ev,
      (books_get (process_order (run (MatchingEngine.new Statics.initial) two_asks)
          (mk_order 1300 1 "AAPL" "BUY" "LIMIT" 5 9000 "NEW")).engine.order_books "AAPL").results
        = (books_get (run (MatchingEngine.new Statics.initial) two_asks).engine.order_books
            "AAPL").results ++ [ev]
      ∧ ev.status = "REJECTED" :=
  let ⟨ev, h1, h2, _⟩ := order_id_accepted_once Statics.initial []
    [mk_order 1100 2 "AAPL" "SELL" "LIMIT" 40 10005 "NEW"]
    (mk_order 1000 1 "AAPL" "SELL" "LIMIT" 30 10000 "NEW")
    (mk_order 1300 1 "AAPL" "BUY" "LIMIT" 5 9000 "NEW") rfl (by decide) rfl rfl rfl
  ⟨ev, h1, h2⟩


/-! ## Conservation of quantities -/

theorem exec_by_id_append (k : Nat) (a b : List Order) :
    exec_by_id k (a ++ b) = exec_by_id k a + exec_by_id k b := by
  simp [exec_by_id]

theorem exec_by_cp_append (k : Nat) (a b : List Order) :
    exec_by_cp k (a ++ b) = exec_by_cp k a + exec_by_cp k b := by
  simp [exec_by_cp]

theorem exec_by_id_zero (k : Nat) (l : List Order) (h : ∀ e ∈ l, e.executed_quantity = 0) :
    exec_by_id k l = 0 := by
  induction l with
  | nil => rfl
  | cons e l ih =>
    have h1 := h e (by simp)
    have h2 := ih (fun x hx => h x (by simp [hx]))
    unfold exec_by_id at h2 ⊢
    by_cases hk : e.order_id = k
    · simp [List.filter_cons, hk, h1, h2]
    · simp [List.filter_cons, hk, h2]

theorem exec_by_cp_zero (k : Nat) (l : List Order) (h : ∀ e ∈ l, e.executed_quantity = 0) :
    exec_by_cp k l = 0 := by
  induction l with
  | nil => rfl
  | cons e l ih =>
    have h1 := h e (by simp)
    have h2 := ih (fun x hx => h x (by simp [hx]))
    unfold exec_by_cp at h2 ⊢
    by_cases hk : e.counterparty_id = k
    · simp [List.filter_cons, hk, h1, h2]
    · simp [List.filter_cons, hk, h2]

theorem exec_by_id_pair (k : Nat) (t m : Order) :
    exec_by_id k [t, m]
      = (if t.order_id = k then t.executed_quantity else 0)
        + (if m.order_id = k then m.executed_quantity else 0) := by
  unfold exec_by_id
  by_cases h1 : t.order_id = k <;> by_cases h2 : m.order_id = k <;>
    simp [List.filter_cons, h1, h2]

theorem exec_by_cp_pair (k : Nat) (t m : Order) :
    exec_by_cp k [t, m]
      = (if t.counterparty_id = k then t.executed_quantity else 0)
        + (if m.counterparty_id = k then m.executed_quantity else 0) := by
  unfold exec_by_cp
  by_cases h1 : t.counterparty_id = k <;> by_cases h2 : m.counterparty_id = k <;>
    simp [List.filter_cons, h1, h2]

theorem Levels.qty_of_cons (pq : Int × OrderQueue) (l : Levels) (k : Nat) :
    Levels.qty_of (pq :: l) k
      = ((pq.2.orders.filter (fun o => decide (o.order_id = k))).map (fun o => o.quantity)).sum
        + Levels.qty_of l k := by
  simp [Levels.qty_of, List.filter_map, Function.comp_def]

theorem qty_of_after_trade (price : Int) (oq : OrderQueue) (front : Order) (tail : List Order)
    (rest : Levels) (r : Nat) (ho : oq.orders = front :: tail) (k : Nat) :
    Levels.qty_of (levels_after_trade price oq front tail rest r) k
        + (if front.order_id = k then min r front.quantity else 0)
      = Levels.qty_of ((price, oq) :: rest) k := by
  rw [Levels.qty_of_cons, ho]
  unfold Levels.qty_of
  rw [entries_levels_after_trade]
  by_cases hq : front.quantity ≤ r
  · have hm : min r front.quantity = front.quantity := by omega
    by_cases hk : front.order_id = k
    · simp [hq, hk, hm, List.filter_cons, List.filter_map, Function.comp_def]
      omega
    · simp [hq, hk, List.filter_cons, List.filter_map, Function.comp_def]
  · have hm : min r front.quantity = r := by omega
    by_cases hk : front.order_id = k
    · simp [hq, hk, hm, List.filter_cons, List.filter_map, Function.comp_def]
      omega
    · simp [hq, hk, List.filter_cons, List.filter_map, Function.comp_def]

theorem Levels.qty_of_add (s : BookSide) (l : Levels) (price : Int) (o : Order) (k : Nat) :
    Levels.qty_of (Levels.add s l price o) k
      = Levels.qty_of l k + (if o.order_id = k then o.quantity else 0) := by
  unfold Levels.qty_of
  have hp := ((Levels.entries_add_perm s l price o).filter
    (fun x => decide (x.2.order_id = k))).map (fun x => x.2.quantity)
  rw [hp.sum_eq]
  by_cases hk : o.order_id = k
  · simp [List.filter_cons, hk]; omega
  · simp [List.filter_cons, hk]

theorem Levels.qty_of_eq_zero (l : Levels) (k : Nat)
    (h : ∀ x ∈ l.entries, x.2.order_id ≠ k) : Levels.qty_of l k = 0 := by
  unfold Levels.qty_of
  have : l.entries.filter (fun x => decide (x.2.order_id = k)) = [] := by
    rw [List.filter_eq_nil_iff]
    intro x hx
    simpa using h x hx
  rw [this]
  rfl

theorem resting_qty_eq_zero {b : OrderBook} {k : Nat} (h : k ∉ b.resting_ids) :
    resting_qty b k = 0 := by
  unfold resting_qty
  rw [Levels.qty_of_eq_zero, Levels.qty_of_eq_zero]
  · intro x hx hk
    exact h (mem_resting_ids.2 ⟨.sell, x, hx, hk⟩)
  · intro x hx hk
    exact h (mem_resting_ids.2 ⟨.buy, x, hx, hk⟩)

theorem resting_qty_congr {b b' : OrderBook} (h : ∀ s, b'.levels s = b.levels s) (k : Nat) :
    resting_qty b' k = resting_qty b k := by
  unfold resting_qty
  rw [h, h]

theorem resting_qty_trade (opp : BookSide) (order : Order) (price : Int) (oq : OrderQueue)
    (front : Order) (tail : List Order) (rest : Levels) (c : BookCtx) (r : Nat)
    (hl : c.book.levels opp = (price, oq) :: rest) (ho : oq.orders = front :: tail) (k : Nat) :
    resting_qty (execute_trade opp order price oq front tail rest c r).1.book k
        + (if front.order_id = k then min r front.quantity else 0)
      = resting_qty c.book k := by
  have key := qty_of_after_trade price oq front tail rest r ho k
  rw [← hl] at key
  unfold resting_qty
  cases opp with
  | buy =>
    rw [execute_trade_levels_same,
      execute_trade_levels_other .buy _ _ _ _ _ _ _ _ (s := .sell) (by decide)]
    omega
  | sell =>
    rw [execute_trade_levels_same,
      execute_trade_levels_other .sell _ _ _ _ _ _ _ _ (s := .buy) (by decide)]
    omega


theorem trade_sums {c : BookCtx} {order : Order} (h : Seeded c.book order) (opp : BookSide)
    (price : Int) (oq : OrderQueue) (front : Order) (tail : List Order) (rest : Levels)
    (r : Nat) (k : Nat) :
    exec_by_id k (execute_trade opp order price oq front tail rest c r).1.book.results
        = exec_by_id k c.book.results
          + (if order.order_id = k then min r front.quantity else 0)
          + (if front.order_id = k then min r front.quantity else 0)
    ∧ exec_by_cp k (execute_trade opp order price oq front tail rest c r).1.book.results
        = exec_by_cp k c.book.results
          + (if front.order_id = k then min r front.quantity else 0)
          + (if order.order_id = k then min r front.quantity else 0) := by
  have hid := (trade_agree h price front r).2
  rw [execute_trade_results, exec_by_id_append, exec_by_cp_append, exec_by_id_pair,
    exec_by_cp_pair, hid]
  simp only [taker_execution, maker_execution]
  constructor <;> omega

/-- Quantities along one sweep: for every id the log gains as much under
`order_id` as under `counterparty_id`; for every id but the taker's, what the log
gains under `order_id` is what the order loses in the book; for the taker it is
what `remaining_qty` loses. -/
theorem sweep_ledger (opp : BookSide) (stop : Int → Bool) (order : Order) (fuel : Nat)
    (c : BookCtx) (r : Nat) (h : Seeded c.book order) :
    (∀ k, exec_by_id k (sweep opp stop order fuel c r).1.book.results + exec_by_cp k c.book.results
        = exec_by_cp k (sweep opp stop order fuel c r).1.book.results + exec_by_id k c.book.results)
    ∧ (∀ k, k ≠ order.order_id →
        exec_by_id k (sweep opp stop order fuel c r).1.book.results
            + resting_qty (sweep opp stop order fuel c r).1.book k
          = exec_by_id k c.book.results + resting_qty c.book k)
    ∧ exec_by_id order.order_id (sweep opp stop order fuel c r).1.book.results
          + (sweep opp stop order fuel c r).2
        = exec_by_id order.order_id c.book.results + r := by
  have key := sweep_invariant opp stop order
    (fun c' r' => Seeded c'.book order
      ∧ (∀ k, exec_by_id k c'.book.results + exec_by_cp k c.book.results
          = exec_by_cp k c'.book.results + exec_by_id k c.book.results)
      ∧ (∀ k, k ≠ order.order_id →
          exec_by_id k c'.book.results + resting_qty c'.book k
            = exec_by_id k c.book.results + resting_qty c.book k)
      ∧ exec_by_id order.order_id c'.book.results + r'
          = exec_by_id order.order_id c.book.results + r)
    ?_ ?_ fuel c r ⟨h, fun _ => Nat.add_comm _ _, fun _ _ => rfl, rfl⟩
  · exact key.2
  · intro c' r' price oq rest hc _ hl _ ho
    obtain ⟨hs, h1, h2, h3⟩ := hc
    refine ⟨hs.erase_level hl ho, by simpa using h1, ?_, by simpa using h3⟩
    intro k hk
    have hq : resting_qty (c'.book.setLevels opp rest) k = resting_qty c'.book k := by
      unfold resting_qty
      cases opp with
      | buy =>
        have e1 : (c'.book.setLevels .buy rest).levels .sell = c'.book.levels .sell := rfl
        rw [levels_setLevels_same, e1, hl, Levels.qty_of_cons, ho]
        simp
      | sell =>
        have e1 : (c'.book.setLevels .sell rest).levels .buy = c'.book.levels .buy := rfl
        rw [levels_setLevels_same, e1, hl, Levels.qty_of_cons, ho]
        simp
    simp only [setLevels_results]
    rw [hq]
    exact h2 k hk
  · intro c' r' price oq rest front tail hc _ hl _ ho
    obtain ⟨hs, h1, h2, h3⟩ := hc
    have hne : order.order_id ≠ front.order_id :=
      fun heq => hs.absent (heq ▸ front_mem_resting_ids hl ho)
    refine ⟨hs.trade r' hl ho, ?_, ?_, ?_⟩
    · intro k
      obtain ⟨e1, e2⟩ := trade_sums hs opp price oq front tail rest r' k
      rw [e1, e2]
      have := h1 k
      omega
    · intro k hk
      obtain ⟨e1, _⟩ := trade_sums hs opp price oq front tail rest r' k
      have e3 := resting_qty_trade opp order price oq front tail rest c' r' hl ho k
      have := h2 k hk
      rw [e1, if_neg (Ne.symm hk)]
      omega
    · obtain ⟨e1, _⟩ := trade_sums hs opp price oq front tail rest r' order.order_id
      rw [e1, execute_trade_remaining, if_pos rfl, if_neg (Ne.symm hne)]
      omega


theorem Conserves.refl_of {b b' : OrderBook} (target : Nat)
    (hl : ∀ s, b'.levels s = b.levels s) (evs : List Order)
    (hr : b'.results = b.results ++ evs) (hz : ∀ e ∈ evs, e.executed_quantity = 0) :
    Conserves b b' target
    ∧ exec_by_id target b'.results + resting_qty b' target
        = exec_by_id target b.results + resting_qty b target := by
  have h1 : ∀ k, exec_by_id k b'.results = exec_by_id k b.results := by
    intro k; rw [hr, exec_by_id_append, exec_by_id_zero k evs hz]; rfl
  have h2 : ∀ k, exec_by_cp k b'.results = exec_by_cp k b.results := by
    intro k; rw [hr, exec_by_cp_append, exec_by_cp_zero k evs hz]; rfl
  have h3 : ∀ k, resting_qty b' k = resting_qty b k := resting_qty_congr hl
  refine ⟨⟨fun k => ?_, fun k _ => ?_⟩, ?_⟩
  · rw [h1, h2]; exact Nat.add_comm _ _
  · rw [h1, h3]
  · rw [h1, h3]

theorem Conserves.trans {b1 b2 b3 : OrderBook} {target : Nat}
    (h12 : Conserves b1 b2 target) (h23 : Conserves b2 b3 target) : Conserves b1 b3 target := by
  refine ⟨fun k => ?_, fun k hk => ?_⟩
  · have := h12.balance k
    have := h23.balance k
    omega
  · rw [h23.others k hk, h12.others k hk]

theorem NoTrade.zero {e : Order} (h : NoTrade e) : e.executed_quantity = 0 := h.2.1

theorem limit_rest_resting_qty (own : BookSide) (order : Order) (r : BookCtx × Nat)
    (h : Seeded r.1.book order) (k : Nat) :
    resting_qty (limit_rest own order r).book k
      = resting_qty r.1.book k + (if order.order_id = k then r.2 else 0) := by
  obtain ⟨e, he⟩ := h.present
  have hid : e.order_id = order.order_id := h.wf.lookup_id _ _ he
  unfold limit_rest
  split
  case isTrue hr =>
    rw [lookup_value_present he]
    unfold resting_qty
    cases own with
    | buy =>
      show Levels.qty_of (Levels.add .buy r.1.book.buy_orders order.price _) k
        + Levels.qty_of r.1.book.sell_orders k = _
      rw [Levels.qty_of_add]
      simp only [hid, OrderBook.levels]
      omega
    | sell =>
      show Levels.qty_of r.1.book.buy_orders k
        + Levels.qty_of (Levels.add .sell r.1.book.sell_orders order.price _) k = _
      rw [Levels.qty_of_add]
      simp only [hid, OrderBook.levels]
      omega
  case isFalse hr =>
    have : r.2 = 0 := by omega
    simp [this]

/-- Quantities through a LIMIT routine, generic in the side. -/
theorem limit_ledger (own opp : BookSide) (crosses stop : Int → Bool) (order : Order)
    (fuel : Nat) (c : BookCtx) (h : Seeded c.book order) :
    Conserves c.book
      (limit_rest own order
        (sweep opp stop order fuel (limit_pending opp crosses c order) order.quantity)).book
      order.order_id
    ∧ exec_by_id order.order_id
          (limit_rest own order
            (sweep opp stop order fuel (limit_pending opp crosses c order) order.quantity)).book.results
        + resting_qty
          (limit_rest own order
            (sweep opp stop order fuel (limit_pending opp crosses c order) order.quantity)).book
          order.order_id
      = exec_by_id order.order_id c.book.results + order.quantity := by
  obtain ⟨pre, hp1, _, hp3⟩ := limit_pending_results opp crosses c order
  have hp := Seeded.pending opp crosses h
  obtain ⟨c1, hc1⟩ := Conserves.refl_of order.order_id
    (limit_pending_levels opp crosses c order) pre hp1 (fun e he => (hp3 e he).zero)
  obtain ⟨s1, s2, s3⟩ := sweep_ledger opp stop order fuel
    (limit_pending opp crosses c order) order.quantity hp
  have hsw := Seeded.sweep opp stop order fuel (limit_pending opp crosses c order)
    order.quantity hp
  have hrq := limit_rest_resting_qty own order
    (sweep opp stop order fuel (limit_pending opp crosses c order) order.quantity) hsw
  have h0 : resting_qty c.book order.order_id = 0 := resting_qty_eq_zero h.absent
  have h0' : resting_qty (sweep opp stop order fuel (limit_pending opp crosses c order)
      order.quantity).1.book order.order_id = 0 := resting_qty_eq_zero hsw.absent
  refine ⟨⟨fun k => ?_, fun k hk => ?_⟩, ?_⟩
  · rw [limit_rest_results]
    have := s1 k
    have := c1.balance k
    omega
  · rw [limit_rest_results, hrq k, if_neg (Ne.symm hk), Nat.add_zero, s2 k hk]
    exact c1.others k hk
  · have h0'' : resting_qty (limit_pending opp crosses c order).book order.order_id = 0 :=
      resting_qty_eq_zero hp.absent
    rw [limit_rest_results, hrq, if_pos rfl, h0']
    omega

theorem execute_limit_order_ledger {c : BookCtx} {order : Order} (h : Seeded c.book order) :
    Conserves c.book (execute_limit_order c order).book order.order_id
    ∧ exec_by_id order.order_id (execute_limit_order c order).book.results
        + resting_qty (execute_limit_order c order).book order.order_id
      = exec_by_id order.order_id c.book.results + order.quantity := by
  unfold execute_limit_order execute_buy_limit_order execute_sell_limit_order
  split
  · exact limit_ledger .buy .sell _ _ order _ c h
  · exact limit_ledger .sell .buy _ _ order _ c h

theorem execute_market_order_ledger {c : BookCtx} {order : Order} (h : Seeded c.book order) :
    Conserves c.book (execute_market_order c order).book order.order_id := by
  have key : ∀ opp fuel, Conserves c.book
      (market_finish order (sweep opp (fun _ => false) order fuel c order.quantity)).book
      order.order_id := by
    intro opp fuel
    obtain ⟨s1, s2, _⟩ := sweep_ledger opp (fun _ => false) order fuel c order.quantity h
    obtain ⟨post, hp1, _, hp3⟩ := market_finish_results order
      (sweep opp (fun _ => false) order fuel c order.quantity)
    obtain ⟨c1, _⟩ := Conserves.refl_of order.order_id
      (market_finish_levels order (sweep opp (fun _ => false) order fuel c order.quantity))
      post hp1 (fun e he => (hp3 e he).zero)
    exact Conserves.trans ⟨s1, s2⟩ c1
  unfold execute_market_order execute_buy_market_order execute_sell_market_order
  split
  · exact key .sell _
  · exact key .buy _


theorem cancel_order_from_book_resting_qty {b : OrderBook} (h : WF b) {id : Nat}
    {stored : Order} (he : b.order_lookup id = some stored) (k : Nat) (hk : k ≠ id) :
    resting_qty (cancel_order_from_book b stored) k = resting_qty b k := by
  have key : ∀ s, Levels.qty_of ((cancel_order_from_book b stored).levels s) k
      = Levels.qty_of (b.levels s) k := by
    intro s
    unfold Levels.qty_of
    rw [cancel_order_from_book_entries h he s, List.filter_filter]
    congr 2
    apply List.filter_congr
    intro x _
    by_cases hx : x.2.order_id = k
    · simp [hx, hk]
    · simp [hx]
  unfold resting_qty
  rw [key, key]

theorem cancel_order_from_book_conserves {b : OrderBook} (h : WF b) {id : Nat}
    {stored : Order} (he : b.order_lookup id = some stored) :
    Conserves b (cancel_order_from_book b stored) id := by
  refine ⟨fun k => ?_, fun k hk => ?_⟩
  · rw [cancel_order_from_book_results]; exact Nat.add_comm _ _
  · rw [cancel_order_from_book_results, cancel_order_from_book_resting_qty h he k hk]

theorem push_conserves (c : BookCtx) (e : Order) (target : Nat)
    (hz : e.executed_quantity = 0) :
    Conserves c.book (c.push e).book target
    ∧ exec_by_id target (c.push e).book.results + resting_qty (c.push e).book target
        = exec_by_id target c.book.results + resting_qty c.book target :=
  Conserves.refl_of target (fun s => by cases s <;> rfl) [e] rfl (by simpa using hz)

theorem seed_conserves (b : OrderBook) (ex : Nat → Option Bool) (ote : Nat → Option Nat)
    (lk : Nat → Option Order) (target : Nat) :
    Conserves b
      { b with existing_order_ids := ex, order_total_executed := ote, order_lookup := lk } target
    ∧ exec_by_id target b.results
        + resting_qty
          { b with existing_order_ids := ex, order_total_executed := ote, order_lookup := lk }
          target
        = exec_by_id target b.results + resting_qty b target :=
  Conserves.refl_of target (fun s => by cases s <;> rfl) [] (by simp) (by simp)

theorem add_order_conserves {c : BookCtx} {order : Order} (h : WF c.book)
    (hnew : order.action = "NEW") :
    Conserves c.book (add_order c order).book order.order_id
    ∧ (c.book.existing_order_ids order.order_id ≠ none →
        exec_by_id order.order_id (add_order c order).book.results
            + resting_qty (add_order c order).book order.order_id
          = exec_by_id order.order_id c.book.results + resting_qty c.book order.order_id)
    ∧ (c.book.existing_order_ids order.order_id = none → order.type = "LIMIT" →
        exec_by_id order.order_id (add_order c order).book.results
            + resting_qty (add_order c order).book order.order_id
          = exec_by_id order.order_id c.book.results + order.quantity) := by
  unfold add_order
  split
  case isTrue hd =>
    have := push_conserves c
      { order with
        status := "REJECTED", executed_quantity := 0, execution_price := 0,
        counterparty_id := 0 } order.order_id rfl
    refine ⟨this.1, fun _ => this.2, fun hx => ?_⟩
    have h2 := hd.2
    rw [hx] at h2
    simp at h2
  case isFalse hd =>
    have hx : c.book.existing_order_ids order.order_id = none := by
      cases hv : c.book.existing_order_ids order.order_id with
      | none => rfl
      | some v => exact absurd ⟨hnew, by simp [hv]⟩ hd
    dsimp only
    have hseed := Seeded.seed h (not_resting_of_not_existing h hx)
      { order with status := "PENDING", executed_quantity := 0, execution_price := 0,
                   counterparty_id := 0 } rfl
      (Function.update c.book.existing_order_ids order.order_id (some true))
      (Function.update c.book.order_total_executed order.order_id (some 0))
      (by simp) (fun k hk => by simp [Function.update_noteq hk])
      { order with status := "PENDING", executed_quantity := 0, execution_price := 0,
                   counterparty_id := 0 } rfl
    have h0 := seed_conserves c.book
      (Function.update c.book.existing_order_ids order.order_id (some true))
      (Function.update c.book.order_total_executed order.order_id (some 0))
      (Function.update c.book.order_lookup order.order_id
        (some { order with status := "PENDING", executed_quantity := 0, execution_price := 0,
                           counterparty_id := 0 })) order.order_id
    have hr0 : resting_qty c.book order.order_id = 0 :=
      resting_qty_eq_zero (not_resting_of_not_existing h hx)
    split
    · rename_i hm
      refine ⟨h0.1.trans (execute_market_order_ledger (c := ⟨_, c.last_execution_timestamp⟩) hseed),
        fun hne => absurd hx hne, ?_⟩
      intro _ hl
      have hm' : order.type = "MARKET" := hm
      rw [hl] at hm'
      exact absurd hm' (by decide)
    · split
      · have hlim := execute_limit_order_ledger (c := ⟨_, c.last_execution_timestamp⟩) hseed
        refine ⟨h0.1.trans hlim.1, fun hne => absurd hx hne, fun _ _ => ?_⟩
        exact hlim.2
      · rename_i hm hl
        refine ⟨h0.1, fun hne => absurd hx hne, fun _ hl' => ?_⟩
        exact absurd hl' hl


theorem modify_seeded {b : OrderBook} (h : WF b) {request stored : Order}
    (he : b.order_lookup request.order_id = some stored) (updated : Order)
    (hu : updated.order_id = request.order_id) (ote : Nat → Option Nat)
    (order : Order) (hoid : order.order_id = request.order_id) :
    Seeded
      { cancel_order_from_book b stored with
        existing_order_ids := (cancel_order_from_book b stored).existing_order_ids
        order_total_executed := ote
        order_lookup :=
          Function.update (cancel_order_from_book b stored).order_lookup request.order_id
            (some updated) }
      order :=
  Seeded.seed (cancel_order_from_book_wf h he) (cancel_order_from_book_absent h he) updated hu
    (cancel_order_from_book b stored).existing_order_ids ote
    (by rw [cancel_order_from_book_existing]; exact h.lookup_existing _ _ he)
    (fun _ _ => rfl) order hoid

theorem Conserves.retarget {b b' : OrderBook} {t t' : Nat} (h : Conserves b b' t)
    (ht : t = t') : Conserves b b' t' := ht ▸ h

theorem modify_order_conserves {c : BookCtx} {request : Order} (h : WF c.book)
    (hz : request.executed_quantity = 0) :
    Conserves c.book (modify_order c request).book request.order_id
    ∧ (c.book.order_lookup request.order_id = none →
        exec_by_id request.order_id (modify_order c request).book.results
            + resting_qty (modify_order c request).book request.order_id
          = exec_by_id request.order_id c.book.results + resting_qty c.book request.order_id) := by
  unfold modify_order
  split
  case h_1 hnone =>
    have := push_conserves c { request with status := "REJECTED" } request.order_id hz
    exact ⟨this.1, fun _ => this.2⟩
  case h_2 stored he =>
    refine ⟨?_, fun hn => by rw [he] at hn; cases hn⟩
    dsimp only
    have hid : stored.order_id = request.order_id := h.lookup_id _ _ he
    have h0 := cancel_order_from_book_conserves h he
    have h1 := (seed_conserves (cancel_order_from_book c.book stored)
      (cancel_order_from_book c.book stored).existing_order_ids
      (Function.update (cancel_order_from_book c.book stored).order_total_executed
        request.order_id
        (some (((cancel_order_from_book c.book stored).order_total_executed
          request.order_id).getD 0)))
      (Function.update (cancel_order_from_book c.book stored).order_lookup request.order_id
        (some { stored with quantity := request.quantity, price := request.price }))
      request.order_id).1
    have hseed := fun (order : Order) (hoid : order.order_id = request.order_id) =>
      modify_seeded h he { stored with quantity := request.quantity, price := request.price } hid
        (Function.update (cancel_order_from_book c.book stored).order_total_executed
          request.order_id
          (some (((cancel_order_from_book c.book stored).order_total_executed
            request.order_id).getD 0)))
        order hoid
    split
    · split
      · have := execute_market_order_ledger (c := ⟨_, c.last_execution_timestamp⟩)
          (hseed { stored with
            quantity := modify_remaining request.quantity
              (((cancel_order_from_book c.book stored).order_total_executed
                request.order_id).getD 0)
            price := request.price, timestamp := request.timestamp, action := "MODIFY" } hid)
        exact (h0.trans h1).trans (this.retarget hid)
      · split
        · have := (execute_limit_order_ledger (c := ⟨_, c.last_execution_timestamp⟩)
            (hseed { stored with
              quantity := modify_remaining request.quantity
                (((cancel_order_from_book c.book stored).order_total_executed
                  request.order_id).getD 0)
              price := request.price, timestamp := request.timestamp, action := "MODIFY" } hid)).1
          exact (h0.trans h1).trans (this.retarget hid)
        · exact h0.trans h1
    · refine (h0.trans h1).trans ?_
      exact (Conserves.refl_of request.order_id (fun s => by cases s <;> rfl) [_] rfl
        (by simp)).1

theorem cancel_order_conserves {c : BookCtx} {request : Order} (h : WF c.book)
    (hz : request.executed_quantity = 0) :
    Conserves c.book (cancel_order c request).book request.order_id
    ∧ (c.book.order_lookup request.order_id = none →
        exec_by_id request.order_id (cancel_order c request).book.results
            + resting_qty (cancel_order c request).book request.order_id
          = exec_by_id request.order_id c.book.results + resting_qty c.book request.order_id) := by
  unfold cancel_order
  split
  case h_1 hnone =>
    have := push_conserves c { request with status := "REJECTED" } request.order_id hz
    exact ⟨this.1, fun _ => this.2⟩
  case h_2 stored he =>
    refine ⟨?_, fun hn => by rw [he] at hn; cases hn⟩
    dsimp only
    have h0 := cancel_order_from_book_conserves h he
    refine h0.trans ?_
    exact (Conserves.refl_of request.order_id (fun s => by cases s <;> rfl) [_] rfl
      (by simp)).1


theorem process_order_book_other (w : World) (o : Order) {instrument : String}
    (hi : instrument ≠ o.instrument) :
    books_get (process_order w o).engine.order_books instrument
      = books_get w.engine.order_books instrument := by
  unfold process_order
  dsimp only
  split <;> exact books_get_set_other _ _ hi

theorem process_order_book_rejected (w : World) (o : Order) (hst : o.status = "REJECTED") :
    books_get (process_order w o).engine.order_books o.instrument
      = (BookCtx.push ⟨books_get w.engine.order_books o.instrument,
          w.statics.last_execution_timestamp⟩ o).book := by
  unfold process_order
  dsimp only
  rw [if_pos hst, books_get_set_same]
  rfl

theorem process_order_book_new (w : World) (o : Order) (hst : o.status ≠ "REJECTED")
    (hnew : o.action = "NEW") :
    books_get (process_order w o).engine.order_books o.instrument
      = (add_order ⟨books_get w.engine.order_books o.instrument,
          w.statics.last_execution_timestamp⟩ o).book := by
  unfold process_order
  dsimp only
  rw [if_neg hst, books_get_set_same, if_pos hnew]

theorem process_order_book_modify (w : World) (o : Order) (hst : o.status ≠ "REJECTED")
    (hmod : o.action = "MODIFY") :
    books_get (process_order w o).engine.order_books o.instrument
      = (modify_order ⟨books_get w.engine.order_books o.instrument,
          w.statics.last_execution_timestamp⟩ o).book := by
  unfold process_order
  dsimp only
  rw [if_neg hst, books_get_set_same, if_neg (by rw [hmod]; decide), if_pos hmod]

theorem process_order_book_cancel (w : World) (o : Order) (hst : o.status ≠ "REJECTED")
    (hcan : o.action = "CANCEL") :
    books_get (process_order w o).engine.order_books o.instrument
      = (cancel_order ⟨books_get w.engine.order_books o.instrument,
          w.statics.last_execution_timestamp⟩ o).book := by
  unfold process_order
  dsimp only
  rw [if_neg hst, books_get_set_same, if_neg (by rw [hcan]; decide),
    if_neg (by rw [hcan]; decide), if_pos hcan]

theorem process_order_book_noop (w : World) (o : Order) (hst : o.status ≠ "REJECTED")
    (h1 : o.action ≠ "NEW") (h2 : o.action ≠ "MODIFY") (h3 : o.action ≠ "CANCEL") :
    books_get (process_order w o).engine.order_books o.instrument
      = books_get w.engine.order_books o.instrument := by
  unfold process_order
  dsimp only
  rw [if_neg hst, books_get_set_same, if_neg h1, if_neg h2, if_neg h3]

/-- Quantities through one `process_order`, seen from the book of `instrument`:
the balance between `order_id` and `counterparty_id` sums is kept for every id, and
the sum of what is executed and what rests is kept for every id that the input
does not accept (a fresh NEW) and does not modify or cancel. -/
theorem process_order_ledger (w : World) (hw : EngineWF w.engine) (o : Order)
    (hz : o.executed_quantity = 0) (instrument : String) :
    (∀ k, exec_by_id k (books_get (process_order w o).engine.order_books instrument).results
          + exec_by_cp k (books_get w.engine.order_books instrument).results
        = exec_by_cp k (books_get (process_order w o).engine.order_books instrument).results
          + exec_by_id k (books_get w.engine.order_books instrument).results)
    ∧ ∀ k,
      (o.instrument ≠ instrument ∨ o.status = "REJECTED" ∨ o.order_id ≠ k
        ∨ (o.action = "NEW"
            ∧ (books_get w.engine.order_books instrument).existing_order_ids k ≠ none)
        ∨ (o.action ≠ "NEW" ∧ (books_get w.engine.order_books instrument).order_lookup k = none)
        ∨ (o.action ≠ "NEW" ∧ o.action ≠ "MODIFY" ∧ o.action ≠ "CANCEL")) →
      exec_by_id k (books_get (process_order w o).engine.order_books instrument).results
          + resting_qty (books_get (process_order w o).engine.order_books instrument) k
        = exec_by_id k (books_get w.engine.order_books instrument).results
          + resting_qty (books_get w.engine.order_books instrument) k := by
  by_cases hi : instrument = o.instrument
  swap
  · rw [process_order_book_other w o hi]
    exact ⟨fun k => Nat.add_comm _ _, fun k _ => rfl⟩
  subst hi
  have hb := books_get_wf hw o.instrument
  by_cases hst : o.status = "REJECTED"
  · rw [process_order_book_rejected w o hst]
    exact ⟨fun k => (push_conserves _ o k hz).1.balance k, fun k _ => (push_conserves _ o k hz).2⟩
  by_cases hnew : o.action = "NEW"
  · rw [process_order_book_new w o hst hnew]
    obtain ⟨h1, h2, _⟩ := add_order_conserves
      (c := ⟨books_get w.engine.order_books o.instrument, w.statics.last_execution_timestamp⟩)
      hb hnew
    refine ⟨h1.balance, fun k hk => ?_⟩
    by_cases hko : k = o.order_id
    · subst hko
      rcases hk with hk | hk | hk | hk | hk | hk
      · exact absurd rfl hk
      · exact absurd hk hst
      · exact absurd rfl hk
      · exact h2 hk.2
      · exact absurd hnew hk.1
      · exact absurd hnew hk.1
    · exact h1.others k hko
  by_cases hmod : o.action = "MODIFY"
  · rw [process_order_book_modify w o hst hmod]
    obtain ⟨h1, h2⟩ := modify_order_conserves
      (c := ⟨books_get w.engine.order_books o.instrument, w.statics.last_execution_timestamp⟩)
      hb hz
    refine ⟨h1.balance, fun k hk => ?_⟩
    by_cases hko : k = o.order_id
    · subst hko
      rcases hk with hk | hk | hk | hk | hk | hk
      · exact absurd rfl hk
      · exact absurd hk hst
      · exact absurd rfl hk
      · exact absurd hk.1 hnew
      · exact h2 hk.2
      · exact absurd hmod hk.2.1
    · exact h1.others k hko
  by_cases hcan : o.action = "CANCEL"
  · rw [process_order_book_cancel w o hst hcan]
    obtain ⟨h1, h2⟩ := cancel_order_conserves
      (c := ⟨books_get w.engine.order_books o.instrument, w.statics.last_execution_timestamp⟩)
      hb hz
    refine ⟨h1.balance, fun k hk => ?_⟩
    by_cases hko : k = o.order_id
    · subst hko
      rcases hk with hk | hk | hk | hk | hk | hk
      · exact absurd rfl hk
      · exact absurd hk hst
      · exact absurd rfl hk
      · exact absurd hk.1 hnew
      · exact h2 hk.2
      · exact absurd hcan hk.2.2
    · exact h1.others k hko
  · rw [process_order_book_noop w o hst hnew hmod hcan]
    exact ⟨fun k => Nat.add_comm _ _, fun k _ => rfl⟩

/-- Quantities of an accepted LIMIT order right after its NEW. -/
theorem process_order_accept (w : World) (hw : EngineWF w.engine) (o : Order)
    (hnew : o.action = "NEW") (hlimit : o.type = "LIMIT") (hst : o.status ≠ "REJECTED")
    (hfresh : (books_get w.engine.order_books o.instrument).existing_order_ids o.order_id = none) :
    exec_by_id o.order_id (books_get (process_order w o).engine.order_books o.instrument).results
        + resting_qty (books_get (process_order w o).engine.order_books o.instrument) o.order_id
      = exec_by_id o.order_id (books_get w.engine.order_books o.instrument).results
        + o.quantity := by
  rw [process_order_book_new w o hst hnew]
  exact (add_order_conserves
    (c := ⟨books_get w.engine.order_books o.instrument, w.statics.last_execution_timestamp⟩)
    (books_get_wf hw o.instrument) hnew).2.2 hfresh hlimit


theorem run_balance (w : World) (hw : EngineWF w.engine) (inputs : List Order)
    (hz : ∀ i ∈ inputs, i.executed_quantity = 0) (instrument : String)
    (h1 : ∀ k, exec_by_id k (books_get w.engine.order_books instrument).results
      = exec_by_cp k (books_get w.engine.order_books instrument).results)
    (h2 : ∀ k, (books_get w.engine.order_books instrument).existing_order_ids k = none →
      exec_by_id k (books_get w.engine.order_books instrument).results = 0) :
    (∀ k, exec_by_id k (books_get (run w inputs).engine.order_books instrument).results
      = exec_by_cp k (books_get (run w inputs).engine.order_books instrument).results)
    ∧ ∀ k, (books_get (run w inputs).engine.order_books instrument).existing_order_ids k = none →
      exec_by_id k (books_get (run w inputs).engine.order_books instrument).results = 0 := by
  induction inputs generalizing w with
  | nil => exact ⟨h1, h2⟩
  | cons o rest ih =>
    have hzo : o.executed_quantity = 0 := hz o (by simp)
    obtain ⟨l1, l2⟩ := process_order_ledger w hw o hzo instrument
    have hb := books_get_wf hw instrument
    have hb' := books_get_wf (process_order_wf hw o) instrument
    refine ih (process_order w o) (process_order_wf hw o) (fun i hi => hz i (by simp [hi])) ?_ ?_
    · intro k
      have := l1 k
      have := h1 k
      omega
    · intro k hk'
      have hk : (books_get w.engine.order_books instrument).existing_order_ids k = none := by
        by_contra hne
        exact process_order_existing_mono w o instrument k hne hk'
      have hlk : (books_get w.engine.order_books instrument).order_lookup k = none := by
        cases hv : (books_get w.engine.order_books instrument).order_lookup k with
        | none => rfl
        | some e => exact absurd hk (hb.lookup_existing k e hv)
      have hcond : o.instrument ≠ instrument ∨ o.status = "REJECTED" ∨ o.order_id ≠ k
          ∨ (o.action = "NEW"
              ∧ (books_get w.engine.order_books instrument).existing_order_ids k ≠ none)
          ∨ (o.action ≠ "NEW"
              ∧ (books_get w.engine.order_books instrument).order_lookup k = none)
          ∨ (o.action ≠ "NEW" ∧ o.action ≠ "MODIFY" ∧ o.action ≠ "CANCEL") := by
        by_cases hi : o.instrument = instrument
        swap
        · exact Or.inl hi
        by_cases hst : o.status = "REJECTED"
        · exact Or.inr (Or.inl hst)
        by_cases hid : o.order_id = k
        swap
        · exact Or.inr (Or.inr (Or.inl hid))
        by_cases hnew : o.action = "NEW"
        · exfalso
          have := process_new_existing w o hnew hst
          rw [hi, hid] at this
          exact this hk'
        · exact Or.inr (Or.inr (Or.inr (Or.inr (Or.inl ⟨hnew, hlk⟩))))
      have e1 := l2 k hcond
      have r0 := resting_qty_eq_zero (not_resting_of_not_existing hb hk)
      have r0' := resting_qty_eq_zero (not_resting_of_not_existing hb' hk')
      have := h2 k hk
      omega

theorem run_tracked (w : World) (hw : EngineWF w.engine) (post : List Order)
    (hz : ∀ i ∈ post, i.executed_quantity = 0) (instrument : String) (x total : Nat)
    (hex : (books_get w.engine.order_books instrument).existing_order_ids x ≠ none)
    (ht : exec_by_id x (books_get w.engine.order_books instrument).results
      + resting_qty (books_get w.engine.order_books instrument) x = total)
    (hfree : ∀ i ∈ post, i.instrument = instrument → i.order_id = x →
      i.action ≠ "MODIFY" ∧ i.action ≠ "CANCEL") :
    exec_by_id x (books_get (run w post).engine.order_books instrument).results
      + resting_qty (books_get (run w post).engine.order_books instrument) x = total := by
  induction post generalizing w with
  | nil => exact ht
  | cons o rest ih =>
    have hzo : o.executed_quantity = 0 := hz o (by simp)
    obtain ⟨_, l2⟩ := process_order_ledger w hw o hzo instrument
    refine ih (process_order w o) (process_order_wf hw o) (fun i hi => hz i (by simp [hi]))
      (process_order_existing_mono w o instrument x hex) ?_
      (fun i hi => hfree i (by simp [hi]))
    rw [← ht]
    apply l2
    by_cases hi : o.instrument = instrument
    swap
    · exact Or.inl hi
    by_cases hid : o.order_id = x
    swap
    · exact Or.inr (Or.inr (Or.inl hid))
    by_cases hnew : o.action = "NEW"
    · exact Or.inr (Or.inr (Or.inr (Or.inl ⟨hnew, hex⟩)))
    · have := hfree o (by simp) hi hid
      exact Or.inr (Or.inr (Or.inr (Or.inr (Or.inr ⟨hnew, this.1, this.2⟩))))

/-- C5: conservation. Take a run whose inputs carry no executed quantity (as input
records do), a LIMIT order accepted by its NEW, and no MODIFY or CANCEL of that
order afterwards. At every later point, in the result log of its instrument, the
executed quantities of the events of the order sum to the same as those of the
events naming it as counterparty, and that sum is the quantity of the NEW less
the quantity the order has resting in the book. -/
theorem conservation (s : Statics) (pre post : List Order) (o : Order)
    (hzero : ∀ i ∈ pre ++ o :: post, i.executed_quantity = 0)
    (hnew : o.action = "NEW") (hlimit : o.type = "LIMIT") (hst : o.status ≠ "REJECTED")
    (hfresh : (books_get (run (MatchingEngine.new s) pre).engine.order_books
      o.instrument).existing_order_ids o.order_id = none)
    (hfree : ∀ i ∈ post, i.instrument = o.instrument → i.order_id = o.order_id →
      i.action ≠ "MODIFY" ∧ i.action ≠ "CANCEL") :
    exec_by_id o.order_id
        (books_get (run (MatchingEngine.new s) (pre ++ o :: post)).engine.order_books
          o.instrument).results
      = exec_by_cp o.order_id
        (books_get (run (MatchingEngine.new s) (pre ++ o :: post)).engine.order_books
          o.instrument).results
    ∧ exec_by_id o.order_id
        (books_get (run (MatchingEngine.new s) (pre ++ o :: post)).engine.order_books
          o.instrument).results
      + resting_qty
        (books_get (run (MatchingEngine.new s) (pre ++ o :: post)).engine.order_books
          o.instrument) o.order_id
      = o.quantity
    ∧ exec_by_id o.order_id
        (books_get (run (MatchingEngine.new s) (pre ++ o :: post)).engine.order_books
          o.instrument).results
      = o.quantity
        - resting_qty
          (books_get (run (MatchingEngine.new s) (pre ++ o :: post)).engine.order_books
            o.instrument) o.order_id := by
  have hG := run_balance (MatchingEngine.new s) (new_engine_wf s) (pre ++ o :: post) hzero
    o.instrument (fun k => rfl) (fun k _ => rfl)
  have hGpre := run_balance (MatchingEngine.new s) (new_engine_wf s) pre
    (fun i hi => hzero i (by simp [hi])) o.instrument (fun k => rfl) (fun k _ => rfl)
  have hwpre := run_wf (new_engine_wf s) pre
  have hacc := process_order_accept (run (MatchingEngine.new s) pre) hwpre o hnew hlimit hst hfresh
  rw [hGpre.2 o.order_id hfresh, Nat.zero_add] at hacc
  have htr := run_tracked (process_order (run (MatchingEngine.new s) pre) o)
    (process_order_wf hwpre o) post (fun i hi => hzero i (by simp [hi])) o.instrument
    o.order_id o.quantity (process_new_existing _ o hnew hst) hacc hfree
  rw [← run_cons, ← run_append] at htr
  refine ⟨hG.1 o.order_id, htr, ?_⟩
  omega

/-- Instance of C5: the ask of 40 (id 2) rests behind an ask of 30, then a BUY
MARKET order of 50 takes 20 of it. -/
theorem conservation_witness :
    exec_by_id 2
        (books_get (run (MatchingEngine.new Statics.initial)
          (two_asks ++ [mk_order 1200 3 "AAPL" "BUY" "MARKET" 50 0 "NEW"])).engine.order_books
          "AAPL").results
      + resting_qty
        (books_get (run (MatchingEngine.new Statics.initial)
          (two_asks ++ [mk_order 1200 3 "AAPL" "BUY" "MARKET" 50 0 "NEW"])).engine.order_books
          "AAPL") 2
      = 40 :=
  (conservation Statics.initial [mk_order 1000 1 "AAPL" "SELL" "LIMIT" 30 10000 "NEW"]
    [mk_order 1200 3 "AAPL" "BUY" "MARKET" 50 0 "NEW"]
    (mk_order 1100 2 "AAPL" "SELL" "LIMIT" 40 10005 "NEW")
    (by decide) rfl rfl (by decide) (by decide) (by decide)).2.1

/-! ## The loop without assumptions on the state -/

/-- What the loop appends is a list of trade pairs; the taker event of the last
pair shows the quantity the loop returns, and without a pair the quantity is the
one the loop was entered with. -/
theorem sweep_pairs (opp : BookSide) (stop : Int → Bool) (order : Order) (fuel : Nat)
    (c : BookCtx) (r : Nat) :
    ∃ ps : List (Order × Order),
      (sweep opp stop order fuel c r).1.book.results = c.book.results ++ pairs_flat ps
      ∧ (∀ tm ∈ ps, IsTrade order tm)
      ∧ (∀ tm, ps.getLast? = some tm → tm.1.quantity = (sweep opp stop order fuel c r).2)
      ∧ (ps = [] → (sweep opp stop order fuel c r).2 = r) := by
  refine sweep_invariant opp stop order
    (fun c' r' => ∃ ps : List (Order × Order),
      c'.book.results = c.book.results ++ pairs_flat ps
      ∧ (∀ tm ∈ ps, IsTrade order tm)
      ∧ (∀ tm, ps.getLast? = some tm → tm.1.quantity = r')
      ∧ (ps = [] → r' = r))
    ?_ ?_ fuel c r ⟨[], by simp, by simp, by simp, fun _ => rfl⟩
  · intro c' r' price oq rest hc _ _ _ _
    obtain ⟨ps, h1, h2, h3, h4⟩ := hc
    exact ⟨ps, by simpa using h1, h2, h3, h4⟩
  · intro c' r' price oq rest front tail hc _ _ _ _
    obtain ⟨ps, h1, h2, _, _⟩ := hc
    refine ⟨ps ++ [(taker_execution order price front c' r',
      maker_execution order price front c' r')], ?_, ?_, ?_, ?_⟩
    · rw [execute_trade_results, h1, pairs_flat_append, pairs_flat_singleton, List.append_assoc]
    · intro tm htm
      rcases List.mem_append.1 htm with htm | htm
      · exact h2 tm htm
      · simp only [List.mem_singleton] at htm
        subst htm
        exact ⟨price, front, c', r', rfl, rfl⟩
    · intro tm htm
      rw [List.getLast?_append_of_ne_nil _ (by simp), List.getLast?_singleton] at htm
      cases htm
      rfl
    · intro hnil
      simp at hnil

/-- The loop does nothing when the consumed side is empty or its first level
fails the price test. -/
theorem sweep_no_cross (opp : BookSide) (stop : Int → Bool) (order : Order) (fuel : Nat)
    (c : BookCtx) (r : Nat)
    (h : ∀ p q rest, c.book.levels opp = (p, q) :: rest → stop p = true) :
    sweep opp stop order fuel c r = (c, r) := by
  cases fuel with
  | zero => rfl
  | succ n =>
    unfold sweep
    by_cases hr : r = 0
    · simp [hr]
    · simp only [hr, if_false]
      cases hl : c.book.levels opp with
      | nil => rfl
      | cons pq rest =>
        obtain ⟨p, q⟩ := pq
        simp [h p q rest hl]

/-- The first iteration of the loop on a level that passes the price test and
holds an order is a trade with the head of that level. -/
theorem sweep_first_trade (opp : BookSide) (stop : Int → Bool) (order : Order) (fuel : Nat)
    (c : BookCtx) (r : Nat) (price : Int) (oq : OrderQueue) (rest : Levels) (front : Order)
    (tail : List Order) (hr : r ≠ 0) (hl : c.book.levels opp = (price, oq) :: rest)
    (hstop : stop price = false) (ho : oq.orders = front :: tail) :
    sweep opp stop order (fuel + 1) c r
      = sweep opp stop order fuel (execute_trade opp order price oq front tail rest c r).1
          (execute_trade opp order price oq front tail rest c r).2 := by
  conv_lhs => unfold sweep
  simp only [hr, if_false, hl, hstop, Bool.false_eq_true]
  rw [ho]

/-! ## Status and remaining size of the two events of a trade -/

/-- C17: in every trade (every run of the loop body `execute_trade`) the taker
event shows the taker's remaining size after the trade, status EXECUTED exactly
when that size is 0 and PARTIALLY_EXECUTED otherwise, and the taker's action; the
maker event shows the size the maker keeps in its level after the trade (it leaves
the level when that size is 0), status EXECUTED exactly when that size is 0 and
PARTIALLY_EXECUTED otherwise. What a whole loop appends is a list of such pairs,
the last taker event showing the remainder the loop returns. -/
theorem trade_status_and_remaining :
    (∀ opp order price oq front tail rest c r,
      ∃ t m,
        (execute_trade opp order price oq front tail rest c r).1.book.results
          = c.book.results ++ [t, m]
        ∧ t.quantity = (execute_trade opp order price oq front tail rest c r).2
        ∧ t.quantity = r - min r front.quantity
        ∧ (t.status = "EXECUTED" ↔ t.quantity = 0)
        ∧ (t.status = "PARTIALLY_EXECUTED" ↔ t.quantity ≠ 0)
        ∧ t.action = order.action
        ∧ m.quantity = front.quantity - min r front.quantity
        ∧ ((execute_trade opp order price oq front tail rest c r).1.book.levels opp).entries
            = (if m.quantity = 0 then [] else [(price, { front with quantity := m.quantity })])
                ++ (tail.map (fun o => (price, o)) ++ rest.entries)
        ∧ (m.status = "EXECUTED" ↔ m.quantity = 0)
        ∧ (m.status = "PARTIALLY_EXECUTED" ↔ m.quantity ≠ 0))
    ∧ (∀ opp stop order fuel c r,
      ∃ ps : List (Order × Order),
        (sweep opp stop order fuel c r).1.book.results = c.book.results ++ pairs_flat ps
        ∧ (∀ tm ∈ ps,
            tm.1.action = order.action
            ∧ (tm.1.status = "EXECUTED" ↔ tm.1.quantity = 0)
            ∧ (tm.1.status = "PARTIALLY_EXECUTED" ↔ tm.1.quantity ≠ 0)
            ∧ (tm.2.status = "EXECUTED" ↔ tm.2.quantity = 0)
            ∧ (tm.2.status = "PARTIALLY_EXECUTED" ↔ tm.2.quantity ≠ 0))
        ∧ (∀ tm, ps.getLast? = some tm → tm.1.quantity = (sweep opp stop order fuel c r).2)) := by
  have hst : ∀ n : Nat,
      ((if n = 0 then "EXECUTED" else "PARTIALLY_EXECUTED") = "EXECUTED" ↔ n = 0)
      ∧ ((if n = 0 then "EXECUTED" else "PARTIALLY_EXECUTED") = "PARTIALLY_EXECUTED" ↔ n ≠ 0) := by
    intro n
    by_cases hn : n = 0
    · simp [hn]
    · simp [hn]
  constructor
  · intro opp order price oq front tail rest c r
    refine ⟨taker_execution order price front c r, maker_execution order price front c r,
      execute_trade_results _ _ _ _ _ _ _ _ _, rfl, rfl, (hst _).1, (hst _).2, rfl, rfl, ?_, (hst _).1, (hst _).2⟩
    rw [execute_trade_levels_same, entries_levels_after_trade]
    by_cases hq : front.quantity ≤ r
    · have h0 : (maker_execution order price front c r).quantity = 0 := by
        show front.quantity - min r front.quantity = 0
        omega
      rw [if_pos hq, if_pos h0]
      rfl
    · have h0 : (maker_execution order price front c r).quantity = front.quantity - r := by
        show front.quantity - min r front.quantity = front.quantity - r
        omega
      have h1 : (maker_execution order price front c r).quantity ≠ 0 := by omega
      rw [if_neg hq, if_neg h1, h0]
      rfl
  · intro opp stop order fuel c r
    obtain ⟨ps, h1, h2, h3, _⟩ := sweep_pairs opp stop order fuel c r
    refine ⟨ps, h1, ?_, h3⟩
    intro tm htm
    obtain ⟨price, front, c', r', ht, hm⟩ := h2 tm htm
    rw [ht, hm]
    exact ⟨rfl, (hst _).1, (hst _).2, (hst _).1, (hst _).2⟩

/-! ## MARKET order without liquidity -/

/-- With nothing on the opposing side the MARKET routines skip the loop. -/
theorem execute_market_order_empty (c : BookCtx) (order : Order)
    (hopp : (if order.side = "BUY" then c.book.sell_orders else c.book.buy_orders) = []) :
    execute_market_order c order = market_finish order (c, order.quantity) := by
  unfold execute_market_order
  by_cases hs : order.side = "BUY"
  · rw [if_pos hs] at hopp ⊢
    unfold execute_buy_market_order
    rw [sweep_no_cross]
    intro p q rest hl
    have : c.book.sell_orders = (p, q) :: rest := hl
    rw [hopp] at this
    cases this
  · rw [if_neg hs] at hopp ⊢
    unfold execute_sell_market_order
    rw [sweep_no_cross]
    intro p q rest hl
    have : c.book.buy_orders = (p, q) :: rest := hl
    rw [hopp] at this
    cases this

/-- C18: a MARKET order processed while the opposing side of the book is empty
appends exactly one event, REJECTED with zero execution fields and a freshly drawn
execution timestamp, and leaves both sides of the book as they were. First for the
routine that `add_order` and `modify_order` call, then for `add_order` on an
accepted MARKET order, where the event is the input record with these fields. -/
theorem market_no_liquidity (c : BookCtx) (order : Order)
    (hopp : (if order.side = "BUY" then c.book.sell_orders else c.book.buy_orders) = []) :
    (∃ e, (execute_market_order c order).book.results = c.book.results ++ [e]
      ∧ e.status = "REJECTED" ∧ e.executed_quantity = 0 ∧ e.execution_price = 0
      ∧ e.counterparty_id = 0 ∧ e.action = order.action
      ∧ e.timestamp = get_next_execution_timestamp order.timestamp c.last_execution_timestamp
      ∧ (execute_market_order c order).last_execution_timestamp = e.timestamp
      ∧ (execute_market_order c order).book.buy_orders = c.book.buy_orders
      ∧ (execute_market_order c order).book.sell_orders = c.book.sell_orders)
    ∧ (order.type = "MARKET" →
        ¬(order.action = "NEW" ∧ (c.book.existing_order_ids order.order_id).isSome) →
        (add_order c order).book.results
          = c.book.results ++
            [{ order with
                timestamp := get_next_execution_timestamp order.timestamp c.last_execution_timestamp
                status := "REJECTED", executed_quantity := 0, execution_price := 0
                counterparty_id := 0 }]
        ∧ (add_order c order).book.buy_orders = c.book.buy_orders
        ∧ (add_order c order).book.sell_orders = c.book.sell_orders) := by
  constructor
  · rw [execute_market_order_empty c order hopp]
    unfold market_finish
    rw [if_pos rfl]
    exact ⟨_, rfl, rfl, rfl, rfl, rfl, rfl, rfl, rfl, rfl, rfl⟩
  · intro htype hdup
    unfold add_order
    rw [if_neg hdup]
    simp only [htype, if_true]
    by_cases ha : order.action = "NEW"
    · simp only [ha, if_true]
      rw [execute_market_order_empty]
      · unfold market_finish
        rw [if_pos rfl]
        simp [lookup_value]
      · exact hopp
    · simp only [ha, if_false]
      rw [execute_market_order_empty]
      · unfold market_finish
        rw [if_pos rfl]
        simp [lookup_value]
      · exact hopp

/-- Instance of C18: a BUY MARKET order of 50 sent to a new book. -/
theorem market_no_liquidity_witness :
    (add_order ⟨OrderBook.new, 0⟩ (mk_order 1000 1 "AAPL" "BUY" "MARKET" 50 0 "NEW")).book.results
      = [{ mk_order 1000 1 "AAPL" "BUY" "MARKET" 50 0 "NEW" with status := "REJECTED" }]
    ∧ (add_order ⟨OrderBook.new, 0⟩ (mk_order 1000 1 "AAPL" "BUY" "MARKET" 50 0 "NEW")).book.buy_orders = []
    ∧ (add_order ⟨OrderBook.new, 0⟩ (mk_order 1000 1 "AAPL" "BUY" "MARKET" 50 0 "NEW")).book.sell_orders = [] :=
  (market_no_liquidity ⟨OrderBook.new, 0⟩ (mk_order 1000 1 "AAPL" "BUY" "MARKET" 50 0 "NEW")
    (by decide)).2 (by decide) (by decide)

/-! ## The LIMIT routines: PENDING or trades -/

/-- Head of a LIMIT routine when the first opposing level, if any, fails the
price test or is empty: one PENDING event copied from the lookup entry. -/
theorem limit_pending_no_cross (opp : BookSide) (crosses : Int → Bool) (c : BookCtx)
    (order : Order) (ha : order.action = "NEW" ∨ order.action = "MODIFY")
    (hno : ∀ p q rest, c.book.levels opp = (p, q) :: rest → (crosses p && !q.empty) = false) :
    (limit_pending opp crosses c order).book.results
      = c.book.results ++
        [{ lookup_value c.book.order_lookup order.order_id with
            timestamp := get_next_execution_timestamp order.timestamp c.last_execution_timestamp
            action := order.action
            status := "PENDING"
            executed_quantity := 0
            execution_price := 0
            counterparty_id := 0 }]
    ∧ (limit_pending opp crosses c order).last_execution_timestamp
      = get_next_execution_timestamp order.timestamp c.last_execution_timestamp := by
  unfold limit_pending
  rw [if_pos ha]
  cases hl : c.book.levels opp with
  | nil => exact ⟨rfl, rfl⟩
  | cons pq rest =>
    obtain ⟨p, q⟩ := pq
    have := hno p q rest hl
    simp only [this]
    exact ⟨rfl, rfl⟩

/-- Head of a LIMIT routine when the first opposing level passes the price test
and holds an order: nothing is emitted. -/
theorem limit_pending_cross (opp : BookSide) (crosses : Int → Bool) (c : BookCtx)
    (order : Order) (p : Int) (q : OrderQueue) (rest : Levels)
    (hl : c.book.levels opp = (p, q) :: rest) (hc : (crosses p && !q.empty) = true) :
    limit_pending opp crosses c order = c := by
  unfold limit_pending
  split
  · simp only [hl, hc]
    rfl
  · rfl

/-- A LIMIT routine whose order does not cross: after the PENDING event the loop
does nothing. -/
theorem limit_routine_no_cross (opp : BookSide) (crosses stop : Int → Bool) (order : Order)
    (fuel : Nat) (c : BookCtx)
    (hno : ∀ p q rest, c.book.levels opp = (p, q) :: rest → stop p = true) :
    sweep opp stop order fuel (limit_pending opp crosses c order) order.quantity
      = (limit_pending opp crosses c order, order.quantity) := by
  apply sweep_no_cross
  intro p q rest hl
  rw [limit_pending_levels] at hl
  exact hno p q rest hl

/-- A LIMIT routine whose order crosses a first level holding an order: no
PENDING event, and the loop starts with a trade against the head of that level. -/
theorem limit_routine_cross (opp : BookSide) (crosses stop : Int → Bool) (order : Order)
    (c : BookCtx) (p : Int) (q : OrderQueue) (rest : Levels) (front : Order) (tail : List Order)
    (hq : order.quantity ≠ 0) (hl : c.book.levels opp = (p, q) :: rest)
    (hc : crosses p = true) (hs : stop p = false) (ho : q.orders = front :: tail) :
    limit_pending opp crosses c order = c
    ∧ ∃ ps : List (Order × Order),
        (sweep opp stop order (sweep_fuel (c.book.levels opp)) c order.quantity).1.book.results
          = c.book.results ++ pairs_flat
              ((taker_execution order p front c order.quantity,
                maker_execution order p front c order.quantity) :: ps)
        ∧ ∀ tm ∈ ps, IsTrade order tm := by
  refine ⟨limit_pending_cross opp crosses c order p q rest hl ?_, ?_⟩
  · simp [hc, OrderQueue.empty, ho]
  · have hf : sweep_fuel (c.book.levels opp)
        = (rest.length + (List.map (fun pq => pq.2.orders.length) ((p, q) :: rest)).sum + 1) + 1 := by
      rw [hl]
      unfold sweep_fuel
      rw [List.length_cons]
      omega
    rw [hf, sweep_first_trade opp stop order _ c order.quantity p q rest front tail hq hl hs ho]
    obtain ⟨ps, h1, h2, _, _⟩ := sweep_pairs opp stop order
      (rest.length + (List.map (fun pq => pq.2.orders.length) ((p, q) :: rest)).sum + 1)
      (execute_trade opp order p q front tail rest c order.quantity).1
      (execute_trade opp order p q front tail rest c order.quantity).2
    refine ⟨ps, ?_, h2⟩
    rw [h1, execute_trade_results]
    change _ = _ ++ pairs_flat ([_] ++ ps)
    rw [pairs_flat_append, pairs_flat_singleton, List.append_assoc]

/-- Outcome of a LIMIT routine (own side `own`, consumed side `opp`) on a
consumed side without empty first level, by the price test on its first level. -/
theorem limit_routine_outcome (own opp : BookSide) (crosses stop : Int → Bool) (order : Order)
    (c : BookCtx) (ha : order.action = "NEW" ∨ order.action = "MODIFY")
    (hq : 0 < order.quantity) (hne : ∀ pq ∈ c.book.levels opp, pq.2.orders ≠ [])
    (hcs : ∀ p, stop p = !crosses p) :
    ((∀ p q rest, c.book.levels opp = (p, q) :: rest → crosses p = false) →
      limit_rest own order
          (sweep opp stop order (sweep_fuel ((limit_pending opp crosses c order).book.levels opp))
            (limit_pending opp crosses c order) order.quantity)
        = limit_rest own order (limit_pending opp crosses c order, order.quantity)
      ∧ (limit_pending opp crosses c order).book.results
        = c.book.results ++
          [{ lookup_value c.book.order_lookup order.order_id with
              timestamp := get_next_execution_timestamp order.timestamp c.last_execution_timestamp
              action := order.action
              status := "PENDING"
              executed_quantity := 0
              execution_price := 0
              counterparty_id := 0 }]
      ∧ (limit_pending opp crosses c order).last_execution_timestamp
        = get_next_execution_timestamp order.timestamp c.last_execution_timestamp)
    ∧ (∀ p q rest, c.book.levels opp = (p, q) :: rest → crosses p = true →
      ∃ tm ps,
        (limit_rest own order
          (sweep opp stop order (sweep_fuel ((limit_pending opp crosses c order).book.levels opp))
            (limit_pending opp crosses c order) order.quantity)).book.results
          = c.book.results ++ pairs_flat (tm :: ps)
        ∧ ∀ x ∈ tm :: ps, IsTrade order x) := by
  constructor
  · intro hno
    have h1 := limit_pending_no_cross opp crosses c order ha (by
      intro p q rest hl
      simp [hno p q rest hl])
    refine ⟨?_, h1.1, h1.2⟩
    rw [limit_routine_no_cross]
    intro p q rest hl
    rw [hcs, hno p q rest hl]
    rfl
  · intro p q rest hl hc
    have hqne : q.orders ≠ [] := hne (p, q) (by rw [hl]; exact List.mem_cons_self _ _)
    obtain ⟨front, tail, ho⟩ := List.exists_cons_of_ne_nil hqne
    obtain ⟨h1, ps, h2, h3⟩ := limit_routine_cross opp crosses stop order c p q rest front tail
      (by omega) hl hc (by rw [hcs, hc]; rfl) ho
    refine ⟨(taker_execution order p front c order.quantity,
      maker_execution order p front c order.quantity), ps, ?_, ?_⟩
    · rw [limit_rest_results, h1, h2]
    · intro x hx
      rcases List.mem_cons.1 hx with rfl | hx
      · exact ⟨p, front, c, order.quantity, rfl, rfl⟩
      · exact h3 x hx

/-- The two events of a trade are EXECUTED or PARTIALLY_EXECUTED. -/
theorem IsTrade.status {order : Order} {tm : Order × Order} (h : IsTrade order tm) :
    (tm.1.status = "EXECUTED" ∨ tm.1.status = "PARTIALLY_EXECUTED")
    ∧ (tm.2.status = "EXECUTED" ∨ tm.2.status = "PARTIALLY_EXECUTED") := by
  obtain ⟨price, front, c, r, ht, hm⟩ := h
  rw [ht, hm]
  constructor
  · show (if _ then _ else _) = _ ∨ (if _ then _ else _) = _
    split
    · exact Or.inl rfl
    · exact Or.inr rfl
  · show (if _ then _ else _) = _ ∨ (if _ then _ else _) = _
    split
    · exact Or.inl rfl
    · exact Or.inr rfl

/-- C14: a LIMIT order of positive size, action NEW or MODIFY, run on a book
without empty price level. If the best opposing price does not cross the limit
(no best ask at or below the price of a BUY, no best bid at or above the price of
a SELL), exactly one event is appended: PENDING, execution fields zero, the
action of the caller, a fresh timestamp. If it crosses, what is appended is a
nonempty list of trade pairs, each event EXECUTED or PARTIALLY_EXECUTED, so no
PENDING event. -/
theorem limit_pending_rule (c : BookCtx) (order : Order)
    (ha : order.action = "NEW" ∨ order.action = "MODIFY") (hq : 0 < order.quantity)
    (hne : ∀ s, ∀ pq ∈ c.book.levels s, pq.2.orders ≠ []) :
    (best_crosses c.book order = false →
      ∃ e, (execute_limit_order c order).book.results = c.book.results ++ [e]
        ∧ e.status = "PENDING" ∧ e.action = order.action
        ∧ e.executed_quantity = 0 ∧ e.execution_price = 0 ∧ e.counterparty_id = 0
        ∧ e.timestamp
          = get_next_execution_timestamp order.timestamp c.last_execution_timestamp)
    ∧ (best_crosses c.book order = true →
      ∃ tm ps, (execute_limit_order c order).book.results = c.book.results ++ pairs_flat (tm :: ps)
        ∧ (∀ x ∈ tm :: ps, IsTrade order x)
        ∧ ∀ e ∈ pairs_flat (tm :: ps),
            (e.status = "EXECUTED" ∨ e.status = "PARTIALLY_EXECUTED") ∧ e.status ≠ "PENDING") := by
  have hev : ∀ (tm : Order × Order) (ps : List (Order × Order)),
      (∀ x ∈ tm :: ps, IsTrade order x) →
      ∀ e ∈ pairs_flat (tm :: ps),
        (e.status = "EXECUTED" ∨ e.status = "PARTIALLY_EXECUTED") ∧ e.status ≠ "PENDING" := by
    intro tm ps hps e he
    have hst : e.status = "EXECUTED" ∨ e.status = "PARTIALLY_EXECUTED" := by
      unfold pairs_flat at he
      rw [List.mem_flatMap] at he
      obtain ⟨x, hx, hex⟩ := he
      have := (hps x hx).status
      simp only [List.mem_cons, List.mem_singleton, List.not_mem_nil, or_false] at hex
      rcases hex with rfl | rfl
      · exact this.1
      · exact this.2
    refine ⟨hst, ?_⟩
    rcases hst with h | h <;> rw [h] <;> decide
  by_cases hs : order.side = "BUY"
  · have key := limit_routine_outcome .buy .sell (fun p => decide (p ≤ order.price))
      (fun p => decide (p > order.price)) order c ha hq (hne .sell) (by
        intro p
        by_cases h : p ≤ order.price
        · simp [h]
        · simp [h]
          omega)
    unfold execute_limit_order
    rw [if_pos hs]
    unfold execute_buy_limit_order best_crosses
    rw [if_pos hs]
    constructor
    · intro hb
      obtain ⟨h1, h2, h3⟩ := key.1 (by
        intro p q rest hl
        have hl' : c.book.sell_orders = (p, q) :: rest := hl
        rw [hl'] at hb
        exact hb)
      refine ⟨_, (congrArg (fun x => x.book.results) h1).trans
        ((limit_rest_results _ _ _).trans h2), ?_⟩
      exact ⟨rfl, rfl, rfl, rfl, rfl, rfl⟩
    · intro hb
      cases hl : c.book.sell_orders with
      | nil => rw [hl] at hb; cases hb
      | cons pq rest =>
        obtain ⟨p, q⟩ := pq
        rw [hl] at hb
        obtain ⟨tm, ps, h1, h2⟩ := key.2 p q rest hl hb
        exact ⟨tm, ps, h1, h2, hev tm ps h2⟩
  · have key := limit_routine_outcome .sell .buy (fun p => decide (p ≥ order.price))
      (fun p => decide (p < order.price)) order c ha hq (hne .buy) (by
        intro p
        by_cases h : p ≥ order.price
        · simp [h]
        · simp [h]
          omega)
    unfold execute_limit_order
    rw [if_neg hs]
    unfold execute_sell_limit_order best_crosses
    rw [if_neg hs]
    constructor
    · intro hb
      obtain ⟨h1, h2, h3⟩ := key.1 (by
        intro p q rest hl
        have hl' : c.book.buy_orders = (p, q) :: rest := hl
        rw [hl'] at hb
        exact hb)
      refine ⟨_, (congrArg (fun x => x.book.results) h1).trans
        ((limit_rest_results _ _ _).trans h2), ?_⟩
      exact ⟨rfl, rfl, rfl, rfl, rfl, rfl⟩
    · intro hb
      cases hl : c.book.buy_orders with
      | nil => rw [hl] at hb; cases hb
      | cons pq rest =>
        obtain ⟨p, q⟩ := pq
        rw [hl] at hb
        obtain ⟨tm, ps, h1, h2⟩ := key.2 p q rest hl hb
        exact ⟨tm, ps, h1, h2, hev tm ps h2⟩

/-- Instance of C14 on the book of `two_asks`: a BUY of 50 at 100.00 crosses the
best ask 100.00 and trades; a BUY of 50 at 99.90 does not and is PENDING. -/
theorem limit_pending_rule_witness :
    (best_crosses (two_asks_ctx limit_taker).book limit_taker = true
      ∧ ∃ tm ps,
        (execute_limit_order (two_asks_ctx limit_taker) limit_taker).book.results
          = (two_asks_ctx limit_taker).book.results ++ pairs_flat (tm :: ps)
        ∧ (∀ x ∈ tm :: ps, IsTrade limit_taker x)
        ∧ ∀ e ∈ pairs_flat (tm :: ps),
            (e.status = "EXECUTED" ∨ e.status = "PARTIALLY_EXECUTED") ∧ e.status ≠ "PENDING")
    ∧ (best_crosses (two_asks_ctx { limit_taker with price := 9990 }).book
          { limit_taker with price := 9990 } = false
      ∧ ∃ e,
        (execute_limit_order (two_asks_ctx { limit_taker with price := 9990 })
            { limit_taker with price := 9990 }).book.results
          = (two_asks_ctx { limit_taker with price := 9990 }).book.results ++ [e]
        ∧ e.status = "PENDING" ∧ e.action = "NEW"
        ∧ e.executed_quantity = 0 ∧ e.execution_price = 0 ∧ e.counterparty_id = 0
        ∧ e.timestamp = get_next_execution_timestamp 1200 1100) :=
  ⟨⟨by decide,
    (limit_pending_rule (two_asks_ctx limit_taker) limit_taker (by decide) (by decide)
      (two_asks_seeded limit_taker rfl).wf.nonempty).2 (by decide)⟩,
   ⟨by decide,
    (limit_pending_rule (two_asks_ctx { limit_taker with price := 9990 })
      { limit_taker with price := 9990 } (by decide) (by decide)
      (two_asks_seeded { limit_taker with price := 9990 } rfl).wf.nonempty).1 (by decide)⟩⟩

/-! ## The remainder of a LIMIT order -/

/-- Book after the tail of a LIMIT routine with a positive remainder. -/
theorem limit_rest_pos (own : BookSide) (order : Order) (c : BookCtx) (r : Nat) (hr : 0 < r) :
    (limit_rest own order (c, r)).book.levels own
      = Levels.add own (c.book.levels own) order.price
          { lookup_value c.book.order_lookup order.order_id with
            quantity := r, price := order.price }
    ∧ (limit_rest own order (c, r)).book.order_lookup
      = Function.update c.book.order_lookup order.order_id
          (some { lookup_value c.book.order_lookup order.order_id with
                  quantity := r, price := order.price }) := by
  unfold limit_rest
  rw [if_pos hr]
  cases own <;> exact ⟨rfl, rfl⟩

/-- C16: tail of the LIMIT routines, entered after the loop with the remainder
`r` in a state where the lookup holds the taker's record and the incoming side is
in key order. If `r > 0`, an order with the taker's id, quantity `r` and the
incoming price is added by `Levels.add` on the incoming side: it comes last among
the orders of the level of that price, which exists afterwards, the other levels
keep their orders, the lookup entry of the id is that order, and the other side
and the log are untouched. If `r = 0` the state is unchanged. The two routines
end with this tail (last two conjuncts). -/
theorem limit_residual_rests (own : BookSide) (order : Order) (c : BookCtx) (r : Nat)
    (e : Order) (he : c.book.order_lookup order.order_id = some e)
    (hid : e.order_id = order.order_id)
    (hsorted : Levels.sorted own (c.book.levels own)) :
    (0 < r →
      ∃ ro : Order, ro.order_id = order.order_id ∧ ro.quantity = r ∧ ro.price = order.price
        ∧ (limit_rest own order (c, r)).book.levels own
            = Levels.add own (c.book.levels own) order.price ro
        ∧ ((limit_rest own order (c, r)).book.levels own).entries.filter
              (fun x => decide (x.1 = order.price))
            = (c.book.levels own).entries.filter (fun x => decide (x.1 = order.price))
                ++ [(order.price, ro)]
        ∧ (∀ p, p ≠ order.price →
            ((limit_rest own order (c, r)).book.levels own).entries.filter
                (fun x => decide (x.1 = p))
              = (c.book.levels own).entries.filter (fun x => decide (x.1 = p)))
        ∧ order.price ∈ ((limit_rest own order (c, r)).book.levels own).keys
        ∧ (limit_rest own order (c, r)).book.order_lookup order.order_id = some ro
        ∧ (∀ s, s ≠ own → (limit_rest own order (c, r)).book.levels s = c.book.levels s)
        ∧ (limit_rest own order (c, r)).book.results = c.book.results)
    ∧ (r = 0 → limit_rest own order (c, r) = c)
    ∧ (∀ c order, execute_buy_limit_order c order
        = limit_rest .buy order
            (sweep .sell (fun sell_price => decide (sell_price > order.price)) order
              (sweep_fuel (limit_pending .sell (fun p => decide (p ≤ order.price)) c order).book.sell_orders)
              (limit_pending .sell (fun p => decide (p ≤ order.price)) c order) order.quantity))
    ∧ (∀ c order, execute_sell_limit_order c order
        = limit_rest .sell order
            (sweep .buy (fun buy_price => decide (buy_price < order.price)) order
              (sweep_fuel (limit_pending .buy (fun p => decide (p ≥ order.price)) c order).book.buy_orders)
              (limit_pending .buy (fun p => decide (p ≥ order.price)) c order) order.quantity)) := by
  refine ⟨?_, ?_, fun _ _ => rfl, fun _ _ => rfl⟩
  · intro hr
    obtain ⟨h1, h2⟩ := limit_rest_pos own order c r hr
    rw [lookup_value_present he] at h1 h2
    have ht := Levels.entries_add_tail own (c.book.levels own) order.price
      { e with quantity := r, price := order.price } hsorted
    refine ⟨{ e with quantity := r, price := order.price }, hid, rfl, rfl, h1, ?_, ?_, ?_, ?_, ?_,
      limit_rest_results own order (c, r)⟩
    · rw [h1]
      exact ht.1
    · intro p hp
      rw [h1]
      exact ht.2 p hp
    · rw [h1, Levels.mem_keys_add]
      exact Or.inl rfl
    · rw [h2]
      exact Function.update_same _ _ _
    · intro s hs
      exact limit_rest_levels_other own order (c, r) hs
  · intro hr
    unfold limit_rest
    rw [if_neg (by simp [hr])]

/-- Instance of C16: a remainder of 50 of the BUY order 3 at 99.90 rests on the
BUY side of the book of `two_asks`. -/
theorem limit_residual_rests_witness :
    0 < 50
    ∧ ∃ ro : Order, ro.order_id = 3 ∧ ro.quantity = 50 ∧ ro.price = 9990
        ∧ (limit_rest .buy { limit_taker with price := 9990 }
            (two_asks_ctx { limit_taker with price := 9990 }, 50)).book.buy_orders
          = [(9990, { orders := [ro], total_quantity := 50 })]
        ∧ (limit_rest .buy { limit_taker with price := 9990 }
            (two_asks_ctx { limit_taker with price := 9990 }, 50)).book.order_lookup 3 = some ro :=
  ⟨by decide,
    match (limit_residual_rests .buy { limit_taker with price := 9990 }
        (two_asks_ctx { limit_taker with price := 9990 }) 50 { limit_taker with price := 9990 }
        (by simp [two_asks_ctx, limit_taker, mk_order]) rfl
        ((two_asks_seeded { limit_taker with price := 9990 } rfl).wf.sorted .buy)).1 (by decide) with
    | ⟨ro, h1, h2, h3, h4, _, _, _, h8, _, _⟩ => ⟨ro, h1, h2, h3, by
        have h4' : (limit_rest .buy { limit_taker with price := 9990 }
            (two_asks_ctx { limit_taker with price := 9990 }, 50)).book.buy_orders
            = Levels.add .buy [] 9990 ro := h4
        rw [h4']
        simp [Levels.add, OrderQueue.add_order, OrderQueue.new, h2, U64], h8⟩⟩

/-! ## MODIFY of an order known to the lookup -/

/-- The executed total read by `modify_order` is the one of the book it is called on. -/
theorem modify_total_executed (c : BookCtx) (request stored : Order) :
    ((cancel_order_from_book c.book stored).order_total_executed request.order_id).getD 0
      = (c.book.order_total_executed request.order_id).getD 0 := by
  rw [cancel_order_from_book_total_executed]

/-- Function `modify_order` on a request whose id is in the lookup, in terms of its
two halves. -/
theorem modify_order_found (c : BookCtx) (request stored : Order)
    (he : c.book.order_lookup request.order_id = some stored) :
    modify_order c request
      = if modify_remaining request.quantity
            ((c.book.order_total_executed request.order_id).getD 0) > 0 then
          if stored.type = "MARKET" then
            execute_market_order (modify_prepare c request stored)
              (processing_order stored request
                ((c.book.order_total_executed request.order_id).getD 0))
          else if stored.type = "LIMIT" then
            execute_limit_order (modify_prepare c request stored)
              (processing_order stored request
                ((c.book.order_total_executed request.order_id).getD 0))
          else modify_prepare c request stored
        else
          { book :=
              { (modify_prepare c request stored).book with
                results := (modify_prepare c request stored).book.results ++
                  [{ stored with
                      quantity := request.quantity
                      price := request.price
                      timestamp := get_next_execution_timestamp request.timestamp
                        c.last_execution_timestamp
                      action := "MODIFY"
                      status := "EXECUTED"
                      executed_quantity := 0
                      execution_price := 0
                      counterparty_id := 0 }] }
            last_execution_timestamp :=
              get_next_execution_timestamp request.timestamp c.last_execution_timestamp } := by
  rw [← modify_total_executed c request stored]
  unfold modify_order
  rw [he]
  rfl

/-- State in which `modify_order` enters the matching routines. -/
theorem modify_prepare_seeded {c : BookCtx} (h : WF c.book) {request stored : Order}
    (he : c.book.order_lookup request.order_id = some stored) (order : Order)
    (hoid : order.order_id = request.order_id) :
    Seeded (modify_prepare c request stored).book order :=
  modify_seeded h he { stored with quantity := request.quantity, price := request.price }
    (h.lookup_id request.order_id stored he) _ order hoid

theorem modify_prepare_entries {c : BookCtx} (h : WF c.book) {request stored : Order}
    (he : c.book.order_lookup request.order_id = some stored) (s : BookSide) :
    ((modify_prepare c request stored).book.levels s).entries
      = (c.book.levels s).entries.filter (fun x => decide (x.2.order_id ≠ request.order_id)) := by
  rw [← cancel_order_from_book_entries h he s]
  cases s <;> rfl

/-- A LIMIT order (NEW or MODIFY, positive size) that does not cross, run in a
state where the lookup maps its id to `e` and the opposing side has no empty
level: one PENDING event copied from `e`, no trade, and `e` with the size and
price of the order rests on the incoming side and replaces `e` in the lookup. -/
theorem execute_limit_order_no_cross (c : BookCtx) (order e : Order)
    (he : c.book.order_lookup order.order_id = some e)
    (ha : order.action = "NEW" ∨ order.action = "MODIFY") (hq : 0 < order.quantity)
    (hne : ∀ pq ∈ c.book.levels (opposing order), pq.2.orders ≠ [])
    (hb : best_crosses c.book order = false) :
    (execute_limit_order c order).book.levels (incoming order)
      = Levels.add (incoming order) (c.book.levels (incoming order)) order.price
          { e with quantity := order.quantity, price := order.price }
    ∧ (execute_limit_order c order).book.levels (opposing order)
      = c.book.levels (opposing order)
    ∧ (execute_limit_order c order).book.order_lookup
      = Function.update c.book.order_lookup order.order_id
          (some { e with quantity := order.quantity, price := order.price })
    ∧ (execute_limit_order c order).book.results
      = c.book.results ++
        [{ e with
            timestamp := get_next_execution_timestamp order.timestamp c.last_execution_timestamp
            action := order.action
            status := "PENDING"
            executed_quantity := 0
            execution_price := 0
            counterparty_id := 0 }] := by
  have main : ∀ (own opp : BookSide) (crosses stop : Int → Bool), own ≠ opp →
      (∀ pq ∈ c.book.levels opp, pq.2.orders ≠ []) →
      (∀ p, stop p = !crosses p) →
      (∀ p q rest, c.book.levels opp = (p, q) :: rest → crosses p = false) →
      (limit_rest own order
          (sweep opp stop order (sweep_fuel ((limit_pending opp crosses c order).book.levels opp))
            (limit_pending opp crosses c order) order.quantity)).book.levels own
        = Levels.add own (c.book.levels own) order.price
            { e with quantity := order.quantity, price := order.price }
      ∧ (limit_rest own order
          (sweep opp stop order (sweep_fuel ((limit_pending opp crosses c order).book.levels opp))
            (limit_pending opp crosses c order) order.quantity)).book.levels opp
        = c.book.levels opp
      ∧ (limit_rest own order
          (sweep opp stop order (sweep_fuel ((limit_pending opp crosses c order).book.levels opp))
            (limit_pending opp crosses c order) order.quantity)).book.order_lookup
        = Function.update c.book.order_lookup order.order_id
            (some { e with quantity := order.quantity, price := order.price })
      ∧ (limit_rest own order
          (sweep opp stop order (sweep_fuel ((limit_pending opp crosses c order).book.levels opp))
            (limit_pending opp crosses c order) order.quantity)).book.results
        = c.book.results ++
          [{ e with
              timestamp := get_next_execution_timestamp order.timestamp c.last_execution_timestamp
              action := order.action
              status := "PENDING"
              executed_quantity := 0
              execution_price := 0
              counterparty_id := 0 }] := by
    intro own opp crosses stop hoo hne' hcs hno
    obtain ⟨h1, h2, _⟩ :=
      (limit_routine_outcome own opp crosses stop order c ha hq hne' hcs).1 hno
    obtain ⟨h3, h4⟩ := limit_rest_pos own order (limit_pending opp crosses c order)
      order.quantity hq
    rw [limit_pending_lookup opp crosses c order he, lookup_value_present he,
      limit_pending_levels] at h3
    rw [limit_pending_lookup opp crosses c order he, lookup_value_present he] at h4
    rw [h1]
    refine ⟨h3, ?_, h4, ?_⟩
    · rw [limit_rest_levels_other own order _ (Ne.symm hoo)]
      exact limit_pending_levels opp crosses c order opp
    · rw [limit_rest_results, h2, lookup_value_present he]
  by_cases hs : order.side = "BUY"
  · have hinc : incoming order = .buy := by unfold incoming; rw [if_pos hs]
    have hopp : opposing order = .sell := by unfold opposing; rw [if_pos hs]
    rw [hinc, hopp]
    rw [hopp] at hne
    unfold execute_limit_order
    rw [if_pos hs]
    refine main .buy .sell (fun p => decide (p ≤ order.price))
      (fun p => decide (p > order.price)) (by decide) hne ?_ ?_
    · intro p
      by_cases h : p ≤ order.price
      · simp [h]
      · simp [h]
        omega
    · intro p q rest hl
      unfold best_crosses at hb
      rw [if_pos hs] at hb
      have hl' : c.book.sell_orders = (p, q) :: rest := hl
      rw [hl'] at hb
      exact hb
  · have hinc : incoming order = .sell := by unfold incoming; rw [if_neg hs]
    have hopp : opposing order = .buy := by unfold opposing; rw [if_neg hs]
    rw [hinc, hopp]
    rw [hopp] at hne
    unfold execute_limit_order
    rw [if_neg hs]
    refine main .sell .buy (fun p => decide (p ≥ order.price))
      (fun p => decide (p < order.price)) (by decide) hne ?_ ?_
    · intro p
      by_cases h : p ≥ order.price
      · simp [h]
      · simp [h]
        omega
    · intro p q rest hl
      unfold best_crosses at hb
      rw [if_neg hs] at hb
      have hl' : c.book.buy_orders = (p, q) :: rest := hl
      rw [hl'] at hb
      exact hb

theorem incoming_ne_opposing (order : Order) : incoming order ≠ opposing order := by
  unfold incoming opposing
  split <;> decide

/-- Resting quantities after an order was added on one side, the other side
being kept. -/
theorem resting_qty_add {b b' : OrderBook} {own opp : BookSide} (hoo : own ≠ opp)
    {price : Int} {o : Order}
    (hown : b'.levels own = Levels.add own (b.levels own) price o)
    (hopp : b'.levels opp = b.levels opp) (k : Nat) :
    resting_qty b' k = resting_qty b k + (if o.order_id = k then o.quantity else 0) := by
  unfold resting_qty
  cases own <;> cases opp
  · exact absurd rfl hoo
  · rw [hown, hopp, Levels.qty_of_add]
    omega
  · rw [hown, hopp, Levels.qty_of_add]
    omega
  · exact absurd rfl hoo

theorem modify_remaining_pos {new_total_quantity total_executed : Nat}
    (h : new_total_quantity > total_executed) :
    modify_remaining new_total_quantity total_executed = new_total_quantity - total_executed := by
  unfold modify_remaining
  rw [if_pos h]

/-- C12: MODIFY of an order known to the lookup (record `stored`) of a consistent
book, with request quantity `q_new` above the executed total `cum` of the order.
`modify_order` takes the order out of its level (the resting orders of each side
are those of before without this id) and runs the matching routine chosen by the
type of `stored` on the order `processing_order`: the stored record (so its side
and type, whatever the request says) with quantity `q_new - cum`, the price and
timestamp of the request and action MODIFY. If `stored` is a LIMIT order and the
best opposing price does not cross the request price, an order of this id with
quantity `q_new - cum` is added at the request price on the side of `stored`, the
opposing side is kept, and `q_new - cum` is what the id has resting. -/
theorem modify_absolute_total (c : BookCtx) (request stored : Order) (hwf : WF c.book)
    (he : c.book.order_lookup request.order_id = some stored)
    (hq : request.quantity > (c.book.order_total_executed request.order_id).getD 0) :
    modify_order c request
      = (if stored.type = "MARKET" then
          execute_market_order (modify_prepare c request stored)
            (processing_order stored request
              ((c.book.order_total_executed request.order_id).getD 0))
        else if stored.type = "LIMIT" then
          execute_limit_order (modify_prepare c request stored)
            (processing_order stored request
              ((c.book.order_total_executed request.order_id).getD 0))
        else modify_prepare c request stored)
    ∧ processing_order stored request ((c.book.order_total_executed request.order_id).getD 0)
      = { stored with
          quantity := request.quantity - (c.book.order_total_executed request.order_id).getD 0
          price := request.price
          timestamp := request.timestamp
          action := "MODIFY" }
    ∧ (∀ s, ((modify_prepare c request stored).book.levels s).entries
        = (c.book.levels s).entries.filter (fun x => decide (x.2.order_id ≠ request.order_id)))
    ∧ request.order_id ∉ (modify_prepare c request stored).book.resting_ids
    ∧ (modify_prepare c request stored).book.results = c.book.results
    ∧ (stored.type = "LIMIT" →
        best_crosses (modify_prepare c request stored).book
          (processing_order stored request
            ((c.book.order_total_executed request.order_id).getD 0)) = false →
        ∃ ro : Order, ro.order_id = request.order_id
          ∧ ro.quantity
              = request.quantity - (c.book.order_total_executed request.order_id).getD 0
          ∧ ro.price = request.price ∧ ro.side = stored.side
          ∧ (modify_order c request).book.levels (incoming stored)
              = Levels.add (incoming stored)
                  ((modify_prepare c request stored).book.levels (incoming stored))
                  request.price ro
          ∧ (modify_order c request).book.levels (opposing stored)
              = (modify_prepare c request stored).book.levels (opposing stored)
          ∧ resting_qty (modify_order c request).book request.order_id
              = request.quantity - (c.book.order_total_executed request.order_id).getD 0
          ∧ (modify_order c request).book.order_lookup request.order_id = some ro) := by
  have hid : stored.order_id = request.order_id := hwf.lookup_id _ _ he
  have hrem := modify_remaining_pos hq
  have hfound := modify_order_found c request stored he
  rw [if_pos (by rw [hrem]; omega)] at hfound
  have hpo : processing_order stored request
        ((c.book.order_total_executed request.order_id).getD 0)
      = { stored with
          quantity := request.quantity - (c.book.order_total_executed request.order_id).getD 0
          price := request.price
          timestamp := request.timestamp
          action := "MODIFY" } := by
    unfold processing_order
    rw [hrem]
  have hseed := modify_prepare_seeded hwf he
    (processing_order stored request ((c.book.order_total_executed request.order_id).getD 0)) hid
  have habs : request.order_id ∉ (modify_prepare c request stored).book.resting_ids := by
    have := hseed.absent
    rwa [show (processing_order stored request
        ((c.book.order_total_executed request.order_id).getD 0)).order_id = request.order_id
      from hid] at this
  refine ⟨hfound, hpo, modify_prepare_entries hwf he, habs, ?_, ?_⟩
  · exact cancel_order_from_book_results c.book stored
  · intro htype hb
    have hlook : (modify_prepare c request stored).book.order_lookup
        (processing_order stored request
          ((c.book.order_total_executed request.order_id).getD 0)).order_id
        = some { stored with quantity := request.quantity, price := request.price } := by
      show Function.update _ request.order_id _ stored.order_id = _
      rw [hid, Function.update_same]
    obtain ⟨h1, h2, h3, _⟩ := execute_limit_order_no_cross (modify_prepare c request stored)
      (processing_order stored request ((c.book.order_total_executed request.order_id).getD 0))
      _ hlook (Or.inr rfl) (by rw [hpo]; show 0 < request.quantity - _; omega)
      (hseed.wf.nonempty _) hb
    rw [if_neg (by rw [htype]; decide), if_pos htype] at hfound
    rw [hfound]
    refine ⟨_, ?_, ?_, ?_, ?_, h1, h2, ?_, ?_⟩
    · exact hid
    · show modify_remaining _ _ = _
      exact hrem
    · rfl
    · rfl
    · rw [resting_qty_add (incoming_ne_opposing _) h1 h2, resting_qty_eq_zero habs]
      split
      · show 0 + modify_remaining _ _ = _
        rw [hrem]
        omega
      · rename_i h
        exact absurd hid h
    · rw [h3]
      show Function.update _ stored.order_id _ request.order_id = _
      rw [hid, Function.update_same]

/-- Instance of C12: the resting ask 2 (40 at 100.05, nothing executed) is modified
to 60 at 100.10 by a request that says BUY; 60 rests at 100.10 on the SELL side. -/
theorem modify_absolute_total_witness :
    ∃ ro : Order, ro.order_id = 2 ∧ ro.quantity = 60 - 0 ∧ ro.price = 10010 ∧ ro.side = "SELL"
      ∧ (modify_order ⟨two_asks_book, 1100⟩
            (mk_order 1300 2 "AAPL" "BUY" "LIMIT" 60 10010 "MODIFY")).book.levels .sell
          = Levels.add .sell
              ((modify_prepare ⟨two_asks_book, 1100⟩
                (mk_order 1300 2 "AAPL" "BUY" "LIMIT" 60 10010 "MODIFY")
                { mk_order 1100 2 "AAPL" "SELL" "LIMIT" 40 10005 "NEW" with status := "PENDING" }
                ).book.levels .sell)
              10010 ro
      ∧ (modify_order ⟨two_asks_book, 1100⟩
            (mk_order 1300 2 "AAPL" "BUY" "LIMIT" 60 10010 "MODIFY")).book.levels .buy
          = (modify_prepare ⟨two_asks_book, 1100⟩
                (mk_order 1300 2 "AAPL" "BUY" "LIMIT" 60 10010 "MODIFY")
                { mk_order 1100 2 "AAPL" "SELL" "LIMIT" 40 10005 "NEW" with status := "PENDING" }
                ).book.levels .buy
      ∧ resting_qty (modify_order ⟨two_asks_book, 1100⟩
            (mk_order 1300 2 "AAPL" "BUY" "LIMIT" 60 10010 "MODIFY")).book 2 = 60 - 0
      ∧ (modify_order ⟨two_asks_book, 1100⟩
            (mk_order 1300 2 "AAPL" "BUY" "LIMIT" 60 10010 "MODIFY")).book.order_lookup 2
          = some ro :=
  (modify_absolute_total ⟨two_asks_book, 1100⟩
    (mk_order 1300 2 "AAPL" "BUY" "LIMIT" 60 10010 "MODIFY")
    { mk_order 1100 2 "AAPL" "SELL" "LIMIT" 40 10005 "NEW" with status := "PENDING" }
    (reachable_wf Statics.initial two_asks "AAPL") (by decide) (by decide)).2.2.2.2.2
    (by decide) (by decide)

/-! ## MODIFY down to the executed quantity or below -/

/-- State of the book and event of a MODIFY whose request quantity does not exceed
the executed total of the order. -/
theorem modify_order_shrink (c : BookCtx) (request stored : Order)
    (he : c.book.order_lookup request.order_id = some stored)
    (hq : request.quantity ≤ (c.book.order_total_executed request.order_id).getD 0) :
    modify_order c request
      = { book :=
            { (modify_prepare c request stored).book with
              results := (modify_prepare c request stored).book.results ++
                [{ stored with
                    quantity := request.quantity
                    price := request.price
                    timestamp := get_next_execution_timestamp request.timestamp
                      c.last_execution_timestamp
                    action := "MODIFY"
                    status := "EXECUTED"
                    executed_quantity := 0
                    execution_price := 0
                    counterparty_id := 0 }] }
          last_execution_timestamp :=
            get_next_execution_timestamp request.timestamp c.last_execution_timestamp } := by
  rw [modify_order_found c request stored he, if_neg]
  unfold modify_remaining
  rw [if_neg (by omega)]
  decide

/-- Event and book after a MODIFY of an order known to the lookup (record `stored`)
of a consistent book, with request quantity at most the executed total of the
order. Exactly one event is appended: the stored record with action MODIFY, status
EXECUTED, the quantity and the price of the request, executed_quantity 0,
execution_price 0, counterparty_id 0 and a fresh execution timestamp, which the
static keeps. The order is taken out of its level and not inserted again: each
side holds the resting orders of before without this id. -/
theorem modify_shrink_event (c : BookCtx) (request stored : Order) (hwf : WF c.book)
    (he : c.book.order_lookup request.order_id = some stored)
    (hq : request.quantity ≤ (c.book.order_total_executed request.order_id).getD 0) :
    (∃ e : Order, (modify_order c request).book.results = c.book.results ++ [e]
      ∧ e.action = "MODIFY" ∧ e.status = "EXECUTED" ∧ e.quantity = request.quantity
      ∧ e.executed_quantity = 0 ∧ e.execution_price = 0 ∧ e.counterparty_id = 0
      ∧ e.timestamp = get_next_execution_timestamp request.timestamp c.last_execution_timestamp
      ∧ (modify_order c request).last_execution_timestamp = e.timestamp
      ∧ e.order_id = request.order_id ∧ e.price = request.price
      ∧ e.instrument = stored.instrument ∧ e.side = stored.side ∧ e.type = stored.type)
    ∧ (∀ s, ((modify_order c request).book.levels s).entries
        = (c.book.levels s).entries.filter (fun x => decide (x.2.order_id ≠ request.order_id)))
    ∧ request.order_id ∉ (modify_order c request).book.resting_ids := by
  rw [modify_order_shrink c request stored he hq]
  have habs := (modify_prepare_seeded hwf he stored (hwf.lookup_id _ _ he)).absent
  rw [hwf.lookup_id _ _ he] at habs
  refine ⟨⟨{ stored with
      quantity := request.quantity
      price := request.price
      timestamp := get_next_execution_timestamp request.timestamp c.last_execution_timestamp
      action := "MODIFY"
      status := "EXECUTED"
      executed_quantity := 0
      execution_price := 0
      counterparty_id := 0 }, ?_, rfl, rfl, rfl, rfl, rfl, rfl, rfl, rfl,
      hwf.lookup_id request.order_id stored he, rfl, rfl, rfl, rfl⟩, ?_, ?_⟩
  · show (cancel_order_from_book c.book stored).results ++ _ = _
    rw [cancel_order_from_book_results]
  · intro s
    rw [← modify_prepare_entries hwf he s]
    cases s <;> rfl
  · exact habs

/-- C13: a MODIFY down to the executed quantity or below emits an EXECUTED event
whose quantity is the requested total, where 0 is specified. After `partial_fill`
order 1 has 50 executed and 50 resting; a MODIFY of order 1 to quantity 30 appends
one event with action MODIFY, status EXECUTED and quantity 30, so no single
appended event has quantity 0, whereas a CANCEL of the same order in the same state
appends an event of quantity 0. On every consistent book (last conjunct) such a
MODIFY does all the rest of what is specified: exactly one event, action MODIFY,
status EXECUTED, execution fields 0, a fresh execution timestamp, the order taken
out of its level and not inserted again; the quantity of the event is that of the
request, hence 0 only when the request says 0. -/
theorem modify_shrink_event_quantity :
    partial_fill_ctx.book.order_lookup 1
      = some { mk_order 1000 1 "AAPL" "BUY" "LIMIT" 100 15025 "NEW" with status := "PENDING" }
    ∧ (partial_fill_ctx.book.order_total_executed 1).getD 0 = 50
    ∧ (modify_order partial_fill_ctx
          (mk_order 1200 1 "AAPL" "BUY" "LIMIT" 30 15025 "MODIFY")).book.results
        = partial_fill_ctx.book.results ++
          [{ mk_order 1200 1 "AAPL" "BUY" "LIMIT" 30 15025 "MODIFY" with status := "EXECUTED" }]
    ∧ (¬ ∃ e : Order,
        (modify_order partial_fill_ctx
            (mk_order 1200 1 "AAPL" "BUY" "LIMIT" 30 15025 "MODIFY")).book.results
          = partial_fill_ctx.book.results ++ [e]
        ∧ e.quantity = 0)
    ∧ (cancel_order partial_fill_ctx
          (mk_order 1200 1 "AAPL" "BUY" "LIMIT" 30 15025 "CANCEL")).book.results
        = partial_fill_ctx.book.results ++
          [{ mk_order 1200 1 "AAPL" "BUY" "LIMIT" 0 15025 "CANCEL" with status := "CANCELED" }]
    ∧ ∀ (c : BookCtx) (request stored : Order), WF c.book →
        c.book.order_lookup request.order_id = some stored →
        request.quantity ≤ (c.book.order_total_executed request.order_id).getD 0 →
        (∃ e : Order, (modify_order c request).book.results = c.book.results ++ [e]
          ∧ e.action = "MODIFY" ∧ e.status = "EXECUTED" ∧ e.quantity = request.quantity
          ∧ e.executed_quantity = 0 ∧ e.execution_price = 0 ∧ e.counterparty_id = 0
          ∧ e.timestamp
              = get_next_execution_timestamp request.timestamp c.last_execution_timestamp
          ∧ (modify_order c request).last_execution_timestamp = e.timestamp
          ∧ e.order_id = request.order_id)
        ∧ (∀ s, ((modify_order c request).book.levels s).entries
            = (c.book.levels s).entries.filter
                (fun x => decide (x.2.order_id ≠ request.order_id)))
        ∧ request.order_id ∉ (modify_order c request).book.resting_ids := by
  have h3 : (modify_order partial_fill_ctx
        (mk_order 1200 1 "AAPL" "BUY" "LIMIT" 30 15025 "MODIFY")).book.results
      = partial_fill_ctx.book.results ++
        [{ mk_order 1200 1 "AAPL" "BUY" "LIMIT" 30 15025 "MODIFY" with status := "EXECUTED" }] := by
    decide
  refine ⟨by decide, by decide, h3, ?_, by decide, ?_⟩
  · rintro ⟨e, h, hz⟩
    rw [h3] at h
    have := List.append_cancel_left h
    simp only [List.cons.injEq, and_true] at this
    rw [← this] at hz
    revert hz
    decide
  · intro c request stored hwf he hq
    obtain ⟨⟨e, h1, h2, h3, h4, h5, h6, h7, h8, h9, h10, _⟩, hl, hr⟩ :=
      modify_shrink_event c request stored hwf he hq
    exact ⟨⟨e, h1, h2, h3, h4, h5, h6, h7, h8, h9, h10⟩, hl, hr⟩

/-! ## The quantity shown by a PENDING event -/

/-- Function `add_order` on a NEW LIMIT order whose id was not seen before: the
state and the record with which the LIMIT routine is entered. -/
theorem add_order_new_limit (c : BookCtx) (order : Order) (ha : order.action = "NEW")
    (hx : c.book.existing_order_ids order.order_id = none) (ht : order.type = "LIMIT") :
    add_order c order
      = execute_limit_order
          { c with
            book :=
              { c.book with
                existing_order_ids :=
                  Function.update c.book.existing_order_ids order.order_id (some true)
                order_total_executed :=
                  Function.update c.book.order_total_executed order.order_id (some 0)
                order_lookup :=
                  Function.update c.book.order_lookup order.order_id
                    (some { order with
                            status := "PENDING", executed_quantity := 0, execution_price := 0
                            counterparty_id := 0 }) } }
          { order with
            status := "PENDING", executed_quantity := 0, execution_price := 0
            counterparty_id := 0 } := by
  unfold add_order
  rw [if_neg (by simp [hx])]
  simp only [ha, ht, if_true]
  rw [if_neg (by decide)]

/-- Quantity of a PENDING event and quantity that comes to rest, on a consistent
book. For a NEW LIMIT order that is accepted and does not cross both are the
order's quantity. For a MODIFY (request quantity above the executed total `cum` of
the order, stored type LIMIT) that does not cross, the event shows the request
quantity while what comes to rest is the request quantity less `cum`. In both
cases the PENDING event is the only event appended. -/
theorem pending_quantity (c : BookCtx) (hwf : WF c.book) :
    (∀ order : Order, order.action = "NEW" →
      c.book.existing_order_ids order.order_id = none → order.type = "LIMIT" →
      0 < order.quantity → best_crosses c.book order = false →
      ∃ e : Order, (add_order c order).book.results = c.book.results ++ [e]
        ∧ e.status = "PENDING" ∧ e.action = "NEW" ∧ e.order_id = order.order_id
        ∧ e.quantity = order.quantity
        ∧ resting_qty (add_order c order).book order.order_id = order.quantity)
    ∧ (∀ request stored : Order, c.book.order_lookup request.order_id = some stored →
      request.quantity > (c.book.order_total_executed request.order_id).getD 0 →
      stored.type = "LIMIT" →
      best_crosses (modify_prepare c request stored).book
        (processing_order stored request
          ((c.book.order_total_executed request.order_id).getD 0)) = false →
      ∃ e : Order, (modify_order c request).book.results = c.book.results ++ [e]
        ∧ e.status = "PENDING" ∧ e.action = "MODIFY" ∧ e.order_id = request.order_id
        ∧ e.quantity = request.quantity
        ∧ resting_qty (modify_order c request).book request.order_id
            = request.quantity - (c.book.order_total_executed request.order_id).getD 0) := by
  constructor
  · intro order ha hx ht hq hb
    have habs := not_resting_of_not_existing hwf hx
    rw [add_order_new_limit c order ha hx ht]
    have hseed := Seeded.seed hwf habs
      { order with status := "PENDING", executed_quantity := 0, execution_price := 0,
                   counterparty_id := 0 } rfl
      (Function.update c.book.existing_order_ids order.order_id (some true))
      (Function.update c.book.order_total_executed order.order_id (some 0))
      (by simp) (fun k hk => by simp [Function.update_noteq hk])
      { order with status := "PENDING", executed_quantity := 0, execution_price := 0,
                   counterparty_id := 0 } rfl
    obtain ⟨h1, h2, _, h4⟩ := execute_limit_order_no_cross
      { c with
        book :=
          { c.book with
            existing_order_ids :=
              Function.update c.book.existing_order_ids order.order_id (some true)
            order_total_executed :=
              Function.update c.book.order_total_executed order.order_id (some 0)
            order_lookup :=
              Function.update c.book.order_lookup order.order_id
                (some { order with
                        status := "PENDING", executed_quantity := 0, execution_price := 0
                        counterparty_id := 0 }) } }
      { order with status := "PENDING", executed_quantity := 0, execution_price := 0,
                   counterparty_id := 0 }
      { order with status := "PENDING", executed_quantity := 0, execution_price := 0,
                   counterparty_id := 0 }
      (Function.update_same _ _ _) (Or.inl ha) hq (hseed.wf.nonempty _) hb
    refine ⟨{ order with
        timestamp := get_next_execution_timestamp order.timestamp c.last_execution_timestamp
        action := order.action
        status := "PENDING", executed_quantity := 0, execution_price := 0
        counterparty_id := 0 }, h4, rfl, ha, rfl, rfl, ?_⟩
    rw [resting_qty_add (incoming_ne_opposing _) h1 h2]
    have h0 : resting_qty c.book order.order_id = 0 := resting_qty_eq_zero habs
    rw [if_pos rfl]
    exact (congrArg (fun n => n + order.quantity) h0).trans (Nat.zero_add _)
  · intro request stored he hq ht hb
    have hid : stored.order_id = request.order_id := hwf.lookup_id _ _ he
    have hrem := modify_remaining_pos hq
    have hfound := modify_order_found c request stored he
    rw [if_pos (by rw [hrem]; omega), if_neg (by rw [ht]; decide), if_pos ht] at hfound
    have hseed := modify_prepare_seeded hwf he
      (processing_order stored request ((c.book.order_total_executed request.order_id).getD 0)) hid
    have habs : request.order_id ∉ (modify_prepare c request stored).book.resting_ids := by
      have := hseed.absent
      rwa [show (processing_order stored request
          ((c.book.order_total_executed request.order_id).getD 0)).order_id = request.order_id
        from hid] at this
    have hlook : (modify_prepare c request stored).book.order_lookup
        (processing_order stored request
          ((c.book.order_total_executed request.order_id).getD 0)).order_id
        = some { stored with quantity := request.quantity, price := request.price } := by
      show Function.update _ request.order_id _ stored.order_id = _
      rw [hid, Function.update_same]
    obtain ⟨h1, h2, _, h4⟩ := execute_limit_order_no_cross (modify_prepare c request stored)
      (processing_order stored request ((c.book.order_total_executed request.order_id).getD 0))
      _ hlook (Or.inr rfl) (by show 0 < modify_remaining _ _; rw [hrem]; omega)
      (hseed.wf.nonempty _) hb
    rw [hfound]
    refine ⟨{ stored with
        quantity := request.quantity
        price := request.price
        timestamp := get_next_execution_timestamp request.timestamp c.last_execution_timestamp
        action := "MODIFY"
        status := "PENDING", executed_quantity := 0, execution_price := 0
        counterparty_id := 0 }, ?_, rfl, rfl, hid, rfl, ?_⟩
    · rw [h4]
      show (cancel_order_from_book c.book stored).results ++ _ = _
      rw [cancel_order_from_book_results]
      rfl
    · rw [resting_qty_add (incoming_ne_opposing _) h1 h2, resting_qty_eq_zero habs]
      split
      · show 0 + modify_remaining _ _ = _
        rw [hrem]
        omega
      · rename_i h
        exact absurd hid h

/-- C15: the PENDING event of a non-crossing MODIFY shows the requested total,
where the size put to rest is specified. After `partial_fill` order 1 has 50
executed and 50 resting; a MODIFY of order 1 to quantity 100 at 150.30 does not
cross and appends one PENDING event of quantity 100, while the copy put to rest by
the same routine has quantity `100 - 50 = 50`. On every consistent book (last
conjunct) the PENDING event of an accepted non-crossing NEW LIMIT order shows the
order's quantity, which is what rests, as specified; that of a non-crossing MODIFY
above the executed total `cum` shows the request quantity while the request
quantity less `cum` rests. -/
theorem pending_event_quantity :
    (partial_fill_ctx.book.order_total_executed 1).getD 0 = 50
    ∧ best_crosses
        (modify_prepare partial_fill_ctx (mk_order 1200 1 "AAPL" "BUY" "LIMIT" 100 15030 "MODIFY")
          { mk_order 1000 1 "AAPL" "BUY" "LIMIT" 100 15025 "NEW" with status := "PENDING" }).book
        (processing_order
          { mk_order 1000 1 "AAPL" "BUY" "LIMIT" 100 15025 "NEW" with status := "PENDING" }
          (mk_order 1200 1 "AAPL" "BUY" "LIMIT" 100 15030 "MODIFY") 50) = false
    ∧ (modify_order partial_fill_ctx
          (mk_order 1200 1 "AAPL" "BUY" "LIMIT" 100 15030 "MODIFY")).book.results
        = partial_fill_ctx.book.results ++
          [{ mk_order 1200 1 "AAPL" "BUY" "LIMIT" 100 15030 "MODIFY" with status := "PENDING" }]
    ∧ (modify_order partial_fill_ctx
          (mk_order 1200 1 "AAPL" "BUY" "LIMIT" 100 15030 "MODIFY")).book.buy_orders.entries
        = [(15030, { mk_order 1000 1 "AAPL" "BUY" "LIMIT" 50 15030 "NEW" with status := "PENDING" })]
    ∧ ({ mk_order 1200 1 "AAPL" "BUY" "LIMIT" 100 15030 "MODIFY" with
          status := "PENDING" } : Order).quantity ≠ 100 - 50
    ∧ ∀ c : BookCtx, WF c.book →
        (∀ order : Order, order.action = "NEW" →
          c.book.existing_order_ids order.order_id = none → order.type = "LIMIT" →
          0 < order.quantity → best_crosses c.book order = false →
          ∃ e : Order, (add_order c order).book.results = c.book.results ++ [e]
            ∧ e.status = "PENDING" ∧ e.action = "NEW" ∧ e.order_id = order.order_id
            ∧ e.quantity = order.quantity
            ∧ resting_qty (add_order c order).book order.order_id = order.quantity)
        ∧ (∀ request stored : Order, c.book.order_lookup request.order_id = some stored →
          request.quantity > (c.book.order_total_executed request.order_id).getD 0 →
          stored.type = "LIMIT" →
          best_crosses (modify_prepare c request stored).book
            (processing_order stored request
              ((c.book.order_total_executed request.order_id).getD 0)) = false →
          ∃ e : Order, (modify_order c request).book.results = c.book.results ++ [e]
            ∧ e.status = "PENDING" ∧ e.action = "MODIFY" ∧ e.order_id = request.order_id
            ∧ e.quantity = request.quantity
            ∧ resting_qty (modify_order c request).book request.order_id
                = request.quantity - (c.book.order_total_executed request.order_id).getD 0) :=
  ⟨by decide, by decide, by decide, by decide, by decide,
    fun c hwf => pending_quantity c hwf⟩

/-! ## MODIFY and CANCEL of a fully executed order -/

/-- C11, evaluation of the code at the failing inputs. After `partial_fill` the
SELL order 2 is fully executed as the incoming order (its event is EXECUTED with
quantity 0) and rests nowhere, but its record is still in the lookup: a CANCEL of
order 2 appends a CANCELED event and a MODIFY of order 2 to 80 at 150.30 appends a
PENDING event and puts 30 to rest, where a REJECTED event is expected. A fully
executed resting order is erased from the lookup: with the roles exchanged (SELL
order 1 resting, BUY order 2 incoming, 50 each) the CANCEL of order 1 is REJECTED
and the CANCEL of order 2 is CANCELED. -/
theorem executed_taker_not_rejected :
    (partial_fill_ctx.book.results.map (fun e => (e.order_id, e.status, e.quantity))
        = [(1, "PENDING", 100), (2, "EXECUTED", 0), (1, "PARTIALLY_EXECUTED", 50)]
      ∧ 2 ∉ partial_fill_ctx.book.resting_ids
      ∧ (partial_fill_ctx.book.order_lookup 2).isSome = true)
    ∧ ((books_get (run (MatchingEngine.new Statics.initial)
          (partial_fill ++ [mk_order 1200 2 "AAPL" "SELL" "LIMIT" 50 15025 "CANCEL"])
          ).engine.order_books "AAPL").results.drop 3).map
          (fun e => (e.order_id, e.action, e.status, e.quantity))
        = [(2, "CANCEL", "CANCELED", 0)]
    ∧ ((books_get (run (MatchingEngine.new Statics.initial)
          (partial_fill ++ [mk_order 1200 2 "AAPL" "SELL" "LIMIT" 80 15030 "MODIFY"])
          ).engine.order_books "AAPL").results.drop 3).map
          (fun e => (e.order_id, e.action, e.status, e.quantity))
        = [(2, "MODIFY", "PENDING", 80)]
    ∧ (books_get (run (MatchingEngine.new Statics.initial)
          (partial_fill ++ [mk_order 1200 2 "AAPL" "SELL" "LIMIT" 80 15030 "MODIFY"])
          ).engine.order_books "AAPL").sell_orders.entries.map
          (fun x => (x.1, x.2.order_id, x.2.quantity))
        = [(15030, 2, 30)]
    ∧ ((books_get (run (MatchingEngine.new Statics.initial)
          [mk_order 1000 1 "AAPL" "SELL" "LIMIT" 50 15025 "NEW",
           mk_order 1100 2 "AAPL" "BUY" "LIMIT" 50 15025 "NEW",
           mk_order 1200 1 "AAPL" "SELL" "LIMIT" 50 15025 "CANCEL",
           mk_order 1300 2 "AAPL" "BUY" "LIMIT" 50 15025 "CANCEL"]
          ).engine.order_books "AAPL").results.map
          (fun e => (e.order_id, e.action, e.status, e.quantity))
        = [(1, "NEW", "PENDING", 50), (2, "NEW", "EXECUTED", 0), (1, "NEW", "EXECUTED", 0),
           (1, "CANCEL", "REJECTED", 50), (2, "CANCEL", "CANCELED", 0)]) := by
  decide

/-! ## Resting quantities stay positive -/

theorem Positive.of_levels {b b' : OrderBook} (h : Positive b)
    (hl : ∀ s, b'.levels s = b.levels s) : Positive b' := by
  intro s x hx
  rw [hl s] at hx
  exact h s x hx

theorem Positive.after_trade {c : BookCtx} (h : Positive c.book) (opp : BookSide) (order : Order)
    (price : Int) (oq : OrderQueue) (front : Order) (tail : List Order) (rest : Levels) (r : Nat)
    (hl : c.book.levels opp = (price, oq) :: rest) (ho : oq.orders = front :: tail) :
    Positive (execute_trade opp order price oq front tail rest c r).1.book := by
  have hold : ∀ x ∈ tail.map (fun o => (price, o)) ++ rest.entries, 0 < x.2.quantity := by
    intro x hx
    refine h opp x ?_
    rw [hl, Levels.entries_cons]
    rcases List.mem_append.1 hx with hx | hx
    · refine List.mem_append_left _ ?_
      show x ∈ oq.orders.map (fun o => (price, o))
      rw [ho, List.map_cons]
      exact List.mem_cons_of_mem _ hx
    · exact List.mem_append_right _ hx
  intro s x hx
  by_cases hs : s = opp
  · subst hs
    rw [execute_trade_levels_same, entries_levels_after_trade] at hx
    split at hx
    · exact hold x hx
    · rename_i hq
      rcases List.mem_cons.1 hx with rfl | hx
      · show 0 < front.quantity - r
        omega
      · exact hold x hx
  · rw [execute_trade_levels_other _ _ _ _ _ _ _ _ _ hs] at hx
    exact h s x hx

theorem Positive.after_sweep (opp : BookSide) (stop : Int → Bool) (order : Order) (fuel : Nat)
    (c : BookCtx) (r : Nat) (h : Positive c.book) :
    Positive (sweep opp stop order fuel c r).1.book := by
  refine sweep_invariant opp stop order (fun c' _ => Positive c'.book) ?_ ?_ fuel c r h
  · intro c' r' price oq rest hc _ hl _ _
    intro s x hx
    by_cases hs : s = opp
    · subst hs
      rw [levels_setLevels_same] at hx
      refine hc s x ?_
      rw [hl, Levels.entries_cons]
      exact List.mem_append_right _ hx
    · rw [levels_setLevels_other _ _ hs] at hx
      exact hc s x hx
  · intro c' r' price oq rest front tail hc _ hl _ ho
    exact hc.after_trade opp order price oq front tail rest r' hl ho

theorem Positive.after_rest (own : BookSide) (order : Order) (r : BookCtx × Nat)
    (h : Positive r.1.book) : Positive (limit_rest own order r).book := by
  obtain ⟨c, n⟩ := r
  by_cases hn : 0 < n
  · obtain ⟨h1, _⟩ := limit_rest_pos own order c n hn
    intro s x hx
    by_cases hs : s = own
    · subst hs
      rw [h1] at hx
      rcases List.mem_cons.1 ((Levels.entries_add_perm _ _ _ _).mem_iff.1 hx) with rfl | hx
      · exact hn
      · exact h s x hx
    · rw [limit_rest_levels_other own order (c, n) hs] at hx
      exact h s x hx
  · have : limit_rest own order (c, n) = c := by
      unfold limit_rest
      rw [if_neg hn]
    rw [this]
    exact h

theorem execute_market_order_positive {c : BookCtx} {order : Order} (h : Positive c.book) :
    Positive (execute_market_order c order).book := by
  unfold execute_market_order execute_buy_market_order execute_sell_market_order
  split
  · exact (Positive.after_sweep _ _ order _ c order.quantity h).of_levels
      (market_finish_levels order _)
  · exact (Positive.after_sweep _ _ order _ c order.quantity h).of_levels
      (market_finish_levels order _)

theorem execute_limit_order_positive {c : BookCtx} {order : Order} (h : Positive c.book) :
    Positive (execute_limit_order c order).book := by
  unfold execute_limit_order execute_buy_limit_order execute_sell_limit_order
  split
  · exact Positive.after_rest _ order _
      (Positive.after_sweep _ _ order _ _ order.quantity (h.of_levels (limit_pending_levels _ _ c order)))
  · exact Positive.after_rest _ order _
      (Positive.after_sweep _ _ order _ _ order.quantity (h.of_levels (limit_pending_levels _ _ c order)))

theorem add_order_positive {c : BookCtx} {order : Order} (h : Positive c.book) :
    Positive (add_order c order).book := by
  unfold add_order
  split
  · exact h.of_levels (fun s => by cases s <;> rfl)
  · dsimp only
    have hseed : ∀ b : OrderBook, (∀ s, b.levels s = c.book.levels s) → Positive b :=
      fun b hb => h.of_levels hb
    split
    · exact execute_market_order_positive (hseed _ (fun s => by cases s <;> split <;> rfl))
    · split
      · exact execute_limit_order_positive (hseed _ (fun s => by cases s <;> split <;> rfl))
      · exact hseed _ (fun s => by cases s <;> split <;> rfl)

theorem modify_prepare_positive {c : BookCtx} (hwf : WF c.book) (h : Positive c.book)
    {request stored : Order} (he : c.book.order_lookup request.order_id = some stored) :
    Positive (modify_prepare c request stored).book := by
  intro s x hx
  rw [modify_prepare_entries hwf he s] at hx
  exact h s x (List.mem_filter.1 hx).1

theorem modify_order_positive {c : BookCtx} {request : Order} (hwf : WF c.book)
    (h : Positive c.book) : Positive (modify_order c request).book := by
  cases he : c.book.order_lookup request.order_id with
  | none =>
    unfold modify_order
    rw [he]
    exact h.of_levels (fun s => by cases s <;> rfl)
  | some stored =>
    have hp := modify_prepare_positive hwf h he
    rw [modify_order_found c request stored he]
    split
    · split
      · exact execute_market_order_positive hp
      · split
        · exact execute_limit_order_positive hp
        · exact hp
    · exact hp.of_levels (fun s => by cases s <;> rfl)

theorem cancel_order_positive {c : BookCtx} {request : Order} (hwf : WF c.book)
    (h : Positive c.book) : Positive (cancel_order c request).book := by
  unfold cancel_order
  split
  case h_1 hnone => exact h.of_levels (fun s => by cases s <;> rfl)
  case h_2 stored he =>
    dsimp only
    have hp : Positive (cancel_order_from_book c.book stored) := by
      intro s x hx
      rw [cancel_order_from_book_entries hwf he s] at hx
      exact h s x (List.mem_filter.1 hx).1
    exact hp.of_levels (fun s => by cases s <;> rfl)

theorem OrderBook.new_positive : Positive OrderBook.new := by
  intro s x hx
  cases s <;> simp [OrderBook.new, OrderBook.levels, Levels.entries] at hx

theorem books_get_positive {bs : List (String × OrderBook)} (h : ∀ kb ∈ bs, Positive kb.2)
    (k : String) : Positive (books_get bs k) := by
  induction bs with
  | nil => exact OrderBook.new_positive
  | cons kb bs ih =>
    obtain ⟨k0, b0⟩ := kb
    unfold books_get
    split
    · exact h (k0, b0) (by simp)
    · exact ih (fun y hy => h y (by simp [hy]))

theorem books_set_positive {bs : List (String × OrderBook)} (h : ∀ kb ∈ bs, Positive kb.2)
    (k : String) {b : OrderBook} (hb : Positive b) : ∀ kb ∈ books_set bs k b, Positive kb.2 := by
  induction bs with
  | nil => simpa [books_set] using hb
  | cons kb bs ih =>
    obtain ⟨k0, b0⟩ := kb
    unfold books_set
    split
    · intro x hx
      simp only [List.mem_cons] at hx
      rcases hx with rfl | hx
      · exact hb
      · exact h x (by simp [hx])
    · intro x hx
      simp only [List.mem_cons] at hx
      rcases hx with rfl | hx
      · exact h (k0, b0) (by simp)
      · exact ih (fun y hy => h y (by simp [hy])) x hx

theorem process_order_positive {w : World} (hwf : EngineWF w.engine)
    (h : EnginePositive w.engine) (order : Order) :
    EnginePositive (process_order w order).engine := by
  have hb := books_get_positive h order.instrument
  have hw := books_get_wf hwf order.instrument
  unfold process_order
  dsimp only
  split
  · exact books_set_positive h _ (hb.of_levels (fun s => by cases s <;> rfl))
  · refine books_set_positive h _ ?_
    split
    · exact add_order_positive hb
    · split
      · exact modify_order_positive hw hb
      · split
        · exact cancel_order_positive hw hb
        · exact hb

theorem run_positive {w : World} (hwf : EngineWF w.engine) (h : EnginePositive w.engine)
    (inputs : List Order) : EnginePositive (run w inputs).engine := by
  induction inputs generalizing w with
  | nil => exact h
  | cons o rest ih => exact ih (process_order_wf hwf o) (process_order_positive hwf h o)

/-- Every resting order of a book of an engine run from its construction has a
positive quantity. -/
theorem reachable_positive (s : Statics) (inputs : List Order) (instrument : String) :
    Positive (books_get (run (MatchingEngine.new s) inputs).engine.order_books instrument) :=
  books_get_positive
    (run_positive (new_engine_wf s) (fun kb hkb => by simp [MatchingEngine.new] at hkb) inputs)
    instrument

/-! ## MARKET orders: no rest, no event for the remainder -/

/-- On a book with positive resting quantities every trade of the loop executes a
positive quantity, so the quantity returned is below the one the loop was entered
with as soon as a trade occurred. -/
theorem sweep_progress (opp : BookSide) (stop : Int → Bool) (order : Order) (fuel : Nat)
    (c : BookCtx) (r : Nat) (h : Positive c.book) :
    ∃ ps : List (Order × Order),
      (sweep opp stop order fuel c r).1.book.results = c.book.results ++ pairs_flat ps
      ∧ (∀ tm ∈ ps, IsTrade order tm ∧ 0 < tm.1.executed_quantity)
      ∧ (ps = [] → (sweep opp stop order fuel c r).2 = r)
      ∧ (ps ≠ [] → (sweep opp stop order fuel c r).2 < r) := by
  have key := sweep_invariant opp stop order
    (fun c' r' => Positive c'.book ∧ ∃ ps : List (Order × Order),
      c'.book.results = c.book.results ++ pairs_flat ps
      ∧ (∀ tm ∈ ps, IsTrade order tm ∧ 0 < tm.1.executed_quantity)
      ∧ (ps = [] → r' = r)
      ∧ (ps ≠ [] → r' < r))
    ?_ ?_ fuel c r ⟨h, [], by simp, by simp, fun _ => rfl, fun hn => absurd rfl hn⟩
  · exact key.2
  · intro c' r' price oq rest hc _ hl _ _
    obtain ⟨hp, ps, h1, h2, h3, h4⟩ := hc
    refine ⟨?_, ps, by simpa using h1, h2, h3, h4⟩
    intro s x hx
    by_cases hs : s = opp
    · subst hs
      rw [levels_setLevels_same] at hx
      refine hp s x ?_
      rw [hl, Levels.entries_cons]
      exact List.mem_append_right _ hx
    · rw [levels_setLevels_other _ _ hs] at hx
      exact hp s x hx
  · intro c' r' price oq rest front tail hc hr hl _ ho
    obtain ⟨hp, ps, h1, h2, h3, h4⟩ := hc
    have hfront : 0 < front.quantity := by
      refine hp opp (price, front) ?_
      rw [hl, Levels.entries_cons]
      refine List.mem_append_left _ ?_
      show (price, front) ∈ oq.orders.map (fun o => (price, o))
      rw [ho, List.map_cons]
      exact List.mem_cons_self _ _
    have hle : r' ≤ r := by
      by_cases hps : ps = []
      · exact le_of_eq (h3 hps)
      · exact le_of_lt (h4 hps)
    refine ⟨hp.after_trade opp order price oq front tail rest r' hl ho,
      ps ++ [(taker_execution order price front c' r', maker_execution order price front c' r')],
      ?_, ?_, ?_, ?_⟩
    · rw [execute_trade_results, h1, pairs_flat_append, pairs_flat_singleton, List.append_assoc]
    · intro tm htm
      rcases List.mem_append.1 htm with htm | htm
      · exact h2 tm htm
      · simp only [List.mem_singleton] at htm
        subst htm
        refine ⟨⟨price, front, c', r', rfl, rfl⟩, ?_⟩
        show 0 < min r' front.quantity
        exact lt_min (Nat.pos_of_ne_zero hr) hfront
    · intro hnil
      simp at hnil
    · intro _
      rw [execute_trade_remaining]
      have : 0 < min r' front.quantity := lt_min (Nat.pos_of_ne_zero hr) hfront
      omega

/-- C19: a MARKET order run in the state in which `add_order` and `modify_order`
enter the routine (consistent book, the order in the lookup and not resting), all
resting quantities positive. The order's own side is unchanged and its id rests
nowhere afterwards. With `ps` the trade pairs appended by the loop on the opposing
side, each of a positive quantity: if `ps` is not empty the events appended by the
routine are exactly those pairs, two per trade, with no event for a remainder; if
`ps` is empty the only event appended is the REJECTED one. -/
theorem market_never_rests (c : BookCtx) (order : Order) (hseed : Seeded c.book order)
    (hpos : Positive c.book) :
    (execute_market_order c order).book.levels (incoming order) = c.book.levels (incoming order)
    ∧ order.order_id ∉ (execute_market_order c order).book.resting_ids
    ∧ ∃ ps : List (Order × Order),
        (sweep (opposing order) (fun _ => false) order
            (sweep_fuel (c.book.levels (opposing order))) c order.quantity).1.book.results
          = c.book.results ++ pairs_flat ps
        ∧ (∀ tm ∈ ps, IsTrade order tm ∧ 0 < tm.1.executed_quantity)
        ∧ (ps ≠ [] →
            (execute_market_order c order).book.results = c.book.results ++ pairs_flat ps)
        ∧ (ps = [] →
            ∃ e : Order, (execute_market_order c order).book.results = c.book.results ++ [e]
              ∧ e.status = "REJECTED") := by
  have main : ∀ (own opp : BookSide), own ≠ opp →
      (market_finish order (sweep opp (fun _ => false) order
          (sweep_fuel (c.book.levels opp)) c order.quantity)).book.levels own = c.book.levels own
      ∧ order.order_id ∉ (market_finish order (sweep opp (fun _ => false) order
          (sweep_fuel (c.book.levels opp)) c order.quantity)).book.resting_ids
      ∧ ∃ ps : List (Order × Order),
          (sweep opp (fun _ => false) order
              (sweep_fuel (c.book.levels opp)) c order.quantity).1.book.results
            = c.book.results ++ pairs_flat ps
          ∧ (∀ tm ∈ ps, IsTrade order tm ∧ 0 < tm.1.executed_quantity)
          ∧ (ps ≠ [] →
              (market_finish order (sweep opp (fun _ => false) order
                (sweep_fuel (c.book.levels opp)) c order.quantity)).book.results
                = c.book.results ++ pairs_flat ps)
          ∧ (ps = [] →
              ∃ e : Order, (market_finish order (sweep opp (fun _ => false) order
                  (sweep_fuel (c.book.levels opp)) c order.quantity)).book.results
                  = c.book.results ++ [e]
                ∧ e.status = "REJECTED") := by
    intro own opp hoo
    refine ⟨?_, ?_, ?_⟩
    · rw [market_finish_levels, sweep_levels_other _ _ _ _ _ _ hoo]
    · exact (Seeded.after_market_finish
        (Seeded.sweep opp (fun _ => false) order _ c order.quantity hseed)).absent
    · obtain ⟨ps, h1, h2, h3, h4⟩ := sweep_progress opp (fun _ => false) order
        (sweep_fuel (c.book.levels opp)) c order.quantity hpos
      refine ⟨ps, h1, h2, ?_, ?_⟩
      · intro hne
        unfold market_finish
        rw [if_neg (by have := h4 hne; omega)]
        exact h1
      · intro hnil
        unfold market_finish
        rw [if_pos (h3 hnil).symm]
        refine ⟨{ lookup_value (sweep opp (fun _ => false) order
              (sweep_fuel (c.book.levels opp)) c order.quantity).1.book.order_lookup
              order.order_id with
            timestamp := get_next_execution_timestamp order.timestamp
              (sweep opp (fun _ => false) order
                (sweep_fuel (c.book.levels opp)) c order.quantity).1.last_execution_timestamp
            action := order.action
            status := "REJECTED"
            executed_quantity := 0
            execution_price := 0
            counterparty_id := 0 }, ?_, rfl⟩
        show _ ++ [_] = _
        rw [h1, hnil, pairs_flat_nil, List.append_nil]
  by_cases hs : order.side = "BUY"
  · have hinc : incoming order = .buy := by unfold incoming; rw [if_pos hs]
    have hopp : opposing order = .sell := by unfold opposing; rw [if_pos hs]
    rw [hinc, hopp]
    unfold execute_market_order
    rw [if_pos hs]
    exact main .buy .sell (by decide)
  · have hinc : incoming order = .sell := by unfold incoming; rw [if_neg hs]
    have hopp : opposing order = .buy := by unfold opposing; rw [if_neg hs]
    rw [hinc, hopp]
    unfold execute_market_order
    rw [if_neg hs]
    exact main .sell .buy (by decide)

/-- Instance of C19: the BUY MARKET order of 50 on the book of `two_asks`. -/
theorem market_never_rests_witness :
    (execute_market_order (two_asks_ctx market_taker) market_taker).book.levels .buy
      = (two_asks_ctx market_taker).book.levels .buy
    ∧ 3 ∉ (execute_market_order (two_asks_ctx market_taker) market_taker).book.resting_ids
    ∧ ∃ ps : List (Order × Order),
        (sweep .sell (fun _ => false) market_taker
            (sweep_fuel ((two_asks_ctx market_taker).book.levels .sell))
            (two_asks_ctx market_taker) 50).1.book.results
          = (two_asks_ctx market_taker).book.results ++ pairs_flat ps
        ∧ (∀ tm ∈ ps, IsTrade market_taker tm ∧ 0 < tm.1.executed_quantity)
        ∧ (ps ≠ [] →
            (execute_market_order (two_asks_ctx market_taker) market_taker).book.results
              = (two_asks_ctx market_taker).book.results ++ pairs_flat ps)
        ∧ (ps = [] →
            ∃ e : Order,
              (execute_market_order (two_asks_ctx market_taker) market_taker).book.results
                = (two_asks_ctx market_taker).book.results ++ [e]
              ∧ e.status = "REJECTED") :=
  market_never_rests (two_asks_ctx market_taker) market_taker (two_asks_seeded market_taker rfl)
    ((reachable_positive Statics.initial two_asks "AAPL").of_levels
      (fun s => by cases s <;> rfl))

/-! ## Execution timestamps -/

theorem get_next_no_overflow (base last : Nat) (h : last + 100 < U64) :
    get_next_execution_timestamp base last = max base (last + 100) := by
  unfold get_next_execution_timestamp
  rw [Nat.mod_eq_of_lt h]

/-- C20: `get_next_execution_timestamp` returns `max(base, last + 100)`, the sum
being taken in 64 bits, and every operation that draws a timestamp (a trade, the
REJECTED event of a MARKET order, a CANCELED event, the EXECUTED event of a MODIFY,
a PENDING event) leaves it in the static. As long as `last + 100` does not
overflow, the value is the mathematical `max(base, last + 100)`, at least `base`
and at least 100 above the value returned before; so successive values are at
least 100 apart. -/
theorem execution_timestamp_contract :
    (∀ base last, get_next_execution_timestamp base last = max base ((last + 100) % U64))
    ∧ (∀ base last, last + 100 < U64 →
        get_next_execution_timestamp base last = max base (last + 100)
        ∧ base ≤ get_next_execution_timestamp base last
        ∧ last + 100 ≤ get_next_execution_timestamp base last)
    ∧ (∀ opp order price oq front tail rest c r,
        (execute_trade opp order price oq front tail rest c r).1.last_execution_timestamp
          = get_next_execution_timestamp order.timestamp c.last_execution_timestamp)
    ∧ (∀ order (r : BookCtx × Nat), order.quantity = r.2 →
        (market_finish order r).last_execution_timestamp
          = get_next_execution_timestamp order.timestamp r.1.last_execution_timestamp)
    ∧ (∀ c request stored, c.book.order_lookup request.order_id = some stored →
        (cancel_order c request).last_execution_timestamp
          = get_next_execution_timestamp request.timestamp c.last_execution_timestamp)
    ∧ (∀ c request stored, c.book.order_lookup request.order_id = some stored →
        request.quantity ≤ (c.book.order_total_executed request.order_id).getD 0 →
        (modify_order c request).last_execution_timestamp
          = get_next_execution_timestamp request.timestamp c.last_execution_timestamp)
    ∧ (∀ opp crosses c order, (order.action = "NEW" ∨ order.action = "MODIFY") →
        (∀ p q rest, c.book.levels opp = (p, q) :: rest → (crosses p && !q.empty) = false) →
        (limit_pending opp crosses c order).last_execution_timestamp
          = get_next_execution_timestamp order.timestamp c.last_execution_timestamp)
    ∧ (∀ last bases, (∀ t ∈ last :: emitted last bases, t + 100 < U64) →
        List.Chain (fun a b => a + 100 ≤ b) last (emitted last bases)) := by
  refine ⟨fun _ _ => rfl, ?_, fun _ _ _ _ _ _ _ _ _ => rfl, ?_, ?_, ?_, ?_, ?_⟩
  · intro base last h
    rw [get_next_no_overflow base last h]
    exact ⟨rfl, le_max_left _ _, le_max_right _ _⟩
  · intro order r h
    unfold market_finish
    rw [if_pos h]
  · intro c request stored h
    unfold cancel_order
    rw [h]
  · intro c request stored h hq
    rw [modify_order_shrink c request stored h hq]
  · intro opp crosses c order ha hno
    exact (limit_pending_no_cross opp crosses c order ha hno).2
  · intro last bases
    induction bases generalizing last with
    | nil => intro _; exact List.Chain.nil
    | cons base bases ih =>
      intro h
      have h0 : last + 100 < U64 := h last (by simp)
      refine List.Chain.cons ?_ (ih _ ?_)
      · rw [get_next_no_overflow base last h0]
        exact le_max_right _ _
      · intro t ht
        exact h t (by
          simp only [emitted, List.mem_cons] at ht ⊢
          rcases ht with rfl | ht
          · exact Or.inr (Or.inl rfl)
          · exact Or.inr (Or.inr ht))

/-- Instance of C20: three calls with a stalled base, from a static at 1100. -/
theorem execution_timestamp_contract_witness :
    (∀ t ∈ 1100 :: emitted 1100 [1000, 1000, 5000], t + 100 < U64)
    ∧ emitted 1100 [1000, 1000, 5000] = [1200, 1300, 5000]
    ∧ List.Chain (fun a b => a + 100 ≤ b) 1100 (emitted 1100 [1000, 1000, 5000]) :=
  ⟨by decide, by decide,
    execution_timestamp_contract.2.2.2.2.2.2.2 1100 [1000, 1000, 5000] (by decide)⟩

/-! ## Pre-rejected inputs -/

/-- C23: an input whose status is already REJECTED is appended as it is (all
fields, the timestamp too) to the result log of the book of its instrument;
nothing else of that book changes, the books of the other instruments are
untouched and so are the statics, the timestamp static among them. The action of
the input plays no part. -/
theorem rejected_pass_through (w : World) (order : Order) (h : order.status = "REJECTED") :
    books_get (process_order w order).engine.order_books order.instrument
      = { books_get w.engine.order_books order.instrument with
          results := (books_get w.engine.order_books order.instrument).results ++ [order] }
    ∧ (∀ instrument, instrument ≠ order.instrument →
        books_get (process_order w order).engine.order_books instrument
          = books_get w.engine.order_books instrument)
    ∧ (process_order w order).statics = w.statics := by
  refine ⟨?_, fun instrument hi => process_order_book_other w order hi, ?_⟩
  · rw [process_order_book_rejected w order h]
    rfl
  · unfold process_order
    rw [if_pos h]

/-- Instance of C23: a pre-rejected CANCEL sent to the engine after `two_asks`. -/
theorem rejected_pass_through_witness :
    books_get (process_order (run (MatchingEngine.new Statics.initial) two_asks)
        { mk_order 900 7 "AAPL" "SELL" "LIMIT" 0 0 "CANCEL" with status := "REJECTED" }
        ).engine.order_books "AAPL"
      = { two_asks_book with
          results := two_asks_book.results ++
            [{ mk_order 900 7 "AAPL" "SELL" "LIMIT" 0 0 "CANCEL" with status := "REJECTED" }] }
    ∧ (process_order (run (MatchingEngine.new Statics.initial) two_asks)
        { mk_order 900 7 "AAPL" "SELL" "LIMIT" 0 0 "CANCEL" with status := "REJECTED" }).statics
      = (run (MatchingEngine.new Statics.initial) two_asks).statics :=
  ⟨(rejected_pass_through (run (MatchingEngine.new Statics.initial) two_asks)
      { mk_order 900 7 "AAPL" "SELL" "LIMIT" 0 0 "CANCEL" with status := "REJECTED" } rfl).1,
   (rejected_pass_through (run (MatchingEngine.new Statics.initial) two_asks)
      { mk_order 900 7 "AAPL" "SELL" "LIMIT" 0 0 "CANCEL" with status := "REJECTED" } rfl).2.2⟩

/-! ## The constructor and the timestamp static -/

/-- C21, evaluation of the code: the constructor resets `global_timestamp_counter`
and leaves `last_execution_timestamp`, the static that
`get_next_execution_timestamp` reads, as the process has it. A first engine stamps
the PENDING event of an input of timestamp 5000 with 5000; a second engine,
constructed afterwards in the same process, stamps the PENDING event of an input
of timestamp 1000 with 5100, where `max(1000, 100)` is 1000. -/
theorem constructor_keeps_last_timestamp :
    (∀ s : Statics, (MatchingEngine.new s).statics.last_execution_timestamp
        = s.last_execution_timestamp
      ∧ (MatchingEngine.new s).statics.global_timestamp_counter = 0)
    ∧ (books_get (run (MatchingEngine.new Statics.initial)
          [mk_order 5000 1 "AAPL" "BUY" "LIMIT" 100 15025 "NEW"]).engine.order_books
          "AAPL").results.map (fun e => (e.status, e.timestamp)) = [("PENDING", 5000)]
    ∧ (books_get (run
          (MatchingEngine.new (run (MatchingEngine.new Statics.initial)
            [mk_order 5000 1 "AAPL" "BUY" "LIMIT" 100 15025 "NEW"]).statics)
          [mk_order 1000 1 "AAPL" "BUY" "LIMIT" 100 15025 "NEW"]).engine.order_books
          "AAPL").results.map (fun e => (e.status, e.timestamp)) = [("PENDING", 5100)]
    ∧ max 1000 100 ≠ 5100 := by
  refine ⟨fun s => ⟨rfl, rfl⟩, ?_, ?_, ?_⟩ <;> decide

/-! ## Scenario 1 -/

/-- C26: a new engine in a process whose timestamp static is 0, fed the six inputs
of scenario 1, returns from `get_all_results` exactly the eight expected records,
all fields and order included. -/
theorem scenario_one_output :
    get_all_results (run (MatchingEngine.new Statics.initial) scenario_one).engine
      = scenario_one_expected := by
  decide

/-! ## `validate_order` and its reference -/

theorem same_ignoring_case_upper (s t : String) (ht : Validator.to_upper t = t) :
    same_ignoring_case s t = decide (Validator.to_upper s = t) := by
  unfold same_ignoring_case
  rw [ht]

/-- C27, evaluation of the code: for the type spelled `limit`, which the type check
accepts, a negative price is not reported, because line 76 compares the type with
`"LIMIT"` as it is written; the reference reports NEGATIVE_PRICE. On every order
whose type is written `LIMIT`, or is not LIMIT ignoring case, or whose price is
not negative, the function and the reference agree. -/
theorem validate_order_lowercase_limit :
    Validator.validate_order (mk_order 1000 1 "AAPL" "BUY" "limit" 100 (-1) "NEW") = .VALID
    ∧ validate_order_reference (mk_order 1000 1 "AAPL" "BUY" "limit" 100 (-1) "NEW")
        = .NEGATIVE_PRICE
    ∧ Validator.validate_order (mk_order 1000 1 "AAPL" "BUY" "LIMIT" 100 (-1) "NEW")
        = .NEGATIVE_PRICE
    ∧ ∀ order : Order,
        (order.type = "LIMIT" ∨ Validator.to_upper order.type ≠ "LIMIT" ∨ 0 ≤ order.price) →
        Validator.validate_order order = validate_order_reference order := by
  refine ⟨by decide, by decide, by decide, ?_⟩
  intro order h
  unfold Validator.validate_order validate_order_reference Validator.is_valid_side
    Validator.is_valid_type Validator.is_valid_action
  rw [same_ignoring_case_upper _ "BUY" (by decide), same_ignoring_case_upper _ "SELL" (by decide),
    same_ignoring_case_upper _ "LIMIT" (by decide), same_ignoring_case_upper _ "MARKET" (by decide),
    same_ignoring_case_upper _ "NEW" (by decide), same_ignoring_case_upper _ "MODIFY" (by decide),
    same_ignoring_case_upper _ "CANCEL" (by decide)]
  have h12 : (1000000000000 : Nat) = 10 ^ 12 := by norm_num
  rw [h12]
  have hp : (order.type = "LIMIT" ∧ order.price < 0)
      ↔ (decide (Validator.to_upper order.type = "LIMIT") = true ∧ order.price < 0) := by
    constructor
    · rintro ⟨h1, h2⟩
      refine ⟨?_, h2⟩
      rw [h1]
      decide
    · rintro ⟨h1, h2⟩
      rcases h with h | h | h
      · exact ⟨h, h2⟩
      · exact absurd (of_decide_eq_true h1) h
      · omega
  simp only [hp]

/-! ## The lookup and the resting orders -/

/-- C28, evaluation of the code. Every resting order is a key of the lookup and has
at least one unit, in every book of every run from a new engine. The converse
fails: after `partial_fill` the SELL order 2, fully executed as the incoming
order, rests nowhere and is still a key of the lookup; a BUY MARKET order
rejected for lack of liquidity is a key of the lookup of an empty book; the
fully executed resting order of the mirrored run is erased. -/
theorem lookup_keeps_executed_orders :
    (∀ (s : Statics) (inputs : List Order) (instrument : String) (k : Nat),
        k ∈ (books_get (run (MatchingEngine.new s) inputs).engine.order_books
              instrument).resting_ids →
        ((books_get (run (MatchingEngine.new s) inputs).engine.order_books
              instrument).order_lookup k).isSome = true
        ∧ 0 < resting_qty
            (books_get (run (MatchingEngine.new s) inputs).engine.order_books instrument) k)
    ∧ ((partial_fill_ctx.book.order_lookup 2).isSome = true
        ∧ 2 ∉ partial_fill_ctx.book.resting_ids
        ∧ partial_fill_ctx.book.resting_ids = [1])
    ∧ (((books_get (run (MatchingEngine.new Statics.initial)
            [mk_order 1000 3 "AAPL" "BUY" "MARKET" 50 0 "NEW"]).engine.order_books
            "AAPL").order_lookup 3).isSome = true
        ∧ (books_get (run (MatchingEngine.new Statics.initial)
            [mk_order 1000 3 "AAPL" "BUY" "MARKET" 50 0 "NEW"]).engine.order_books
            "AAPL").resting_ids = [])
    ∧ (((books_get (run (MatchingEngine.new Statics.initial)
            [mk_order 1000 1 "AAPL" "SELL" "LIMIT" 50 15025 "NEW",
             mk_order 1100 2 "AAPL" "BUY" "LIMIT" 50 15025 "NEW"]).engine.order_books
            "AAPL").order_lookup 1).isSome = false
        ∧ ((books_get (run (MatchingEngine.new Statics.initial)
            [mk_order 1000 1 "AAPL" "SELL" "LIMIT" 50 15025 "NEW",
             mk_order 1100 2 "AAPL" "BUY" "LIMIT" 50 15025 "NEW"]).engine.order_books
            "AAPL").order_lookup 2).isSome = true) := by
  refine ⟨?_, by decide, by decide, by decide⟩
  intro s inputs instrument k hk
  have hwf := reachable_wf s inputs instrument
  have hpos := reachable_positive s inputs instrument
  obtain ⟨side, x, hx, hxid⟩ := mem_resting_ids.1 hk
  obtain ⟨_, e, he, _, _⟩ := hwf.resting side x hx
  rw [hxid] at he
  refine ⟨by rw [he]; rfl, ?_⟩
  have hq := hpos side x hx
  have hsum : ∀ l : List (Int × Order), x ∈ l →
      x.2.quantity ≤ ((l.filter (fun y => decide (y.2.order_id = k))).map
        (fun y => y.2.quantity)).sum := by
    intro l
    induction l with
    | nil => intro h; cases h
    | cons y l ih =>
      intro h
      rcases List.mem_cons.1 h with rfl | h
      · simp [List.filter_cons, hxid]
      · have := ih h
        by_cases hy : y.2.order_id = k
        · simp only [List.filter_cons, hy, decide_True, if_true, List.map_cons, List.sum_cons]
          omega
        · simp only [List.filter_cons, hy, decide_False]
          exact this
  have := hsum _ hx
  unfold resting_qty Levels.qty_of
  cases side
  · have h2 : x.2.quantity ≤ ((((books_get (run (MatchingEngine.new s) inputs).engine.order_books
        instrument).levels .buy).entries.filter (fun y => decide (y.2.order_id = k))).map
        (fun y => y.2.quantity)).sum := this
    omega
  · have h2 : x.2.quantity ≤ ((((books_get (run (MatchingEngine.new s) inputs).engine.order_books
        instrument).levels .sell).entries.filter (fun y => decide (y.2.order_id = k))).map
        (fun y => y.2.quantity)).sum := this
    omega

/-! ## Level properties through the operations -/

theorem LevelInv.transfer_levels {L : Levels → Prop} {b b' : OrderBook} (h : LevelInv L b)
    (hl : ∀ s, b'.levels s = b.levels s) : LevelInv L b' := by
  intro s
  rw [hl s]
  exact h s

/-- The loop returns at most the quantity it was entered with. -/
theorem sweep_remaining_le (opp : BookSide) (stop : Int → Bool) (order : Order) (fuel : Nat)
    (c : BookCtx) (r : Nat) : (sweep opp stop order fuel c r).2 ≤ r := by
  refine sweep_invariant opp stop order (fun _ r' => r' ≤ r) ?_ ?_ fuel c r (le_refl r)
  · intro _ _ _ _ _ h _ _ _ _
    exact h
  · intro c' r' price oq rest front tail h _ _ _ _
    rw [execute_trade_remaining]
    omega

theorem LevelInv.through_sweep {L : Levels → Prop} {A : Nat → Prop} (hc : LevelClosed L A)
    (opp : BookSide) (stop : Int → Bool) (order : Order) (fuel : Nat)
    (c : BookCtx) (r : Nat) (h : LevelInv L c.book) :
    LevelInv L (sweep opp stop order fuel c r).1.book := by
  refine sweep_invariant opp stop order (fun c' _ => LevelInv L c'.book) ?_ ?_ fuel c r h
  · intro c' r' price oq rest hi _ hl _ _ s
    by_cases hs : s = opp
    · subst hs
      rw [levels_setLevels_same]
      have := hi s
      rw [hl] at this
      exact hc.erase _ _ this
    · rw [levels_setLevels_other _ _ hs]
      exact hi s
  · intro c' r' price oq rest front tail hi hr hl _ ho s
    by_cases hs : s = opp
    · subst hs
      rw [execute_trade_levels_same]
      have := hi s
      rw [hl] at this
      exact hc.trade price oq front tail rest r' this ho hr
    · rw [execute_trade_levels_other _ _ _ _ _ _ _ _ _ hs]
      exact hi s

theorem LevelInv.through_rest {L : Levels → Prop} {A : Nat → Prop} (hc : LevelClosed L A)
    (own : BookSide) (order : Order) (r : BookCtx × Nat)
    (h : LevelInv L r.1.book) (ha : A r.2) : LevelInv L (limit_rest own order r).book := by
  obtain ⟨c, n⟩ := r
  by_cases hn : 0 < n
  · obtain ⟨h1, _⟩ := limit_rest_pos own order c n hn
    intro s
    by_cases hs : s = own
    · subst hs
      rw [h1]
      exact hc.add _ _ _ _ (h s) ha
    · rw [limit_rest_levels_other own order (c, n) hs]
      exact h s
  · have : limit_rest own order (c, n) = c := by
      unfold limit_rest
      rw [if_neg hn]
    rw [this]
    exact h

theorem execute_market_order_levels {L : Levels → Prop} {A : Nat → Prop} (hc : LevelClosed L A)
    {c : BookCtx} {order : Order} (h : LevelInv L c.book) :
    LevelInv L (execute_market_order c order).book := by
  unfold execute_market_order execute_buy_market_order execute_sell_market_order
  split
  · exact (LevelInv.through_sweep hc _ _ order _ c order.quantity h).transfer_levels
      (market_finish_levels order _)
  · exact (LevelInv.through_sweep hc _ _ order _ c order.quantity h).transfer_levels
      (market_finish_levels order _)

theorem execute_limit_order_levels {L : Levels → Prop} {A : Nat → Prop} (hc : LevelClosed L A)
    {c : BookCtx} {order : Order} (h : LevelInv L c.book)
    (ha : A order.quantity) : LevelInv L (execute_limit_order c order).book := by
  unfold execute_limit_order execute_buy_limit_order execute_sell_limit_order
  split
  · exact LevelInv.through_rest hc _ order _
      (LevelInv.through_sweep hc _ _ order _ _ order.quantity
        (h.transfer_levels (limit_pending_levels _ _ c order)))
      (hc.mono _ _ ha (sweep_remaining_le _ _ _ _ _ _))
  · exact LevelInv.through_rest hc _ order _
      (LevelInv.through_sweep hc _ _ order _ _ order.quantity
        (h.transfer_levels (limit_pending_levels _ _ c order)))
      (hc.mono _ _ ha (sweep_remaining_le _ _ _ _ _ _))

theorem add_order_levels {L : Levels → Prop} {A : Nat → Prop} (hc : LevelClosed L A)
    {c : BookCtx} {order : Order} (h : LevelInv L c.book)
    (ha : A order.quantity) : LevelInv L (add_order c order).book := by
  unfold add_order
  split
  · exact h.transfer_levels (fun s => by cases s <;> rfl)
  · dsimp only
    have hseed : ∀ b : OrderBook, (∀ s, b.levels s = c.book.levels s) → LevelInv L b :=
      fun b hb => h.transfer_levels hb
    split
    · exact execute_market_order_levels hc (hseed _ (fun s => by cases s <;> split <;> rfl))
    · split
      · exact execute_limit_order_levels hc
          (hseed _ (fun s => by cases s <;> split <;> rfl)) ha
      · exact hseed _ (fun s => by cases s <;> split <;> rfl)

theorem cancel_order_from_book_levels {L : Levels → Prop} {A : Nat → Prop} (hc : LevelClosed L A)
    {b : OrderBook} (h : LevelInv L b) (o : Order) :
    LevelInv L (cancel_order_from_book b o) := by
  unfold cancel_order_from_book
  split
  · intro s
    cases s
    · exact hc.remove _ _ _ (h .buy)
    · exact h .sell
  · intro s
    cases s
    · exact h .buy
    · exact hc.remove _ _ _ (h .sell)

theorem modify_order_levels {L : Levels → Prop} {A : Nat → Prop} (hc : LevelClosed L A)
    {c : BookCtx} {request : Order} (h : LevelInv L c.book)
    (ha : A request.quantity) : LevelInv L (modify_order c request).book := by
  cases he : c.book.order_lookup request.order_id with
  | none =>
    unfold modify_order
    rw [he]
    exact h.transfer_levels (fun s => by cases s <;> rfl)
  | some stored =>
    have hp : LevelInv L (modify_prepare c request stored).book :=
      (cancel_order_from_book_levels hc h stored).transfer_levels (fun s => by cases s <;> rfl)
    rw [modify_order_found c request stored he]
    split
    · split
      · exact execute_market_order_levels hc hp
      · split
        · refine execute_limit_order_levels hc hp (hc.mono _ _ ha ?_)
          show modify_remaining _ _ ≤ _
          unfold modify_remaining
          split <;> omega
        · exact hp
    · exact hp.transfer_levels (fun s => by cases s <;> rfl)

theorem cancel_order_levels {L : Levels → Prop} {A : Nat → Prop} (hc : LevelClosed L A)
    {c : BookCtx} {request : Order} (h : LevelInv L c.book) :
    LevelInv L (cancel_order c request).book := by
  unfold cancel_order
  split
  · exact h.transfer_levels (fun s => by cases s <;> rfl)
  · dsimp only
    exact (cancel_order_from_book_levels hc h _).transfer_levels (fun s => by cases s <;> rfl)

/-- What `process_order` leaves in the book of the instrument of its input, by the
branch it takes. -/
theorem process_order_book_cases (P : OrderBook → Prop) (w : World) (o : Order)
    (hrej : o.status = "REJECTED" →
      P (BookCtx.push ⟨books_get w.engine.order_books o.instrument,
          w.statics.last_execution_timestamp⟩ o).book)
    (hnew : o.status ≠ "REJECTED" → o.action = "NEW" →
      P (add_order ⟨books_get w.engine.order_books o.instrument,
          w.statics.last_execution_timestamp⟩ o).book)
    (hmod : o.status ≠ "REJECTED" → o.action = "MODIFY" →
      P (modify_order ⟨books_get w.engine.order_books o.instrument,
          w.statics.last_execution_timestamp⟩ o).book)
    (hcan : o.status ≠ "REJECTED" → o.action = "CANCEL" →
      P (cancel_order ⟨books_get w.engine.order_books o.instrument,
          w.statics.last_execution_timestamp⟩ o).book)
    (hnoop : o.status ≠ "REJECTED" → o.action ≠ "NEW" → o.action ≠ "MODIFY" →
      o.action ≠ "CANCEL" → P (books_get w.engine.order_books o.instrument)) :
    P (books_get (process_order w o).engine.order_books o.instrument) := by
  by_cases hst : o.status = "REJECTED"
  · rw [process_order_book_rejected w o hst]
    exact hrej hst
  · by_cases h1 : o.action = "NEW"
    · rw [process_order_book_new w o hst h1]
      exact hnew hst h1
    · by_cases h2 : o.action = "MODIFY"
      · rw [process_order_book_modify w o hst h2]
        exact hmod hst h2
      · by_cases h3 : o.action = "CANCEL"
        · rw [process_order_book_cancel w o hst h3]
          exact hcan hst h3
        · rw [process_order_book_noop w o hst h1 h2 h3]
          exact hnoop hst h1 h2 h3

theorem process_order_levels {L : Levels → Prop} {A : Nat → Prop} (hc : LevelClosed L A)
    {w : World} (h : ∀ instrument, LevelInv L (books_get w.engine.order_books instrument))
    (o : Order) (ha : A o.quantity) (instrument : String) :
    LevelInv L (books_get (process_order w o).engine.order_books instrument) := by
  by_cases hi : instrument = o.instrument
  · subst hi
    refine process_order_book_cases (LevelInv L) w o ?_ ?_ ?_ ?_ (fun _ _ _ _ => h _)
    · intro _
      exact (h o.instrument).transfer_levels (fun s => by cases s <;> rfl)
    · intro _ _
      exact add_order_levels hc (h o.instrument) ha
    · intro _ _
      exact modify_order_levels hc (h o.instrument) ha
    · intro _ _
      exact cancel_order_levels hc (h o.instrument)
  · rw [process_order_book_other w o hi]
    exact h instrument

theorem run_levels {L : Levels → Prop} {A : Nat → Prop} (hc : LevelClosed L A)
    {w : World} (h : ∀ instrument, LevelInv L (books_get w.engine.order_books instrument))
    (inputs : List Order) (ha : ∀ o ∈ inputs, A o.quantity) (instrument : String) :
    LevelInv L (books_get (run w inputs).engine.order_books instrument) := by
  induction inputs generalizing w with
  | nil => exact h instrument
  | cons o rest ih =>
    rw [run_cons]
    exact ih (fun i => process_order_levels hc h o (ha o (List.mem_cons_self _ _)) i)
      (fun x hx => ha x (List.mem_cons_of_mem _ hx))

/-- Every book of an engine run from its construction, on inputs whose quantities
satisfy `A`, has both sides in `L`. -/
theorem reachable_levels {L : Levels → Prop} {A : Nat → Prop} (hc : LevelClosed L A)
    (s : Statics) (inputs : List Order) (ha : ∀ o ∈ inputs, A o.quantity)
    (instrument : String) :
    LevelInv L (books_get (run (MatchingEngine.new s) inputs).engine.order_books instrument) := by
  refine run_levels hc ?_ inputs ha instrument
  intro i side
  have : books_get (MatchingEngine.new s).engine.order_books i = OrderBook.new := rfl
  rw [this]
  cases side <;> exact hc.nil

/-! ## No empty price level -/

theorem NoEmptyLevel.level_closed : LevelClosed NoEmptyLevel (fun _ => True) where
  nil := by intro pq hpq; cases hpq
  trade := by
    intro price oq front tail rest r h _ _ pq hpq
    rcases nonempty_levels_after_trade price oq front tail rest r pq hpq with h1 | h1
    · exact h pq (List.mem_cons_of_mem _ h1)
    · exact h1
  erase := fun pq rest h x hx => h x (List.mem_cons_of_mem _ hx)
  add := fun s l price o h _ => Levels.nonempty_add s l price o h
  remove := fun l price id h => Levels.nonempty_remove l price id h
  mono := fun _ _ _ _ => trivial

/-- In a consistent book the first key of each side is the best price of the side. -/
theorem WF.best_first {b : OrderBook} (h : WF b) : BestFirst b := by
  have hprice : ∀ s, ∀ x ∈ (b.levels s).entries, x.2.price = x.1 :=
    fun s x hx => (h.resting s x hx).1
  have hhead : ∀ (s : BookSide) (p : Int) (q : OrderQueue) (rest : Levels),
      b.levels s = (p, q) :: rest →
      (∃ o ∈ q.orders, o.price = p)
      ∧ ∀ x ∈ (b.levels s).entries, x.1 = p ∨ s.before p x.1 = true := by
    intro s p q rest hl
    constructor
    · have hne : q.orders ≠ [] := h.nonempty s (p, q) (by rw [hl]; exact List.mem_cons_self _ _)
      obtain ⟨o, tl, ho⟩ := List.exists_cons_of_ne_nil hne
      refine ⟨o, by rw [ho]; exact List.mem_cons_self _ _, ?_⟩
      refine hprice s (p, o) ?_
      rw [hl, Levels.entries_cons]
      refine List.mem_append_left _ ?_
      show (p, o) ∈ q.orders.map (fun o => (p, o))
      rw [ho, List.map_cons]
      exact List.mem_cons_self _ _
    · intro x hx
      have hk := Levels.entries_key_mem hx
      have hs := h.sorted s
      unfold Levels.sorted at hs
      rw [hl, Levels.keys_cons] at hk hs
      rcases List.mem_cons.1 hk with hk | hk
      · exact Or.inl hk
      · exact Or.inr ((List.pairwise_cons.1 hs).1 x.1 hk)
  refine ⟨h.nonempty, hprice, ?_, ?_⟩
  · intro p q rest hl
    obtain ⟨h1, h2⟩ := hhead .buy p q rest hl
    refine ⟨h1, fun x hx => ?_⟩
    rw [hprice .buy x hx]
    rcases h2 x hx with h3 | h3
    · exact le_of_eq h3
    · have : x.1 < p := by simpa [BookSide.before] using h3
      exact le_of_lt this
  · intro p q rest hl
    obtain ⟨h1, h2⟩ := hhead .sell p q rest hl
    refine ⟨h1, fun x hx => ?_⟩
    rw [hprice .sell x hx]
    rcases h2 x hx with h3 | h3
    · exact le_of_eq h3.symm
    · have : p < x.1 := by simpa [BookSide.before] using h3
      exact le_of_lt this

/-- C30: `add_order`, `modify_order` and `cancel_order` leave no empty price level
when they are entered without one, whatever the order or request. On a consistent
book (every book of a run from a new engine is one) they leave the first key of
each side as its best price, with an order resting there: for `add_order` with
the action NEW, with which `process_order` calls it, and for the two others
always. -/
theorem no_empty_levels (c : BookCtx) (order : Order) :
    ((∀ s, NoEmptyLevel (c.book.levels s)) →
      (∀ s, NoEmptyLevel ((add_order c order).book.levels s))
      ∧ (∀ s, NoEmptyLevel ((modify_order c order).book.levels s))
      ∧ (∀ s, NoEmptyLevel ((cancel_order c order).book.levels s)))
    ∧ (WF c.book →
      (order.action = "NEW" → BestFirst (add_order c order).book)
      ∧ BestFirst (modify_order c order).book
      ∧ BestFirst (cancel_order c order).book) := by
  constructor
  · intro h
    exact ⟨add_order_levels NoEmptyLevel.level_closed h trivial,
      modify_order_levels NoEmptyLevel.level_closed h trivial,
      cancel_order_levels NoEmptyLevel.level_closed h⟩
  · intro h
    exact ⟨fun hnew => (add_order_wf h hnew).best_first, (modify_order_wf h).best_first,
      (cancel_order_wf h).best_first⟩

/-- Instance of C30: the book of `two_asks` after the CANCEL of the only ask at
100.05 (id 2): the level is gone and the first SELL key, 100.00, holds order 1. -/
theorem no_empty_levels_witness :
    BestFirst (cancel_order ⟨two_asks_book, 1100⟩
      (mk_order 1300 2 "AAPL" "SELL" "LIMIT" 40 0 "CANCEL")).book
    ∧ (cancel_order ⟨two_asks_book, 1100⟩
      (mk_order 1300 2 "AAPL" "SELL" "LIMIT" 40 0 "CANCEL")).book.sell_orders.keys = [10000] :=
  ⟨((no_empty_levels ⟨two_asks_book, 1100⟩
      (mk_order 1300 2 "AAPL" "SELL" "LIMIT" 40 0 "CANCEL")).2
      (reachable_wf Statics.initial two_asks "AAPL")).2.2, by decide⟩

/-! ## Cached totals -/

theorem rebuild_queue_snd (id : Nat) (l nq : List Order) (nt : Nat) (hnt : nt < U64) :
    (rebuild_queue id l nq nt).2
      = (nt + ((l.filter (fun o => decide (o.order_id ≠ id))).map (fun o => o.quantity)).sum)
          % U64 := by
  induction l generalizing nq nt with
  | nil => simp [rebuild_queue, Nat.mod_eq_of_lt hnt]
  | cons o l ih =>
    unfold rebuild_queue
    by_cases h : o.order_id = id
    · simp only [h, ne_eq, not_true_eq_false, if_false, decide_False, List.filter_cons]
      exact ih nq nt hnt
    · simp only [h, ne_eq, not_false_eq_true, if_true, decide_True, List.filter_cons,
        List.map_cons, List.sum_cons]
      rw [ih _ _ (Nat.mod_lt _ (by unfold U64; norm_num))]
      rw [Nat.add_mod, Nat.mod_mod, ← Nat.add_mod, Nat.add_assoc]

/-- Levels after a trade that exhausts the head of the first level. -/
theorem levels_after_trade_exhausted (price : Int) (oq : OrderQueue) (front : Order)
    (tail : List Order) (rest : Levels) (r : Nat) (hq : front.quantity ≤ r) :
    levels_after_trade price oq front tail rest r
      = if tail.isEmpty then rest
        else (price, { orders := tail,
                       total_quantity :=
                        ((oq.total_quantity + U64 - front.quantity) % U64 + U64 - 0) % U64 })
              :: rest := by
  have hmin : min r front.quantity = front.quantity := Nat.min_eq_right hq
  unfold levels_after_trade
  simp only [hmin, Nat.sub_self, if_true, OrderQueue.pop, OrderQueue.update_quantity,
    OrderQueue.empty]

/-- Levels after a trade that leaves a remainder to the head of the first level. -/
theorem levels_after_trade_remainder (price : Int) (oq : OrderQueue) (front : Order)
    (tail : List Order) (rest : Levels) (r : Nat) (hq : r < front.quantity) :
    levels_after_trade price oq front tail rest r
      = (price, { orders := { front with quantity := front.quantity - r } :: tail,
                  total_quantity := (oq.total_quantity + U64 - r) % U64 }) :: rest := by
  have hmin : min r front.quantity = r := Nat.min_eq_left (le_of_lt hq)
  have hne : front.quantity - r ≠ 0 := by omega
  unfold levels_after_trade
  simp only [hmin, hne, if_false, OrderQueue.update_quantity, OrderQueue.empty]
  rfl

theorem CachedTotals.totals_closed : LevelClosed CachedTotals (fun n => n < U64) where
  nil := by intro pq hpq; cases hpq
  erase := fun pq rest h x hx => h x (List.mem_cons_of_mem _ hx)
  mono := fun n m hn hm => lt_of_le_of_lt hm hn
  add := by
    intro s l price o h ha
    induction l with
    | nil =>
      intro pq hpq
      simp only [Levels.add, List.mem_singleton] at hpq
      subst hpq
      simp [OrderQueue.new, OrderQueue.add_order, ha]
    | cons pq l ih =>
      obtain ⟨p, q⟩ := pq
      have hq := h (p, q) (List.mem_cons_self _ _)
      have hrest : CachedTotals l := fun x hx => h x (List.mem_cons_of_mem _ hx)
      have hnew : ∀ q0 : OrderQueue, (∀ o' ∈ q0.orders, o'.quantity < U64) →
          q0.total_quantity = (q0.orders.map (fun o => o.quantity)).sum % U64 →
          (∀ o' ∈ (q0.add_order o).orders, o'.quantity < U64)
          ∧ (q0.add_order o).total_quantity
            = ((q0.add_order o).orders.map (fun o => o.quantity)).sum % U64 := by
        intro q0 h1 h2
        constructor
        · intro o' ho'
          simp only [OrderQueue.add_order, List.mem_append, List.mem_singleton] at ho'
          rcases ho' with ho' | rfl
          · exact h1 o' ho'
          · exact ha
        · simp only [OrderQueue.add_order, List.map_append, List.sum_append, List.map_cons,
            List.map_nil, List.sum_cons, List.sum_nil, Nat.add_zero]
          rw [h2, Nat.add_mod, Nat.mod_mod, ← Nat.add_mod]
      unfold Levels.add
      split
      · intro x hx
        rcases List.mem_cons.1 hx with rfl | hx
        · exact hnew q hq.1 hq.2
        · exact hrest x hx
      · split
        · intro x hx
          rcases List.mem_cons.1 hx with rfl | hx
          · exact hnew OrderQueue.new (by simp [OrderQueue.new]) (by simp [OrderQueue.new])
          · exact h x hx
        · intro x hx
          rcases List.mem_cons.1 hx with rfl | hx
          · exact hq
          · exact ih hrest x hx
  remove := by
    intro l price id h
    induction l with
    | nil => intro pq hpq; simp [Levels.remove] at hpq
    | cons pq l ih =>
      obtain ⟨p, q⟩ := pq
      have hq := h (p, q) (List.mem_cons_self _ _)
      have hrest : CachedTotals l := fun x hx => h x (List.mem_cons_of_mem _ hx)
      unfold Levels.remove
      split
      · dsimp only
        split
        · exact hrest
        · intro x hx
          rcases List.mem_cons.1 hx with rfl | hx
          · constructor
            · intro o ho
              rw [rebuild_queue_fst] at ho
              simp only [List.nil_append] at ho
              exact hq.1 o (List.mem_filter.1 ho).1
            · show (rebuild_queue id q.orders [] 0).2 = _
              rw [rebuild_queue_snd id q.orders [] 0 (by unfold U64; norm_num),
                rebuild_queue_fst]
              simp
          · exact hrest x hx
      · intro x hx
        rcases List.mem_cons.1 hx with rfl | hx
        · exact hq
        · exact ih hrest x hx
  trade := by
    intro price oq front tail rest r h ho _
    have hq := h (price, oq) (List.mem_cons_self _ _)
    have hrest : CachedTotals rest := fun x hx => h x (List.mem_cons_of_mem _ hx)
    have hfront : front.quantity < U64 := hq.1 front (by rw [ho]; exact List.mem_cons_self _ _)
    have htail : ∀ o ∈ tail, o.quantity < U64 :=
      fun o hmem => hq.1 o (by rw [ho]; exact List.mem_cons_of_mem _ hmem)
    have htot : oq.total_quantity
        = (front.quantity + (tail.map (fun o => o.quantity)).sum) % U64 := by
      have := hq.2
      rw [ho] at this
      simpa using this
    intro x hx
    by_cases hz : front.quantity ≤ r
    · rw [levels_after_trade_exhausted price oq front tail rest r hz] at hx
      split at hx
      · exact hrest x hx
      · rcases List.mem_cons.1 hx with rfl | hx
        · refine ⟨htail, ?_⟩
          show ((oq.total_quantity + U64 - front.quantity) % U64 + U64 - 0) % U64 = _
          rw [htot]
          generalize (tail.map (fun o => o.quantity)).sum = T
          unfold U64 at hfront ⊢
          omega
        · exact hrest x hx
    · rw [levels_after_trade_remainder price oq front tail rest r (by omega)] at hx
      rcases List.mem_cons.1 hx with rfl | hx
      · constructor
        · intro o hmem
          rcases List.mem_cons.1 hmem with rfl | hmem
          · show front.quantity - r < U64
            omega
          · exact htail o hmem
        · show (oq.total_quantity + U64 - r) % U64 = _
          rw [htot]
          simp only [List.map_cons, List.sum_cons]
          generalize (tail.map (fun o => o.quantity)).sum = T
          unfold U64 at hfront ⊢
          omega
      · exact hrest x hx

/-- Counterexample to C29 as stated: two BUY orders of 2^63 each come to rest at
150.25; the queue of the level holds quantities whose sum is 2^64 and the cached
total, a 64-bit counter, is 0. -/
theorem cached_total_counterexample :
    (∀ o ∈ two_huge_bids, o.quantity < U64)
    ∧ (books_get (run (MatchingEngine.new Statics.initial) two_huge_bids).engine.order_books
        "AAPL").buy_orders.map
        (fun pq => (pq.1, pq.2.total_quantity, (pq.2.orders.map (fun o => o.quantity)).sum))
      = [(15025, 0, 18446744073709551616)]
    ∧ (0 : Nat) ≠ 18446744073709551616 := by
  decide

/-- C29, amended: in every book of a run from a new engine on inputs whose
quantities fit in 64 bits, every price level of either side caches the sum of the
quantities of its queue modulo 2^64, hence the sum itself whenever that is below
2^64. The property is kept by each of the ways in which the code changes a side:
insertion with `add_order`, decrement of the head with `update_quantity` and
`pop`, erasure of a level, rebuild in `cancel_order_from_book` (last conjunct). -/
theorem cached_totals (s : Statics) (inputs : List Order)
    (hq : ∀ o ∈ inputs, o.quantity < U64) (instrument : String) :
    (∀ side, ∀ pq ∈ (books_get (run (MatchingEngine.new s) inputs).engine.order_books
          instrument).levels side,
        pq.2.total_quantity = (pq.2.orders.map (fun o => o.quantity)).sum % U64
        ∧ ((pq.2.orders.map (fun o => o.quantity)).sum < U64 →
            pq.2.total_quantity = (pq.2.orders.map (fun o => o.quantity)).sum))
    ∧ LevelClosed CachedTotals (fun n => n < U64) := by
  refine ⟨?_, CachedTotals.totals_closed⟩
  intro side pq hpq
  have h := (reachable_levels CachedTotals.totals_closed s inputs hq instrument side pq hpq).2
  exact ⟨h, fun hlt => by rw [h, Nat.mod_eq_of_lt hlt]⟩

/-- Instance of C29 as amended: the levels of the book of `two_asks`. -/
theorem cached_totals_witness :
    (∀ o ∈ two_asks, o.quantity < U64)
    ∧ ∀ side, ∀ pq ∈ two_asks_book.levels side,
        pq.2.total_quantity = (pq.2.orders.map (fun o => o.quantity)).sum % U64
        ∧ ((pq.2.orders.map (fun o => o.quantity)).sum < U64 →
            pq.2.total_quantity = (pq.2.orders.map (fun o => o.quantity)).sum) :=
  ⟨by decide, (cached_totals Statics.initial two_asks (by decide) "AAPL").1⟩

/-! ## Labels through the matching routines -/

theorem label_trade {Q R : Order → Prop} (hQ : Stable Q) (hQR : Derived Q R)
    {c : BookCtx} {order : Order} (hs : Seeded c.book order) (h : LabelInv Q R c.book)
    (opp : BookSide) (price : Int) (oq : OrderQueue) (front : Order) (tail : List Order)
    (rest : Levels) (r : Nat)
    (hl : c.book.levels opp = (price, oq) :: rest) (ho : oq.orders = front :: tail) :
    LabelInv Q R (execute_trade opp order price oq front tail rest c r).1.book := by
  obtain ⟨e, he⟩ := hs.present
  have hfront : Q front := by
    refine h.resting opp (price, front) ?_
    rw [hl, Levels.entries_cons]
    refine List.mem_append_left _ ?_
    show (price, front) ∈ oq.orders.map (fun o => (price, o))
    rw [ho, List.map_cons]
    exact List.mem_cons_self _ _
  have hold : ∀ x ∈ tail.map (fun o => (price, o)) ++ rest.entries, Q x.2 := by
    intro x hx
    refine h.resting opp x ?_
    rw [hl, Levels.entries_cons]
    rcases List.mem_append.1 hx with hx | hx
    · refine List.mem_append_left _ ?_
      show x ∈ oq.orders.map (fun o => (price, o))
      rw [ho, List.map_cons]
      exact List.mem_cons_of_mem _ hx
    · exact List.mem_append_right _ hx
  refine ⟨?_, ?_, ?_⟩
  · intro k e' hk
    rw [execute_trade_lookup, lookup_touch_present he] at hk
    split at hk
    · by_cases hkf : k = front.order_id
      · rw [hkf, Function.update_same] at hk
        cases hk
      · rw [Function.update_noteq hkf] at hk
        exact h.lookup k e' hk
    · exact h.lookup k e' hk
  · intro s x hx
    by_cases hso : s = opp
    · subst hso
      rw [execute_trade_levels_same, entries_levels_after_trade] at hx
      split at hx
      · exact hold x hx
      · rcases List.mem_cons.1 hx with rfl | hx
        · exact hQ front _ rfl rfl hfront
        · exact hold x hx
    · rw [execute_trade_levels_other _ _ _ _ _ _ _ _ _ hso] at hx
      exact h.resting s x hx
  · intro ev hev
    rw [execute_trade_results] at hev
    rcases List.mem_append.1 hev with hev | hev
    · exact h.logged ev hev
    · simp only [List.mem_cons, List.mem_singleton, List.not_mem_nil, or_false] at hev
      rcases hev with rfl | rfl
      · refine hQR e _ ?_ ?_ (h.lookup _ _ he)
        · show e.instrument = (lookup_value c.book.order_lookup order.order_id).instrument
          rw [lookup_value_present he]
        · show e.type = (lookup_value c.book.order_lookup order.order_id).type
          rw [lookup_value_present he]
      · exact hQR front _ rfl rfl hfront

theorem label_sweep {Q R : Order → Prop} (hQ : Stable Q) (hQR : Derived Q R)
    (opp : BookSide) (stop : Int → Bool) (order : Order) (fuel : Nat) (c : BookCtx) (r : Nat)
    (hs : Seeded c.book order) (h : LabelInv Q R c.book) :
    LabelInv Q R (sweep opp stop order fuel c r).1.book := by
  have key := sweep_invariant opp stop order
    (fun c' _ => Seeded c'.book order ∧ LabelInv Q R c'.book) ?_ ?_ fuel c r ⟨hs, h⟩
  · exact key.2
  · intro c' r' price oq rest hi _ hl _ ho
    refine ⟨hi.1.erase_level hl ho, ?_, ?_, ?_⟩
    · intro k e hk
      rw [setLevels_order_lookup] at hk
      exact hi.2.lookup k e hk
    · intro s x hx
      by_cases hso : s = opp
      · subst hso
        rw [levels_setLevels_same] at hx
        refine hi.2.resting s x ?_
        rw [hl, Levels.entries_cons]
        exact List.mem_append_right _ hx
      · rw [levels_setLevels_other _ _ hso] at hx
        exact hi.2.resting s x hx
    · intro e he
      rw [setLevels_results] at he
      exact hi.2.logged e he
  · intro c' r' price oq rest front tail hi _ hl _ ho
    exact ⟨hi.1.trade r' hl ho,
      label_trade hQ hQR hi.1 hi.2 opp price oq front tail rest r' hl ho⟩

theorem label_pending {Q R : Order → Prop} (hQR : Derived Q R)
    (opp : BookSide) (crosses : Int → Bool) {c : BookCtx} {order : Order}
    (hs : Seeded c.book order) (h : LabelInv Q R c.book) :
    LabelInv Q R (limit_pending opp crosses c order).book := by
  obtain ⟨e, he⟩ := hs.present
  refine ⟨?_, ?_, ?_⟩
  · intro k e' hk
    rw [limit_pending_lookup opp crosses c order he] at hk
    exact h.lookup k e' hk
  · intro s x hx
    rw [limit_pending_levels] at hx
    exact h.resting s x hx
  · intro ev hev
    unfold limit_pending at hev
    split at hev
    · dsimp only at hev
      split at hev
      · rcases List.mem_append.1 hev with hev | hev
        · exact h.logged ev hev
        · simp only [List.mem_singleton] at hev
          subst hev
          refine hQR e _ ?_ ?_ (h.lookup _ _ he)
          · show e.instrument = (lookup_value c.book.order_lookup order.order_id).instrument
            rw [lookup_value_present he]
          · show e.type = (lookup_value c.book.order_lookup order.order_id).type
            rw [lookup_value_present he]
      · exact h.logged ev hev
    · exact h.logged ev hev

theorem label_finish {Q R : Order → Prop} (hQR : Derived Q R)
    {order : Order} {r : BookCtx × Nat}
    (hs : Seeded r.1.book order) (h : LabelInv Q R r.1.book) :
    LabelInv Q R (market_finish order r).book := by
  obtain ⟨e, he⟩ := hs.present
  refine ⟨?_, ?_, ?_⟩
  · intro k e' hk
    rw [market_finish_lookup order r he] at hk
    exact h.lookup k e' hk
  · intro s x hx
    rw [market_finish_levels] at hx
    exact h.resting s x hx
  · intro ev hev
    unfold market_finish at hev
    split at hev
    · rcases List.mem_append.1 hev with hev | hev
      · exact h.logged ev hev
      · simp only [List.mem_singleton] at hev
        subst hev
        refine hQR e _ ?_ ?_ (h.lookup _ _ he)
        · show e.instrument = (lookup_value r.1.book.order_lookup order.order_id).instrument
          rw [lookup_value_present he]
        · show e.type = (lookup_value r.1.book.order_lookup order.order_id).type
          rw [lookup_value_present he]
    · exact h.logged ev hev

theorem label_rest {Q R : Order → Prop} (hQ : Stable Q)
    (own : BookSide) {order : Order} {r : BookCtx × Nat}
    (hs : Seeded r.1.book order) (h : LabelInv Q R r.1.book) :
    LabelInv Q R (limit_rest own order r).book := by
  obtain ⟨c, n⟩ := r
  obtain ⟨e, he⟩ := hs.present
  have he' : c.book.order_lookup order.order_id = some e := he
  by_cases hn : 0 < n
  · obtain ⟨h1, h2⟩ := limit_rest_pos own order c n hn
    rw [lookup_value_present he'] at h1 h2
    have hro : Q { e with quantity := n, price := order.price } :=
      hQ e _ rfl rfl (h.lookup _ _ he')
    refine ⟨?_, ?_, ?_⟩
    · intro k e' hk
      rw [h2] at hk
      by_cases hko : k = order.order_id
      · rw [hko, Function.update_same] at hk
        cases hk
        exact hro
      · rw [Function.update_noteq hko] at hk
        exact h.lookup k e' hk
    · intro s x hx
      by_cases hso : s = own
      · subst hso
        rw [h1] at hx
        rcases List.mem_cons.1 ((Levels.entries_add_perm _ _ _ _).mem_iff.1 hx) with rfl | hx
        · exact hro
        · exact h.resting s x hx
      · rw [limit_rest_levels_other own order (c, n) hso] at hx
        exact h.resting s x hx
    · intro ev hev
      rw [limit_rest_results] at hev
      exact h.logged ev hev
  · have : limit_rest own order (c, n) = c := by
      unfold limit_rest
      rw [if_neg hn]
    rw [this]
    exact h

theorem execute_market_order_label {Q R : Order → Prop} (hQ : Stable Q) (hQR : Derived Q R)
    {c : BookCtx} {order : Order} (hs : Seeded c.book order) (h : LabelInv Q R c.book) :
    LabelInv Q R (execute_market_order c order).book := by
  unfold execute_market_order execute_buy_market_order execute_sell_market_order
  split
  · exact label_finish hQR (Seeded.sweep _ _ order _ c order.quantity hs)
      (label_sweep hQ hQR _ _ order _ c order.quantity hs h)
  · exact label_finish hQR (Seeded.sweep _ _ order _ c order.quantity hs)
      (label_sweep hQ hQR _ _ order _ c order.quantity hs h)

theorem execute_limit_order_label {Q R : Order → Prop} (hQ : Stable Q) (hQR : Derived Q R)
    {c : BookCtx} {order : Order} (hs : Seeded c.book order) (h : LabelInv Q R c.book) :
    LabelInv Q R (execute_limit_order c order).book := by
  unfold execute_limit_order execute_buy_limit_order execute_sell_limit_order
  split
  · exact label_rest hQ _
      (Seeded.sweep _ _ order _ _ order.quantity (Seeded.pending _ _ hs))
      (label_sweep hQ hQR _ _ order _ _ order.quantity (Seeded.pending _ _ hs)
        (label_pending hQR _ _ hs h))
  · exact label_rest hQ _
      (Seeded.sweep _ _ order _ _ order.quantity (Seeded.pending _ _ hs))
      (label_sweep hQ hQR _ _ order _ _ order.quantity (Seeded.pending _ _ hs)
        (label_pending hQR _ _ hs h))

/-! ## Labels through the operations of a book -/

theorem LabelInv.push {Q R : Order → Prop} {c : BookCtx} (h : LabelInv Q R c.book)
    (e : Order) (he : R e) : LabelInv Q R (c.push e).book := by
  refine ⟨h.lookup, fun s x hx => h.resting s x (by cases s <;> exact hx), ?_⟩
  intro ev hev
  rcases List.mem_append.1 hev with hev | hev
  · exact h.logged ev hev
  · simp only [List.mem_singleton] at hev
    subst hev
    exact he

theorem add_order_label {Q R : Order → Prop} (hQ : Stable Q) (hQR : Derived Q R)
    {c : BookCtx} {order : Order} (hwf : WF c.book) (hnew : order.action = "NEW")
    (h : LabelInv Q R c.book) (ho : Q order) : LabelInv Q R (add_order c order).book := by
  unfold add_order
  split
  case isTrue hd => exact h.push _ (hQR order _ rfl rfl ho)
  case isFalse hd =>
    have hx : c.book.existing_order_ids order.order_id = none := by
      cases hv : c.book.existing_order_ids order.order_id with
      | none => rfl
      | some v => exact absurd ⟨hnew, by simp [hv]⟩ hd
    dsimp only
    have hseed := Seeded.seed hwf (not_resting_of_not_existing hwf hx)
      { order with status := "PENDING", executed_quantity := 0, execution_price := 0,
                   counterparty_id := 0 } rfl
      (Function.update c.book.existing_order_ids order.order_id (some true))
      (Function.update c.book.order_total_executed order.order_id (some 0))
      (by simp) (fun k hk => by simp [Function.update_noteq hk])
      { order with status := "PENDING", executed_quantity := 0, execution_price := 0,
                   counterparty_id := 0 } rfl
    have hlab : LabelInv Q R
        { c.book with
          existing_order_ids :=
            Function.update c.book.existing_order_ids order.order_id (some true)
          order_total_executed :=
            Function.update c.book.order_total_executed order.order_id (some 0)
          order_lookup :=
            Function.update c.book.order_lookup order.order_id
              (some { order with
                      status := "PENDING", executed_quantity := 0, execution_price := 0
                      counterparty_id := 0 }) } := by
      refine ⟨?_, fun s x hx => h.resting s x (by cases s <;> exact hx), h.logged⟩
      intro k e hk
      by_cases hko : k = order.order_id
      · have hk' : Function.update c.book.order_lookup order.order_id _ k = some e := hk
        rw [hko, Function.update_same] at hk'
        cases hk'
        exact hQ order _ rfl rfl ho
      · have hk' : Function.update c.book.order_lookup order.order_id _ k = some e := hk
        rw [Function.update_noteq hko] at hk'
        exact h.lookup k e hk'
    simp only [hnew, if_true] at hseed hlab ⊢
    split
    · exact execute_market_order_label hQ hQR hseed hlab
    · split
      · exact execute_limit_order_label hQ hQR hseed hlab
      · exact hlab

theorem modify_prepare_label {Q R : Order → Prop} (hQ : Stable Q)
    {c : BookCtx} (hwf : WF c.book) (h : LabelInv Q R c.book) {request stored : Order}
    (he : c.book.order_lookup request.order_id = some stored) :
    LabelInv Q R (modify_prepare c request stored).book := by
  refine ⟨?_, ?_, ?_⟩
  · intro k e hk
    have hk' : Function.update (cancel_order_from_book c.book stored).order_lookup
        request.order_id _ k = some e := hk
    by_cases hko : k = request.order_id
    · rw [hko, Function.update_same] at hk'
      cases hk'
      exact hQ stored _ rfl rfl (h.lookup _ _ he)
    · rw [Function.update_noteq hko, cancel_order_from_book_lookup] at hk'
      exact h.lookup k e hk'
  · intro s x hx
    rw [modify_prepare_entries hwf he s] at hx
    exact h.resting s x (List.mem_filter.1 hx).1
  · intro ev hev
    have hev' : ev ∈ (cancel_order_from_book c.book stored).results := hev
    rw [cancel_order_from_book_results] at hev'
    exact h.logged ev hev'

theorem modify_order_label {Q R : Order → Prop} (hQ : Stable Q) (hQR : Derived Q R)
    {c : BookCtx} {request : Order} (hwf : WF c.book) (h : LabelInv Q R c.book)
    (hecho : R { request with status := "REJECTED" }) :
    LabelInv Q R (modify_order c request).book := by
  cases he : c.book.order_lookup request.order_id with
  | none =>
    unfold modify_order
    rw [he]
    exact h.push _ hecho
  | some stored =>
    have hid : stored.order_id = request.order_id := hwf.lookup_id _ _ he
    have hp := modify_prepare_label hQ hwf h he
    have hseed := modify_prepare_seeded hwf he
      (processing_order stored request ((c.book.order_total_executed request.order_id).getD 0))
      hid
    rw [modify_order_found c request stored he]
    split
    · split
      · exact execute_market_order_label hQ hQR hseed hp
      · split
        · exact execute_limit_order_label hQ hQR hseed hp
        · exact hp
    · refine ⟨hp.lookup, fun s x hx => hp.resting s x (by cases s <;> exact hx), ?_⟩
      intro ev hev
      rcases List.mem_append.1 hev with hev | hev
      · exact hp.logged ev hev
      · simp only [List.mem_singleton] at hev
        subst hev
        exact hQR stored _ rfl rfl (h.lookup _ _ he)

theorem cancel_order_label {Q R : Order → Prop} (hQR : Derived Q R)
    {c : BookCtx} {request : Order} (hwf : WF c.book) (h : LabelInv Q R c.book)
    (hecho : R { request with status := "REJECTED" }) :
    LabelInv Q R (cancel_order c request).book := by
  unfold cancel_order
  split
  case h_1 hnone => exact h.push _ hecho
  case h_2 stored he =>
    dsimp only
    refine ⟨?_, ?_, ?_⟩
    · intro k e hk
      have hk' : Function.update (cancel_order_from_book c.book stored).order_lookup
          request.order_id none k = some e := hk
      by_cases hko : k = request.order_id
      · rw [hko, Function.update_same] at hk'
        cases hk'
      · rw [Function.update_noteq hko, cancel_order_from_book_lookup] at hk'
        exact h.lookup k e hk'
    · intro s x hx
      have hx' : x ∈ ((cancel_order_from_book c.book stored).levels s).entries := by
        cases s <;> exact hx
      rw [cancel_order_from_book_entries hwf he s] at hx'
      exact h.resting s x (List.mem_filter.1 hx').1
    · intro ev hev
      have hev' : ev ∈ (cancel_order_from_book c.book stored).results ++ _ := hev
      rw [cancel_order_from_book_results] at hev'
      rcases List.mem_append.1 hev' with hev' | hev'
      · exact h.logged ev hev'
      · simp only [List.mem_singleton] at hev'
        subst hev'
        exact hQR stored _ rfl rfl (h.lookup _ _ he)

theorem OrderBook.new_label (Q R : Order → Prop) : LabelInv Q R OrderBook.new := by
  refine ⟨?_, ?_, ?_⟩
  · intro k e hk
    cases hk
  · intro s x hx
    cases s <;> simp [OrderBook.new, OrderBook.levels, Levels.entries] at hx
  · intro e he
    cases he

/-- Labels indexed by the instrument are kept by `process_order`: the input must
have the label of its instrument when it is an accepted NEW, and every record with
its instrument and type must be fit for the log. -/
theorem process_order_label {Q R : String → Order → Prop} (hQ : ∀ i, Stable (Q i))
    (hQR : ∀ i, Derived (Q i) (R i)) {w : World} (hwf : EngineWF w.engine)
    (h : ∀ i, LabelInv (Q i) (R i) (books_get w.engine.order_books i)) (o : Order)
    (hnew : o.status ≠ "REJECTED" → o.action = "NEW" → Q o.instrument o)
    (hecho : ∀ e : Order, e.instrument = o.instrument → e.type = o.type → R o.instrument e)
    (i : String) :
    LabelInv (Q i) (R i) (books_get (process_order w o).engine.order_books i) := by
  by_cases hi : i = o.instrument
  · subst hi
    have hw := books_get_wf hwf o.instrument
    refine process_order_book_cases (LabelInv (Q o.instrument) (R o.instrument)) w o
      ?_ ?_ ?_ ?_ (fun _ _ _ _ => h _)
    · intro _
      exact (h o.instrument).push o (hecho o rfl rfl)
    · intro hst ha
      exact add_order_label (hQ _) (hQR _) hw ha (h _) (hnew hst ha)
    · intro _ _
      exact modify_order_label (hQ _) (hQR _) hw (h _) (hecho _ rfl rfl)
    · intro _ _
      exact cancel_order_label (hQR _) hw (h _) (hecho _ rfl rfl)
  · rw [process_order_book_other w o hi]
    exact h i

theorem run_label {Q R : String → Order → Prop} (hQ : ∀ i, Stable (Q i))
    (hQR : ∀ i, Derived (Q i) (R i)) {w : World} (hwf : EngineWF w.engine)
    (h : ∀ i, LabelInv (Q i) (R i) (books_get w.engine.order_books i)) (inputs : List Order)
    (hnew : ∀ o ∈ inputs, o.status ≠ "REJECTED" → o.action = "NEW" → Q o.instrument o)
    (hecho : ∀ o ∈ inputs, ∀ e : Order, e.instrument = o.instrument → e.type = o.type →
      R o.instrument e)
    (i : String) :
    LabelInv (Q i) (R i) (books_get (run w inputs).engine.order_books i) := by
  induction inputs generalizing w with
  | nil => exact h i
  | cons o rest ih =>
    rw [run_cons]
    exact ih (process_order_wf hwf o)
      (fun j => process_order_label hQ hQR hwf h o (hnew o (List.mem_cons_self _ _))
        (hecho o (List.mem_cons_self _ _)) j)
      (fun x hx => hnew x (List.mem_cons_of_mem _ hx))
      (fun x hx => hecho x (List.mem_cons_of_mem _ hx))

/-! ## Instrument isolation -/

/-- C25: in every state reached by a run from a new engine, `process_order` on an
input of instrument X leaves the book of every other instrument as it was (the
whole record: both sides, lookup, accepted ids, executed totals, log), and every
record of the book of X afterwards, the lookup entries and resting orders that
trade and all events of the log, trade pairs included, carries instrument X. In
the scenario of the test suite, a BUY on AAPL and a SELL on GOOGL at the same
price each come to rest with one PENDING event and no trade. -/
theorem instrument_isolation (s : Statics) (inputs : List Order) (order : Order) :
    (∀ instrument, instrument ≠ order.instrument →
      books_get (process_order (run (MatchingEngine.new s) inputs) order).engine.order_books
          instrument
        = books_get (run (MatchingEngine.new s) inputs).engine.order_books instrument)
    ∧ LabelInv (fun e => e.instrument = order.instrument)
        (fun e => e.instrument = order.instrument)
        (books_get (process_order (run (MatchingEngine.new s) inputs) order).engine.order_books
          order.instrument)
    ∧ ((books_get (run (MatchingEngine.new Statics.initial)
          [mk_order 1617278400000000000 1 "AAPL" "BUY" "LIMIT" 100 15025 "NEW",
           mk_order 1617278400000000100 2 "GOOGL" "SELL" "LIMIT" 100 15025 "NEW"]
          ).engine.order_books "AAPL").results.map
          (fun e => (e.order_id, e.instrument, e.status, e.executed_quantity))
        = [(1, "AAPL", "PENDING", 0)]
      ∧ (books_get (run (MatchingEngine.new Statics.initial)
          [mk_order 1617278400000000000 1 "AAPL" "BUY" "LIMIT" 100 15025 "NEW",
           mk_order 1617278400000000100 2 "GOOGL" "SELL" "LIMIT" 100 15025 "NEW"]
          ).engine.order_books "GOOGL").results.map
          (fun e => (e.order_id, e.instrument, e.status, e.executed_quantity))
        = [(2, "GOOGL", "PENDING", 0)]
      ∧ (books_get (run (MatchingEngine.new Statics.initial)
          [mk_order 1617278400000000000 1 "AAPL" "BUY" "LIMIT" 100 15025 "NEW",
           mk_order 1617278400000000100 2 "GOOGL" "SELL" "LIMIT" 100 15025 "NEW"]
          ).engine.order_books "AAPL").resting_ids = [1]
      ∧ (books_get (run (MatchingEngine.new Statics.initial)
          [mk_order 1617278400000000000 1 "AAPL" "BUY" "LIMIT" 100 15025 "NEW",
           mk_order 1617278400000000100 2 "GOOGL" "SELL" "LIMIT" 100 15025 "NEW"]
          ).engine.order_books "GOOGL").resting_ids = [2]) := by
  refine ⟨fun instrument hi => process_order_book_other _ order hi, ?_, by decide⟩
  have hQ : ∀ i : String, Stable (fun e : Order => e.instrument = i) :=
    fun i a b h1 _ ha => h1.symm.trans ha
  have hQR : ∀ i : String, Derived (fun e : Order => e.instrument = i)
      (fun e : Order => e.instrument = i) := fun i a b h1 _ ha => h1.symm.trans ha
  have hrun := run_label hQ hQR (new_engine_wf s)
    (fun i => OrderBook.new_label _ _) (inputs ++ [order])
    (fun o _ _ _ => rfl) (fun o _ e he _ => he) order.instrument
  rw [run_append] at hrun
  exact hrun

/-! ## Every accepted input leaves an event -/

theorem pairs_flat_known {order : Order} {ps : List (Order × Order)}
    (h : ∀ tm ∈ ps, IsTrade order tm) : ∀ x ∈ pairs_flat ps, KnownStatus x := by
  intro x hx
  unfold pairs_flat at hx
  rw [List.mem_flatMap] at hx
  obtain ⟨tm, htm, hxtm⟩ := hx
  have hst := (h tm htm).status
  simp only [List.mem_cons, List.mem_singleton, List.not_mem_nil, or_false] at hxtm
  rcases hxtm with rfl | rfl
  · rcases hst.1 with h1 | h1
    · exact Or.inr (Or.inr (Or.inl h1))
    · exact Or.inr (Or.inl h1)
  · rcases hst.2 with h1 | h1
    · exact Or.inr (Or.inr (Or.inl h1))
    · exact Or.inr (Or.inl h1)

theorem pairs_flat_cons (tm : Order × Order) (ps : List (Order × Order)) :
    pairs_flat (tm :: ps) = tm.1 :: tm.2 :: pairs_flat ps := rfl

theorem Appends.of_list {before after : List Order} (add : List Order)
    (h : after = before ++ add)
    (hne : add ≠ []) (hk : ∀ x ∈ add, KnownStatus x) : Appends before after := by
  cases add with
  | nil => exact absurd rfl hne
  | cons e rest => exact ⟨e, rest, h, hk⟩

theorem market_finish_rejects (order : Order) (r : BookCtx × Nat) (h : order.quantity = r.2) :
    ∃ e : Order, (market_finish order r).book.results = r.1.book.results ++ [e]
      ∧ e.status = "REJECTED" := by
  unfold market_finish
  rw [if_pos h]
  exact ⟨{ lookup_value r.1.book.order_lookup order.order_id with
      timestamp := get_next_execution_timestamp order.timestamp r.1.last_execution_timestamp
      action := order.action
      status := "REJECTED"
      executed_quantity := 0
      execution_price := 0
      counterparty_id := 0 }, rfl, rfl⟩

theorem market_finish_skips (order : Order) (r : BookCtx × Nat) (h : order.quantity ≠ r.2) :
    market_finish order r = r.1 := by
  unfold market_finish
  rw [if_neg h]

/-- A MARKET routine appends the pairs of its trades, or a REJECTED event. -/
theorem execute_market_order_appends (c : BookCtx) (order : Order) (before : List Order)
    (hb : before = c.book.results) :
    Appends before (execute_market_order c order).book.results := by
  subst hb
  have main : ∀ opp fuel, Appends c.book.results
      (market_finish order (sweep opp (fun _ => false) order fuel c order.quantity)).book.results := by
    intro opp fuel
    obtain ⟨ps, h1, h2, _, h4⟩ := sweep_pairs opp (fun _ => false) order fuel c order.quantity
    by_cases hq : order.quantity = (sweep opp (fun _ => false) order fuel c order.quantity).2
    · obtain ⟨e, he1, he2⟩ := market_finish_rejects order _ hq
      refine Appends.of_list (pairs_flat ps ++ [e]) ?_ (by simp) ?_
      · rw [he1, h1, List.append_assoc]
      · intro x hx
        rcases List.mem_append.1 hx with hx | hx
        · exact pairs_flat_known h2 x hx
        · simp only [List.mem_singleton] at hx
          subst hx
          exact Or.inr (Or.inr (Or.inr (Or.inr he2)))
    · rw [market_finish_skips order _ hq]
      have hps : ps ≠ [] := fun hnil => hq (h4 hnil).symm
      refine Appends.of_list _ h1 ?_ (pairs_flat_known h2)
      cases ps with
      | nil => exact absurd rfl hps
      | cons tm ps => simp [pairs_flat_cons]
  unfold execute_market_order execute_buy_market_order execute_sell_market_order
  split
  · exact main _ _
  · exact main _ _

/-- A LIMIT routine run for a NEW or MODIFY of positive size on a book without
empty level appends a PENDING event or the pairs of its trades. -/
theorem execute_limit_order_appends (c : BookCtx) (order : Order) (before : List Order)
    (hb : before = c.book.results)
    (ha : order.action = "NEW" ∨ order.action = "MODIFY") (hq : 0 < order.quantity)
    (hne : ∀ s, NoEmptyLevel (c.book.levels s)) :
    Appends before (execute_limit_order c order).book.results := by
  subst hb
  have main : ∀ (own opp : BookSide) (crosses stop : Int → Bool),
      (∀ p, stop p = !crosses p) →
      Appends c.book.results
        (limit_rest own order
          (sweep opp stop order (sweep_fuel ((limit_pending opp crosses c order).book.levels opp))
            (limit_pending opp crosses c order) order.quantity)).book.results := by
    intro own opp crosses stop hcs
    have key := limit_routine_outcome own opp crosses stop order c ha hq (hne opp) hcs
    by_cases hcross : ∀ p q rest, c.book.levels opp = (p, q) :: rest → crosses p = false
    · obtain ⟨h1, h2, _⟩ := key.1 hcross
      rw [h1, limit_rest_results]
      refine Appends.of_list _ h2 (by simp) ?_
      intro x hx
      simp only [List.mem_singleton] at hx
      subst hx
      exact Or.inl rfl
    · push_neg at hcross
      obtain ⟨p, q, rest, hl, hc⟩ := hcross
      obtain ⟨tm, ps, h1, h2⟩ := key.2 p q rest hl (by simpa using hc)
      exact Appends.of_list _ h1 (by simp [pairs_flat_cons]) (pairs_flat_known h2)
  unfold execute_limit_order execute_buy_limit_order execute_sell_limit_order
  split
  · refine main .buy .sell _ _ ?_
    intro p
    by_cases h : p ≤ order.price
    · simp [h]
    · simp [h]
      omega
  · refine main .sell .buy _ _ ?_
    intro p
    by_cases h : p ≥ order.price
    · simp [h]
    · simp [h]
      omega

theorem add_order_appends {c : BookCtx} {order : Order} (hwf : WF c.book)
    (hnew : order.action = "NEW") (ht : order.type = "LIMIT" ∨ order.type = "MARKET")
    (hq : 0 < order.quantity) :
    Appends c.book.results (add_order c order).book.results := by
  by_cases hx : c.book.existing_order_ids order.order_id = none
  · rcases ht with ht | ht
    · rw [add_order_new_limit c order hnew hx ht]
      have hseed := Seeded.seed hwf (not_resting_of_not_existing hwf hx)
        { order with status := "PENDING", executed_quantity := 0, execution_price := 0,
                     counterparty_id := 0 } rfl
        (Function.update c.book.existing_order_ids order.order_id (some true))
        (Function.update c.book.order_total_executed order.order_id (some 0))
        (by simp) (fun k hk => by simp [Function.update_noteq hk])
        { order with status := "PENDING", executed_quantity := 0, execution_price := 0,
                     counterparty_id := 0 } rfl
      exact execute_limit_order_appends _ _ _ rfl (Or.inl hnew) hq hseed.wf.nonempty
    · unfold add_order
      rw [if_neg (by simp [hx])]
      simp only [hnew, ht, if_true]
      exact execute_market_order_appends _ _ _ rfl
  · unfold add_order
    rw [if_pos ⟨hnew, by
      cases hv : c.book.existing_order_ids order.order_id with
      | none => exact absurd hv hx
      | some v => rfl⟩]
    exact ⟨_, [], rfl, fun x hx => by
      simp only [List.mem_singleton] at hx
      subst hx
      exact Or.inr (Or.inr (Or.inr (Or.inr rfl)))⟩

theorem modify_order_appends {c : BookCtx} {request : Order} (hwf : WF c.book)
    (ht : ∀ k e, c.book.order_lookup k = some e → e.type = "LIMIT" ∨ e.type = "MARKET") :
    Appends c.book.results (modify_order c request).book.results := by
  cases he : c.book.order_lookup request.order_id with
  | none =>
    unfold modify_order
    rw [he]
    exact ⟨_, [], rfl, fun x hx => by
      simp only [List.mem_singleton] at hx
      subst hx
      exact Or.inr (Or.inr (Or.inr (Or.inr rfl)))⟩
  | some stored =>
    have hid : stored.order_id = request.order_id := hwf.lookup_id _ _ he
    have hseed := modify_prepare_seeded hwf he
      (processing_order stored request ((c.book.order_total_executed request.order_id).getD 0))
      hid
    have hres : (modify_prepare c request stored).book.results = c.book.results :=
      cancel_order_from_book_results c.book stored
    rw [modify_order_found c request stored he, ← hres]
    split
    · rename_i hrem
      rcases ht _ _ he with hty | hty
      · rw [if_neg (by rw [hty]; decide), if_pos hty]
        exact execute_limit_order_appends _ _ _ rfl (Or.inr rfl) hrem hseed.wf.nonempty
      · rw [if_pos hty]
        exact execute_market_order_appends _ _ _ rfl
    · exact ⟨_, [], rfl, fun x hx => by
        simp only [List.mem_singleton] at hx
        subst hx
        exact Or.inr (Or.inr (Or.inl rfl))⟩

theorem cancel_order_appends (c : BookCtx) (request : Order) :
    Appends c.book.results (cancel_order c request).book.results := by
  unfold cancel_order
  split
  · exact ⟨_, [], rfl, fun x hx => by
      simp only [List.mem_singleton] at hx
      subst hx
      exact Or.inr (Or.inr (Or.inr (Or.inr rfl)))⟩
  · dsimp only
    rw [cancel_order_from_book_results]
    exact ⟨_, [], rfl, fun x hx => by
      simp only [List.mem_singleton] at hx
      subst hx
      exact Or.inr (Or.inr (Or.inr (Or.inl rfl)))⟩

/-- C24: in a run from a new engine whose inputs are all accepted by the ingest
contract or already marked REJECTED, every call of `process_order` appends at
least one event to the result log of the instrument of its input, and every event
it appends has one of the five statuses. -/
theorem no_input_dropped (s : Statics) (inputs : List Order) (order : Order)
    (hin : ∀ o ∈ inputs, Accepted o) (ho : Accepted order) :
    Appends (books_get (run (MatchingEngine.new s) inputs).engine.order_books
        order.instrument).results
      (books_get (process_order (run (MatchingEngine.new s) inputs) order).engine.order_books
        order.instrument).results := by
  have hwf := reachable_wf s inputs order.instrument
  have hQ : ∀ _ : String, Stable (fun e : Order => e.type = "LIMIT" ∨ e.type = "MARKET") :=
    fun _ a b _ h2 ha => by
      show b.type = "LIMIT" ∨ b.type = "MARKET"
      rw [← h2]
      exact ha
  have hQR : ∀ _ : String, Derived (fun e : Order => e.type = "LIMIT" ∨ e.type = "MARKET")
      (fun _ => True) := fun _ _ _ _ _ _ => trivial
  have hlab := run_label hQ hQR (new_engine_wf s)
    (fun _ => OrderBook.new_label _ _) inputs
    (fun o hmem hst _ => by
      rcases hin o hmem with h | h
      · exact absurd h hst
      · exact h.2.1)
    (fun _ _ _ _ _ => trivial) order.instrument
  refine process_order_book_cases
    (fun b => Appends (books_get (run (MatchingEngine.new s) inputs).engine.order_books
        order.instrument).results b.results)
    (run (MatchingEngine.new s) inputs) order ?_ ?_ ?_ ?_ ?_
  · intro hst
    exact ⟨order, [], rfl, fun x hx => by
      simp only [List.mem_singleton] at hx
      subst hx
      exact Or.inr (Or.inr (Or.inr (Or.inr hst)))⟩
  · intro hst hnew
    rcases ho with h | h
    · exact absurd h hst
    · exact add_order_appends hwf hnew h.2.1 h.2.2.2
  · intro _ _
    exact modify_order_appends hwf hlab.lookup
  · intro _ _
    exact cancel_order_appends _ _
  · intro hst h1 h2 h3
    rcases ho with h | h
    · exact absurd h hst
    · rcases h.1 with h' | h' | h'
      · exact absurd h' h1
      · exact absurd h' h2
      · exact absurd h' h3

/-- Instance of C24: a BUY MARKET order sent after `two_asks`. -/
theorem no_input_dropped_witness :
    Appends two_asks_book.results
      (books_get (process_order (run (MatchingEngine.new Statics.initial) two_asks)
        (mk_order 1200 3 "AAPL" "BUY" "MARKET" 50 0 "NEW")).engine.order_books "AAPL").results :=
  no_input_dropped Statics.initial two_asks (mk_order 1200 3 "AAPL" "BUY" "MARKET" 50 0 "NEW")
    (by decide) (by decide)

/-! ## Timestamps of a log in emission order -/

theorem stamped_events_append (xs ys : List Order) :
    stamped_events (xs ++ ys) = stamped_events xs ++ stamped_events ys := by
  unfold stamped_events
  rw [List.filter_append]

theorem InOrder.later {evs : List Order} {last last' : Nat} (h : InOrder evs last)
    (hl : last ≤ last') : InOrder evs last' :=
  ⟨h.1, fun e he => le_trans (h.2 e he) hl⟩

theorem InOrder.echo {evs : List Order} {last : Nat} (h : InOrder evs last) (e : Order)
    (he : e.status = "REJECTED") : InOrder (evs ++ [e]) last := by
  have : stamped_events (evs ++ [e]) = stamped_events evs := by
    rw [stamped_events_append]
    simp [stamped_events, he]
  unfold InOrder
  rw [this]
  exact h

/-- Events stamped with one value `ts`, at least 100 after `last`, extend the order. -/
theorem InOrder.stamped {evs : List Order} {last : Nat} (h : InOrder evs last) (add : List Order)
    (ts : Nat) (hts : last + 100 ≤ ts) (hadd : ∀ x ∈ add, x.timestamp = ts)
    (hpair : add.Pairwise SameTrade) : InOrder (evs ++ add) ts := by
  unfold InOrder
  rw [stamped_events_append]
  have hsub : ∀ x ∈ stamped_events add, x ∈ add := fun x hx => (List.mem_filter.1 hx).1
  refine ⟨List.pairwise_append.2 ⟨h.1, ?_, ?_⟩, ?_⟩
  · exact (hpair.sublist (List.filter_sublist _)).imp (fun hab => Or.inr hab)
  · intro a ha b hb
    left
    rw [hadd b (hsub b hb)]
    have := h.2 a ha
    omega
  · intro e he
    rcases List.mem_append.1 he with he | he
    · have := h.2 e he
      omega
    · exact le_of_eq (hadd e (hsub e he))

theorem get_next_ge (base last : Nat) (h : last + 100 < U64) :
    last + 100 ≤ get_next_execution_timestamp base last := by
  rw [get_next_no_overflow base last h]
  exact le_max_right _ _

theorem Bounded.of_prefix {xs ys : List Order} (h : Bounded (xs ++ ys)) : Bounded xs :=
  fun e he => h e (List.mem_append_left _ he)

theorem Step.same {c c' : BookCtx} (hr : c'.book.results = c.book.results)
    (hl : c'.last_execution_timestamp = c.last_execution_timestamp) : Step c c' := by
  refine ⟨⟨[], by rw [hr, List.append_nil]⟩, ?_⟩
  intro _ hlast h
  rw [hr, hl]
  exact ⟨h, le_refl _, hlast⟩

theorem Step.chain {c c1 c2 : BookCtx} (h1 : Step c c1) (h2 : Step c1 c2) : Step c c2 := by
  obtain ⟨⟨a1, e1⟩, s1⟩ := h1
  obtain ⟨⟨a2, e2⟩, s2⟩ := h2
  refine ⟨⟨a1 ++ a2, by rw [e2, e1, List.append_assoc]⟩, ?_⟩
  intro hb hlast h
  have hb1 : Bounded c1.book.results := by
    rw [e2] at hb
    exact hb.of_prefix
  obtain ⟨i1, l1, b1⟩ := s1 hb1 hlast h
  obtain ⟨i2, l2, b2⟩ := s2 hb b1 i1
  exact ⟨i2, le_trans l1 l2, b2⟩

/-- A REJECTED event appended without drawing a timestamp. -/
theorem Step.echoed {c c' : BookCtx} (e : Order) (he : e.status = "REJECTED")
    (hr : c'.book.results = c.book.results ++ [e])
    (hl : c'.last_execution_timestamp = c.last_execution_timestamp) : Step c c' := by
  refine ⟨⟨[e], hr⟩, ?_⟩
  intro _ hlast h
  rw [hr, hl]
  exact ⟨h.echo e he, le_refl _, hlast⟩

/-- Events appended with one freshly drawn timestamp, which the static keeps. -/
theorem Step.drawn {c c' : BookCtx} (base : Nat) (add : List Order)
    (hr : c'.book.results = c.book.results ++ add) (hne : add ≠ [])
    (hadd : ∀ x ∈ add,
      x.timestamp = get_next_execution_timestamp base c.last_execution_timestamp)
    (hpair : add.Pairwise SameTrade)
    (hl : c'.last_execution_timestamp
      = get_next_execution_timestamp base c.last_execution_timestamp) : Step c c' := by
  refine ⟨⟨add, hr⟩, ?_⟩
  intro hb hlast h
  have hge := get_next_ge base c.last_execution_timestamp hlast
  rw [hr, hl]
  refine ⟨h.stamped add _ hge hadd hpair, by omega, ?_⟩
  obtain ⟨x, hx⟩ := List.exists_mem_of_ne_nil add hne
  have := hb x (by rw [hr]; exact List.mem_append_right _ hx)
  rw [hadd x hx] at this
  exact this

theorem step_trade (opp : BookSide) (order : Order) (price : Int) (oq : OrderQueue)
    (front : Order) (tail : List Order) (rest : Levels) (c : BookCtx) (r : Nat) :
    Step c (execute_trade opp order price oq front tail rest c r).1 := by
  refine Step.drawn order.timestamp
    [taker_execution order price front c r, maker_execution order price front c r]
    (execute_trade_results _ _ _ _ _ _ _ _ _) (by simp) ?_ ?_ rfl
  · intro x hx
    simp only [List.mem_cons, List.mem_singleton, List.not_mem_nil, or_false] at hx
    rcases hx with rfl | rfl <;> rfl
  · simp only [List.pairwise_cons, List.mem_singleton, forall_eq, List.not_mem_nil,
      IsEmpty.forall_iff, implies_true, List.Pairwise.nil, and_true]
    exact ⟨rfl, rfl, rfl, rfl⟩

theorem step_sweep (opp : BookSide) (stop : Int → Bool) (order : Order) (fuel : Nat)
    (c : BookCtx) (r : Nat) : Step c (sweep opp stop order fuel c r).1 := by
  refine sweep_invariant opp stop order (fun c' _ => Step c c') ?_ ?_ fuel c r
    (Step.same rfl rfl)
  · intro c' r' price oq rest h _ _ _ _
    exact h.chain (Step.same (setLevels_results _ _ _) rfl)
  · intro c' r' price oq rest front tail h _ _ _ _
    exact h.chain (step_trade opp order price oq front tail rest c' r')

theorem step_pending (opp : BookSide) (crosses : Int → Bool) (c : BookCtx) (order : Order) :
    Step c (limit_pending opp crosses c order) := by
  unfold limit_pending
  split
  · dsimp only
    split
    · exact Step.drawn order.timestamp [_] rfl (by simp)
        (fun x hx => by
          simp only [List.mem_singleton] at hx
          subst hx
          rfl)
        (List.pairwise_singleton _ _) rfl
    · exact Step.same rfl rfl
  · exact Step.same rfl rfl

theorem step_finish (order : Order) (r : BookCtx × Nat) : Step r.1 (market_finish order r) := by
  unfold market_finish
  split
  · exact Step.drawn order.timestamp [_] rfl (by simp)
      (fun x hx => by
        simp only [List.mem_singleton] at hx
        subst hx
        rfl)
      (List.pairwise_singleton _ _) rfl
  · exact Step.same rfl rfl

theorem step_rest (own : BookSide) (order : Order) (r : BookCtx × Nat) :
    Step r.1 (limit_rest own order r) := by
  refine Step.same (limit_rest_results own order r) ?_
  unfold limit_rest
  split <;> rfl

theorem step_market (c : BookCtx) (order : Order) : Step c (execute_market_order c order) := by
  unfold execute_market_order execute_buy_market_order execute_sell_market_order
  split
  · exact (step_sweep _ _ order _ c order.quantity).chain (step_finish order _)
  · exact (step_sweep _ _ order _ c order.quantity).chain (step_finish order _)

theorem step_limit (c : BookCtx) (order : Order) : Step c (execute_limit_order c order) := by
  unfold execute_limit_order execute_buy_limit_order execute_sell_limit_order
  split
  · exact ((step_pending _ _ c order).chain (step_sweep _ _ order _ _ order.quantity)).chain
      (step_rest _ order _)
  · exact ((step_pending _ _ c order).chain (step_sweep _ _ order _ _ order.quantity)).chain
      (step_rest _ order _)

/-! ## Timestamps through the operations -/

theorem step_add_order (c : BookCtx) (order : Order) : Step c (add_order c order) := by
  unfold add_order
  split
  · exact Step.echoed _ rfl rfl rfl
  · dsimp only
    split
    · refine Step.chain ?_ (step_market _ _)
      exact Step.same (by dsimp only; split <;> rfl) rfl
    · split
      · refine Step.chain ?_ (step_limit _ _)
        exact Step.same (by dsimp only; split <;> rfl) rfl
      · exact Step.same (by dsimp only; split <;> rfl) rfl

theorem step_modify_order (c : BookCtx) (request : Order) : Step c (modify_order c request) := by
  cases he : c.book.order_lookup request.order_id with
  | none =>
    unfold modify_order
    rw [he]
    exact Step.echoed _ rfl rfl rfl
  | some stored =>
    have hp : Step c (modify_prepare c request stored) :=
      Step.same (cancel_order_from_book_results c.book stored) rfl
    rw [modify_order_found c request stored he]
    split
    · split
      · exact hp.chain (step_market _ _)
      · split
        · exact hp.chain (step_limit _ _)
        · exact hp
    · refine hp.chain (Step.drawn request.timestamp [_] rfl (by simp)
        (fun x hx => by
          simp only [List.mem_singleton] at hx
          subst hx
          rfl)
        (List.pairwise_singleton _ _) rfl)

theorem step_cancel_order (c : BookCtx) (request : Order) : Step c (cancel_order c request) := by
  unfold cancel_order
  split
  case h_1 hnone => exact Step.echoed _ rfl rfl rfl
  case h_2 stored he =>
    dsimp only
    refine Step.drawn request.timestamp
      [{ stored with
          timestamp := get_next_execution_timestamp request.timestamp c.last_execution_timestamp
          action := "CANCEL"
          status := "CANCELED"
          quantity := 0
          price := request.price
          executed_quantity := 0
          execution_price := 0
          counterparty_id := 0 }] ?_ (by simp)
      (fun x hx => by
        simp only [List.mem_singleton] at hx
        subst hx
        rfl)
      (List.pairwise_singleton _ _) rfl
    show (cancel_order_from_book c.book _).results ++ _ = _
    rw [cancel_order_from_book_results]

/-- An instrument that is not a key of the engine has a new book. -/
theorem books_get_absent (bs : List (String × OrderBook)) (k : String)
    (h : k ∉ bs.map Prod.fst) : books_get bs k = OrderBook.new := by
  induction bs with
  | nil => rfl
  | cons kb bs ih =>
    obtain ⟨k0, b0⟩ := kb
    simp only [List.map_cons, List.mem_cons, not_or] at h
    unfold books_get
    rw [if_neg (fun heq => h.1 heq.symm)]
    exact ih h.2

/-- What `process_order` does to the book of the instrument of its input and to
the timestamp static is a step. -/
theorem step_process_order (w : World) (o : Order) :
    ∃ c' : BookCtx,
      Step ⟨books_get w.engine.order_books o.instrument, w.statics.last_execution_timestamp⟩ c'
      ∧ books_get (process_order w o).engine.order_books o.instrument = c'.book
      ∧ (process_order w o).statics.last_execution_timestamp = c'.last_execution_timestamp := by
  by_cases hst : o.status = "REJECTED"
  · refine ⟨BookCtx.push ⟨books_get w.engine.order_books o.instrument,
        w.statics.last_execution_timestamp⟩ o, Step.echoed o hst rfl rfl,
      process_order_book_rejected w o hst, ?_⟩
    unfold process_order
    rw [if_pos hst]
    rfl
  · have hstat : ∀ c1 : BookCtx,
        (if o.action = "NEW" then add_order ⟨books_get w.engine.order_books o.instrument,
            w.statics.last_execution_timestamp⟩ o
          else if o.action = "MODIFY" then
            modify_order ⟨books_get w.engine.order_books o.instrument,
              w.statics.last_execution_timestamp⟩ o
          else if o.action = "CANCEL" then
            cancel_order ⟨books_get w.engine.order_books o.instrument,
              w.statics.last_execution_timestamp⟩ o
          else ⟨books_get w.engine.order_books o.instrument,
            w.statics.last_execution_timestamp⟩) = c1 →
        (process_order w o).statics.last_execution_timestamp = c1.last_execution_timestamp := by
      intro c1 hc1
      unfold process_order
      rw [if_neg hst]
      dsimp only
      rw [hc1]
    by_cases h1 : o.action = "NEW"
    · exact ⟨_, step_add_order _ o, process_order_book_new w o hst h1,
        hstat _ (by rw [if_pos h1])⟩
    · by_cases h2 : o.action = "MODIFY"
      · exact ⟨_, step_modify_order _ o, process_order_book_modify w o hst h2,
          hstat _ (by rw [if_neg h1, if_pos h2])⟩
      · by_cases h3 : o.action = "CANCEL"
        · exact ⟨_, step_cancel_order _ o, process_order_book_cancel w o hst h3,
            hstat _ (by rw [if_neg h1, if_neg h2, if_pos h3])⟩
        · exact ⟨_, Step.same rfl rfl, process_order_book_noop w o hst h1 h2 h3,
            hstat _ (by rw [if_neg h1, if_neg h2, if_neg h3])⟩

/-- The log of every instrument only grows along a run. -/
theorem run_results_grow (w : World) (inputs : List Order) (i : String) :
    ∃ add, (books_get (run w inputs).engine.order_books i).results
      = (books_get w.engine.order_books i).results ++ add := by
  induction inputs generalizing w with
  | nil => exact ⟨[], (List.append_nil _).symm⟩
  | cons o rest ih =>
    rw [run_cons]
    obtain ⟨a2, h2⟩ := ih (process_order w o)
    by_cases hi : i = o.instrument
    · subst hi
      obtain ⟨c', ⟨⟨a1, h1⟩, _⟩, hb, _⟩ := step_process_order w o
      refine ⟨a1 ++ a2, ?_⟩
      rw [h2, hb, h1, List.append_assoc]
    · rw [process_order_book_other w o hi] at h2
      exact ⟨a2, h2⟩

theorem process_order_in_order (w : World) (o : Order)
    (hB : ∀ i, Bounded (books_get (process_order w o).engine.order_books i).results)
    (hlast : w.statics.last_execution_timestamp + 100 < U64)
    (h : ∀ i, InOrder (books_get w.engine.order_books i).results
      w.statics.last_execution_timestamp) :
    (process_order w o).statics.last_execution_timestamp + 100 < U64
    ∧ ∀ i, InOrder (books_get (process_order w o).engine.order_books i).results
        (process_order w o).statics.last_execution_timestamp := by
  obtain ⟨c', hstep, hb, hl⟩ := step_process_order w o
  have hB' : Bounded c'.book.results := by
    rw [← hb]
    exact hB o.instrument
  obtain ⟨h1, h2, h3⟩ := hstep.2 hB' hlast (h o.instrument)
  rw [hl]
  refine ⟨h3, fun i => ?_⟩
  by_cases hi : i = o.instrument
  · subst hi
    rw [hb]
    exact h1
  · rw [process_order_book_other w o hi]
    exact (h i).later h2

theorem run_in_order (w : World) (inputs : List Order)
    (hB : ∀ i, Bounded (books_get (run w inputs).engine.order_books i).results)
    (hlast : w.statics.last_execution_timestamp + 100 < U64)
    (h : ∀ i, InOrder (books_get w.engine.order_books i).results
      w.statics.last_execution_timestamp) :
    ∀ i, InOrder (books_get (run w inputs).engine.order_books i).results
      (run w inputs).statics.last_execution_timestamp := by
  induction inputs generalizing w with
  | nil => exact h
  | cons o rest ih =>
    rw [run_cons] at hB ⊢
    have hB1 : ∀ i, Bounded (books_get (process_order w o).engine.order_books i).results := by
      intro i
      obtain ⟨add, hadd⟩ := run_results_grow (process_order w o) rest i
      have := hB i
      rw [hadd] at this
      exact this.of_prefix
    obtain ⟨h1, h2⟩ := process_order_in_order w o hB1 hlast h
    exact ih (process_order w o) hB h1 h2

/-- Counterexample to C22 as stated: after `partial_fill` the log of AAPL holds
the PENDING event of order 1 at 1000 and the two events of the trade, both at
1100, so its timestamps are not strictly increasing. -/
theorem timestamps_not_strict_counterexample :
    partial_fill_ctx.book.results.map (fun e => (e.order_id, e.status, e.timestamp))
      = [(1, "PENDING", 1000), (2, "EXECUTED", 1100), (1, "PARTIALLY_EXECUTED", 1100)]
    ∧ ¬ (partial_fill_ctx.book.results.map (fun e => e.timestamp)).Pairwise (fun a b => a < b) := by
  decide

/-- C22, amended: for every instrument, in a run from a new engine, the events of
the result log other than REJECTED ones, in emission order, have non-decreasing
timestamps: of two of them the later is at least 100 after the earlier, or they
are the two events of one trade and carry the same timestamp. This holds as long
as no timestamp comes within 100 of 2^64: none of the logs at the end of the run,
nor the value of the timestamp static when the engine is constructed. -/
theorem timestamps_in_order (s : Statics) (inputs : List Order)
    (hs : s.last_execution_timestamp + 100 < U64)
    (hB : ∀ instrument,
      ∀ e ∈ (books_get (run (MatchingEngine.new s) inputs).engine.order_books instrument).results,
        e.timestamp + 100 < U64)
    (instrument : String) :
    (stamped_events
        (books_get (run (MatchingEngine.new s) inputs).engine.order_books instrument).results
      ).Pairwise (fun a b => a.timestamp + 100 ≤ b.timestamp ∨ SameTrade a b)
    ∧ ((stamped_events
        (books_get (run (MatchingEngine.new s) inputs).engine.order_books instrument).results
      ).map (fun e => e.timestamp)).Pairwise (fun a b => a ≤ b) := by
  have h := (run_in_order (MatchingEngine.new s) inputs hB hs
    (fun i => ⟨List.Pairwise.nil, fun e he => by cases he⟩) instrument).1
  refine ⟨h, ?_⟩
  rw [List.pairwise_map]
  refine h.imp ?_
  intro a b hab
  rcases hab with hab | hab
  · omega
  · exact le_of_eq hab.1

/-- Instance of C22 as amended: the log of AAPL after `scenario_one`. -/
theorem timestamps_in_order_witness :
    (stamped_events
        (books_get (run (MatchingEngine.new Statics.initial) scenario_one).engine.order_books
          "AAPL").results
      ).Pairwise (fun a b => a.timestamp + 100 ≤ b.timestamp ∨ SameTrade a b)
    ∧ ((stamped_events
        (books_get (run (MatchingEngine.new Statics.initial) scenario_one).engine.order_books
          "AAPL").results
      ).map (fun e => e.timestamp)).Pairwise (fun a b => a ≤ b) :=
  timestamps_in_order Statics.initial scenario_one (by decide)
    (fun instrument => by
      by_cases hi : instrument = "AAPL"
      · subst hi
        decide
      · intro e he
        rw [books_get_absent _ instrument (by
          have h0 : (run (MatchingEngine.new Statics.initial) scenario_one
              ).engine.order_books.map Prod.fst = ["AAPL"] := by decide
          rw [h0]
          simpa using hi)] at he
        cases he)
    "AAPL"

/-! ## Numeric strings accepted by the validator -/

theorem isdigit_dot : isdigit '.' = false := by decide

theorem is_valid_number_loop_eq (l : List Char) (has_dot has_digit : Bool) :
    is_valid_number_loop l has_dot has_digit
      = (l.all (fun ch => isdigit ch || decide (ch = '.'))
          && decide (l.count '.' + (if has_dot then 1 else 0) ≤ 1)
          && (has_digit || l.any isdigit)) := by
  induction l generalizing has_dot has_digit with
  | nil => cases has_dot <;> cases has_digit <;> simp [is_valid_number_loop]
  | cons ch rest ih =>
    unfold is_valid_number_loop
    by_cases hd : isdigit ch = true
    · have hne : ch ≠ '.' := by
        intro h
        rw [h, isdigit_dot] at hd
        cases hd
      simp [hd, ih, List.count_cons, hne]
    · have hd' : isdigit ch = false := by simpa using hd
      by_cases hdot : ch = '.'
      · subst hdot
        cases has_dot
        · simp [hd', ih, List.count_cons]
        · simp [hd', List.count_cons]
      · simp [hd', hdot]

/-- C34: `is_valid_number` returns true exactly for the strings made of an optional
single leading `+` or `-` followed by a non-empty run of digits or `.` with at most
one `.` and at least one digit (`valid_number_reference`); it accepts "123.45" and
rejects "12.3.4", "", "-" and ".". -/
theorem is_valid_number_characterised :
    (∀ str : String, Validator.is_valid_number str = valid_number_reference str)
    ∧ Validator.is_valid_number "123.45" = true
    ∧ Validator.is_valid_number "12.3.4" = false
    ∧ Validator.is_valid_number "" = false
    ∧ Validator.is_valid_number "-" = false
    ∧ Validator.is_valid_number "." = false := by
  refine ⟨?_, by decide, by decide, by decide, by decide, by decide⟩
  intro str
  unfold Validator.is_valid_number valid_number_reference
  cases str.data with
  | nil => simp
  | cons c0 rest =>
    dsimp only
    by_cases hs : c0 = '-' ∨ c0 = '+'
    · have hs' : c0 = '+' ∨ c0 = '-' := hs.symm
      rw [if_pos hs, if_pos hs']
      cases rest with
      | nil => simp
      | cons c1 more =>
        rw [is_valid_number_loop_eq]
        simp
    · have hs' : ¬ (c0 = '+' ∨ c0 = '-') := fun h => hs h.symm
      rw [if_neg hs, if_neg hs', is_valid_number_loop_eq]
      simp

/-! ## Lines accepted by the parser -/

theorem is_valid_integer_eq (str : String) :
    Validator.is_valid_integer str = unsigned_decimal (drop_sign str) := by
  unfold Validator.is_valid_integer unsigned_decimal drop_sign
  cases h : str.data with
  | nil => simp [h]
  | cons c0 rest =>
    dsimp only
    by_cases hs : c0 = '-' ∨ c0 = '+'
    · rw [if_pos hs, if_pos hs]
      cases rest <;> simp
    · rw [if_neg hs, if_neg hs, h]
      simp

/-- C32: `parse_order_line` accepts a timestamp or an order id written with a
sign. The line `-5,1,AAPL,BUY,LIMIT,100,150.25,NEW` is parsed into an order that
is not REJECTED, with timestamp 2^64 - 5, and so is a line with order id `-1`
(id 2^64 - 1), whereas the same sign in the quantity field is REJECTED. What the
function does reject is every line of 8 fields whose timestamp or order id,
trimmed and without a leading sign, is not a non-empty run of digits. -/
theorem parse_order_line_signed_fields :
    CSVParser.parse_order_line stod_hundredths "-5,1,AAPL,BUY,LIMIT,100,150.25,NEW"
      = some (mk_order 18446744073709551611 1 "AAPL" "BUY" "LIMIT" 100 15025 "NEW")
    ∧ CSVParser.parse_order_line stod_hundredths "1000,-1,AAPL,BUY,LIMIT,100,150.25,NEW"
      = some (mk_order 1000 18446744073709551615 "AAPL" "BUY" "LIMIT" 100 15025 "NEW")
    ∧ (CSVParser.parse_order_line stod_hundredths "1000,1,AAPL,BUY,LIMIT,-5,150.25,NEW").map
        (fun o => o.status) = some "REJECTED"
    ∧ ∀ (stod : String → Option Int) (line : String),
        (CSVParser.split_csv_line line).length = 8 →
        (unsigned_decimal (drop_sign (CSVParser.trim ((CSVParser.split_csv_line line).getD 0 "")))
            = false
          ∨ unsigned_decimal
              (drop_sign (CSVParser.trim ((CSVParser.split_csv_line line).getD 1 ""))) = false) →
        ∃ o, CSVParser.parse_order_line stod line = some o ∧ o.status = "REJECTED" := by
  refine ⟨by decide, by decide, by decide, ?_⟩
  intro stod line h8 hbad
  unfold CSVParser.parse_order_line
  simp only [h8, ne_eq, not_true_eq_false, if_false]
  rw [is_valid_integer_eq, is_valid_integer_eq]
  cases h0 : unsigned_decimal (drop_sign (CSVParser.trim ((CSVParser.split_csv_line line).getD 0 "")))
  · exact ⟨_, rfl, rfl⟩
  · rw [h0] at hbad
    simp only [Bool.true_eq_false, false_or] at hbad
    simp only [Bool.not_true, Bool.false_eq_true, if_false]
    cases stoull (CSVParser.trim ((CSVParser.split_csv_line line).getD 0 "")) with
    | none => exact ⟨_, rfl, rfl⟩
    | some timestamp =>
      dsimp only
      rw [hbad]
      exact ⟨_, rfl, rfl⟩

/-! ## Duplicate order ids in an input file -/

theorem reject_rejected (o : Order) (h : o.status = "REJECTED") :
    { o with status := "REJECTED" } = o := by
  cases o
  simp only at h
  subst h
  rfl

theorem parse_input_loop_spec (stod : String → Option Int) :
    ∀ (lines : List String) (seen : Nat → Bool) (orders out : List Order),
      parse_input_loop stod lines seen orders = some out →
      ∃ add, out = orders ++ add
        ∧ ((add.filter is_live_new).map (fun o => o.order_id)).Nodup
        ∧ (∀ o ∈ add.filter is_live_new, seen o.order_id = false)
        ∧ add.filter (fun o => decide (o.action ≠ "NEW"))
            = ((lines.filter (fun line => !(line.data.isEmpty || line.data.all isspace))).filterMap
                (CSVParser.parse_order_line stod)).filter
                (fun o => decide (o.action ≠ "NEW")
                  && decide (o.order_id ≠ 0 ∨ o.status = "REJECTED"))
        ∧ ∀ pre line post later,
            lines.filter (fun line => !(line.data.isEmpty || line.data.all isspace))
              = pre ++ line :: post →
            CSVParser.parse_order_line stod line = some later → later.action = "NEW" →
            (seen later.order_id = true
              ∨ ∃ l ∈ pre, ∃ first, CSVParser.parse_order_line stod l = some first
                  ∧ is_live_new first = true ∧ first.order_id = later.order_id) →
            { later with status := "REJECTED" } ∈ add := by
  intro lines
  induction lines with
  | nil =>
    intro seen orders out h
    simp only [parse_input_loop, Option.some.injEq] at h
    subst h
    refine ⟨[], by simp, by simp, by simp, by simp, ?_⟩
    intro pre line post later hsplit
    simp at hsplit
  | cons line rest ih =>
    intro seen orders out h
    unfold parse_input_loop at h
    by_cases hb : (line.data.isEmpty || line.data.all isspace) = true
    · rw [if_pos hb] at h
      obtain ⟨add, h1, h2, h3, h4, h5⟩ := ih seen orders out h
      refine ⟨add, h1, h2, h3, ?_, ?_⟩
      · rw [h4, List.filter_cons_of_neg (by simp [hb])]
      · intro pre l post later hsplit
        rw [List.filter_cons_of_neg (by simp [hb])] at hsplit
        exact h5 pre l post later hsplit
    · rw [if_neg hb] at h
      have hfl : (line :: rest).filter (fun line => !(line.data.isEmpty || line.data.all isspace))
          = line :: rest.filter (fun line => !(line.data.isEmpty || line.data.all isspace)) :=
        List.filter_cons_of_pos (by simpa using hb)
      cases hp : CSVParser.parse_order_line stod line with
      | none => rw [hp] at h; cases h
      | some order =>
        rw [hp] at h
        dsimp only at h
        by_cases hlive : order.status ≠ "REJECTED" ∧ order.action = "NEW"
        · have hl : is_live_new order = true := by simp [is_live_new, hlive.1, hlive.2]
          by_cases hseen : seen order.order_id = true
          · rw [if_pos hlive, if_pos hseen] at h
            dsimp only at h
            rw [if_pos (Or.inr rfl)] at h
            obtain ⟨add, h1, h2, h3, h4, h5⟩ := ih _ _ _ h
            refine ⟨{ order with status := "REJECTED" } :: add, by simp [h1], ?_, ?_, ?_, ?_⟩
            · rw [List.filter_cons_of_neg (by simp [is_live_new])]
              exact h2
            · rw [List.filter_cons_of_neg (by simp [is_live_new])]
              exact h3
            · rw [List.filter_cons_of_neg (by simp [hlive.2]), h4, hfl, List.filterMap_cons_some hp,
                List.filter_cons_of_neg (by simp [hlive.2])]
            · intro pre l post later hsplit hpl hnew hdup
              rw [hfl] at hsplit
              cases pre with
              | nil =>
                simp only [List.nil_append, List.cons.injEq] at hsplit
                obtain ⟨rfl, -⟩ := hsplit
                rw [hp] at hpl
                cases hpl
                exact List.mem_cons_self _ _
              | cons p pre' =>
                simp only [List.cons_append, List.cons.injEq] at hsplit
                obtain ⟨rfl, hsplit⟩ := hsplit
                refine List.mem_cons_of_mem _ (h5 pre' l post later hsplit hpl hnew ?_)
                rcases hdup with hd | ⟨l', hl', first, hf1, hf2, hf3⟩
                · exact Or.inl hd
                · rcases List.mem_cons.1 hl' with rfl | hl'
                  · rw [hp] at hf1
                    cases hf1
                    exact Or.inl (hf3 ▸ hseen)
                  · exact Or.inr ⟨l', hl', first, hf1, hf2, hf3⟩
          · have hseen' : seen order.order_id = false := by simpa using hseen
            rw [if_pos hlive, if_neg hseen] at h
            dsimp only at h
            obtain ⟨add, h1, h2, h3, h4, h5⟩ := ih _ _ _ h
            have h3' : ∀ o ∈ add.filter is_live_new,
                o.order_id ≠ order.order_id ∧ seen o.order_id = false := by
              intro o ho
              have := h3 o ho
              simp only [Bool.or_eq_false_iff, decide_eq_false_iff_not] at this
              exact this
            have hC : ∀ pre l post later,
                (line :: rest).filter (fun line => !(line.data.isEmpty || line.data.all isspace))
                  = pre ++ l :: post →
                CSVParser.parse_order_line stod l = some later → later.action = "NEW" →
                (seen later.order_id = true
                  ∨ ∃ l' ∈ pre, ∃ first, CSVParser.parse_order_line stod l' = some first
                      ∧ is_live_new first = true ∧ first.order_id = later.order_id) →
                { later with status := "REJECTED" } ∈ add := by
              intro pre l post later hsplit hpl hnew hdup
              rw [hfl] at hsplit
              cases pre with
              | nil =>
                simp only [List.nil_append, List.cons.injEq] at hsplit
                obtain ⟨rfl, -⟩ := hsplit
                rw [hp] at hpl
                cases hpl
                rcases hdup with hd | ⟨l', hl', _⟩
                · rw [hseen'] at hd
                  cases hd
                · cases hl'
              | cons p pre' =>
                simp only [List.cons_append, List.cons.injEq] at hsplit
                obtain ⟨rfl, hsplit⟩ := hsplit
                refine h5 pre' l post later hsplit hpl hnew ?_
                rcases hdup with hd | ⟨l', hl', first, hf1, hf2, hf3⟩
                · exact Or.inl (by simp [hd])
                · rcases List.mem_cons.1 hl' with rfl | hl'
                  · rw [hp] at hf1
                    cases hf1
                    exact Or.inl (by simp [hf3])
                  · exact Or.inr ⟨l', hl', first, hf1, hf2, hf3⟩
            by_cases hpush : order.order_id ≠ 0 ∨ order.status = "REJECTED"
            · rw [if_pos hpush] at h1
              refine ⟨order :: add, by simp [h1], ?_, ?_, ?_, ?_⟩
              · rw [List.filter_cons_of_pos hl, List.map_cons, List.nodup_cons]
                refine ⟨?_, h2⟩
                intro hm
                obtain ⟨o, ho, hid⟩ := List.mem_map.1 hm
                exact (h3' o ho).1 hid
              · intro o ho
                rw [List.filter_cons_of_pos hl] at ho
                rcases List.mem_cons.1 ho with rfl | ho
                · exact hseen'
                · exact (h3' o ho).2
              · rw [List.filter_cons_of_neg (by simp [hlive.2]), h4, hfl,
                  List.filterMap_cons_some hp, List.filter_cons_of_neg (by simp [hlive.2])]
              · intro pre l post later hsplit hpl hnew hdup
                exact List.mem_cons_of_mem _ (hC pre l post later hsplit hpl hnew hdup)
            · rw [if_neg hpush] at h1
              refine ⟨add, h1, h2, fun o ho => (h3' o ho).2, ?_, hC⟩
              rw [h4, hfl, List.filterMap_cons_some hp, List.filter_cons_of_neg (by simp [hlive.2])]
        · rw [if_neg hlive] at h
          dsimp only at h
          obtain ⟨add, h1, h2, h3, h4, h5⟩ := ih _ _ _ h
          have hnl : is_live_new order = false := by
            simp only [is_live_new, Bool.and_eq_false_iff, decide_eq_false_iff_not]
            by_cases ha : order.action = "NEW"
            · right
              intro hs
              exact hlive ⟨hs, ha⟩
            · left
              exact ha
          have hC : ∀ pre l post later,
              (line :: rest).filter (fun line => !(line.data.isEmpty || line.data.all isspace))
                = pre ++ l :: post →
              CSVParser.parse_order_line stod l = some later → later.action = "NEW" →
              (seen later.order_id = true
                ∨ ∃ l' ∈ pre, ∃ first, CSVParser.parse_order_line stod l' = some first
                    ∧ is_live_new first = true ∧ first.order_id = later.order_id) →
              { later with status := "REJECTED" } ∈ (if order.order_id ≠ 0 ∨ order.status = "REJECTED"
                then [order] else []) ++ add := by
            intro pre l post later hsplit hpl hnew hdup
            rw [hfl] at hsplit
            cases pre with
            | nil =>
              simp only [List.nil_append, List.cons.injEq] at hsplit
              obtain ⟨rfl, -⟩ := hsplit
              rw [hp] at hpl
              cases hpl
              have hrej : order.status = "REJECTED" := by
                by_contra hs
                exact hlive ⟨hs, hnew⟩
              rw [reject_rejected order hrej, if_pos (Or.inr hrej)]
              exact List.mem_append_left _ (List.mem_singleton_self _)
            | cons p pre' =>
              simp only [List.cons_append, List.cons.injEq] at hsplit
              obtain ⟨rfl, hsplit⟩ := hsplit
              refine List.mem_append_right _ (h5 pre' l post later hsplit hpl hnew ?_)
              rcases hdup with hd | ⟨l', hl', first, hf1, hf2, hf3⟩
              · exact Or.inl hd
              · rcases List.mem_cons.1 hl' with rfl | hl'
                · rw [hp] at hf1
                  cases hf1
                  rw [hnl] at hf2
                  cases hf2
                · exact Or.inr ⟨l', hl', first, hf1, hf2, hf3⟩
          refine ⟨(if order.order_id ≠ 0 ∨ order.status = "REJECTED" then [order] else []) ++ add,
            ?_, ?_, ?_, ?_, hC⟩
          · rw [h1]
            split <;> simp
          · have : ((if order.order_id ≠ 0 ∨ order.status = "REJECTED" then [order] else [])
                ++ add).filter is_live_new = add.filter is_live_new := by
              split <;> simp [hnl]
            rw [this]
            exact h2
          · have : ((if order.order_id ≠ 0 ∨ order.status = "REJECTED" then [order] else [])
                ++ add).filter is_live_new = add.filter is_live_new := by
              split <;> simp [hnl]
            rw [this]
            exact h3
          · rw [hfl, List.filterMap_cons_some hp, List.filter_append, h4]
            by_cases ha : order.action = "NEW"
            · rw [List.filter_cons_of_neg (by simp [ha])]
              split <;> simp [ha]
            · by_cases hpush : order.order_id ≠ 0 ∨ order.status = "REJECTED"
              · rw [if_pos hpush,
                  List.filter_cons_of_pos
                    (p := fun o : Order => decide (o.action ≠ "NEW")
                      && decide (o.order_id ≠ 0 ∨ o.status = "REJECTED")) (by simp [ha, hpush]),
                  List.filter_cons_of_pos (p := fun o : Order => decide (o.action ≠ "NEW"))
                    (by simp [ha])]
                rfl
              · rw [if_neg hpush,
                  List.filter_cons_of_neg
                    (p := fun o : Order => decide (o.action ≠ "NEW")
                      && decide (o.order_id ≠ 0 ∨ o.status = "REJECTED")) (by simp [ha, hpush])]
                rfl

/-- C33: in the list returned by `parse_input_file` the order ids of the records
that have action NEW and are not REJECTED are pairwise distinct; a NEW line that
repeats the id of an earlier NEW line that `parse_order_line` did not reject is in
the list with status REJECTED; and the records whose action is not NEW are in the
list as `parse_order_line` returned them (those with order id 0 that are not
REJECTED left out, as for every record), whatever ids they repeat. -/
theorem duplicate_new_rejected (stod : String → Option Int) (content : String)
    (orders : List Order)
    (h : CSVParser.parse_input_file stod (some content) = some orders) :
    ((orders.filter is_live_new).map (fun o => o.order_id)).Nodup
    ∧ (∀ pre line post first later, data_lines content = pre ++ line :: post →
        CSVParser.parse_order_line stod line = some later → later.action = "NEW" →
        (∃ l ∈ pre, CSVParser.parse_order_line stod l = some first) →
        is_live_new first = true → first.order_id = later.order_id →
        { later with status := "REJECTED" } ∈ orders)
    ∧ orders.filter (fun o => decide (o.action ≠ "NEW"))
        = ((data_lines content).filterMap (CSVParser.parse_order_line stod)).filter
            (fun o => decide (o.action ≠ "NEW")
              && decide (o.order_id ≠ 0 ∨ o.status = "REJECTED")) := by
  obtain ⟨add, h1, h2, _, h4, h5⟩ := parse_input_loop_spec stod _ _ _ _ h
  rw [List.nil_append] at h1
  subst h1
  refine ⟨h2, ?_, h4⟩
  intro pre line post first later hsplit hpl hnew hfirst hlive hid
  obtain ⟨l, hl, hpf⟩ := hfirst
  exact h5 pre line post later hsplit hpl hnew (Or.inr ⟨l, hl, first, hpf, hlive, hid⟩)

/-- Instance of C33: the file of `test_csv_parsing_errors`, where the last line
repeats the id 1 of the first; one record is left valid and seven are REJECTED. -/
theorem duplicate_new_rejected_witness :
    CSVParser.parse_input_file stod_hundredths (some error_test_csv) = some error_test_orders
    ∧ (error_test_orders.filter (fun o => decide (o.status = "REJECTED"))).length = 7
    ∧ ((error_test_orders.filter is_live_new).map (fun o => o.order_id)).Nodup :=
  ⟨by decide, by decide,
    (duplicate_new_rejected stod_hundredths error_test_csv error_test_orders (by decide)).1⟩

/-! ## Termination of the matching loop -/

theorem sweep_iterations_zero (opp : BookSide) (stop : Int → Bool) (order : Order) (fuel : Nat)
    (c : BookCtx) : sweep_iterations opp stop order fuel c 0 = 0 := by
  cases fuel <;> simp [sweep_iterations]

theorem sweep_iterations_le (opp : BookSide) (stop : Int → Bool) (order : Order) :
    ∀ fuel c r, sweep_iterations opp stop order fuel c r ≤ sweep_fuel (c.book.levels opp) := by
  intro fuel
  induction fuel with
  | zero => intro c r; simp [sweep_iterations]
  | succ n ih =>
    intro c r
    unfold sweep_iterations
    by_cases hr : r = 0
    · simp [hr]
    · simp only [hr, if_false]
      cases hl : c.book.levels opp with
      | nil => simp
      | cons pq rest =>
        obtain ⟨price, oq⟩ := pq
        dsimp only
        rw [sweep_fuel_cons]
        by_cases hs : stop price = true
        · simp only [hs, if_true]
          omega
        · have hs' : stop price = false := by simpa using hs
          simp only [hs', Bool.false_eq_true, if_false]
          cases ho : oq.orders with
          | nil =>
            dsimp only
            have := ih { c with book := c.book.setLevels opp rest } r
            rw [levels_setLevels_same] at this
            omega
          | cons front tail =>
            dsimp only
            by_cases hq : front.quantity ≤ r
            · have h1 := ih (execute_trade opp order price oq front tail rest c r).1
                (execute_trade opp order price oq front tail rest c r).2
              rw [execute_trade_levels_same] at h1
              have h2 := sweep_fuel_after_trade price oq front tail rest r ho hq
              rw [sweep_fuel_cons, ho] at h2
              simp only [List.length_cons] at h2 ⊢
              omega
            · have h0 : (execute_trade opp order price oq front tail rest c r).2 = 0 := by
                rw [execute_trade_remaining]; omega
              rw [h0, sweep_iterations_zero]
              omega

theorem sweep_fuel_enough (opp : BookSide) (stop : Int → Bool) (order : Order) :
    ∀ fuel fuel' c r, sweep_fuel (c.book.levels opp) ≤ fuel →
      sweep_fuel (c.book.levels opp) ≤ fuel' →
      sweep opp stop order fuel c r = sweep opp stop order fuel' c r
      ∧ sweep_iterations opp stop order fuel c r = sweep_iterations opp stop order fuel' c r := by
  intro fuel
  induction fuel with
  | zero =>
    intro fuel' c r h
    simp [sweep_fuel] at h
  | succ n ih =>
    intro fuel' c r h h'
    cases fuel' with
    | zero => simp [sweep_fuel] at h'
    | succ m =>
      unfold sweep sweep_iterations
      by_cases hr : r = 0
      · simp [hr]
      · simp only [hr, if_false]
        cases hl : c.book.levels opp with
        | nil => simp
        | cons pq rest =>
          obtain ⟨price, oq⟩ := pq
          dsimp only
          rw [hl, sweep_fuel_cons] at h h'
          by_cases hs : stop price = true
          · simp [hs]
          · have hs' : stop price = false := by simpa using hs
            simp only [hs', Bool.false_eq_true, if_false]
            cases ho : oq.orders with
            | nil =>
              dsimp only
              have := ih m { c with book := c.book.setLevels opp rest } r
                (by rw [levels_setLevels_same]; omega) (by rw [levels_setLevels_same]; omega)
              exact ⟨this.1, by rw [this.2]⟩
            | cons front tail =>
              dsimp only
              by_cases hq : front.quantity ≤ r
              · have h2 := sweep_fuel_after_trade price oq front tail rest r ho hq
                rw [sweep_fuel_cons] at h2
                have := ih m (execute_trade opp order price oq front tail rest c r).1
                  (execute_trade opp order price oq front tail rest c r).2
                  (by rw [execute_trade_levels_same]; omega)
                  (by rw [execute_trade_levels_same]; omega)
                exact ⟨this.1, by rw [this.2]⟩
              · have h0 : (execute_trade opp order price oq front tail rest c r).2 = 0 := by
                  rw [execute_trade_remaining]; omega
                rw [h0, sweep_zero, sweep_zero, sweep_iterations_zero, sweep_iterations_zero]
                exact ⟨rfl, rfl⟩

/-- C40: every matching sweep terminates. Whatever the book, the incoming order,
the side consumed, the price test and the quantity to fill, the loop body is
entered at most (number of levels + number of resting orders + 1) times on the
consumed side, however large the iteration bound of the model; with any bound of
at least that number the loop ends on its own exit condition (nothing left to
fill, no level left, or a first level whose price stops the sweep) and returns the
same state and the same count as with that number. The four routines run this
loop on the side they consume with price tests of their own. -/
theorem sweep_terminates (opp : BookSide) (stop : Int → Bool) (order : Order) (c : BookCtx)
    (r : Nat) :
    (∀ fuel, sweep_iterations opp stop order fuel c r
        ≤ (c.book.levels opp).length
          + ((c.book.levels opp).map (fun pq => pq.2.orders.length)).sum + 1)
    ∧ (∀ fuel,
        (c.book.levels opp).length
          + ((c.book.levels opp).map (fun pq => pq.2.orders.length)).sum + 1 ≤ fuel →
        sweep opp stop order fuel c r = sweep opp stop order (sweep_fuel (c.book.levels opp)) c r
        ∧ sweep_iterations opp stop order fuel c r
            = sweep_iterations opp stop order (sweep_fuel (c.book.levels opp)) c r
        ∧ ((sweep opp stop order fuel c r).2 = 0
          ∨ (sweep opp stop order fuel c r).1.book.levels opp = []
          ∨ ∃ p q rest, (sweep opp stop order fuel c r).1.book.levels opp = (p, q) :: rest
              ∧ stop p = true))
    ∧ execute_buy_market_order c order
        = market_finish order
            (sweep .sell (fun _ => false) order (sweep_fuel c.book.sell_orders) c order.quantity)
    ∧ execute_sell_market_order c order
        = market_finish order
            (sweep .buy (fun _ => false) order (sweep_fuel c.book.buy_orders) c order.quantity)
    ∧ execute_buy_limit_order c order
        = limit_rest .buy order
            (sweep .sell (fun sell_price => decide (sell_price > order.price)) order
              (sweep_fuel (limit_pending .sell (fun p => decide (p ≤ order.price)) c order).book.sell_orders)
              (limit_pending .sell (fun p => decide (p ≤ order.price)) c order) order.quantity)
    ∧ execute_sell_limit_order c order
        = limit_rest .sell order
            (sweep .buy (fun buy_price => decide (buy_price < order.price)) order
              (sweep_fuel (limit_pending .buy (fun p => decide (p ≥ order.price)) c order).book.buy_orders)
              (limit_pending .buy (fun p => decide (p ≥ order.price)) c order) order.quantity) := by
  refine ⟨fun fuel => sweep_iterations_le opp stop order fuel c r, ?_, rfl, rfl, rfl, rfl⟩
  intro fuel hf
  have h := sweep_fuel_enough opp stop order fuel (sweep_fuel (c.book.levels opp)) c r hf
    (le_refl _)
  exact ⟨h.1, h.2, sweep_exit opp stop order fuel c r hf⟩

/-! ## Resting orders and their lookup entries -/

/-- C35: in every book of an engine run from its construction, no order id rests
twice over the queues of both sides, and every resting order has a lookup entry
whose side (BUY or not) and price are those of the side and level where it rests;
so `cancel_order_from_book`, called with that entry, removes the resting copy:
the id rests nowhere afterwards and every other resting order stays in place. -/
theorem resting_filed_under_lookup (s : Statics) (inputs : List Order) (instrument : String) :
    (books_get (run (MatchingEngine.new s) inputs).engine.order_books instrument).resting_ids.Nodup
    ∧ ∀ side,
        ∀ x ∈ ((books_get (run (MatchingEngine.new s) inputs).engine.order_books
                instrument).levels side).entries,
          ∃ e,
            (books_get (run (MatchingEngine.new s) inputs).engine.order_books
                instrument).order_lookup x.2.order_id = some e
            ∧ (e.side = "BUY" ↔ side = BookSide.buy) ∧ e.price = x.1
            ∧ x.2.order_id ∉
                (cancel_order_from_book
                  (books_get (run (MatchingEngine.new s) inputs).engine.order_books instrument)
                  e).resting_ids
            ∧ ∀ side',
                ((cancel_order_from_book
                    (books_get (run (MatchingEngine.new s) inputs).engine.order_books instrument)
                    e).levels side').entries
                  = ((books_get (run (MatchingEngine.new s) inputs).engine.order_books
                      instrument).levels side').entries.filter
                      (fun y => decide (y.2.order_id ≠ x.2.order_id)) := by
  have hwf := reachable_wf s inputs instrument
  refine ⟨hwf.nodup, ?_⟩
  intro side x hx
  obtain ⟨_, e, he, hside, hprice⟩ := hwf.resting side x hx
  exact ⟨e, he, hside, hprice, cancel_order_from_book_absent hwf he,
    fun side' => cancel_order_from_book_entries hwf he side'⟩

/-! ## Action and status of the stored records through the matching routines -/

theorem Stored.carry {b b' : OrderBook} (h : Stored b)
    (hl : ∀ s, b'.levels s = b.levels s) (hk : b'.order_lookup = b.order_lookup) :
    Stored b' :=
  ⟨fun k e he => h.lookup k e (by rw [← hk]; exact he),
   fun s x hx => h.resting s x (by rw [← hl s]; exact hx)⟩

theorem front_resting {b : OrderBook} {opp : BookSide} {price : Int} {oq : OrderQueue}
    {rest : Levels} {front : Order} {tail : List Order}
    (hl : b.levels opp = (price, oq) :: rest) (ho : oq.orders = front :: tail) :
    (price, front) ∈ (b.levels opp).entries
    ∧ ∀ x ∈ tail.map (fun o => (price, o)) ++ rest.entries, x ∈ (b.levels opp).entries := by
  rw [hl, Levels.entries_cons]
  constructor
  · refine List.mem_append_left _ ?_
    show (price, front) ∈ oq.orders.map (fun o => (price, o))
    rw [ho, List.map_cons]
    exact List.mem_cons_self _ _
  · intro x hx
    rcases List.mem_append.1 hx with hx | hx
    · refine List.mem_append_left _ ?_
      show x ∈ oq.orders.map (fun o => (price, o))
      rw [ho, List.map_cons]
      exact List.mem_cons_of_mem _ hx
    · exact List.mem_append_right _ hx

theorem Stored.kept_by_trade {c : BookCtx} {order : Order} (hs : Seeded c.book order)
    (h : Stored c.book) (opp : BookSide) (price : Int) (oq : OrderQueue) (front : Order)
    (tail : List Order) (rest : Levels) (r : Nat)
    (hl : c.book.levels opp = (price, oq) :: rest) (ho : oq.orders = front :: tail) :
    Stored (execute_trade opp order price oq front tail rest c r).1.book := by
  obtain ⟨e, he⟩ := hs.present
  obtain ⟨hfront, hold⟩ := front_resting hl ho
  refine ⟨?_, ?_⟩
  · intro k e' hk
    rw [execute_trade_lookup, lookup_touch_present he] at hk
    split at hk
    · by_cases hkf : k = front.order_id
      · rw [hkf, Function.update_same] at hk
        cases hk
      · rw [Function.update_noteq hkf] at hk
        exact h.lookup k e' hk
    · exact h.lookup k e' hk
  · intro s x hx
    by_cases hso : s = opp
    · subst hso
      rw [execute_trade_levels_same, entries_levels_after_trade] at hx
      split at hx
      · exact h.resting s x (hold x hx)
      · rcases List.mem_cons.1 hx with rfl | hx
        · exact (h.resting s _ hfront : NewPending front)
        · exact h.resting s x (hold x hx)
    · rw [execute_trade_levels_other _ _ _ _ _ _ _ _ _ hso] at hx
      exact h.resting s x hx

/-- Along a sweep the stored records keep action NEW and status PENDING, and the
log gains pairs of trade events whose taker carries the id and the action of the
incoming order and whose maker carries another id and the action NEW. -/
theorem sweep_makers (opp : BookSide) (stop : Int → Bool) (order : Order) (fuel : Nat)
    (c : BookCtx) (r : Nat) (hs : Seeded c.book order) (h : Stored c.book) :
    Stored (sweep opp stop order fuel c r).1.book
    ∧ ∃ ps : List (Order × Order),
        (sweep opp stop order fuel c r).1.book.results = c.book.results ++ pairs_flat ps
        ∧ ∀ tm ∈ ps, IsTrade order tm ∧ tm.1.order_id = order.order_id
            ∧ tm.1.action = order.action ∧ tm.2.order_id ≠ order.order_id
            ∧ tm.2.action = "NEW" := by
  have key := sweep_invariant opp stop order
    (fun c' _ => Seeded c'.book order ∧ Stored c'.book
      ∧ ∃ ps : List (Order × Order), c'.book.results = c.book.results ++ pairs_flat ps
        ∧ ∀ tm ∈ ps, IsTrade order tm ∧ tm.1.order_id = order.order_id
            ∧ tm.1.action = order.action ∧ tm.2.order_id ≠ order.order_id
            ∧ tm.2.action = "NEW")
    ?_ ?_ fuel c r ⟨hs, h, [], by simp, by simp⟩
  · exact ⟨key.2.1, key.2.2⟩
  · intro c' r' price oq rest hi _ hl _ ho
    obtain ⟨h1, h2, ps, h3, h4⟩ := hi
    refine ⟨h1.erase_level hl ho, ⟨?_, ?_⟩, ps, by simpa using h3, h4⟩
    · intro k e hk
      rw [setLevels_order_lookup] at hk
      exact h2.lookup k e hk
    · intro s x hx
      by_cases hso : s = opp
      · subst hso
        rw [levels_setLevels_same] at hx
        refine h2.resting s x ?_
        rw [hl, Levels.entries_cons]
        exact List.mem_append_right _ hx
      · rw [levels_setLevels_other _ _ hso] at hx
        exact h2.resting s x hx
  · intro c' r' price oq rest front tail hi _ hl _ ho
    obtain ⟨h1, h2, ps, h3, h4⟩ := hi
    refine ⟨h1.trade r' hl ho, h2.kept_by_trade h1 opp price oq front tail rest r' hl ho,
      ps ++ [(taker_execution order price front c' r', maker_execution order price front c' r')],
      ?_, ?_⟩
    · rw [execute_trade_results, h3, pairs_flat_append, pairs_flat_singleton, List.append_assoc]
    · intro tm htm
      rcases List.mem_append.1 htm with htm | htm
      · exact h4 tm htm
      · simp only [List.mem_singleton] at htm
        subst htm
        refine ⟨⟨price, front, c', r', rfl, rfl⟩, (trade_agree h1 price front r').2, rfl, ?_,
          (h2.resting opp _ (front_resting hl ho).1).1⟩
        intro heq
        have hfid : front.order_id = order.order_id := heq
        exact h1.absent (hfid ▸ front_mem_resting_ids hl ho)

theorem Stored.kept_by_rest (own : BookSide) {order : Order} {r : BookCtx × Nat}
    (hs : Seeded r.1.book order) (h : Stored r.1.book) :
    Stored (limit_rest own order r).book := by
  obtain ⟨c, n⟩ := r
  obtain ⟨e, he⟩ := hs.present
  have he' : c.book.order_lookup order.order_id = some e := he
  by_cases hn : 0 < n
  · obtain ⟨h1, h2⟩ := limit_rest_pos own order c n hn
    rw [lookup_value_present he'] at h1 h2
    have hro : NewPending { e with quantity := n, price := order.price } :=
      (h.lookup _ _ he' : NewPending e)
    refine ⟨?_, ?_⟩
    · intro k e' hk
      rw [h2] at hk
      by_cases hko : k = order.order_id
      · rw [hko, Function.update_same] at hk
        cases hk
        exact hro
      · rw [Function.update_noteq hko] at hk
        exact h.lookup k e' hk
    · intro s x hx
      by_cases hso : s = own
      · subst hso
        rw [h1] at hx
        rcases List.mem_cons.1 ((Levels.entries_add_perm _ _ _ _).mem_iff.1 hx) with rfl | hx
        · exact hro
        · exact h.resting s x hx
      · rw [limit_rest_levels_other own order (c, n) hso] at hx
        exact h.resting s x hx
  · have : limit_rest own order (c, n) = c := by
      unfold limit_rest
      rw [if_neg hn]
    rw [this]
    exact h

/-- The event that the head of a LIMIT routine may append carries the id and the
action of the incoming order. -/
theorem limit_pending_added (opp : BookSide) (crosses : Int → Bool) {c : BookCtx}
    {order : Order} (hs : Seeded c.book order) :
    ∃ pre, (limit_pending opp crosses c order).book.results = c.book.results ++ pre
      ∧ pre.length ≤ 1 ∧ ∀ e ∈ pre, e.order_id = order.order_id ∧ e.action = order.action := by
  obtain ⟨e0, he⟩ := hs.present
  have hid : e0.order_id = order.order_id := hs.wf.lookup_id _ _ he
  unfold limit_pending
  split
  · dsimp only
    split
    · refine ⟨[_], rfl, by simp, ?_⟩
      intro e hmem
      simp only [List.mem_singleton] at hmem
      subst hmem
      refine ⟨?_, rfl⟩
      show (lookup_value c.book.order_lookup order.order_id).order_id = order.order_id
      rw [lookup_value_present he]
      exact hid
    · exact ⟨[], by simp, by simp, by simp⟩
  · exact ⟨[], by simp, by simp, by simp⟩

/-- The event that the tail of a MARKET routine may append carries the id and the
action of the incoming order. -/
theorem market_finish_added {order : Order} {r : BookCtx × Nat}
    (hs : Seeded r.1.book order) :
    ∃ post, (market_finish order r).book.results = r.1.book.results ++ post
      ∧ post.length ≤ 1 ∧ ∀ e ∈ post, e.order_id = order.order_id ∧ e.action = order.action := by
  obtain ⟨e0, he⟩ := hs.present
  have hid : e0.order_id = order.order_id := hs.wf.lookup_id _ _ he
  unfold market_finish
  split
  · refine ⟨[_], rfl, by simp, ?_⟩
    intro e hmem
    simp only [List.mem_singleton] at hmem
    subst hmem
    refine ⟨?_, rfl⟩
    show (lookup_value r.1.book.order_lookup order.order_id).order_id = order.order_id
    rw [lookup_value_present he]
    exact hid
  · exact ⟨[], by simp, by simp, by simp⟩

theorem execute_market_order_makers {c : BookCtx} {order : Order} (hs : Seeded c.book order)
    (h : Stored c.book) :
    Stored (execute_market_order c order).book
    ∧ MakersNew order.order_id order.action c.book.results
        (execute_market_order c order).book.results := by
  have key : ∀ opp fuel,
      Stored (market_finish order (sweep opp (fun _ => false) order fuel c order.quantity)).book
      ∧ MakersNew order.order_id order.action c.book.results
          (market_finish order
            (sweep opp (fun _ => false) order fuel c order.quantity)).book.results := by
    intro opp fuel
    obtain ⟨h1, ps, h2, h3⟩ := sweep_makers opp (fun _ => false) order fuel c order.quantity hs h
    have hsw := Seeded.sweep opp (fun _ => false) order fuel c order.quantity hs
    obtain ⟨e, he⟩ := hsw.present
    obtain ⟨post, h4, h5, h6⟩ := market_finish_added hsw
    refine ⟨h1.carry (market_finish_levels order _) (market_finish_lookup order _ he),
      [], ps, post, ?_, by simp, h5, by simpa using h6,
      fun tm htm => ⟨⟨order, (h3 tm htm).1⟩, (h3 tm htm).2⟩⟩
    rw [h4, h2]
    simp
  unfold execute_market_order execute_buy_market_order execute_sell_market_order
  split
  · exact key .sell _
  · exact key .buy _

theorem execute_limit_order_makers {c : BookCtx} {order : Order} (hs : Seeded c.book order)
    (h : Stored c.book) :
    Stored (execute_limit_order c order).book
    ∧ MakersNew order.order_id order.action c.book.results
        (execute_limit_order c order).book.results := by
  have key : ∀ own opp crosses stop fuel,
      Stored (limit_rest own order
        (sweep opp stop order fuel (limit_pending opp crosses c order) order.quantity)).book
      ∧ MakersNew order.order_id order.action c.book.results
          (limit_rest own order
            (sweep opp stop order fuel (limit_pending opp crosses c order)
              order.quantity)).book.results := by
    intro own opp crosses stop fuel
    obtain ⟨e, he⟩ := hs.present
    have hp := Seeded.pending opp crosses hs
    have hst : Stored (limit_pending opp crosses c order).book :=
      h.carry (limit_pending_levels opp crosses c order)
        (limit_pending_lookup opp crosses c order he)
    obtain ⟨pre, h4, h5, h6⟩ := limit_pending_added opp crosses hs
    obtain ⟨h1, ps, h2, h3⟩ := sweep_makers opp stop order fuel
      (limit_pending opp crosses c order) order.quantity hp hst
    have hsw := Seeded.sweep opp stop order fuel (limit_pending opp crosses c order)
      order.quantity hp
    refine ⟨h1.kept_by_rest own hsw, pre, ps, [], ?_, h5, by simp, by simpa using h6,
      fun tm htm => ⟨⟨order, (h3 tm htm).1⟩, (h3 tm htm).2⟩⟩
    rw [limit_rest_results, h2, h4]
    simp
  unfold execute_limit_order execute_buy_limit_order execute_sell_limit_order
  split
  · exact key .buy .sell _ _ _
  · exact key .sell .buy _ _ _

theorem MakersNew.single (id : Nat) (action : String) (before : List Order) (e : Order)
    (hid : e.order_id = id) (ha : e.action = action) :
    MakersNew id action before (before ++ [e]) := by
  refine ⟨[e], [], [], by simp, by simp, by simp, ?_, by simp⟩
  intro x hx
  simp only [List.append_nil, List.mem_singleton] at hx
  subst hx
  exact ⟨hid, ha⟩

theorem MakersNew.none (id : Nat) (action : String) (before : List Order) :
    MakersNew id action before before :=
  ⟨[], [], [], by simp, by simp, by simp, by simp, by simp⟩

theorem add_order_makers {c : BookCtx} {order : Order} (hwf : WF c.book)
    (hnew : order.action = "NEW") (h : Stored c.book) :
    Stored (add_order c order).book
    ∧ MakersNew order.order_id "NEW" c.book.results (add_order c order).book.results := by
  unfold add_order
  split
  case isTrue hd =>
    exact ⟨h.carry (fun s => by cases s <;> rfl) rfl, MakersNew.single _ _ _ _ rfl hnew⟩
  case isFalse hd =>
    have hx : c.book.existing_order_ids order.order_id = none := by
      cases hv : c.book.existing_order_ids order.order_id with
      | none => rfl
      | some v => exact absurd ⟨hnew, by simp [hv]⟩ hd
    dsimp only
    have hseed := Seeded.seed hwf (not_resting_of_not_existing hwf hx)
      { order with status := "PENDING", executed_quantity := 0, execution_price := 0,
                   counterparty_id := 0 } rfl
      (Function.update c.book.existing_order_ids order.order_id (some true))
      (Function.update c.book.order_total_executed order.order_id (some 0))
      (by simp) (fun k hk => by simp [Function.update_noteq hk])
      { order with status := "PENDING", executed_quantity := 0, execution_price := 0,
                   counterparty_id := 0 } rfl
    have hst : Stored
        { c.book with
          existing_order_ids :=
            Function.update c.book.existing_order_ids order.order_id (some true)
          order_total_executed :=
            Function.update c.book.order_total_executed order.order_id (some 0)
          order_lookup :=
            Function.update c.book.order_lookup order.order_id
              (some { order with
                      status := "PENDING", executed_quantity := 0, execution_price := 0
                      counterparty_id := 0 }) } := by
      refine ⟨?_, fun s x hx => h.resting s x (by cases s <;> exact hx)⟩
      intro k e hk
      by_cases hko : k = order.order_id
      · have hk' : Function.update c.book.order_lookup order.order_id _ k = some e := hk
        rw [hko, Function.update_same] at hk'
        cases hk'
        exact ⟨hnew, rfl⟩
      · have hk' : Function.update c.book.order_lookup order.order_id _ k = some e := hk
        rw [Function.update_noteq hko] at hk'
        exact h.lookup k e hk'
    simp only [hnew, if_true] at hseed hst ⊢
    split
    · exact execute_market_order_makers hseed hst
    · split
      · exact execute_limit_order_makers hseed hst
      · exact ⟨hst, MakersNew.none _ _ _⟩

theorem modify_prepare_stored {c : BookCtx} (hwf : WF c.book) (h : Stored c.book)
    {request stored : Order} (he : c.book.order_lookup request.order_id = some stored) :
    Stored (modify_prepare c request stored).book := by
  refine ⟨?_, ?_⟩
  · intro k e hk
    have hk' : Function.update (cancel_order_from_book c.book stored).order_lookup
        request.order_id _ k = some e := hk
    by_cases hko : k = request.order_id
    · rw [hko, Function.update_same] at hk'
      cases hk'
      exact (h.lookup _ _ he : NewPending stored)
    · rw [Function.update_noteq hko, cancel_order_from_book_lookup] at hk'
      exact h.lookup k e hk'
  · intro s x hx
    rw [modify_prepare_entries hwf he s] at hx
    exact h.resting s x (List.mem_filter.1 hx).1

theorem modify_order_makers {c : BookCtx} {request : Order} (hwf : WF c.book)
    (ha : request.action = "MODIFY") (h : Stored c.book) :
    Stored (modify_order c request).book
    ∧ MakersNew request.order_id "MODIFY" c.book.results
        (modify_order c request).book.results := by
  cases he : c.book.order_lookup request.order_id with
  | none =>
    unfold modify_order
    rw [he]
    exact ⟨h.carry (fun s => by cases s <;> rfl) rfl, MakersNew.single _ _ _ _ rfl ha⟩
  | some stored =>
    have hid : stored.order_id = request.order_id := hwf.lookup_id _ _ he
    have hp := modify_prepare_stored hwf h he
    have hseed := modify_prepare_seeded hwf he
      (processing_order stored request ((c.book.order_total_executed request.order_id).getD 0))
      hid
    have hres : (modify_prepare c request stored).book.results = c.book.results :=
      cancel_order_from_book_results c.book stored
    rw [modify_order_found c request stored he]
    split
    · split
      · have := execute_market_order_makers hseed hp
        rw [hres] at this
        have h2 : MakersNew stored.order_id "MODIFY" c.book.results _ := this.2
        rw [hid] at h2
        exact ⟨this.1, h2⟩
      · split
        · have := execute_limit_order_makers hseed hp
          rw [hres] at this
          have h2 : MakersNew stored.order_id "MODIFY" c.book.results _ := this.2
          rw [hid] at h2
          exact ⟨this.1, h2⟩
        · exact ⟨hp, by rw [hres]; exact MakersNew.none _ _ _⟩
    · refine ⟨⟨hp.lookup, fun s x hx => hp.resting s x (by cases s <;> exact hx)⟩, ?_⟩
      show MakersNew request.order_id "MODIFY" c.book.results
        ((modify_prepare c request stored).book.results ++ [_])
      rw [hres]
      exact MakersNew.single _ _ _ _ hid rfl

theorem cancel_order_makers {c : BookCtx} {request : Order} (hwf : WF c.book)
    (ha : request.action = "CANCEL") (h : Stored c.book) :
    Stored (cancel_order c request).book
    ∧ MakersNew request.order_id "CANCEL" c.book.results
        (cancel_order c request).book.results := by
  unfold cancel_order
  split
  case h_1 hnone =>
    exact ⟨h.carry (fun s => by cases s <;> rfl) rfl, MakersNew.single _ _ _ _ rfl ha⟩
  case h_2 stored he =>
    dsimp only
    refine ⟨⟨?_, ?_⟩, ?_⟩
    · intro k e hk
      have hk' : Function.update (cancel_order_from_book c.book stored).order_lookup
          request.order_id none k = some e := hk
      by_cases hko : k = request.order_id
      · rw [hko, Function.update_same] at hk'
        cases hk'
      · rw [Function.update_noteq hko, cancel_order_from_book_lookup] at hk'
        exact h.lookup k e hk'
    · intro s x hx
      have hx' : x ∈ ((cancel_order_from_book c.book stored).levels s).entries := by
        cases s <;> exact hx
      rw [cancel_order_from_book_entries hwf he s] at hx'
      exact h.resting s x (List.mem_filter.1 hx').1
    · show MakersNew request.order_id "CANCEL" c.book.results
        ((cancel_order_from_book c.book stored).results ++ [_])
      rw [cancel_order_from_book_results]
      exact MakersNew.single _ _ _ _
        (hwf.lookup_id _ _ he : stored.order_id = request.order_id) rfl

theorem process_order_makers {w : World} (hwf : EngineWF w.engine)
    (h : ∀ i, Stored (books_get w.engine.order_books i)) (o : Order) :
    (∀ i, Stored (books_get (process_order w o).engine.order_books i))
    ∧ MakersNew o.order_id o.action (books_get w.engine.order_books o.instrument).results
        (books_get (process_order w o).engine.order_books o.instrument).results := by
  have hw := books_get_wf hwf o.instrument
  have key : Stored (books_get (process_order w o).engine.order_books o.instrument)
      ∧ MakersNew o.order_id o.action (books_get w.engine.order_books o.instrument).results
          (books_get (process_order w o).engine.order_books o.instrument).results := by
    refine process_order_book_cases
      (fun b => Stored b
        ∧ MakersNew o.order_id o.action
            (books_get w.engine.order_books o.instrument).results b.results)
      w o ?_ ?_ ?_ ?_ (fun _ _ _ _ => ⟨h _, MakersNew.none _ _ _⟩)
    · intro _
      exact ⟨(h _).carry (fun s => by cases s <;> rfl) rfl, MakersNew.single _ _ _ _ rfl rfl⟩
    · intro _ ha
      rw [ha]
      exact add_order_makers hw ha (h _)
    · intro _ ha
      rw [ha]
      exact modify_order_makers hw ha (h _)
    · intro _ ha
      rw [ha]
      exact cancel_order_makers hw ha (h _)
  refine ⟨?_, key.2⟩
  intro i
  by_cases hi : i = o.instrument
  · subst hi
    exact key.1
  · rw [process_order_book_other w o hi]
    exact h i

theorem run_stored {w : World} (hwf : EngineWF w.engine)
    (h : ∀ i, Stored (books_get w.engine.order_books i)) (inputs : List Order) (i : String) :
    Stored (books_get (run w inputs).engine.order_books i) := by
  induction inputs generalizing w with
  | nil => exact h i
  | cons o rest ih =>
    rw [run_cons]
    exact ih (process_order_wf hwf o) (process_order_makers hwf h o).1

theorem reachable_stored (s : Statics) (inputs : List Order) (i : String) :
    Stored (books_get (run (MatchingEngine.new s) inputs).engine.order_books i) := by
  refine run_stored (new_engine_wf s) ?_ inputs i
  intro j
  have : books_get (MatchingEngine.new s).engine.order_books j = OrderBook.new := rfl
  rw [this]
  refine ⟨fun k e hk => (by cases hk), fun side x hx => ?_⟩
  cases side <;> simp [OrderBook.new, OrderBook.levels, Levels.entries] at hx

/-- Every event of what the log gained carries the id and action of the input, or
another id and the action NEW. -/
theorem MakersNew.events {id : Nat} {action : String} {before after : List Order}
    (h : MakersNew id action before after) :
    ∃ added, after = before ++ added
      ∧ ∀ e ∈ added, (e.order_id = id ∧ e.action = action)
          ∨ (e.order_id ≠ id ∧ e.action = "NEW") := by
  obtain ⟨pre, ps, post, h1, _, _, h4, h5⟩ := h
  refine ⟨pre ++ pairs_flat ps ++ post, by rw [h1]; simp [List.append_assoc], ?_⟩
  intro e he
  rcases List.mem_append.1 he with he | he
  · rcases List.mem_append.1 he with he | he
    · exact Or.inl (h4 e (List.mem_append_left _ he))
    · unfold pairs_flat at he
      obtain ⟨tm, htm, hmem⟩ := List.mem_flatMap.1 he
      simp only [List.mem_cons, List.mem_singleton, List.not_mem_nil, or_false] at hmem
      obtain ⟨_, a1, a2, a3, a4⟩ := h5 tm htm
      rcases hmem with rfl | rfl
      · exact Or.inl ⟨a1, a2⟩
      · exact Or.inr ⟨a3, a4⟩
  · exact Or.inl (h4 e (List.mem_append_right _ he))

/-- C39: in every book of an engine run from its construction, every order copy
resting in a queue has action NEW and status PENDING, also when it came to rest
through a MODIFY (the lookup records have them too). Hence every maker event
carries action NEW: of the events that `process_order` adds to the log of the book
for any next input, each one that concerns another order than the input's, which
is what the maker events are, has action NEW, and every other has the id and the
action of the input. What is added is at most one event of the input's order, then
the pairs of trade events, the taker's with the id and action of the input and the
maker's with another id and action NEW, then at most one event of the input's
order. -/
theorem resting_copies_new_pending (s : Statics) (inputs : List Order) :
    (∀ instrument side,
      ∀ x ∈ ((books_get (run (MatchingEngine.new s) inputs).engine.order_books
              instrument).levels side).entries,
        x.2.action = "NEW" ∧ x.2.status = "PENDING")
    ∧ (∀ instrument k e,
        (books_get (run (MatchingEngine.new s) inputs).engine.order_books
          instrument).order_lookup k = some e →
        e.action = "NEW" ∧ e.status = "PENDING")
    ∧ (∀ order : Order,
        ∃ added,
          (books_get (process_order (run (MatchingEngine.new s) inputs) order).engine.order_books
              order.instrument).results
            = (books_get (run (MatchingEngine.new s) inputs).engine.order_books
                order.instrument).results ++ added
          ∧ ∀ e ∈ added, (e.order_id = order.order_id ∧ e.action = order.action)
              ∨ (e.order_id ≠ order.order_id ∧ e.action = "NEW"))
    ∧ ∀ order : Order,
        ∃ pre ps post,
          (books_get (process_order (run (MatchingEngine.new s) inputs) order).engine.order_books
              order.instrument).results
            = (books_get (run (MatchingEngine.new s) inputs).engine.order_books
                order.instrument).results ++ pre ++ pairs_flat ps ++ post
          ∧ pre.length ≤ 1 ∧ post.length ≤ 1
          ∧ (∀ e ∈ pre ++ post, e.order_id = order.order_id ∧ e.action = order.action)
          ∧ ∀ tm ∈ ps, (∃ taker, IsTrade taker tm) ∧ tm.1.order_id = order.order_id
              ∧ tm.1.action = order.action ∧ tm.2.order_id ≠ order.order_id
              ∧ tm.2.action = "NEW" := by
  refine ⟨fun i side x hx => (reachable_stored s inputs i).resting side x hx,
    fun i k e he => (reachable_stored s inputs i).lookup k e he, ?_, ?_⟩
  · intro order
    exact (process_order_makers (run_wf (new_engine_wf s) inputs)
      (fun i => reachable_stored s inputs i) order).2.events
  · intro order
    exact (process_order_makers (run_wf (new_engine_wf s) inputs)
      (fun i => reachable_stored s inputs i) order).2

/-! ## Time priority after a MODIFY -/

theorem modify_prepare_levels_opposing (c : BookCtx) (request stored : Order) :
    (modify_prepare c request stored).book.levels (opposing stored)
      = c.book.levels (opposing stored) := by
  unfold modify_prepare cancel_order_from_book opposing
  by_cases hs : stored.side = "BUY"
  · simp only [hs, if_true]
    rfl
  · simp only [hs, if_false]
    rfl

theorem best_crosses_congr {b b' : OrderBook} (order : Order)
    (h : b'.levels (opposing order) = b.levels (opposing order)) :
    best_crosses b' order = best_crosses b order := by
  unfold best_crosses
  unfold opposing at h
  by_cases hs : order.side = "BUY"
  · simp only [hs, if_true] at h ⊢
    have h' : b'.sell_orders = b.sell_orders := h
    rw [h']
  · simp only [hs, if_false] at h ⊢
    have h' : b'.buy_orders = b.buy_orders := h
    rw [h']

theorem not_resting_opposite {b : OrderBook} (h : WF b) {id : Nat} {stored : Order}
    (he : b.order_lookup id = some stored) :
    ∀ x ∈ (b.levels (opposing stored)).entries, x.2.order_id ≠ id := by
  intro x hx hid
  obtain ⟨_, e, hl, hside, _⟩ := h.resting (opposing stored) x hx
  rw [hid, he] at hl
  cases hl
  unfold opposing at hside
  by_cases hs : stored.side = "BUY"
  · rw [if_pos hs] at hside
    have := hside.1 hs
    cases this
  · rw [if_neg hs] at hside
    exact hs (hside.2 rfl)

/-- Counterexample to C38 as stated: order 1, a BUY LIMIT of 100 at 150.25 of
which 50 are executed and 50 rest alone in the book, receives a MODIFY to a total
of 50 at the same price. Nothing is on the SELL side, so the MODIFY does not
cross; the order is taken out of its queue and is not appended again: no order
rests in the book afterwards. -/
theorem modify_not_reappended_counterexample :
    partial_fill_ctx.book.order_lookup 1
      = some { mk_order 1000 1 "AAPL" "BUY" "LIMIT" 100 15025 "NEW" with status := "PENDING" }
    ∧ partial_fill_ctx.book.buy_orders.entries.map (fun x => (x.1, x.2.order_id, x.2.quantity))
      = [(15025, 1, 50)]
    ∧ partial_fill_ctx.book.sell_orders = []
    ∧ (modify_order partial_fill_ctx
        (mk_order 1200 1 "AAPL" "BUY" "LIMIT" 50 15025 "MODIFY")).book.buy_orders = []
    ∧ (modify_order partial_fill_ctx
        (mk_order 1200 1 "AAPL" "BUY" "LIMIT" 50 15025 "MODIFY")).book.sell_orders = [] := by
  decide

/-- C38, amended: a MODIFY loses time priority when it leaves something to rest.
For an order known to the lookup of a consistent book (record `stored`, type
LIMIT), a MODIFY whose requested total exceeds the executed total of the order and
whose new price does not cross the best opposing price leaves, at every price of
the side of the order, the orders that rested there before without this order and
in the same relative order, followed at the new price by the order itself with
the quantity left to execute: it is last of its level, also when price and
quantity are those it had. The opposing side is as before. A MODIFY whose
requested total does not exceed the executed total takes the order out of its
queue and does not append it again: the id rests nowhere afterwards and each side
holds the other orders as before (last conjunct). -/
theorem modify_loses_priority (c : BookCtx) (request stored : Order) (hwf : WF c.book)
    (he : c.book.order_lookup request.order_id = some stored)
    (htype : stored.type = "LIMIT") :
    (request.quantity > (c.book.order_total_executed request.order_id).getD 0 →
      best_crosses c.book
        (processing_order stored request
          ((c.book.order_total_executed request.order_id).getD 0)) = false →
      ∃ ro : Order, ro.order_id = request.order_id
        ∧ ro.quantity = request.quantity - (c.book.order_total_executed request.order_id).getD 0
        ∧ ro.price = request.price
        ∧ ((modify_order c request).book.levels (incoming stored)).entries.filter
              (fun x => decide (x.1 = request.price))
            = (c.book.levels (incoming stored)).entries.filter
                (fun x => decide (x.1 = request.price) && decide (x.2.order_id ≠ request.order_id))
              ++ [(request.price, ro)]
        ∧ (∀ p, p ≠ request.price →
            ((modify_order c request).book.levels (incoming stored)).entries.filter
                (fun x => decide (x.1 = p))
              = (c.book.levels (incoming stored)).entries.filter
                  (fun x => decide (x.1 = p) && decide (x.2.order_id ≠ request.order_id)))
        ∧ (modify_order c request).book.levels (opposing stored)
            = c.book.levels (opposing stored))
    ∧ (request.quantity ≤ (c.book.order_total_executed request.order_id).getD 0 →
      request.order_id ∉ (modify_order c request).book.resting_ids
      ∧ ∀ s, ((modify_order c request).book.levels s).entries
          = (c.book.levels s).entries.filter
              (fun x => decide (x.2.order_id ≠ request.order_id))) := by
  refine ⟨?_, fun hle => ?_⟩
  swap
  · obtain ⟨_, hl, hr⟩ := modify_shrink_event c request stored hwf he hle
    exact ⟨hr, hl⟩
  intro hq hb
  have hid : stored.order_id = request.order_id := hwf.lookup_id _ _ he
  have hrem := modify_remaining_pos hq
  have hseed := modify_prepare_seeded hwf he
    (processing_order stored request ((c.book.order_total_executed request.order_id).getD 0)) hid
  have hopp := modify_prepare_levels_opposing c request stored
  have hb' : best_crosses (modify_prepare c request stored).book
      (processing_order stored request
        ((c.book.order_total_executed request.order_id).getD 0)) = false := by
    rw [best_crosses_congr (processing_order stored request
      ((c.book.order_total_executed request.order_id).getD 0)) hopp]
    exact hb
  have hlook : (modify_prepare c request stored).book.order_lookup
      (processing_order stored request
        ((c.book.order_total_executed request.order_id).getD 0)).order_id
      = some { stored with quantity := request.quantity, price := request.price } := by
    show Function.update _ request.order_id _ stored.order_id = _
    rw [hid, Function.update_same]
  obtain ⟨h1, h2, _, _⟩ := execute_limit_order_no_cross (modify_prepare c request stored)
    (processing_order stored request ((c.book.order_total_executed request.order_id).getD 0))
    _ hlook (Or.inr rfl)
    (by show 0 < modify_remaining _ _; rw [hrem]; omega)
    (hseed.wf.nonempty _) hb'
  have hfound := modify_order_found c request stored he
  rw [if_pos (by rw [hrem]; omega), if_neg (by rw [htype]; decide), if_pos htype] at hfound
  obtain ⟨t1, t2⟩ := Levels.entries_add_tail (incoming stored)
    ((modify_prepare c request stored).book.levels (incoming stored)) request.price
    { stored with
      quantity := modify_remaining request.quantity
        ((c.book.order_total_executed request.order_id).getD 0)
      price := request.price }
    (hseed.wf.sorted _)
  have h1' : (execute_limit_order (modify_prepare c request stored)
      (processing_order stored request
        ((c.book.order_total_executed request.order_id).getD 0))).book.levels (incoming stored)
      = Levels.add (incoming stored)
          ((modify_prepare c request stored).book.levels (incoming stored)) request.price
          { stored with
            quantity := modify_remaining request.quantity
              ((c.book.order_total_executed request.order_id).getD 0)
            price := request.price } := h1
  have h2' : (execute_limit_order (modify_prepare c request stored)
      (processing_order stored request
        ((c.book.order_total_executed request.order_id).getD 0))).book.levels (opposing stored)
      = (modify_prepare c request stored).book.levels (opposing stored) := h2
  rw [hfound]
  refine ⟨{ stored with
            quantity := modify_remaining request.quantity
              ((c.book.order_total_executed request.order_id).getD 0)
            price := request.price }, hid, hrem, rfl, ?_, ?_, ?_⟩
  · rw [h1']
    refine Eq.trans t1 ?_
    rw [modify_prepare_entries hwf he, List.filter_filter]
  · intro p hp
    rw [h1']
    refine Eq.trans (t2 p hp) ?_
    rw [modify_prepare_entries hwf he, List.filter_filter]
  · rw [h2']
    exact hopp

/-- Instance of C38 as amended: in the book of `two_bids`, order 1 (100 at 150.25,
first of its level) is modified to the same total at the same price; it is
afterwards behind order 2. -/
theorem modify_loses_priority_witness :
    (∃ ro : Order, ro.order_id = 1 ∧ ro.quantity = 100 - 0 ∧ ro.price = 15025
      ∧ ((modify_order two_bids_ctx
            (mk_order 1200 1 "AAPL" "BUY" "LIMIT" 100 15025 "MODIFY")).book.levels .buy).entries.filter
            (fun x => decide (x.1 = 15025))
          = (two_bids_ctx.book.levels .buy).entries.filter
              (fun x => decide (x.1 = 15025) && decide (x.2.order_id ≠ 1))
            ++ [(15025, ro)])
    ∧ two_bids_ctx.book.buy_orders.entries.map (fun x => (x.1, x.2.order_id, x.2.quantity))
        = [(15025, 1, 100), (15025, 2, 40)]
    ∧ (modify_order two_bids_ctx
          (mk_order 1200 1 "AAPL" "BUY" "LIMIT" 100 15025 "MODIFY")).book.buy_orders.entries.map
          (fun x => (x.1, x.2.order_id, x.2.quantity))
        = [(15025, 2, 40), (15025, 1, 100)] :=
  ⟨match (modify_loses_priority two_bids_ctx
      (mk_order 1200 1 "AAPL" "BUY" "LIMIT" 100 15025 "MODIFY")
      { mk_order 1000 1 "AAPL" "BUY" "LIMIT" 100 15025 "NEW" with status := "PENDING" }
      (reachable_wf Statics.initial two_bids "AAPL") (by decide) (by decide)).1
      (by decide) (by decide) with
    | ⟨ro, h1, h2, h3, h4, _⟩ => ⟨ro, h1, h2, h3, h4⟩,
   by decide, by decide⟩

/-! ## Amount filled by a sweep -/

theorem resting_within_nil (ok : Int → Bool) : Levels.resting_within [] ok = 0 := rfl

theorem resting_within_cons (ok : Int → Bool) (price : Int) (oq : OrderQueue) (rest : Levels) :
    Levels.resting_within ((price, oq) :: rest) ok
      = (if ok price then (oq.orders.map (fun o => o.quantity)).sum else 0)
        + Levels.resting_within rest ok := by
  unfold Levels.resting_within
  rw [Levels.entries_cons, List.filter_append, List.map_append, List.sum_append]
  congr 1
  by_cases h : ok price = true
  · rw [if_pos h]
    have : (oq.orders.map (fun o => (price, o))).filter (fun x => ok x.1)
        = oq.orders.map (fun o => (price, o)) := by
      apply List.filter_eq_self.2
      intro x hx
      obtain ⟨o, _, rfl⟩ := List.mem_map.1 hx
      exact h
    show (((oq.orders.map (fun o => (price, o))).filter (fun x => ok x.1)).map _).sum = _
    rw [this, List.map_map]
    rfl
  · rw [if_neg h]
    have : (oq.orders.map (fun o => (price, o))).filter (fun x => ok x.1) = [] := by
      apply List.filter_eq_nil_iff.2
      intro x hx
      obtain ⟨o, _, rfl⟩ := List.mem_map.1 hx
      exact h
    show (((oq.orders.map (fun o => (price, o))).filter (fun x => ok x.1)).map _).sum = _
    rw [this]
    rfl

theorem resting_within_none (ok : Int → Bool) (l : Levels)
    (h : ∀ p ∈ l.keys, ok p = false) : Levels.resting_within l ok = 0 := by
  induction l with
  | nil => rfl
  | cons pq rest ih =>
    obtain ⟨price, oq⟩ := pq
    rw [resting_within_cons, ih (fun p hp => h p (List.mem_cons_of_mem _ hp))]
    have := h price (List.mem_cons_self _ _)
    simp [this]

theorem resting_within_after_trade (ok : Int → Bool) (price : Int) (oq : OrderQueue)
    (front : Order) (tail : List Order) (rest : Levels) (r : Nat)
    (ho : oq.orders = front :: tail) :
    Levels.resting_within (levels_after_trade price oq front tail rest r) ok
        + (if ok price then min r front.quantity else 0)
      = Levels.resting_within ((price, oq) :: rest) ok := by
  have key : Levels.resting_within (levels_after_trade price oq front tail rest r) ok
      = (if ok price then
          (front.quantity - min r front.quantity) + (tail.map (fun o => o.quantity)).sum
         else 0) + Levels.resting_within rest ok := by
    have hr := resting_within_cons ok price
      { orders := { front with quantity := front.quantity - r } :: tail,
        total_quantity := 0 } rest
    have ht := resting_within_cons ok price { orders := tail, total_quantity := 0 } rest
    unfold Levels.resting_within at hr ht ⊢
    rw [entries_levels_after_trade]
    by_cases hq : front.quantity ≤ r
    · rw [if_pos hq]
      simp only [Levels.entries_cons] at ht
      rw [ht]
      have : front.quantity - min r front.quantity = 0 := by omega
      rw [this, Nat.zero_add]
    · rw [if_neg hq]
      simp only [Levels.entries_cons, List.map_cons, List.cons_append] at hr
      rw [hr]
      have : front.quantity - min r front.quantity = front.quantity - r := by omega
      rw [this]
      simp only [List.sum_cons]
  rw [key, resting_within_cons, ho]
  simp only [List.map_cons, List.sum_cons]
  split <;> omega

/-- Amount filled by a sweep whose price test, once it stops at a level, stops at
every later level: the taker's remaining quantity decreases by the smaller of
itself and the quantity resting at the levels that do not stop the sweep, and the
consumed side loses that amount. -/
theorem sweep_fill (opp : BookSide) (stop : Int → Bool) (order : Order) :
    ∀ fuel c r, sweep_fuel (c.book.levels opp) ≤ fuel →
      (c.book.levels opp).keys.Pairwise (fun a b => stop a = true → stop b = true) →
      (sweep opp stop order fuel c r).2
          = r - min r (Levels.resting_within (c.book.levels opp) (fun p => !stop p))
      ∧ Levels.resting_total ((sweep opp stop order fuel c r).1.book.levels opp)
          + min r (Levels.resting_within (c.book.levels opp) (fun p => !stop p))
        = Levels.resting_total (c.book.levels opp) := by
  intro fuel
  induction fuel with
  | zero =>
    intro c r h
    simp [sweep_fuel] at h
  | succ n ih =>
    intro c r h hm
    unfold sweep
    by_cases hr : r = 0
    · simp [hr]
    · simp only [hr, if_false]
      cases hl : c.book.levels opp with
      | nil => simp [hl, resting_within_nil]
      | cons pq rest =>
        obtain ⟨price, oq⟩ := pq
        dsimp only
        rw [hl] at h hm
        rw [sweep_fuel_cons] at h
        have hm' : (Levels.keys rest).Pairwise (fun a b => stop a = true → stop b = true) :=
          (List.pairwise_cons.1 hm).2
        by_cases hs : stop price = true
        · simp only [hs, if_true]
          have hz : Levels.resting_within ((price, oq) :: rest) (fun p => !stop p) = 0 := by
            apply resting_within_none
            intro p hp
            rcases List.mem_cons.1 hp with rfl | hp
            · simp [hs]
            · simp [(List.pairwise_cons.1 hm).1 p hp hs]
          rw [hz, hl]
          simp
        · have hs' : stop price = false := by simpa using hs
          simp only [hs', Bool.false_eq_true, if_false]
          cases ho : oq.orders with
          | nil =>
            dsimp only
            have := ih { c with book := c.book.setLevels opp rest } r
              (by rw [levels_setLevels_same]; omega) (by rw [levels_setLevels_same]; exact hm')
            rw [levels_setLevels_same] at this
            unfold Levels.resting_total at this ⊢
            rw [resting_within_cons, resting_within_cons, ho]
            simpa using this
          | cons front tail =>
            dsimp only
            have e1 := resting_within_after_trade (fun p => !stop p) price oq front tail rest r ho
            have e2 := resting_within_after_trade (fun _ => true) price oq front tail rest r ho
            simp only [hs', Bool.not_false, if_true] at e1 e2
            by_cases hq : front.quantity ≤ r
            · have h2 := sweep_fuel_after_trade price oq front tail rest r ho hq
              rw [sweep_fuel_cons] at h2
              have hk : (levels_after_trade price oq front tail rest r).keys.Pairwise
                  (fun a b => stop a = true → stop b = true) := by
                rcases keys_levels_after_trade price oq front tail rest r with hk | hk
                · rw [hk]; exact hm'
                · rw [hk]; exact hm
              have := ih (execute_trade opp order price oq front tail rest c r).1
                (execute_trade opp order price oq front tail rest c r).2
                (by rw [execute_trade_levels_same]; omega)
                (by rw [execute_trade_levels_same]; exact hk)
              rw [execute_trade_levels_same] at this
              have hrem : (execute_trade opp order price oq front tail rest c r).2
                  = r - min r front.quantity := rfl
              unfold Levels.resting_total at this ⊢
              obtain ⟨t1, t2⟩ := this
              constructor
              · rw [t1]; omega
              · omega
            · have h0 : (execute_trade opp order price oq front tail rest c r).2 = 0 := by
                rw [execute_trade_remaining]; omega
              rw [h0, sweep_zero]
              dsimp only
              rw [execute_trade_levels_same]
              unfold Levels.resting_total
              constructor <;> omega

theorem sorted_stop_sell (l : Levels) (h : Levels.sorted .sell l) (limit : Int) :
    l.keys.Pairwise (fun a b => decide (a > limit) = true → decide (b > limit) = true) := by
  refine List.Pairwise.imp ?_ h
  intro a b hab ha
  simp only [BookSide.before, decide_eq_true_eq] at hab ha ⊢
  omega

theorem sorted_stop_buy (l : Levels) (h : Levels.sorted .buy l) (limit : Int) :
    l.keys.Pairwise (fun a b => decide (a < limit) = true → decide (b < limit) = true) := by
  refine List.Pairwise.imp ?_ h
  intro a b hab ha
  simp only [BookSide.before, decide_eq_true_eq] at hab ha ⊢
  omega

theorem resting_within_congr (l : Levels) (f g : Int → Bool) (h : ∀ p, f p = g p) :
    Levels.resting_within l f = Levels.resting_within l g := by
  have : f = g := funext h
  rw [this]

/-- Amount filled by a MARKET routine consuming side `opp`. -/
theorem market_fill (opp : BookSide) (order : Order) (c : BookCtx) (h : Seeded c.book order) :
    exec_by_id order.order_id
        (market_finish order
          (sweep opp (fun _ => false) order (sweep_fuel (c.book.levels opp)) c
            order.quantity)).book.results
      = exec_by_id order.order_id c.book.results
        + min order.quantity (Levels.resting_total (c.book.levels opp))
    ∧ Levels.resting_total
        ((market_finish order
          (sweep opp (fun _ => false) order (sweep_fuel (c.book.levels opp)) c
            order.quantity)).book.levels opp)
        + min order.quantity (Levels.resting_total (c.book.levels opp))
      = Levels.resting_total (c.book.levels opp) := by
  obtain ⟨f1, f2⟩ := sweep_fill opp (fun _ => false) order (sweep_fuel (c.book.levels opp)) c
    order.quantity (le_refl _) (List.Pairwise.imp (fun _ h => by cases h)
      (List.pairwise_of_forall (l := (c.book.levels opp).keys) (R := fun _ _ => True)
        (fun _ _ => trivial)))
  have hw : Levels.resting_within (c.book.levels opp) (fun p => !(fun _ => false) p)
      = Levels.resting_total (c.book.levels opp) := rfl
  rw [hw] at f1 f2
  obtain ⟨_, _, s3⟩ := sweep_ledger opp (fun _ => false) order (sweep_fuel (c.book.levels opp))
    c order.quantity h
  obtain ⟨post, hp1, _, hp3⟩ := market_finish_results order
    (sweep opp (fun _ => false) order (sweep_fuel (c.book.levels opp)) c order.quantity)
  rw [market_finish_levels, hp1, exec_by_id_append,
    exec_by_id_zero _ post (fun e he => (hp3 e he).zero)]
  constructor
  · omega
  · exact f2

/-- Amount filled by a LIMIT routine of side `own` consuming side `opp`, for a
price test `stop` that, once true at a level, is true at every later level. -/
theorem limit_fill (own opp : BookSide) (hne : opp ≠ own) (crosses stop : Int → Bool)
    (order : Order) (c : BookCtx) (h : Seeded c.book order)
    (hm : (c.book.levels opp).keys.Pairwise (fun a b => stop a = true → stop b = true)) :
    exec_by_id order.order_id
        (limit_rest own order
          (sweep opp stop order (sweep_fuel ((limit_pending opp crosses c order).book.levels opp))
            (limit_pending opp crosses c order) order.quantity)).book.results
      = exec_by_id order.order_id c.book.results
        + min order.quantity (Levels.resting_within (c.book.levels opp) (fun p => !stop p))
    ∧ Levels.resting_total
        ((limit_rest own order
          (sweep opp stop order (sweep_fuel ((limit_pending opp crosses c order).book.levels opp))
            (limit_pending opp crosses c order) order.quantity)).book.levels opp)
        + min order.quantity (Levels.resting_within (c.book.levels opp) (fun p => !stop p))
      = Levels.resting_total (c.book.levels opp) := by
  have hp := Seeded.pending opp crosses h
  obtain ⟨f1, f2⟩ := sweep_fill opp stop order
    (sweep_fuel ((limit_pending opp crosses c order).book.levels opp))
    (limit_pending opp crosses c order) order.quantity (le_refl _)
    (by rw [limit_pending_levels]; exact hm)
  rw [limit_pending_levels] at f1 f2
  obtain ⟨_, _, s3⟩ := sweep_ledger opp stop order
    (sweep_fuel ((limit_pending opp crosses c order).book.levels opp))
    (limit_pending opp crosses c order) order.quantity hp
  obtain ⟨pre, hp1, _, hp3⟩ := limit_pending_results opp crosses c order
  rw [hp1, exec_by_id_append, exec_by_id_zero _ pre (fun e he => (hp3 e he).zero)] at s3
  rw [limit_rest_results, limit_rest_levels_other own order _ hne]
  rw [limit_pending_levels] at s3 ⊢
  constructor
  · omega
  · exact f2

/-- C37: fill amount. A MARKET taker of size q, entering the routine on a
consistent book where its record is stored and it is not resting, trades in total
exactly min(q, L), L being the sum of the quantities resting on the opposing side;
a LIMIT taker of size q trades exactly min(q, L_p), L_p being the sum of the
quantities resting on the opposing side at prices not worse than its limit (asks
at or below it for a BUY, bids at or above it for a SELL). The executed quantities
logged under the taker's id grow by that amount and the total resting on the
opposing side decreases by it. This holds whatever the resting quantities, so in
particular when all are positive. -/
theorem fill_amount (c : BookCtx) (order : Order) (h : Seeded c.book order) :
    (exec_by_id order.order_id (execute_market_order c order).book.results
        = exec_by_id order.order_id c.book.results
          + min order.quantity (Levels.resting_total (c.book.levels (opposing order)))
      ∧ Levels.resting_total ((execute_market_order c order).book.levels (opposing order))
          + min order.quantity (Levels.resting_total (c.book.levels (opposing order)))
        = Levels.resting_total (c.book.levels (opposing order)))
    ∧ (exec_by_id order.order_id (execute_limit_order c order).book.results
        = exec_by_id order.order_id c.book.results
          + min order.quantity
              (Levels.resting_within (c.book.levels (opposing order)) (within_limit order))
      ∧ Levels.resting_total ((execute_limit_order c order).book.levels (opposing order))
          + min order.quantity
              (Levels.resting_within (c.book.levels (opposing order)) (within_limit order))
        = Levels.resting_total (c.book.levels (opposing order))) := by
  unfold execute_market_order execute_buy_market_order execute_sell_market_order
    execute_limit_order execute_buy_limit_order execute_sell_limit_order opposing within_limit
  by_cases hs : order.side = "BUY"
  · simp only [hs, if_true]
    refine ⟨market_fill .sell order c h, ?_⟩
    have := limit_fill .buy .sell (by decide) (fun p => decide (p ≤ order.price))
      (fun sell_price => decide (sell_price > order.price)) order c h
      (sorted_stop_sell _ (h.wf.sorted .sell) order.price)
    rw [resting_within_congr _ (fun p => !decide (p > order.price))
      (fun p => decide (p ≤ order.price))
      (fun p => by
        by_cases hp : p ≤ order.price
        · simp [hp, not_lt.2 hp]
        · simp [hp, not_le.1 hp])] at this
    exact this
  · simp only [hs, if_false]
    refine ⟨market_fill .buy order c h, ?_⟩
    have := limit_fill .sell .buy (by decide) (fun p => decide (p ≥ order.price))
      (fun buy_price => decide (buy_price < order.price)) order c h
      (sorted_stop_buy _ (h.wf.sorted .buy) order.price)
    rw [resting_within_congr _ (fun p => !decide (p < order.price))
      (fun p => decide (p ≥ order.price))
      (fun p => by
        by_cases hp : p ≥ order.price
        · simp [hp, not_lt.2 hp]
        · simp [hp, not_le.1 hp])] at this
    exact this

/-- Instance of C37: a BUY LIMIT order of 50 at 100.00 entering a book with asks 30
at 100.00 and 40 at 100.05 trades min(50, 30) = 30 and leaves 40 on the SELL side. -/
theorem fill_amount_witness :
    Seeded (two_asks_ctx limit_taker).book limit_taker
    ∧ Levels.resting_within ((two_asks_ctx limit_taker).book.levels (opposing limit_taker))
        (within_limit limit_taker) = 30
    ∧ Levels.resting_total ((two_asks_ctx limit_taker).book.levels (opposing limit_taker)) = 70
    ∧ (exec_by_id limit_taker.order_id
          (execute_limit_order (two_asks_ctx limit_taker) limit_taker).book.results
        = exec_by_id limit_taker.order_id (two_asks_ctx limit_taker).book.results
          + min limit_taker.quantity
              (Levels.resting_within ((two_asks_ctx limit_taker).book.levels (opposing limit_taker))
                (within_limit limit_taker))
      ∧ Levels.resting_total
            ((execute_limit_order (two_asks_ctx limit_taker) limit_taker).book.levels
              (opposing limit_taker))
          + min limit_taker.quantity
              (Levels.resting_within ((two_asks_ctx limit_taker).book.levels (opposing limit_taker))
                (within_limit limit_taker))
        = Levels.resting_total ((two_asks_ctx limit_taker).book.levels (opposing limit_taker))) :=
  ⟨two_asks_seeded limit_taker rfl, by decide, by decide,
    (fill_amount (two_asks_ctx limit_taker) limit_taker (two_asks_seeded limit_taker rfl)).2⟩

/-! ## Executed totals through the matching routines -/

theorem Ledger.of_same {b b' : OrderBook} {total : Nat → Nat} (h : Ledger b total)
    (hl : ∀ s, b'.levels s = b.levels s)
    (ht : b'.order_total_executed = b.order_total_executed) : Ledger b' total := by
  have he : ∀ k, executed_total b' k = executed_total b k := fun k => by
    unfold executed_total
    rw [ht]
  refine ⟨fun k => by rw [he]; exact h.bound k, ?_, h.fits⟩
  intro s x hx
  rw [he]
  exact h.resting s x (by rw [← hl s]; exact hx)

theorem others_differ_from_front {b : OrderBook} (hnd : b.resting_ids.Nodup) {opp : BookSide}
    {price : Int} {oq : OrderQueue} {rest : Levels} {front : Order} {tail : List Order}
    (hl : b.levels opp = (price, oq) :: rest) (ho : oq.orders = front :: tail) :
    (∀ x ∈ tail.map (fun o => (price, o)) ++ rest.entries, x.2.order_id ≠ front.order_id)
    ∧ ∀ s, s ≠ opp → ∀ x ∈ (b.levels s).entries, x.2.order_id ≠ front.order_id := by
  have key : front.order_id
      ∉ (b.setLevels opp ((price, { orders := tail, total_quantity := 0 }) :: rest)).resting_ids :=
    front_not_resting_after hnd hl ho (by rw [levels_setLevels_same, Levels.entries_cons])
      (fun s hs => levels_setLevels_other _ _ hs)
  constructor
  · intro x hx hid
    apply key
    refine mem_resting_ids.2 ⟨opp, x, ?_, hid⟩
    rw [levels_setLevels_same, Levels.entries_cons]
    exact hx
  · intro s hs x hx hid
    apply key
    refine mem_resting_ids.2 ⟨s, x, ?_, hid⟩
    rw [levels_setLevels_other _ _ hs]
    exact hx

theorem executed_total_trade (opp : BookSide) (order : Order) (price : Int) (oq : OrderQueue)
    (front : Order) (tail : List Order) (rest : Levels) (c : BookCtx) (r : Nat)
    (hne : front.order_id ≠ order.order_id) (k : Nat) :
    executed_total (execute_trade opp order price oq front tail rest c r).1.book k
      = if k = front.order_id ∨ k = order.order_id then
          (executed_total c.book k + min r front.quantity) % U64
        else executed_total c.book k := by
  have h : (execute_trade opp order price oq front tail rest c r).1.book.order_total_executed
      = record_execution (record_execution c.book.order_total_executed order.order_id
          (min r front.quantity)) front.order_id (min r front.quantity) := by
    unfold execute_trade
    cases opp <;> rfl
  unfold executed_total
  rw [h]
  unfold record_execution
  by_cases h1 : k = front.order_id
  · subst h1
    simp [Function.update_noteq hne]
  · by_cases h2 : k = order.order_id
    · subst h2
      simp [Function.update_noteq h1]
    · simp [h1, h2, Function.update_noteq h1, Function.update_noteq h2]

/-- One trade keeps the ledger, the taker having executed its total less what it
has left to fill. -/
theorem ledger_trade {c : BookCtx} {order : Order} {total : Nat → Nat}
    (hs : Seeded c.book order) (h : Ledger c.book total) (opp : BookSide) (price : Int)
    (oq : OrderQueue) (front : Order) (tail : List Order) (rest : Levels) (r : Nat)
    (hl : c.book.levels opp = (price, oq) :: rest) (ho : oq.orders = front :: tail)
    (ht : executed_total c.book order.order_id + r = total order.order_id) :
    Ledger (execute_trade opp order price oq front tail rest c r).1.book total
    ∧ executed_total (execute_trade opp order price oq front tail rest c r).1.book order.order_id
        + (execute_trade opp order price oq front tail rest c r).2
      = total order.order_id := by
  obtain ⟨hfront, hold⟩ := front_resting hl ho
  have hfid : front.order_id ≠ order.order_id := by
    intro heq
    exact hs.absent (heq ▸ front_mem_resting_ids hl ho)
  have habs : ∀ s, ∀ x ∈ (c.book.levels s).entries, x.2.order_id ≠ order.order_id := by
    intro s x hx heq
    exact hs.absent (mem_resting_ids.2 ⟨s, x, hx, heq⟩)
  obtain ⟨hd1, hd2⟩ := others_differ_from_front hs.wf.nodup hl ho
  have hfq : executed_total c.book front.order_id + front.quantity = total front.order_id :=
    h.resting opp _ hfront
  have hf1 := h.fits front.order_id
  have hf2 := h.fits order.order_id
  have hex := executed_total_trade opp order price oq front tail rest c r hfid
  have hsame : ∀ k, k ≠ front.order_id → k ≠ order.order_id →
      executed_total (execute_trade opp order price oq front tail rest c r).1.book k
        = executed_total c.book k := by
    intro k h1 h2
    rw [hex, if_neg (by simp [h1, h2])]
  have hfr : executed_total (execute_trade opp order price oq front tail rest c r).1.book
      front.order_id = executed_total c.book front.order_id + min r front.quantity := by
    rw [hex, if_pos (Or.inl rfl), Nat.mod_eq_of_lt (by omega)]
  have htk : executed_total (execute_trade opp order price oq front tail rest c r).1.book
      order.order_id = executed_total c.book order.order_id + min r front.quantity := by
    rw [hex, if_pos (Or.inr rfl), Nat.mod_eq_of_lt (by omega)]
  refine ⟨⟨?_, ?_, h.fits⟩, ?_⟩
  · intro k
    by_cases h1 : k = front.order_id
    · rw [h1, hfr]; omega
    · by_cases h2 : k = order.order_id
      · rw [h2, htk]; omega
      · rw [hsame k h1 h2]
        exact h.bound k
  · intro s x hx
    by_cases hso : s = opp
    · subst hso
      rw [execute_trade_levels_same, entries_levels_after_trade] at hx
      have hrest : ∀ y ∈ tail.map (fun o => (price, o)) ++ rest.entries,
          executed_total (execute_trade s order price oq front tail rest c r).1.book y.2.order_id
            + y.2.quantity = total y.2.order_id := by
        intro y hy
        rw [hsame _ (hd1 y hy) (habs s y (hold y hy))]
        exact h.resting s y (hold y hy)
      split at hx
      · exact hrest x hx
      · rcases List.mem_cons.1 hx with rfl | hx
        · show executed_total _ front.order_id + (front.quantity - r) = total front.order_id
          rw [hfr]
          omega
        · exact hrest x hx
    · rw [execute_trade_levels_other _ _ _ _ _ _ _ _ _ hso] at hx
      rw [hsame _ (hd2 s hso x hx) (habs s x hx)]
      exact h.resting s x hx
  · rw [htk, execute_trade_remaining]
    omega

theorem ledger_sweep {total : Nat → Nat} (opp : BookSide) (stop : Int → Bool) (order : Order)
    (fuel : Nat) (c : BookCtx) (r : Nat) (hs : Seeded c.book order) (h : Ledger c.book total)
    (ht : executed_total c.book order.order_id + r = total order.order_id) :
    Ledger (sweep opp stop order fuel c r).1.book total
    ∧ executed_total (sweep opp stop order fuel c r).1.book order.order_id
        + (sweep opp stop order fuel c r).2 = total order.order_id := by
  have key := sweep_invariant opp stop order
    (fun c' r' => Seeded c'.book order ∧ Ledger c'.book total
      ∧ executed_total c'.book order.order_id + r' = total order.order_id)
    ?_ ?_ fuel c r ⟨hs, h, ht⟩
  · exact key.2
  · intro c' r' price oq rest hi _ hl _ ho
    obtain ⟨h1, h2, h3⟩ := hi
    have he : ∀ k, executed_total (c'.book.setLevels opp rest) k = executed_total c'.book k :=
      fun k => by unfold executed_total; rw [setLevels_total_executed]
    refine ⟨h1.erase_level hl ho, ⟨fun k => by rw [he]; exact h2.bound k, ?_, h2.fits⟩,
      by rw [he]; exact h3⟩
    intro s x hx
    rw [he]
    by_cases hso : s = opp
    · subst hso
      rw [levels_setLevels_same] at hx
      refine h2.resting s x ?_
      rw [hl, Levels.entries_cons]
      exact List.mem_append_right _ hx
    · rw [levels_setLevels_other _ _ hso] at hx
      exact h2.resting s x hx
  · intro c' r' price oq rest front tail hi _ hl _ ho
    obtain ⟨h1, h2, h3⟩ := hi
    exact ⟨h1.trade r' hl ho, ledger_trade h1 h2 opp price oq front tail rest r' hl ho h3⟩

theorem limit_pending_total_executed (opp : BookSide) (crosses : Int → Bool) (c : BookCtx)
    (order : Order) :
    (limit_pending opp crosses c order).book.order_total_executed
      = c.book.order_total_executed := by
  unfold limit_pending
  split
  · dsimp only
    split <;> rfl
  · rfl

theorem market_finish_total_executed (order : Order) (r : BookCtx × Nat) :
    (market_finish order r).book.order_total_executed = r.1.book.order_total_executed := by
  unfold market_finish
  split <;> rfl

theorem limit_rest_total_executed (own : BookSide) (order : Order) (r : BookCtx × Nat) :
    (limit_rest own order r).book.order_total_executed = r.1.book.order_total_executed := by
  unfold limit_rest
  split
  · cases own <;> rfl
  · rfl

theorem ledger_rest {total : Nat → Nat} (own : BookSide) {order : Order} {r : BookCtx × Nat}
    (hs : Seeded r.1.book order) (h : Ledger r.1.book total)
    (ht : executed_total r.1.book order.order_id + r.2 = total order.order_id) :
    Ledger (limit_rest own order r).book total := by
  obtain ⟨c, n⟩ := r
  obtain ⟨e, he⟩ := hs.present
  have he' : c.book.order_lookup order.order_id = some e := he
  have hid : e.order_id = order.order_id := hs.wf.lookup_id _ _ he
  have hex : ∀ k, executed_total (limit_rest own order (c, n)).book k = executed_total c.book k :=
    fun k => by unfold executed_total; rw [limit_rest_total_executed]
  by_cases hn : 0 < n
  · obtain ⟨h1, _⟩ := limit_rest_pos own order c n hn
    rw [lookup_value_present he'] at h1
    refine ⟨fun k => by rw [hex]; exact h.bound k, ?_, h.fits⟩
    intro s x hx
    rw [hex]
    by_cases hso : s = own
    · subst hso
      rw [h1] at hx
      rcases List.mem_cons.1 ((Levels.entries_add_perm _ _ _ _).mem_iff.1 hx) with rfl | hx
      · show executed_total c.book e.order_id + n = total e.order_id
        rw [hid]
        exact ht
      · exact h.resting s x hx
    · rw [limit_rest_levels_other own order (c, n) hso] at hx
      exact h.resting s x hx
  · have : limit_rest own order (c, n) = c := by
      unfold limit_rest
      rw [if_neg hn]
    rw [this]
    exact h

theorem ledger_market {total : Nat → Nat} {c : BookCtx} {order : Order}
    (hs : Seeded c.book order) (h : Ledger c.book total)
    (ht : executed_total c.book order.order_id + order.quantity = total order.order_id) :
    Ledger (execute_market_order c order).book total := by
  have key : ∀ opp fuel, Ledger
      (market_finish order (sweep opp (fun _ => false) order fuel c order.quantity)).book total :=
    fun opp fuel =>
      (ledger_sweep opp (fun _ => false) order fuel c order.quantity hs h ht).1.of_same
        (market_finish_levels order _) (market_finish_total_executed order _)
  unfold execute_market_order execute_buy_market_order execute_sell_market_order
  split
  · exact key .sell _
  · exact key .buy _

theorem ledger_limit {total : Nat → Nat} {c : BookCtx} {order : Order}
    (hs : Seeded c.book order) (h : Ledger c.book total)
    (ht : executed_total c.book order.order_id + order.quantity = total order.order_id) :
    Ledger (execute_limit_order c order).book total := by
  have key : ∀ own opp crosses stop fuel, Ledger
      (limit_rest own order
        (sweep opp stop order fuel (limit_pending opp crosses c order) order.quantity)).book
      total := by
    intro own opp crosses stop fuel
    have hp := Seeded.pending opp crosses hs
    have hlp : Ledger (limit_pending opp crosses c order).book total :=
      h.of_same (limit_pending_levels opp crosses c order)
        (limit_pending_total_executed opp crosses c order)
    have htp : executed_total (limit_pending opp crosses c order).book order.order_id
        + order.quantity = total order.order_id := by
      unfold executed_total
      rw [limit_pending_total_executed]
      exact ht
    obtain ⟨h1, h2⟩ := ledger_sweep opp stop order fuel (limit_pending opp crosses c order)
      order.quantity hp hlp htp
    exact ledger_rest own
      (Seeded.sweep opp stop order fuel (limit_pending opp crosses c order) order.quantity hp)
      h1 h2
  unfold execute_limit_order execute_buy_limit_order execute_sell_limit_order
  split
  · exact key .buy .sell _ _ _
  · exact key .sell .buy _ _ _

/-! ## Executed totals through the operations of a book -/

theorem ledger_add_order {total : Nat → Nat} {c : BookCtx} {order : Order} (hwf : WF c.book)
    (hnew : order.action = "NEW") (h : Ledger c.book total) (hq : order.quantity < U64) :
    Ledger (add_order c order).book
      (if (c.book.existing_order_ids order.order_id).isSome then total
       else Function.update total order.order_id order.quantity) := by
  by_cases hsome : (c.book.existing_order_ids order.order_id).isSome = true
  · rw [if_pos hsome]
    unfold add_order
    rw [if_pos ⟨hnew, hsome⟩]
    exact h.of_same (fun s => by cases s <;> rfl) rfl
  · rw [if_neg hsome]
    have hd : ¬ (order.action = "NEW" ∧ (c.book.existing_order_ids order.order_id).isSome = true) :=
      fun hh => hsome hh.2
    have hx : c.book.existing_order_ids order.order_id = none := by
      cases hv : c.book.existing_order_ids order.order_id with
      | none => rfl
      | some v => exact absurd (by simp [hv]) hsome
    unfold add_order
    rw [if_neg hd]
    dsimp only
    have hnr := not_resting_of_not_existing hwf hx
    have hseed := Seeded.seed hwf hnr
      { order with status := "PENDING", executed_quantity := 0, execution_price := 0,
                   counterparty_id := 0 } rfl
      (Function.update c.book.existing_order_ids order.order_id (some true))
      (Function.update c.book.order_total_executed order.order_id (some 0))
      (by simp) (fun k hk => by simp [Function.update_noteq hk])
      { order with status := "PENDING", executed_quantity := 0, execution_price := 0,
                   counterparty_id := 0 } rfl
    have hex : ∀ k, executed_total
        { c.book with
          existing_order_ids :=
            Function.update c.book.existing_order_ids order.order_id (some true)
          order_total_executed :=
            Function.update c.book.order_total_executed order.order_id (some 0)
          order_lookup :=
            Function.update c.book.order_lookup order.order_id
              (some { order with
                      status := "PENDING", executed_quantity := 0, execution_price := 0
                      counterparty_id := 0 }) } k
        = if k = order.order_id then 0 else executed_total c.book k := by
      intro k
      show (Function.update c.book.order_total_executed order.order_id (some 0) k).getD 0 = _
      by_cases hk : k = order.order_id
      · rw [hk, Function.update_same, if_pos rfl]
        rfl
      · rw [Function.update_noteq hk, if_neg hk]
        rfl
    have hled : Ledger
        { c.book with
          existing_order_ids :=
            Function.update c.book.existing_order_ids order.order_id (some true)
          order_total_executed :=
            Function.update c.book.order_total_executed order.order_id (some 0)
          order_lookup :=
            Function.update c.book.order_lookup order.order_id
              (some { order with
                      status := "PENDING", executed_quantity := 0, execution_price := 0
                      counterparty_id := 0 }) }
        (Function.update total order.order_id order.quantity) := by
      refine ⟨?_, ?_, ?_⟩
      · intro k
        rw [hex]
        by_cases hk : k = order.order_id
        · rw [if_pos hk]
          exact Nat.zero_le _
        · rw [if_neg hk, Function.update_noteq hk]
          exact h.bound k
      · intro s x hx'
        have hx2 : x ∈ (c.book.levels s).entries := by cases s <;> exact hx'
        have hk : x.2.order_id ≠ order.order_id := by
          intro heq
          exact hnr (mem_resting_ids.2 ⟨s, x, hx2, heq⟩)
        rw [hex, if_neg hk, Function.update_noteq hk]
        exact h.resting s x hx2
      · intro k
        by_cases hk : k = order.order_id
        · rw [hk, Function.update_same]
          exact hq
        · rw [Function.update_noteq hk]
          exact h.fits k
    have htk : executed_total
        { c.book with
          existing_order_ids :=
            Function.update c.book.existing_order_ids order.order_id (some true)
          order_total_executed :=
            Function.update c.book.order_total_executed order.order_id (some 0)
          order_lookup :=
            Function.update c.book.order_lookup order.order_id
              (some { order with
                      status := "PENDING", executed_quantity := 0, execution_price := 0
                      counterparty_id := 0 }) } order.order_id
        + order.quantity = Function.update total order.order_id order.quantity order.order_id := by
      rw [hex, if_pos rfl, Function.update_same, Nat.zero_add]
    simp only [hnew, if_true] at hseed hled htk ⊢
    split
    · exact ledger_market hseed hled htk
    · split
      · exact ledger_limit hseed hled htk
      · exact hled

theorem modify_prepare_executed_total (c : BookCtx) (request stored : Order) (k : Nat) :
    executed_total (modify_prepare c request stored).book k = executed_total c.book k := by
  show (Function.update (cancel_order_from_book c.book stored).order_total_executed
    request.order_id
    (some (((cancel_order_from_book c.book stored).order_total_executed
      request.order_id).getD 0)) k).getD 0 = _
  rw [cancel_order_from_book_total_executed]
  by_cases hk : k = request.order_id
  · rw [hk, Function.update_same]
    rfl
  · rw [Function.update_noteq hk]
    rfl

theorem ledger_modify_prepare {total : Nat → Nat} {c : BookCtx} (hwf : WF c.book)
    (h : Ledger c.book total) {request stored : Order}
    (he : c.book.order_lookup request.order_id = some stored) :
    Ledger (modify_prepare c request stored).book total := by
  refine ⟨fun k => by rw [modify_prepare_executed_total]; exact h.bound k, ?_, h.fits⟩
  intro s x hx
  rw [modify_prepare_entries hwf he s] at hx
  rw [modify_prepare_executed_total]
  exact h.resting s x (List.mem_filter.1 hx).1

theorem ledger_modify_order {total : Nat → Nat} {c : BookCtx} {request : Order}
    (hwf : WF c.book) (h : Ledger c.book total) (hq : request.quantity < U64) :
    Ledger (modify_order c request).book
      (if (c.book.order_lookup request.order_id).isSome
          ∧ request.quantity > executed_total c.book request.order_id then
        Function.update total request.order_id request.quantity
       else total) := by
  cases he : c.book.order_lookup request.order_id with
  | none =>
    rw [if_neg (by simp)]
    unfold modify_order
    rw [he]
    exact h.of_same (fun s => by cases s <;> rfl) rfl
  | some stored =>
    have hid : stored.order_id = request.order_id := hwf.lookup_id _ _ he
    have hp := ledger_modify_prepare hwf h he
    have hseed := modify_prepare_seeded hwf he
      (processing_order stored request ((c.book.order_total_executed request.order_id).getD 0))
      hid
    have hcum : (c.book.order_total_executed request.order_id).getD 0
        = executed_total c.book request.order_id := rfl
    by_cases hgt : request.quantity > executed_total c.book request.order_id
    · rw [if_pos ⟨by simp, hgt⟩, modify_order_found c request stored he]
      have hrem := modify_remaining_pos (show request.quantity
        > (c.book.order_total_executed request.order_id).getD 0 from hgt)
      have hpos : modify_remaining request.quantity
          ((c.book.order_total_executed request.order_id).getD 0) > 0 := by
        rw [hrem]; omega
      rw [if_pos hpos]
      have hled : Ledger (modify_prepare c request stored).book
          (Function.update total request.order_id request.quantity) := by
        refine ⟨?_, ?_, ?_⟩
        · intro k
          by_cases hk : k = request.order_id
          · rw [hk, Function.update_same, modify_prepare_executed_total]
            omega
          · rw [Function.update_noteq hk]
            exact hp.bound k
        · intro s x hx
          have hk : x.2.order_id ≠ request.order_id := by
            rw [modify_prepare_entries hwf he s] at hx
            simpa using (List.mem_filter.1 hx).2
          rw [Function.update_noteq hk]
          exact hp.resting s x hx
        · intro k
          by_cases hk : k = request.order_id
          · rw [hk, Function.update_same]
            exact hq
          · rw [Function.update_noteq hk]
            exact h.fits k
      have htk : executed_total (modify_prepare c request stored).book
          (processing_order stored request
            ((c.book.order_total_executed request.order_id).getD 0)).order_id
          + (processing_order stored request
            ((c.book.order_total_executed request.order_id).getD 0)).quantity
          = Function.update total request.order_id request.quantity
              (processing_order stored request
                ((c.book.order_total_executed request.order_id).getD 0)).order_id := by
        show executed_total _ stored.order_id + modify_remaining _ _
          = Function.update total request.order_id request.quantity stored.order_id
        rw [hid, Function.update_same, modify_prepare_executed_total, hrem, hcum]
        omega
      split
      · exact ledger_market hseed hled htk
      · split
        · exact ledger_limit hseed hled htk
        · exact hled
    · have hrem0 : ¬ modify_remaining request.quantity
          ((c.book.order_total_executed request.order_id).getD 0) > 0 := by
        unfold modify_remaining
        rw [if_neg (show ¬ request.quantity
          > (c.book.order_total_executed request.order_id).getD 0 from hgt)]
        omega
      rw [if_neg (fun hh => hgt hh.2), modify_order_found c request stored he, if_neg hrem0]
      exact hp.of_same (fun s => by cases s <;> rfl) rfl

theorem ledger_cancel_order {total : Nat → Nat} {c : BookCtx} {request : Order}
    (hwf : WF c.book) (h : Ledger c.book total) :
    Ledger (cancel_order c request).book total := by
  unfold cancel_order
  split
  case h_1 hnone => exact h.of_same (fun s => by cases s <;> rfl) rfl
  case h_2 stored he =>
    dsimp only
    refine ⟨fun k => ?_, ?_, h.fits⟩
    · show ((cancel_order_from_book c.book stored).order_total_executed k).getD 0 ≤ total k
      rw [cancel_order_from_book_total_executed]
      exact h.bound k
    · intro s x hx
      have hx' : x ∈ ((cancel_order_from_book c.book stored).levels s).entries := by
        cases s <;> exact hx
      rw [cancel_order_from_book_entries hwf he s] at hx'
      show ((cancel_order_from_book c.book stored).order_total_executed x.2.order_id).getD 0
        + x.2.quantity = total x.2.order_id
      rw [cancel_order_from_book_total_executed]
      exact h.resting s x (List.mem_filter.1 hx').1

/-! ## Executed totals along a run -/

theorem record_current_same (g : Requests) (i : String) (id q : Nat) (eff : Bool) :
    (g.record i id q eff).current i
      = if eff = true then Function.update (g.current i) id q else g.current i := by
  funext k
  unfold Requests.record
  by_cases he : eff = true
  · rw [if_pos he]
    by_cases hk : k = id
    · rw [hk, Function.update_same]
      simp [he]
    · rw [Function.update_noteq hk]
      simp [hk]
  · rw [if_neg he]
    simp [he]

theorem record_current_other (g : Requests) (i : String) (id q : Nat) (eff : Bool)
    {j : String} (hj : j ≠ i) : (g.record i id q eff).current j = g.current j := by
  funext k
  simp [Requests.record, hj]

theorem record_largest (g : Requests) (j : String) (id q : Nat) (eff : Bool)
    (h : ∀ i k, g.current i k ≤ g.largest i k) :
    ∀ i k, (g.record j id q eff).current i k ≤ (g.record j id q eff).largest i k := by
  intro i k
  have := h i k
  unfold Requests.largest at this ⊢
  unfold Requests.record
  dsimp only
  by_cases hc : i = j ∧ k = id
  · rw [if_pos hc, List.foldr_cons]
    by_cases he : eff = true
    · rw [if_pos ⟨hc.1, hc.2, he⟩]
      exact le_max_left _ _
    · rw [if_neg (fun hh => he hh.2.2)]
      exact le_trans this (le_max_right _ _)
  · rw [if_neg hc, if_neg (fun hh => hc ⟨hh.1, hh.2.1⟩)]
    exact this

theorem track_request_largest (w : World) (g : Requests) (o : Order)
    (h : ∀ i k, g.current i k ≤ g.largest i k) :
    ∀ i k, (track_request w g o).current i k ≤ (track_request w g o).largest i k := by
  unfold track_request
  split
  · exact h
  · split
    · split
      · exact h
      · exact record_largest g _ _ _ _ h
    · split
      · split
        · exact record_largest g _ _ _ _ h
        · exact h
      · exact h

theorem track_request_other (w : World) (g : Requests) (o : Order) {j : String}
    (hj : j ≠ o.instrument) : (track_request w g o).current j = g.current j := by
  unfold track_request
  split
  · rfl
  · split
    · split
      · rfl
      · exact record_current_other g _ _ _ _ hj
    · split
      · split
        · exact record_current_other g _ _ _ _ hj
        · rfl
      · rfl

theorem ledger_process_order {w : World} {g : Requests} (hwf : EngineWF w.engine)
    (h : ∀ i, Ledger (books_get w.engine.order_books i) (g.current i)) (o : Order)
    (hq : o.quantity < U64) (i : String) :
    Ledger (books_get (process_order w o).engine.order_books i)
      ((track_request w g o).current i) := by
  by_cases hi : i = o.instrument
  · subst hi
    have hw := books_get_wf hwf o.instrument
    refine process_order_book_cases
      (fun b => Ledger b ((track_request w g o).current o.instrument)) w o ?_ ?_ ?_ ?_ ?_
    · intro hst
      have : track_request w g o = g := by
        unfold track_request
        rw [if_pos hst]
      rw [this]
      exact (h _).of_same (fun s => by cases s <;> rfl) rfl
    · intro hst ha
      have : (track_request w g o).current o.instrument
          = if ((books_get w.engine.order_books o.instrument).existing_order_ids
                o.order_id).isSome then g.current o.instrument
            else Function.update (g.current o.instrument) o.order_id o.quantity := by
        unfold track_request
        rw [if_neg hst, if_pos ha]
        split
        · rfl
        · rw [record_current_same, if_pos rfl]
      rw [this]
      exact ledger_add_order hw ha (h _) hq
    · intro hst ha
      have hn : o.action ≠ "NEW" := by rw [ha]; decide
      have : (track_request w g o).current o.instrument
          = if ((books_get w.engine.order_books o.instrument).order_lookup o.order_id).isSome
                ∧ o.quantity
                  > executed_total (books_get w.engine.order_books o.instrument) o.order_id then
              Function.update (g.current o.instrument) o.order_id o.quantity
            else g.current o.instrument := by
        unfold track_request
        rw [if_neg hst, if_neg hn, if_pos ha]
        by_cases hs : ((books_get w.engine.order_books o.instrument).order_lookup
            o.order_id).isSome = true
        · rw [if_pos hs, record_current_same]
          by_cases hgt : o.quantity
              > executed_total (books_get w.engine.order_books o.instrument) o.order_id
          · rw [if_pos (by simpa using hgt), if_pos ⟨hs, hgt⟩]
          · rw [if_neg (by simpa using hgt), if_neg (fun hh => hgt hh.2)]
        · rw [if_neg hs, if_neg (fun hh => hs hh.1)]
      rw [this]
      exact ledger_modify_order hw (h _) hq
    · intro hst ha
      have hn : o.action ≠ "NEW" := by rw [ha]; decide
      have hm : o.action ≠ "MODIFY" := by rw [ha]; decide
      have : track_request w g o = g := by
        unfold track_request
        rw [if_neg hst, if_neg hn, if_neg hm]
      rw [this]
      exact ledger_cancel_order hw (h _)
    · intro hst hn hm _
      have : track_request w g o = g := by
        unfold track_request
        rw [if_neg hst, if_neg hn, if_neg hm]
      rw [this]
      exact h _
  · rw [process_order_book_other w o hi, track_request_other w g o hi]
    exact h i

theorem ledger_run {w : World} {g : Requests} (hwf : EngineWF w.engine)
    (h : ∀ i, Ledger (books_get w.engine.order_books i) (g.current i))
    (hl : ∀ i k, g.current i k ≤ g.largest i k) (inputs : List Order)
    (hq : ∀ o ∈ inputs, o.quantity < U64) :
    (∀ i, Ledger (books_get (run w inputs).engine.order_books i)
        ((requests_of w g inputs).current i))
    ∧ ∀ i k, (requests_of w g inputs).current i k ≤ (requests_of w g inputs).largest i k := by
  induction inputs generalizing w g with
  | nil => exact ⟨h, hl⟩
  | cons o rest ih =>
    rw [run_cons]
    exact ih (process_order_wf hwf o)
      (fun i => ledger_process_order hwf h o (hq o (List.mem_cons_self _ _)) i)
      (track_request_largest w g o hl)
      (fun x hx => hq x (List.mem_cons_of_mem _ hx))

theorem ledger_reachable (s : Statics) (inputs : List Order)
    (hq : ∀ o ∈ inputs, o.quantity < U64) :
    (∀ i, Ledger (books_get (run (MatchingEngine.new s) inputs).engine.order_books i)
        ((requests_of (MatchingEngine.new s) Requests.empty inputs).current i))
    ∧ ∀ i k, (requests_of (MatchingEngine.new s) Requests.empty inputs).current i k
        ≤ (requests_of (MatchingEngine.new s) Requests.empty inputs).largest i k := by
  refine ledger_run (new_engine_wf s) ?_ (fun _ _ => Nat.zero_le _) inputs hq
  intro i
  have : books_get (MatchingEngine.new s).engine.order_books i = OrderBook.new := rfl
  rw [this]
  refine ⟨fun k => Nat.zero_le _, fun side x hx => ?_, fun k => by unfold U64; exact Nat.two_pow_pos 64⟩
  cases side <;> simp [OrderBook.new, OrderBook.levels, Levels.entries] at hx

/-- C31: in every book of an engine run from its construction on inputs whose
quantities fit in 64 bits, the cumulative executed quantity of every order id
(`order_total_executed`) is at most the largest total requested for it so far: the
maximum of the quantities of its accepted NEW and of the MODIFY requests accepted
for it. -/
theorem executed_within_requested (s : Statics) (inputs : List Order)
    (hq : ∀ o ∈ inputs, o.quantity < U64) (instrument : String) (id : Nat) :
    executed_total (books_get (run (MatchingEngine.new s) inputs).engine.order_books instrument) id
      ≤ (requests_of (MatchingEngine.new s) Requests.empty inputs).largest instrument id := by
  obtain ⟨h1, h2⟩ := ledger_reachable s inputs hq
  exact le_trans ((h1 instrument).bound id) (h2 instrument id)

/-- Instance of C31: after `partial_fill` and a MODIFY of order 1 to a total of
120, order 1 has executed 50 of the 120 requested and order 2 its 50. -/
theorem executed_within_requested_witness :
    (∀ o ∈ partial_fill_raised, o.quantity < U64)
    ∧ executed_total
        (books_get (run (MatchingEngine.new Statics.initial) partial_fill_raised).engine.order_books
          "AAPL") 1 = 50
    ∧ (requests_of (MatchingEngine.new Statics.initial) Requests.empty
        partial_fill_raised).largest "AAPL" 1 = 120
    ∧ executed_total
        (books_get (run (MatchingEngine.new Statics.initial) partial_fill_raised).engine.order_books
          "AAPL") 1
      ≤ (requests_of (MatchingEngine.new Statics.initial) Requests.empty
          partial_fill_raised).largest "AAPL" 1 :=
  ⟨by decide, by decide, by decide,
    executed_within_requested Statics.initial partial_fill_raised (by decide) "AAPL" 1⟩

/-- C36: in every book of an engine run from its construction on inputs whose
quantities fit in 64 bits, every resting order has a cumulative executed quantity
and a resting quantity that add up to the total most recently requested for it:
the quantity of its NEW, or of its latest MODIFY whose quantity exceeded the
cumulative executed quantity at that time. -/
theorem executed_plus_resting (s : Statics) (inputs : List Order)
    (hq : ∀ o ∈ inputs, o.quantity < U64) (instrument : String) :
    ∀ side,
      ∀ x ∈ ((books_get (run (MatchingEngine.new s) inputs).engine.order_books
              instrument).levels side).entries,
        executed_total
            (books_get (run (MatchingEngine.new s) inputs).engine.order_books instrument)
            x.2.order_id
          + x.2.quantity
        = (requests_of (MatchingEngine.new s) Requests.empty inputs).current instrument
            x.2.order_id :=
  ((ledger_reachable s inputs hq).1 instrument).resting

/-- Instance of C36: after `partial_fill` and a MODIFY of order 1 to a total of
120, order 1 rests with 70, having executed 50. -/
theorem executed_plus_resting_witness :
    (∀ o ∈ partial_fill_raised, o.quantity < U64)
    ∧ (books_get (run (MatchingEngine.new Statics.initial) partial_fill_raised).engine.order_books
        "AAPL").buy_orders.entries.map (fun x => (x.1, x.2.order_id, x.2.quantity))
      = [(15025, 1, 70)]
    ∧ (requests_of (MatchingEngine.new Statics.initial) Requests.empty
        partial_fill_raised).current "AAPL" 1 = 120
    ∧ ∀ side,
        ∀ x ∈ ((books_get
                (run (MatchingEngine.new Statics.initial) partial_fill_raised).engine.order_books
                "AAPL").levels side).entries,
          executed_total
              (books_get
                (run (MatchingEngine.new Statics.initial) partial_fill_raised).engine.order_books
                "AAPL")
              x.2.order_id
            + x.2.quantity
          = (requests_of (MatchingEngine.new Statics.initial) Requests.empty
              partial_fill_raised).current "AAPL" x.2.order_id :=
  ⟨by decide, by decide, by decide,
    executed_plus_resting Statics.initial partial_fill_raised (by decide) "AAPL"⟩

end Matching
